import Mathlib

/-!
# STP behaviour orchestration: lifecycle, registry, stubs and play definitions

A shallow embedding of `STP.hpp` / `STP.cpp`.

Conventions of the embedding:

* a C++ member function that may `throw` and that mutates `this` becomes a
  function returning a pair: what the call produced (`Except String α`, the
  error being the thrown message) and the object as it is after the call,
  whether or not the call threw;
* a pointer that may be `NULL` is an `Option`;
* `std::vector` is `List`, `std::map<std::string, V>` is an association list
  with at most one entry per key.
-/

namespace STP

/-! ## ActionState (STP.hpp 24-52) -/

/-- The lifecycle tags of `ActionState`, in the order of their numeric values. -/
inductive ActionState where
  | SettingUp
  | Ready
  | Running
  | EvaluatingSuccess
  | Failed
  | Cancelled
  | Completed
  deriving DecidableEq, Repr

namespace ActionState

/-- The numeric value of each enumerator, as written in the `typedef enum`. -/
def toInt : ActionState → Int
  | SettingUp => -3
  | Ready => -2
  | Running => -1
  | EvaluatingSuccess => 0
  | Failed => 1
  | Cancelled => 2
  | Completed => 3

end ActionState

/-- The macro `ACTION_STATE_IS_DONE(state)`, that is `(state) > 0`. -/
def ACTION_STATE_IS_DONE (state : ActionState) : Bool :=
  decide (state.toInt > 0)

/-- The macro `ACTION_STATE_IS_DONE_RUNNING(state)`, that is `(state) >= 0`. -/
def ACTION_STATE_IS_DONE_RUNNING (state : ActionState) : Bool :=
  decide (state.toInt ≥ 0)

/-- The enum `ActionAbstractionLevel`. -/
inductive ActionAbstractionLevel where
  | Skill
  | Tactic
  | Play
  deriving DecidableEq, Repr

/-- The numeric value of a level; it is used as an index into `_factoriesByLevel`. -/
def ActionAbstractionLevel.toNat : ActionAbstractionLevel → Nat
  | .Skill => 0
  | .Tactic => 1
  | .Play => 2

/-! ## Action (STP.hpp 72-169, STP.cpp 16-49) -/

/-- A `Gameplay::GameplayModule *` that is not `NULL`: the address of the module. -/
abbrev GameplayModule := Nat

/-- The data members of `class Action`. The constructor refuses a `NULL` module, so the
stored pointer is a plain address. -/
structure Action where
  _gameplayModule : GameplayModule
  _state : ActionState
  _evaluatesSuccess : Bool
  _continuous : Bool
  deriving DecidableEq, Repr

/-- Whether a call threw. -/
def threw {α : Type} : Except String α → Bool
  | .error _ => true
  | .ok _ => false

/-- Whether a call returned normally. -/
def returned {α : Type} : Except String α → Bool
  | .error _ => false
  | .ok _ => true

namespace Action

/-- The constructor `Action::Action(gameplayModule, evaluatesSuccess, continuous)`. -/
def new (gameplayModule : Option GameplayModule) (evaluatesSuccess : Bool)
    (continuous : Bool) : Except String Action :=
  match gameplayModule with
  | none => .error "ERROR: attempt to construct Action with NULL gameplay module."
  | some gm =>
    .ok { _gameplayModule := gm, _state := .SettingUp,
          _evaluatesSuccess := evaluatesSuccess, _continuous := continuous }

/-- The accessor `Action::state()`. -/
def state (a : Action) : ActionState := a._state

/-- The virtual hook `Action::transition(from, to)`; its body in `Action` is empty and no
class of the repository overrides it. -/
def transition (a : Action) (_from _to : ActionState) : Action := a

/-- The member `Action::stateTransitionIsValid`: `(to >= from) && (from <= 0)`. -/
def stateTransitionIsValid (src dst : ActionState) : Bool :=
  decide (dst.toInt ≥ src.toInt) && decide (src.toInt ≤ 0)

/-- The member `Action::setState(newState)`. -/
def setState (a : Action) (newState : ActionState) : Except String Unit × Action :=
  if a._state ≠ newState then
    if !stateTransitionIsValid a._state newState then
      (.error "ERROR: invalid ActionState transition.", a)
    else
      let oldState := a._state
      let a1 := { a with _state := newState }
      (.ok (), a1.transition oldState newState)
  else
    (.ok (), a)

/-- The member `Action::terminate()`. -/
def terminate (a : Action) : Except String Unit × Action :=
  if a._evaluatesSuccess then
    if a.state ≠ .Completed then
      a.setState .Cancelled
    else
      (.ok (), a)
  else
    a.setState .Completed

end Action

/-! ## Types whose headers are not among the sources -/

/-- Modelled from the spec: `ValueTree.hpp` is not among the sources. Section 6 describes the
parameter source as "a named key→value tree handed to a Tactic at construction"; the tree
is kept as its list of (path, value) entries, such as `("target.x", "1.5")`. -/
abbrev ValueTree := List (String × String)

/-- Modelled from the spec: `RobotRequirements` is declared in `Role.hpp`, which is not among
the sources. Section 3 describes it as "a bitmask"; the bits are the binary digits of a
natural number and the C++ operator `|` is `|||`. -/
abbrev RobotRequirements := Nat

/-- Modelled from the spec: `class Role` is declared in `Role.hpp`, which is not among the
sources. Section 3: "a named logical slot requiring an agent meeting a capability
requirement set". The sources use the constructor `Role(name)` and the accessors
`robotRequirements()` / `setRobotRequirements(reqs)`. -/
structure Role where
  name : String
  robotRequirements : RobotRequirements
  deriving DecidableEq, Repr

/-- A non-null `boost::shared_ptr<Role>`: the position of the Role object among the Role
objects allocated so far. Two pointers are the same C++ object iff they are equal. -/
abbrev RolePtr := Nat

/-! ## Tactic and ActionFactory (STP.hpp 181-378, STP.cpp 96-156) -/

/-- One step of the body of an override of the virtual `update()`, as far as the `Action`
base of the object can tell: a call of `setState`, or a `throw`. The member `_state` is
private to `Action`, so `setState` is the only way an override has to change it. -/
inductive Request where
  | setState (newState : ActionState)
  | raise (message : String)
  deriving DecidableEq, Repr

/-- What a concrete subclass `T` of `Tactic` fixes, as far as `STP.cpp` looks at it: the two
flags its constructor passes to `Tactic(gpModule, evaluatesSuccess, continuous)`, the static
member `T::robotRequirements`, whether its override of the virtual `parseParameters()`
throws on the given parameter tree (`Tactic::parseParameters` itself is empty), and what its
override of the virtual `update()` asks of the `Action` base (`Action::update` itself is
empty): the requests it makes, in order, given the state the object is in and a reading of
all that is outside the `Action` base (the world state, the robot of its role, the members
of the subclass). -/
structure TacticClass where
  evaluatesSuccess : Bool
  continuous : Bool
  robotRequirements : RobotRequirements
  parseParameters : Option ValueTree → Except String Unit
  update : ActionState → Nat → List Request

/-- The data members of `class Tactic` with those of its bases `SingleRobotAction` and
`Action`, and the dynamic class of the object. -/
structure Tactic extends Action where
  _role : Option RolePtr
  _parameters : Option ValueTree
  klass : TacticClass

/-- The member `Tactic::setParameters(vtree)`: store the pointer, then `parseParameters()`. -/
def Tactic.setParameters (t : Tactic) (vtree : Option ValueTree) :
    Except String Unit × Tactic :=
  let t1 := { t with _parameters := vtree }
  (t1.klass.parseParameters t1._parameters, t1)

/-- The data members of `class ActionFactory`, and the template argument `T` of the
`ActionFactoryImpl<T>` / `TacticFactoryImpl<T>` the object is an instance of. -/
structure ActionFactory where
  _name : String
  _abstractionLevel : ActionAbstractionLevel
  klass : TacticClass

namespace ActionFactory

/-- The member `ActionFactory::name()`. -/
def name (f : ActionFactory) : String := f._name

/-- The virtual `create(gameplayModule)` as `TacticFactoryImpl<T>` implements it:
`new T(gameplayModule)`, which runs `T`'s constructor down to `Action::Action`. The new
object has no Role yet, and its `_parameters`, which no constructor initialises, is taken to
be `NULL` until `setParameters` stores a pointer. -/
def create (f : ActionFactory) (gameplayModule : Option GameplayModule) :
    Except String Tactic :=
  match Action.new gameplayModule f.klass.evaluatesSuccess f.klass.continuous with
  | .error e => .error e
  | .ok a => .ok { toAction := a, _role := none, _parameters := none, klass := f.klass }

/-- The virtual `TacticFactory::robotRequirements()`: `T::robotRequirements`. -/
def robotRequirements (f : ActionFactory) : RobotRequirements := f.klass.robotRequirements

end ActionFactory

/-! ## std::map with pointer values -/

/-- A `std::map<std::string, V*>`: its entries, at most one per key; a `NULL` value is
`none`. The order of the entries is never observed by the code modelled here. -/
abbrev PtrMap (V : Type) := List (String × Option V)

namespace PtrMap

/-- The value `m[key]` reads: the stored pointer, and `NULL` for a key without entry. -/
def read {V : Type} (m : PtrMap V) (key : String) : Option V :=
  match m.lookup key with
  | some v => v
  | none => none

/-- The map after `m[key]` has been evaluated: `operator[]` adds a `NULL` entry for a key
that has none. -/
def touch {V : Type} (m : PtrMap V) (key : String) : PtrMap V :=
  match m.lookup key with
  | some _ => m
  | none => m ++ [(key, none)]

/-- The map after `m[key] = value`. -/
def assign {V : Type} (m : PtrMap V) (key : String) (value : Option V) : PtrMap V :=
  match m.lookup key with
  | some _ => m.map (fun e => if e.1 == key then (key, value) else e)
  | none => m ++ [(key, value)]

end PtrMap

/-! ## The factory registry (STP.cpp 92-131) -/

/-- The static data members of `ActionFactory`. -/
structure FactoryStatics where
  _factoriesByLevel : List (PtrMap ActionFactory)
  _factoryRegistryIsSetup : Bool

namespace FactoryStatics

/-- The statics as their definitions at STP.cpp 92-93 initialise them. -/
def initial : FactoryStatics :=
  { _factoriesByLevel := [], _factoryRegistryIsSetup := false }

/-- The static `ActionFactory::_setupFactoryRegistryIfNecessary()`. -/
def _setupFactoryRegistryIfNecessary (g : FactoryStatics) : FactoryStatics :=
  if !g._factoryRegistryIsSetup then
    { _factoriesByLevel :=
        (List.range 3).foldl (fun v _ => v ++ [([] : PtrMap ActionFactory)])
          g._factoriesByLevel,
      _factoryRegistryIsSetup := true }
  else g

/-- The static `ActionFactory::registerFactory(factory, abstractionLevel)`: the statics
after the call. The local `registry` is declared as
`map<string, ActionFactory *> registry = _factoriesByLevel[abstractionLevel]`, a copy of the
level's map; the assignment goes into that copy, which is destroyed on return. -/
def registerFactory (factory : ActionFactory) (abstractionLevel : ActionAbstractionLevel)
    (g : FactoryStatics) : FactoryStatics :=
  let g1 := g._setupFactoryRegistryIfNecessary
  let registry := g1._factoriesByLevel.getD abstractionLevel.toNat []
  let _registry := registry.assign factory.name (some factory)
  g1

/-- The local variable `registry` of `registerFactory` as it is when the function returns. -/
def registerFactoryLocal (factory : ActionFactory) (abstractionLevel : ActionAbstractionLevel)
    (g : FactoryStatics) : PtrMap ActionFactory :=
  let g1 := g._setupFactoryRegistryIfNecessary
  let registry := g1._factoriesByLevel.getD abstractionLevel.toNat []
  registry.assign factory.name (some factory)

/-- The static `ActionFactory::getRegisteredFactory(name, abstractionLevel)`: the returned
pointer and the statics after the call. It reads `registry[name]` in a local copy of the
level's map, so the `NULL` entry `operator[]` may add is not kept. -/
def getRegisteredFactory (name : String) (abstractionLevel : ActionAbstractionLevel)
    (g : FactoryStatics) : Option ActionFactory × FactoryStatics :=
  let g1 := g._setupFactoryRegistryIfNecessary
  let registry := g1._factoriesByLevel.getD abstractionLevel.toNat []
  (registry.read name, g1)

/-- The static `ActionFactory::factoriesForAbstractionLevel(absLevel)`: the level's map (the
C++ function returns a reference to it) and the statics after the call. -/
def factoriesForAbstractionLevel (absLevel : ActionAbstractionLevel) (g : FactoryStatics) :
    PtrMap ActionFactory × FactoryStatics :=
  let g1 := g._setupFactoryRegistryIfNecessary
  (g1._factoriesByLevel.getD absLevel.toNat [], g1)

end FactoryStatics

/-! ## TacticStub (STP.hpp 403-428, STP.cpp 164-175) -/

/-- What the engine tells the world outside of it, in the order it happens: `updated i s`,
the `update()` of the behaviour of lane `i` has returned and left it in state `s`;
`fired k`, `transitionToSyncPointAtIndex(k)` has been entered; `allocate roles`,
`allocateRolesForToplevelAction(this, roles)` has been called; `deallocate role`,
`deallocateRoleForToplevelAction(this, role)` has been called. -/
inductive Event where
  | updated (lane : Nat) (state : ActionState)
  | fired (syncPtIndex : Nat)
  | allocate (roles : List (Option RolePtr))
  | deallocate (role : Option RolePtr)
  deriving DecidableEq, Repr

/-- What a call changes or reads outside the object it is made on: the statics of
`ActionFactory`; a record of the invocations of `create` made so far (factory name and
argument); the record `events`; `sensed i`, the reading the `update()` of the behaviour of
lane `i` gets during this tick; and `allocatorAccepts roles`, whether the role allocator
can satisfy a request for `roles` at this time. -/
structure World where
  statics : FactoryStatics
  createCalls : List (String × Option GameplayModule)
  events : List Event
  sensed : Nat → Nat
  allocatorAccepts : List (Option RolePtr) → Bool

/-- The data members of `class TacticStub`. -/
structure TacticStub where
  _name : String
  _invocationParameters : Option ValueTree
  deriving DecidableEq, Repr

namespace TacticStub

/-- The member `TacticStub::name()`. -/
def name (stub : TacticStub) : String := stub._name

/-- The member `TacticStub::factory()`. -/
def factory (stub : TacticStub) (g : FactoryStatics) : Option ActionFactory × FactoryStatics :=
  g.getRegisteredFactory stub.name .Tactic

/-- The member `TacticStub::instantiate(gameplayModule)`: the returned Tactic, or the thrown
message, and the world after the call. -/
def instantiate (stub : TacticStub) (gameplayModule : Option GameplayModule) (w : World) :
    Except String Tactic × World :=
  let (factory, g1) := w.statics.getRegisteredFactory stub.name .Tactic
  let w1 : World := { w with statics := g1 }
  match factory with
  | none =>
    (.error ("ERROR: Unable to find factory for tactic named \x27" ++ stub.name ++ "\x27."), w1)
  | some f =>
    let w2 : World := { w1 with createCalls := w1.createCalls ++ [(f.name, gameplayModule)] }
    match f.create gameplayModule with
    | .error e => (.error e, w2)
    | .ok t =>
      match t.setParameters stub._invocationParameters with
      | (.error e, _) => (.error e, w2)
      | (.ok (), t1) => (.ok t1, w2)

end TacticStub

/-! ## PlayFactory (STP.hpp 548-674, STP.cpp 525-644) -/

/-- The typedef `TacticSequence`: `std::vector<TacticStub *>`. -/
abbrev TacticSequence := List TacticStub

/-- Modelled from the spec: the constructor `Role(name)` is defined in `Role.hpp`, which is not
among the sources. Section 4.4 has the requirement bitmask of a Role computed at finalize
time as a union over its lanes, so a new Role starts with no requirement bit. -/
def Role.new (name : String) : Role := { name := name, robotRequirements := 0 }

/-- The data members of `class PlayFactory` (with `_name` of its base `ActionFactory`), and
`roleObjects`: the Role objects that `make_shared<Role>` has allocated for this factory, in
the order of allocation. A `RolePtr` is a position in `roleObjects`.

A `TacticSequence *` stored in `_tacticSequences` is never `NULL` (`addTacticSequence` is
the only writer and refuses `NULL`), so the list holds the sequences themselves. -/
structure PlayFactory where
  _name : String
  _rolesByName : PtrMap RolePtr
  _rolesByTacticSequenceIndex : List (Option RolePtr)
  _syncPointNames : List String
  _tacticSequences : List TacticSequence
  _syncPointInputs : List (List Nat)
  _syncPointOutputs : List (List Nat)
  _finalized : Bool
  _enabled : Bool
  _category : String
  roleObjects : List Role
  deriving DecidableEq, Repr

namespace PlayFactory

/-- The constructor `PlayFactory(name, category)`: the new object, and the statics after the
base constructor `ActionFactory(name, ActionAbstractionLevelPlay)` has called
`registerFactory(this, abstractionLevel)`. -/
def new (name : String) (category : String) (g : FactoryStatics) :
    PlayFactory × FactoryStatics :=
  let pf : PlayFactory :=
    { _name := name, _rolesByName := [], _rolesByTacticSequenceIndex := [],
      _syncPointNames := [], _tacticSequences := [], _syncPointInputs := [],
      _syncPointOutputs := [], _finalized := false, _enabled := true,
      _category := category, roleObjects := [] }
  (pf, g.registerFactory
    { _name := name, _abstractionLevel := .Play,
      klass := { evaluatesSuccess := true, continuous := false, robotRequirements := 0,
                 parseParameters := fun _ => .ok (), update := fun _ _ => [] } } .Play)

/-- The member `tacticSequenceAtIndex(i)`: `_tacticSequences[i]`. -/
def tacticSequenceAtIndex (pf : PlayFactory) (tacticSequenceIndex : Nat) : TacticSequence :=
  pf._tacticSequences.getD tacticSequenceIndex []

/-- The member `roleForTacticSequenceAtIndex(i)`: `_rolesByTacticSequenceIndex[i]`. -/
def roleForTacticSequenceAtIndex (pf : PlayFactory) (tacticSeqIdx : Nat) : Option RolePtr :=
  pf._rolesByTacticSequenceIndex.getD tacticSeqIdx none

/-- The member `roleNamed(name)`: `return _rolesByName[name]`; the returned pointer and the
factory after the call (`operator[]` may have added a `NULL` entry). -/
def roleNamed (pf : PlayFactory) (name : String) : Option RolePtr × PlayFactory :=
  (pf._rolesByName.read name, { pf with _rolesByName := pf._rolesByName.touch name })

/-- The member `addRoleNamed(name)`: a new Role object, stored under `name`. -/
def addRoleNamed (pf : PlayFactory) (name : String) : RolePtr × PlayFactory :=
  let role : RolePtr := pf.roleObjects.length
  let pf1 := { pf with roleObjects := pf.roleObjects ++ [Role.new name] }
  (role, { pf1 with _rolesByName := pf1._rolesByName.assign name (some role) })

/-- The member `ensureTacticSequenceValidity(ts)`. The loop over the stubs before the last
one has no effect: its body loads the stub and is followed by a `TODO` comment only. -/
def ensureTacticSequenceValidity (ts : Option TacticSequence) : Except String Unit :=
  match ts with
  | none => .error "ERROR: TacticSequence can\x27t be NULL"
  | some seq =>
    if seq.length = 0 then .error "ERROR: TacticSequence can\x27t be empty"
    else
      (List.range (seq.length - 1)).foldl
        (fun (r : Except String Unit) i =>
          match r with
          | .error e => .error e
          | .ok () =>
            let _stub := seq.get? i
            .ok ())
        (.ok ())

/-- The member `addSyncPointNamed(name)`. -/
def addSyncPointNamed (pf : PlayFactory) (name : String) : Except String Unit × PlayFactory :=
  if pf._finalized then
    (.error "ERROR: addSyncPoint() called on finalized PlayFactory", pf)
  else
    (.ok (),
      { pf with
        _syncPointNames := pf._syncPointNames ++ [name],
        _syncPointInputs := pf._syncPointInputs ++ [[]],
        _syncPointOutputs := pf._syncPointOutputs ++ [[]] })

/-- The member `indexForSyncPointNamed(name)`: `std::find` over `_syncPointNames`; a name
that is not found is added. -/
def indexForSyncPointNamed (pf : PlayFactory) (name : String) :
    Except String Nat × PlayFactory :=
  let itr := pf._syncPointNames.indexOf name
  if itr = pf._syncPointNames.length then
    match pf.addSyncPointNamed name with
    | (.error e, pf1) => (.error e, pf1)
    | (.ok (), pf1) => (.ok (pf1._syncPointNames.length - 1), pf1)
  else
    (.ok itr, pf)

/-- The member `addTacticSequence(sequence, roleName, startSyncPoint, endSyncPoint)`. -/
def addTacticSequence (pf : PlayFactory) (sequence : Option TacticSequence)
    (roleName startSyncPoint endSyncPoint : String) : Except String Unit × PlayFactory :=
  if pf._finalized then
    (.error "ERROR: Attempt to mutate PlayFactory after it has been finalized", pf)
  else
    match ensureTacticSequenceValidity sequence with
    | .error e => (.error e, pf)
    | .ok () =>
      -- `sequence` is not NULL here
      let pf1 := { pf with _tacticSequences := pf._tacticSequences ++ [sequence.getD []] }
      let tacticSeqIdx := pf1._tacticSequences.length - 1
      let (found, pf2) := pf1.roleNamed roleName
      let (role, pf3) :=
        match found with
        | none => pf2.addRoleNamed roleName
        | some r => (r, pf2)
      let pf4 :=
        { pf3 with
          _rolesByTacticSequenceIndex := pf3._rolesByTacticSequenceIndex ++ [some role] }
      match pf4.indexForSyncPointNamed startSyncPoint with
      | (.error e, pf5) => (.error e, pf5)
      | (.ok startSyncPtIdx, pf5) =>
        match pf5.indexForSyncPointNamed endSyncPoint with
        | (.error e, pf6) => (.error e, pf6)
        | (.ok endSyncPtIdx, pf6) =>
          let pf7 :=
            { pf6 with
              _syncPointOutputs :=
                pf6._syncPointOutputs.modify (fun v => v ++ [tacticSeqIdx]) startSyncPtIdx }
          (.ok (),
            { pf7 with
              _syncPointInputs :=
                pf7._syncPointInputs.modify (fun v => v ++ [tacticSeqIdx]) endSyncPtIdx })

/-- The inner loop of `updateRoleRequirements`: the requirements of the factories of the
stubs of one sequence, or-ed into `reqs`; a stub without registered factory adds nothing. -/
def sequenceRequirements (sequence : TacticSequence) (reqs : RobotRequirements)
    (g : FactoryStatics) : RobotRequirements × FactoryStatics :=
  sequence.foldl
    (fun (acc : RobotRequirements × FactoryStatics) t =>
      match t.factory acc.2 with
      | (some f, g1) => (acc.1 ||| f.robotRequirements, g1)
      | (none, g1) => (acc.1, g1))
    (reqs, g)

/-- The member `updateRoleRequirements()`. The local `RobotRequirements reqs;` is declared
without initialiser; `uninit seqIdx` is the value it happens to hold when it is declared
in the iteration for lane `seqIdx`. A lane
without Role object (a `NULL` pointer, which `addTacticSequence` never stores) is skipped. -/
def updateRoleRequirements (uninit : Nat → RobotRequirements) (pf : PlayFactory)
    (g : FactoryStatics) : PlayFactory × FactoryStatics :=
  (List.range pf._rolesByTacticSequenceIndex.length).foldl
    (fun (acc : PlayFactory × FactoryStatics) seqIdx =>
      let sequence := acc.1.tacticSequenceAtIndex seqIdx
      let role := acc.1.roleForTacticSequenceAtIndex seqIdx
      let (reqs, g1) := sequenceRequirements sequence (uninit seqIdx) acc.2
      match role with
      | none => (acc.1, g1)
      | some r =>
        ({ acc.1 with
            roleObjects :=
              acc.1.roleObjects.modify
                (fun o => { o with robotRequirements := reqs ||| o.robotRequirements }) r },
          g1))
    (pf, g)

/-- The member `finalize()`: `_finalized = true; updateRoleRequirements();`. -/
def finalize (uninit : Nat → RobotRequirements) (pf : PlayFactory) (g : FactoryStatics) :
    PlayFactory × FactoryStatics :=
  updateRoleRequirements uninit { pf with _finalized := true } g

end PlayFactory

/-! ## Reading a play definition -/

namespace PlayFactory

/-- The input lanes of the sync point called `name`: the entry of `_syncPointInputs` at the
position `std::find` gives for `name`; empty when no sync point has that name. -/
def inputsOfSyncPointNamed (pf : PlayFactory) (name : String) : List Nat :=
  pf._syncPointInputs.getD (pf._syncPointNames.indexOf name) []

/-- The output lanes of the sync point called `name`; empty when no sync point has that
name. -/
def outputsOfSyncPointNamed (pf : PlayFactory) (name : String) : List Nat :=
  pf._syncPointOutputs.getD (pf._syncPointNames.indexOf name) []

/-- The name of the Role object that lane `i` is bound to. -/
def roleNameOfLane (pf : PlayFactory) (i : Nat) : Option String :=
  match pf.roleForTacticSequenceAtIndex i with
  | none => none
  | some p => (pf.roleObjects[p]?).map Role.name

/-- A lane's Role pointer is in order: it is not `NULL`, it points to an allocated Role
object, and `_rolesByName` has that very pointer under the object's name. -/
def laneRoleBound (pf : PlayFactory) (x : Option RolePtr) : Bool :=
  match x with
  | none => false
  | some p =>
    match pf.roleObjects[p]? with
    | none => false
    | some r => decide (pf._rolesByName.read r.name = some p)

/-- An entry of `_rolesByName` is in order: if the map reads a Role pointer at the entry's
key, the pointer is to an allocated Role object of that name and some lane is bound to it. -/
def mapEntryBound (pf : PlayFactory) (e : String × Option RolePtr) : Bool :=
  match pf._rolesByName.read e.1 with
  | none => true
  | some p =>
    decide ((pf.roleObjects[p]?).map Role.name = some e.1) &&
      decide (some p ∈ pf._rolesByTacticSequenceIndex)

/-- The shape every definition has that was built with the public members of `PlayFactory`:
one Role pointer per lane, one input list and one output list per sync point, no sync-point
name twice, and the Role pointers of lanes and of `_rolesByName` in order. -/
def WellFormed (pf : PlayFactory) : Prop :=
  pf._rolesByTacticSequenceIndex.length = pf._tacticSequences.length ∧
  pf._syncPointInputs.length = pf._syncPointNames.length ∧
  pf._syncPointOutputs.length = pf._syncPointNames.length ∧
  pf._syncPointNames.Nodup ∧
  (∀ x ∈ pf._rolesByTacticSequenceIndex, pf.laneRoleBound x = true) ∧
  (∀ e ∈ pf._rolesByName, pf.mapEntryBound e = true)

instance (pf : PlayFactory) : Decidable pf.WellFormed := by
  unfold WellFormed
  infer_instance

end PlayFactory

/-! ## Updating a Tactic -/

namespace Tactic

/-- The member `setState`, inherited from `Action`, called on a Tactic. -/
def setState (t : Tactic) (newState : ActionState) : Except String Unit × Tactic :=
  match t.toAction.setState newState with
  | (r, a) => (r, { t with toAction := a })

/-- The requests of an `update()` body carried out one after the other; a request that
throws ends the call. -/
def perform : Tactic → List Request → Except String Unit × Tactic
  | t, [] => (.ok (), t)
  | t, .setState newState :: rest =>
    match t.setState newState with
    | (.error e, t1) => (.error e, t1)
    | (.ok (), t1) => perform t1 rest
  | t, .raise message :: _ => (.error message, t)

/-- The virtual `update()` called on a Tactic, with the reading it gets this tick. -/
def update (t : Tactic) (reading : Nat) : Except String Unit × Tactic :=
  t.perform (t.klass.update t._state reading)

/-- The member `setRole(role)` of `SingleRobotAction`. -/
def setRole (t : Tactic) (role : Option RolePtr) : Tactic := { t with _role := role }

/-- The member `role()` of `SingleRobotAction`. -/
def role (t : Tactic) : Option RolePtr := t._role

end Tactic

/-! ## The role allocator (declared in gameplay/GameplayModule.hpp, not among the sources) -/

namespace World

/-- Appends an event to the record. -/
def note (w : World) (e : Event) : World := { w with events := w.events ++ [e] }

/-- Modelled from the spec: `GameplayModule::allocateRolesForToplevelAction` is declared in
`gameplay/GameplayModule.hpp`, which is not among the sources. Section 6:
"`allocate(requestingOwner, set<Role>) -> success|AllocationFailure` (batched)"; section 5:
a failure "is reported synchronously to the engine"; STP.cpp 369: "if allocation fails, this
will throw an exception". -/
def allocateRolesForToplevelAction (w : World) (roles : List (Option RolePtr)) :
    Except String Unit × World :=
  if w.allocatorAccepts roles then (.ok (), w.note (.allocate roles))
  else (.error "AllocationFailure", w.note (.allocate roles))

/-- Modelled from the spec: `GameplayModule::deallocateRoleForToplevelAction` is declared in
`gameplay/GameplayModule.hpp`, which is not among the sources. Section 6:
"`release(requestingOwner, Role) -> void`". -/
def deallocateRoleForToplevelAction (w : World) (role : Option RolePtr) : World :=
  w.note (.deallocate role)

end World

/-! ## Play (STP.hpp 448-535, STP.cpp 183-517) -/

/-- An `int` converted to `unsigned int`, taken to have 32 bits. -/
def toUnsigned (x : Int) : Nat := (x % 4294967296).toNat

/-- An `int` converted to `size_t`, taken to have 64 bits. -/
def toSizeT (x : Int) : Nat := (x % 18446744073709551616).toNat

/-- The process-wide stub `PlayFactory::placeholderTacticStub()` returns: it is built once as
`new TacticStub("Halt")`. -/
def PlayFactory.placeholderTacticStub : TacticStub :=
  { _name := "Halt", _invocationParameters := none }

/-- The data members of `class Play` with those of its base `Action`. `_playFactory` is the
definition the pointer member points to; the Tactic pointers of `_tacticsBySequenceIndex`
and `_tacticsAwaitingResults` are the objects they point to. The member `_debugLogging` is
never read. -/
structure Play extends Action where
  _playFactory : PlayFactory
  _unreachedSyncPoints : List Nat
  _sequenceStateByIndex : List Int
  _tacticsBySequenceIndex : List (Option Tactic)
  _tacticsAwaitingResults : List Tactic

/-- How the loop over the lanes in `Play::update` ended: it ran through all lanes, or it
executed `setState(ActionStateFailed); return;`. -/
inductive LaneLoopExit where
  | finished
  | failedFast
  deriving DecidableEq, Repr

namespace Play

/-- The member `setState`, inherited from `Action`, called on a Play. -/
def setState (p : Play) (newState : ActionState) : Except String Unit × Play :=
  match p.toAction.setState newState with
  | (r, a) => (r, { p with toAction := a })

/-- The member `terminate`, inherited from `Action`, called on a Play. -/
def terminate (p : Play) : Except String Unit × Play :=
  match p.toAction.terminate with
  | (r, a) => (r, { p with toAction := a })

/-- The member `Play::initializeIvars()` (STP.cpp 502-512). -/
def initializeIvars (p : Play) : Play :=
  let sequenceCount := p._playFactory._tacticSequences.length
  let syncPtCount := p._playFactory._syncPointNames.length
  { p with
    _sequenceStateByIndex :=
      p._sequenceStateByIndex ++
        List.replicate (sequenceCount - p._sequenceStateByIndex.length) (-1),
    _tacticsBySequenceIndex :=
      p._tacticsBySequenceIndex ++
        List.replicate (sequenceCount - p._tacticsBySequenceIndex.length) none,
    _unreachedSyncPoints := p._unreachedSyncPoints ++ List.range syncPtCount }

/-- The constructor `Play::Play(playFactory, gameplayModule)` (STP.cpp 183-188). It tests
`playFactory` and never stores it: the member `_playFactory` is left uninitialised, and
`indeterminate` is the definition its value happens to point to. -/
def new (playFactory : Option PlayFactory) (gameplayModule : Option GameplayModule)
    (indeterminate : PlayFactory) : Except String Play :=
  match Action.new gameplayModule true false with
  | .error e => .error e
  | .ok a =>
    match playFactory with
    | none => .error "ERROR: attempt to construct Play with NULL playFactory"
    | some _ =>
      .ok (initializeIvars
        { toAction := a, _playFactory := indeterminate, _unreachedSyncPoints := [],
          _sequenceStateByIndex := [], _tacticsBySequenceIndex := [],
          _tacticsAwaitingResults := [] })

/-- The member `Play::roleForTacticSequenceAtIndex(i)`. -/
def roleForTacticSequenceAtIndex (p : Play) (sequenceIndex : Nat) : Option RolePtr :=
  p._playFactory.roleForTacticSequenceAtIndex sequenceIndex

/-- The member `stateOfTacticSequenceAtIndex(i)`: `_sequenceStateByIndex[i]`. -/
def stateOfTacticSequenceAtIndex (p : Play) (tacticSeqIdx : Nat) : Int :=
  p._sequenceStateByIndex.getD tacticSeqIdx 0

/-- The entry `_tacticsBySequenceIndex[i]`. -/
def tacticOfSequenceAtIndex (p : Play) (tacticSeqIdx : Nat) : Option Tactic :=
  p._tacticsBySequenceIndex.getD tacticSeqIdx none

/-- The member `Play::tacticCanBeConsideredCompleted(t)` (STP.cpp 351-356). -/
def tacticCanBeConsideredCompleted (t : Option Tactic) : Bool :=
  match t with
  | none => true
  | some t => t.state = .Completed || (t.state = .Running && t._continuous)

/-- The member `Play::syncPointAtIndexIsReachableNow(syncPtIndex)` (STP.cpp 325-346). The
loop variable, the length of the sequence and the lane's cursor are `unsigned int` there. -/
def syncPointAtIndexIsReachableNow (p : Play) (syncPtIndex : Nat) : Bool :=
  (p._playFactory._syncPointInputs.getD syncPtIndex []).all fun seqIdx =>
    let seqLen := toUnsigned (p._playFactory.tacticSequenceAtIndex seqIdx).length
    let currentStateForSeq := toUnsigned (p.stateOfTacticSequenceAtIndex seqIdx)
    if currentStateForSeq ≥ toUnsigned ((seqLen : Int) - 1) then
      match p.tacticOfSequenceAtIndex seqIdx with
      | none => true
      | some t => tacticCanBeConsideredCompleted (some t)
    else true

/-- The member `Play::checkPendingTacticResults()` (STP.cpp 473-498), from the position
`pendingTacticIdx = kept.length` on: `kept` are the entries before that position, the list
argument the entries from that position on. Returns the verdict, or the thrown message, and
the queue as the call leaves it. -/
def checkPendingFrom (kept : List Tactic) : List Tactic → Except String Bool × List Tactic
  | [] => (.ok true, kept)
  | t :: rest =>
    if t.state ≠ .EvaluatingSuccess then
      if t.state = .Failed then (.ok false, kept ++ t :: rest)
      else if t.state = .Completed then checkPendingFrom kept rest
      else
        (.error ("C++ Programmer ERROR: Invalid Play state transition from " ++
          "EvaluatingSuccess -> !\x7bFailed, Completed\x7d"), kept ++ t :: rest)
    else checkPendingFrom (kept ++ [t]) rest

/-- The member `Play::checkPendingTacticResults()`. -/
def checkPendingTacticResults (p : Play) : Except String Bool × Play :=
  match checkPendingFrom [] p._tacticsAwaitingResults with
  | (r, queue) => (r, { p with _tacticsAwaitingResults := queue })

/-- The member `Play::transitionSequenceAtIndex(seqIndex)` (STP.cpp 212-248). It is called
for a lane that has a behaviour. The comparison `sequenceState >= sequence->size() - 1` is
made in `size_t`. The `delete tactic` of a behaviour that is not EvaluatingSuccess
(STP.cpp 224) leaves no trace here: `~Tactic` deletes `_parameters` (STP.hpp 350-352), which
is the tree of the stub the behaviour was made from, so the code agrees with this definition
as long as no stub that has a tree is instantiated again after a behaviour made from it was
deleted. -/
def transitionSequenceAtIndex (p : Play) (w : World) (seqIndex : Nat) :
    Except String Unit × Play × World :=
  let sequence := p._playFactory.tacticSequenceAtIndex seqIndex
  let sequenceState := p.stateOfTacticSequenceAtIndex seqIndex
  match p.tacticOfSequenceAtIndex seqIndex with
  | none => (.error "NULL Tactic", p, w)
  | some tactic =>
    let p1 :=
      if tactic.state = .EvaluatingSuccess then
        { p with _tacticsAwaitingResults := p._tacticsAwaitingResults ++ [tactic] }
      else p
    let newTacticStub : Option TacticStub :=
      if toSizeT sequenceState ≥ toSizeT ((sequence.length : Int) - 1) then
        some PlayFactory.placeholderTacticStub
      else sequence.get? (sequenceState + 1).toNat
    let p2 :=
      { p1 with
        _sequenceStateByIndex := p1._sequenceStateByIndex.modify (fun c => c + 1) seqIndex }
    match newTacticStub with
    | some stub =>
      match stub.instantiate (some p2._gameplayModule) w with
      | (.error e, w1) => (.error e, p2, w1)
      | (.ok newTactic, w1) =>
        (.ok (),
          { p2 with
            _tacticsBySequenceIndex := p2._tacticsBySequenceIndex.set seqIndex (some newTactic) },
          w1)
    | none => (.error "STP.cpp error???", p2, w)

/-- The member `Play::tacticStubForStateForTacticSequenceAtIndex` (STP.cpp 252-263). -/
def tacticStubForStateForTacticSequenceAtIndex (p : Play) (tacticSeqIdx : Nat) (state : Int) :
    Except String (Option TacticStub) :=
  let sequence := p._playFactory.tacticSequenceAtIndex tacticSeqIdx
  if state < 0 then .error "ERROR: no tactic stub for subzero sequence state"
  else if toSizeT state ≥ sequence.length then .ok (some PlayFactory.placeholderTacticStub)
  else .ok (sequence.get? state.toNat)

/-- The member `Play::transitionRole(role, currSeqIdx, newSeqIdx)` (STP.cpp 360-403); the
index -1 stands for no lane. The virtual `setPreferencesForRole` of the new Tactic concerns
the robot matching only and is left out. The `delete t` of the behaviour of the lane that is
left (STP.cpp 378) leaves no trace here but the empty slot: `~Tactic` deletes `_parameters`,
the tree of the stub the behaviour was made from, so the code agrees with this definition as
long as no stub that has a tree is instantiated again after a behaviour made from it was
deleted. -/
def transitionRole (p : Play) (w : World) (role : Option RolePtr) (currSeqIdx newSeqIdx : Int) :
    Except String Bool × Play × World :=
  if currSeqIdx = -1 ∧ newSeqIdx = -1 then
    (.error "ERROR: roles shouldn\x27t transition from null sequence to null sequence...", p, w)
  else
    let p1 :=
      if currSeqIdx = -1 then p
      else
        { p with
          _sequenceStateByIndex :=
            p._sequenceStateByIndex.modify (fun c => c + 1) currSeqIdx.toNat,
          _tacticsBySequenceIndex := p._tacticsBySequenceIndex.set currSeqIdx.toNat none }
    if newSeqIdx = -1 then (.ok true, p1, w)
    else
      let p2 :=
        { p1 with _sequenceStateByIndex := p1._sequenceStateByIndex.set newSeqIdx.toNat 0 }
      let newSeq := p2._playFactory.tacticSequenceAtIndex newSeqIdx.toNat
      match newSeq.get? 0 with
      | none => (.error "empty TacticSequence", p2, w)
      | some stub =>
        match stub.instantiate (some p2._gameplayModule) w with
        | (.error e, w1) => (.error e, p2, w1)
        | (.ok t, w1) =>
          (.ok true,
            { p2 with
              _tacticsBySequenceIndex :=
                p2._tacticsBySequenceIndex.set newSeqIdx.toNat (some (t.setRole role)) },
            w1)

/-- The inner loop of `transitionToSyncPointAtIndex` (STP.cpp 422-429): the first output
lane whose Role is `role`, and -1 when there is none. -/
def outputForRole (pf : PlayFactory) (role : Option RolePtr) : List Nat → Int
  | [] => -1
  | output :: rest =>
    if pf.roleForTacticSequenceAtIndex output = role then (output : Int)
    else outputForRole pf role rest

/-- The loop over the inputs in `transitionToSyncPointAtIndex` (STP.cpp 418-442);
`transitionedOutputs` is the local vector of that name. -/
def transitionInputs (outputs : List Nat) :
    List Nat → List Int → Play → World → Except String Unit × List Int × Play × World
  | [], transitionedOutputs, p, w => (.ok (), transitionedOutputs, p, w)
  | inputSeqIdx :: rest, transitionedOutputs, p, w =>
    let role := p._playFactory.roleForTacticSequenceAtIndex inputSeqIdx
    let outputSeqIdx := outputForRole p._playFactory role outputs
    match p.transitionRole w role inputSeqIdx outputSeqIdx with
    | (.error e, p1, w1) => (.error e, transitionedOutputs, p1, w1)
    | (.ok _, p1, w1) =>
      if outputSeqIdx = -1 then
        transitionInputs outputs rest transitionedOutputs p1
          (w1.deallocateRoleForToplevelAction role)
      else
        transitionInputs outputs rest (transitionedOutputs ++ [outputSeqIdx]) p1 w1

/-- `std::set::insert`: the element is added unless it is there. -/
def setInsert (s : List (Option RolePtr)) (role : Option RolePtr) : List (Option RolePtr) :=
  if role ∈ s then s else s ++ [role]

/-- The loop over the outputs in `transitionToSyncPointAtIndex` (STP.cpp 445-453);
`rolesToAllocate` is the local set of that name. -/
def transitionOutputs (transitionedOutputs : List Int) :
    List Nat → List (Option RolePtr) → Play → World →
      Except String Unit × List (Option RolePtr) × Play × World
  | [], rolesToAllocate, p, w => (.ok (), rolesToAllocate, p, w)
  | outputSeqIdx :: rest, rolesToAllocate, p, w =>
    if (outputSeqIdx : Int) ∉ transitionedOutputs then
      let role := p._playFactory.roleForTacticSequenceAtIndex outputSeqIdx
      match p.transitionRole w role (-1) outputSeqIdx with
      | (.error e, p1, w1) => (.error e, rolesToAllocate, p1, w1)
      | (.ok _, p1, w1) =>
        transitionOutputs transitionedOutputs rest (setInsert rolesToAllocate role) p1 w1
    else transitionOutputs transitionedOutputs rest rolesToAllocate p w

/-- The member `Play::transitionToSyncPointAtIndex(syncPtIndex)` (STP.cpp 407-469). -/
def transitionToSyncPointAtIndex (p : Play) (w : World) (syncPtIndex : Nat) :
    Except String Unit × Play × World :=
  let w0 := w.note (.fired syncPtIndex)
  let inputs := p._playFactory._syncPointInputs.getD syncPtIndex []
  let outputs := p._playFactory._syncPointOutputs.getD syncPtIndex []
  match transitionInputs outputs inputs [] p w0 with
  | (.error e, _, p1, w1) => (.error e, p1, w1)
  | (.ok (), transitionedOutputs, p1, w1) =>
    match transitionOutputs transitionedOutputs outputs [] p1 w1 with
    | (.error e, _, p2, w2) => (.error e, p2, w2)
    | (.ok (), rolesToAllocate, p2, w2) =>
      match w2.allocateRolesForToplevelAction rolesToAllocate with
      | (.error e, w3) => (.error e, p2, w3)
      | (.ok (), w3) =>
        (.ok (),
          { p2 with _unreachedSyncPoints := p2._unreachedSyncPoints.erase syncPtIndex }, w3)

/-- The loop over the lanes in `Play::update` (STP.cpp 280-294), for the lanes listed. -/
def laneLoop : List Nat → Play → World → Except String LaneLoopExit × Play × World
  | [], p, w => (.ok .finished, p, w)
  | sequenceIndex :: rest, p, w =>
    match p.tacticOfSequenceAtIndex sequenceIndex with
    | none => laneLoop rest p w
    | some t =>
      match t.update (w.sensed sequenceIndex) with
      | (.error e, t1) =>
        (.error e,
          { p with
            _tacticsBySequenceIndex := p._tacticsBySequenceIndex.set sequenceIndex (some t1) },
          w)
      | (.ok (), t1) =>
        let p1 :=
          { p with
            _tacticsBySequenceIndex := p._tacticsBySequenceIndex.set sequenceIndex (some t1) }
        let w1 := w.note (.updated sequenceIndex t1.state)
        if t1.state = .Completed ∨ t1.state = .EvaluatingSuccess then
          match p1.transitionSequenceAtIndex w1 sequenceIndex with
          | (.error e, p2, w2) => (.error e, p2, w2)
          | (.ok (), p2, w2) => laneLoop rest p2 w2
        else if t1.state = .Failed then
          match p1.setState .Failed with
          | (.error e, p2) => (.error e, p2, w1)
          | (.ok (), p2) => (.ok .failedFast, p2, w1)
        else laneLoop rest p1 w1

/-- The loop over the unreached sync points in `Play::update` (STP.cpp 299-309), from the
position `i` on, for at most `fuel` passes through the loop head; `none` when that is not
enough to leave the loop. -/
def barrierScan : Nat → Nat → Play → World → Option (Except String Unit × Play × World)
  | 0, _, _, _ => none
  | fuel + 1, i, p, w =>
    if i < p._unreachedSyncPoints.length then
      let syncPtIndex := p._unreachedSyncPoints.getD i 0
      if p.syncPointAtIndexIsReachableNow syncPtIndex then
        match p.transitionToSyncPointAtIndex w syncPtIndex with
        | (.error e, p1, w1) => some (.error e, p1, w1)
        | (.ok (), p1, w1) => barrierScan fuel i p1 w1
      else barrierScan fuel (i + 1) p w
    else some (.ok (), p, w)

/-- The end of `Play::update` (STP.cpp 312-319). -/
def completionCheck (p : Play) : Except String Unit × Play :=
  if p._unreachedSyncPoints.length = 0 then
    if p._tacticsAwaitingResults.length > 0 then p.setState .EvaluatingSuccess
    else p.setState .Completed
  else (.ok (), p)

/-- The member `Play::update()` (STP.cpp 267-321). The loop over the unreached sync points
gets one pass through its head for every entry of the list and one more, which is enough
for it to end. -/
def update (p : Play) (w : World) : Except String Unit × Play × World :=
  match p.checkPendingTacticResults with
  | (.error e, p1) => (.error e, p1, w)
  | (.ok false, p1) =>
    match p1.setState .Failed with
    | (r, p2) => (r, p2, w)
  | (.ok true, p1) =>
    match laneLoop (List.range p1._tacticsBySequenceIndex.length) p1 w with
    | (.error e, p2, w2) => (.error e, p2, w2)
    | (.ok .failedFast, p2, w2) => (.ok (), p2, w2)
    | (.ok .finished, p2, w2) =>
      match barrierScan (p2._unreachedSyncPoints.length + 1) 0 p2 w2 with
      | none => (.error "the loop over the unreached sync points did not end", p2, w2)
      | some (.error e, p3, w3) => (.error e, p3, w3)
      | some (.ok (), p3, w3) =>
        match p3.completionCheck with
        | (r, p4) => (r, p4, w3)

end Play

/-- The member `PlayFactory::create(gameplayModule)`: `new Play(this, gameplayModule)`. -/
def PlayFactory.create (pf : PlayFactory) (gameplayModule : Option GameplayModule)
    (indeterminate : PlayFactory) : Except String Play :=
  Play.new (some pf) gameplayModule indeterminate

/-! ## Successive calls of update -/

/-- What the surroundings of a Play settle before one call of `update()`: the readings the
behaviours get, what the role allocator can satisfy, and what has become of each behaviour
of the pending-verdict queue since the call before (`verdict i t` is the behaviour at
position `i`, which was `t`). -/
structure Tick where
  sensed : Nat → Nat
  allocatorAccepts : List (Option RolePtr) → Bool
  verdict : Nat → Tactic → Tactic

namespace Play

/-- The Play and the world as a call of `update()` finds them at a tick. -/
def arrange (tick : Tick) (s : Play × World) : Play × World :=
  ({ s.1 with
      _tacticsAwaitingResults :=
        (s.1._tacticsAwaitingResults.enum.map fun it => tick.verdict it.1 it.2) },
    { s.2 with sensed := tick.sensed, allocatorAccepts := tick.allocatorAccepts })

/-- One call of `update()` at a tick. -/
def step (tick : Tick) (s : Play × World) : Except String Unit × Play × World :=
  (arrange tick s).1.update (arrange tick s).2

/-- The Play and the world after successive calls of `update()`, one for each tick. -/
def run : List Tick → Play × World → Play × World
  | [], s => s
  | tick :: rest, s => run rest (step tick s).2

/-- Whether each of the successive calls of `update()` returned normally. -/
def runReturned : List Tick → Play × World → Bool
  | [], _ => true
  | tick :: rest, s => returned (step tick s).1 && runReturned rest (step tick s).2

end Play

/-! ## Reading a Play and the record of events -/

/-- The sync point an event fires, if it is a firing. -/
def Event.firedIndex : Event → Option Nat
  | .fired syncPtIndex => some syncPtIndex
  | _ => none

/-- Whether an event is the return of the `update()` of a lane's behaviour. -/
def Event.isUpdated : Event → Bool
  | .updated _ _ => true
  | _ => false

/-- The sync points fired according to a record of events, in the order of their firing. -/
def firedIndices (events : List Event) : List Nat := events.filterMap Event.firedIndex

/-- What no part of `update()` but its own calls of `setState` changes: the `Action` base of
the Play, the definition it points to, the sizes of the two vectors with one entry per lane,
and, in the world, the readings and the allocator. -/
def Play.Framed (p p2 : Play) (w w2 : World) : Prop :=
  p2.toAction = p.toAction ∧ p2._playFactory = p._playFactory ∧
  p2._sequenceStateByIndex.length = p._sequenceStateByIndex.length ∧
  p2._tacticsBySequenceIndex.length = p._tacticsBySequenceIndex.length ∧
  w2.sensed = w.sensed ∧ w2.allocatorAccepts = w.allocatorAccepts

/-- Reachability of a sync point as the specification words it: every input lane whose
cursor has reached or passed the lane's last index has no behaviour, or a Completed one, or
one that is Running and continuous. -/
def Play.reachableAsSpecified (p : Play) (syncPtIndex : Nat) : Bool :=
  (p._playFactory._syncPointInputs.getD syncPtIndex []).all fun lane =>
    if ((p._playFactory.tacticSequenceAtIndex lane).length : Int) - 1 ≤
        p.stateOfTacticSequenceAtIndex lane then
      match p.tacticOfSequenceAtIndex lane with
      | none => true
      | some t => t.state = .Completed || (t.state = .Running && t._continuous)
    else true

/-- What holds of the cursors of a Play from its construction on: no cursor is below -1, and
a lane whose cursor is -1 has no behaviour. -/
def Play.Consistent (p : Play) : Prop :=
  ∀ lane, -1 ≤ p.stateOfTacticSequenceAtIndex lane ∧
    (p.stateOfTacticSequenceAtIndex lane = -1 → p.tacticOfSequenceAtIndex lane = none)

/-- Each lane starts at one sync point at most and ends at one at most, once, and the lanes
that start or end at a sync point are lanes of the definition. -/
def PlayFactory.LanesLinkedOnce (pf : PlayFactory) : Prop :=
  pf._syncPointOutputs.flatten.Nodup ∧ pf._syncPointInputs.flatten.Nodup ∧
  (∀ lane ∈ pf._syncPointOutputs.flatten, lane < pf._tacticSequences.length) ∧
  ∀ lane ∈ pf._syncPointInputs.flatten, lane < pf._tacticSequences.length

instance (pf : PlayFactory) : Decidable pf.LanesLinkedOnce := by
  unfold PlayFactory.LanesLinkedOnce
  infer_instance

/-- A definition after successive calls of `addTacticSequence`, one for each entry
`(sequence, roleName, startSyncPoint, endSyncPoint)` of the list; a call that throws leaves
the definition as it is. -/
def PlayFactory.addLanes (pf : PlayFactory) :
    List (Option TacticSequence × String × String × String) → PlayFactory
  | [] => pf
  | (sequence, roleName, startSyncPoint, endSyncPoint) :: rest =>
    PlayFactory.addLanes
      (pf.addTacticSequence sequence roleName startSyncPoint endSyncPoint).2 rest

/-- The lanes that start at a sync point which is still unfired have not started: such a
lane has no behaviour, and its cursor is -1, or 0 when the sync point it ends at has been
fired. -/
def Play.Unstarted (p : Play) : Prop :=
  ∀ k ∈ p._unreachedSyncPoints, ∀ lane ∈ p._playFactory._syncPointOutputs.getD k [],
    p.tacticOfSequenceAtIndex lane = none ∧ p.stateOfTacticSequenceAtIndex lane ≤ 0 ∧
    (p.stateOfTacticSequenceAtIndex lane = 0 →
      ∀ e ∈ p._unreachedSyncPoints, lane ∉ p._playFactory._syncPointInputs.getD e [])

/-- The releases the loop over the inputs of a firing makes for the inputs listed: one for
each input whose Role is the Role of no output, in the order of the inputs. -/
def Play.releasesFor (pf : PlayFactory) (outputs : List Nat) (inputs : List Nat) :
    List Event :=
  (inputs.filter fun i =>
      decide (Play.outputForRole pf (pf.roleForTacticSequenceAtIndex i) outputs = -1)).map
    fun i => Event.deallocate (pf.roleForTacticSequenceAtIndex i)

/-- The accessor `Play::factory()` (STP.hpp 470-472): `return _playFactory`. -/
def Play.factory (p : Play) : PlayFactory := p._playFactory

/-- Whether an event is the return of the `update()` of a lane's behaviour that has left the
behaviour Failed. -/
def Event.isFailedUpdate : Event → Bool
  | .updated _ .Failed => true
  | _ => false

/-- Whether a call of `update()` observes a failure: a behaviour of the pending-verdict
queue is Failed when the call is made, or the `update()` of a lane's behaviour returns
during the call and leaves the behaviour Failed. -/
def Play.observesFailure (p : Play) (w : World) : Bool :=
  p._tacticsAwaitingResults.any (fun t => decide (t.state = .Failed)) ||
    ((p.update w).2.2.events.drop w.events.length).any Event.isFailedUpdate

/-- Whether one of the successive calls of `update()` observes a failure. -/
def Play.runObservedFailure : List Tick → Play × World → Bool
  | [], _ => false
  | tick :: rest, s =>
    (Play.arrange tick s).1.observesFailure (Play.arrange tick s).2 ||
      Play.runObservedFailure rest (Play.step tick s).2

/-- Every behaviour a lane holds is bound to no Role or to the Role the definition gives the
lane. -/
def Play.BoundToLaneRoles (p : Play) : Prop :=
  ∀ lane t, p.tacticOfSequenceAtIndex lane = some t →
    t._role = none ∨ t._role = p._playFactory.roleForTacticSequenceAtIndex lane

/-- The barrier scan as the specification words it (section 4.5, phase 3: "repeated until no
change within this tick"): the loop over the unreached sync points is run again as long as
a run of it has fired a sync point. `passes` bounds the number of runs; `none` when that is
not enough. -/
def Play.barrierScanAsSpecified :
    Nat → Play → World → Option (Except String Unit × Play × World)
  | 0, _, _ => none
  | passes + 1, p, w =>
    match Play.barrierScan (p._unreachedSyncPoints.length + 1) 0 p w with
    | none => none
    | some (.error e, p1, w1) => some (.error e, p1, w1)
    | some (.ok (), p1, w1) =>
      if p1._unreachedSyncPoints.length = p._unreachedSyncPoints.length then
        some (.ok (), p1, w1)
      else Play.barrierScanAsSpecified passes p1 w1

/-- The member `Play::update()` with the barrier scan of the specification in the place of
the single loop over the unreached sync points; everything else is as in `Play.update`. -/
def Play.updateAsSpecified (p : Play) (w : World) : Except String Unit × Play × World :=
  match p.checkPendingTacticResults with
  | (.error e, p1) => (.error e, p1, w)
  | (.ok false, p1) =>
    match p1.setState .Failed with
    | (r, p2) => (r, p2, w)
  | (.ok true, p1) =>
    match Play.laneLoop (List.range p1._tacticsBySequenceIndex.length) p1 w with
    | (.error e, p2, w2) => (.error e, p2, w2)
    | (.ok .failedFast, p2, w2) => (.ok (), p2, w2)
    | (.ok .finished, p2, w2) =>
      match Play.barrierScanAsSpecified (p2._unreachedSyncPoints.length + 1) p2 w2 with
      | none => (.error "the loop over the unreached sync points did not end", p2, w2)
      | some (.error e, p3, w3) => (.error e, p3, w3)
      | some (.ok (), p3, w3) =>
        match p3.completionCheck with
        | (r, p4) => (r, p4, w3)

/-- The factory `getRegisteredFactory(name, ActionAbstractionLevelTactic)` reads in the
world `w`. -/
def World.registeredTactic (w : World) (name : String) : Option ActionFactory :=
  (w.statics._factoriesByLevel.getD ActionAbstractionLevel.Tactic.toNat []).read name

/-- Whether the first stub of a lane can be instantiated in the world `w`: the lane has a
stub, a factory is registered under the name of the stub, and the `parseParameters` of the
factory's class accepts the invocation parameters of the stub. -/
def PlayFactory.firstStubInstantiable (pf : PlayFactory) (w : World) (lane : Nat) : Bool :=
  match (pf.tacticSequenceAtIndex lane).get? 0 with
  | none => false
  | some stub =>
    match w.registeredTactic stub.name with
    | none => false
    | some f =>
      match f.klass.parseParameters stub._invocationParameters with
      | .ok _ => true
      | .error _ => false

/-! ## Concrete objects used to evaluate the definitions -/

/-- The class `Tactics::Halt` (Tactics/Halt.hpp): `Tactic(gpModule, false, true)`, no override
of `parseParameters`; its `update()` calls `setState(ActionStateRunning)` when the state is
SettingUp, and nothing else that concerns the `Action` base. The value of its static
`robotRequirements` is defined outside the sources; no bit is assumed. -/
def haltClass : TacticClass :=
  { evaluatesSuccess := false, continuous := true, robotRequirements := 0,
    parseParameters := fun _ => .ok (),
    update := fun state _ => if state = .SettingUp then [.setState .Running] else [] }

/-- The class `Tactics::Move` (Tactics/Move.hpp): `Tactic(gpModule, false, false)`; its
`parseParameters` reads the keys `target.x` and `target.y` and throws when one is missing.
For a `NULL` tree the code dereferences the pointer (`parameters()`, STP.hpp 360-362); here
that is the throw of a missing key, and no stub for "Move" without a tree is used below.
Its `update()` calls `setState(ActionStateRunning)` when the state is SettingUp, updates its
Move skill, and calls `setState(_move->state())` when `ACTION_STATE_IS_DONE` holds of the
state of the skill; the reading is that state, as its number when it is done and 0
otherwise. -/
def moveClass : TacticClass :=
  { evaluatesSuccess := false, continuous := false, robotRequirements := 0,
    parseParameters := fun p =>
      match p with
      | none => .error "No such node"
      | some tree =>
        if (tree.lookup "target.x").isSome && (tree.lookup "target.y").isSome then .ok ()
        else .error "No such node",
    update := fun state reading =>
      (if state = .SettingUp then [.setState .Running] else []) ++
        (if reading = 1 then [.setState .Failed]
         else if reading = 2 then [.setState .Cancelled]
         else if reading = 3 then [.setState .Completed]
         else []) }

/-- A factory for `Halt` at the tactic level. -/
def haltFactory : ActionFactory :=
  { _name := "Halt", _abstractionLevel := .Tactic, klass := haltClass }

/-- A factory for `Move` at the tactic level. -/
def moveFactory : ActionFactory :=
  { _name := "Move", _abstractionLevel := .Tactic, klass := moveClass }

/-- A factory that is also called "Move", at the skill level. -/
def moveSkillFactory : ActionFactory :=
  { _name := "Move", _abstractionLevel := .Skill, klass := haltClass }

/-- Statics in which the tactic-level map holds `haltFactory` and `moveFactory`, and the
skill-level map another factory under the name "Move". -/
def populatedStatics : FactoryStatics :=
  { _factoriesByLevel :=
      [[("Move", some moveSkillFactory)],
       [("Halt", some haltFactory), ("Move", some moveFactory)],
       []],
    _factoryRegistryIsSetup := true }

/-- A world over `populatedStatics` in which no factory has been invoked yet. -/
def populatedWorld : World :=
  { statics := populatedStatics, createCalls := [], events := [], sensed := fun _ => 0,
    allocatorAccepts := fun _ => true }

/-- A stub for "Move" with both coordinates of the target. -/
def moveStub : TacticStub :=
  { _name := "Move", _invocationParameters := some [("target.x", "1.5"), ("target.y", "0")] }

/-- The Tactic `moveFactory.create` returns for the module at address 7. -/
def newMoveTactic : Tactic :=
  { _gameplayModule := 7, _state := .SettingUp, _evaluatesSuccess := false,
    _continuous := false, _role := none, _parameters := none, klass := moveClass }

/-- A stub for "Halt", built as `TacticStub("Halt")`. -/
def haltStub : TacticStub := { _name := "Halt", _invocationParameters := none }

/-- A new definition called "kickoff". -/
def emptyPlay : PlayFactory := (PlayFactory.new "kickoff" "" FactoryStatics.initial).1

/-- The definition `emptyPlay` after the lane `[Move]` was added for the role "striker"
between the sync points "start" and "end". -/
def oneLanePlay : PlayFactory :=
  (emptyPlay.addTacticSequence (some [moveStub]) "striker" "start" "end").2

/-- A tactic class whose static `robotRequirements` has the bit 2 set. -/
def kickClass : TacticClass :=
  { evaluatesSuccess := true, continuous := false, robotRequirements := 2,
    parseParameters := fun _ => .ok (),
    update := fun state reading =>
      (if state = .SettingUp then [.setState .Running] else []) ++
        (if reading = 1 then [.setState .EvaluatingSuccess] else []) }

/-- A factory for the class `kickClass` at the tactic level, called "Kick". -/
def kickFactory : ActionFactory :=
  { _name := "Kick", _abstractionLevel := .Tactic, klass := kickClass }

/-- Statics in which the tactic-level map holds factories for "Halt", "Move" and "Kick". -/
def kickStatics : FactoryStatics :=
  { _factoriesByLevel :=
      [[],
       [("Halt", some haltFactory), ("Move", some moveFactory), ("Kick", some kickFactory)],
       []],
    _factoryRegistryIsSetup := true }

/-- A world over `kickStatics` in which nothing has happened yet. -/
def kickWorld : World :=
  { statics := kickStatics, createCalls := [], events := [], sensed := fun _ => 0,
    allocatorAccepts := fun _ => true }

/-- A stub for "Kick", built as `TacticStub("Kick")`. -/
def kickStub : TacticStub := { _name := "Kick", _invocationParameters := none }

/-- The definition `emptyPlay` after the lane `[Kick]` was added for the role "striker"
between the sync points "start" and "end". -/
def kickPlay : PlayFactory :=
  (emptyPlay.addTacticSequence (some [kickStub]) "striker" "start" "end").2

/-- The definition of the parking scenario: lane 0 is `[Move]` for the role "a", lane 1 is
`[Move, Move]` for the role "b"; both start at the sync point "start" (index 0) and both are
inputs of the sync point "end" (index 1). -/
def twoLanePlay : PlayFactory :=
  ((emptyPlay.addTacticSequence (some [moveStub]) "a" "start" "end").2.addTacticSequence
    (some [moveStub, moveStub]) "b" "start" "end").2

/-- The Play the constructor gives for the module at address 7 when `_playFactory` points to
the definition `pf`. -/
def freshPlay (pf : PlayFactory) : Play :=
  Play.initializeIvars
    { _gameplayModule := 7, _state := .SettingUp, _evaluatesSuccess := true,
      _continuous := false, _playFactory := pf, _unreachedSyncPoints := [],
      _sequenceStateByIndex := [], _tacticsBySequenceIndex := [],
      _tacticsAwaitingResults := [] }

/-- A tick at which every reading is 0, the allocator satisfies every request and no pending
behaviour has changed. -/
def quietTick : Tick :=
  { sensed := fun _ => 0, allocatorAccepts := fun _ => true, verdict := fun _ t => t }

/-- A tick at which the reading of lane 0 is 3 (its Move skill is Completed) and every other
reading is 0. -/
def lane0DoneTick : Tick :=
  { sensed := fun i => if i = 0 then 3 else 0, allocatorAccepts := fun _ => true,
    verdict := fun _ t => t }

/-- A tick at which the reading of lane 0 is 1 and every other reading is 0: the Move skill
of lane 0 is Failed; for a Kick, the ball has been kicked. -/
def lane0OneTick : Tick :=
  { sensed := fun i => if i = 0 then 1 else 0, allocatorAccepts := fun _ => true,
    verdict := fun _ t => t }

/-- A tick before which every behaviour of the pending-verdict queue has become Failed. -/
def verdictFailedTick : Tick :=
  { sensed := fun _ => 0, allocatorAccepts := fun _ => true,
    verdict := fun _ t => { t with _state := .Failed } }

/-- The parking scenario as its second call of `update()` finds it, when the Move skill of
lane 0 is Completed: both lanes run their first Move. -/
def parkingSecondTick : Play × World :=
  Play.arrange lane0DoneTick (Play.run [quietTick] (freshPlay twoLanePlay, populatedWorld))

/-- A tick at which every reading is 0 and the allocator can satisfy no request. -/
def refusingTick : Tick :=
  { sensed := fun _ => 0, allocatorAccepts := fun _ => false, verdict := fun _ t => t }

/-- A tactic class whose `update()` throws when its reading is 9, and otherwise calls
`setState(ActionStateRunning)` when the state is SettingUp. -/
def faultyClass : TacticClass :=
  { evaluatesSuccess := false, continuous := false, robotRequirements := 0,
    parseParameters := fun _ => .ok (),
    update := fun state reading =>
      if reading = 9 then [.raise "fault"]
      else if state = .SettingUp then [.setState .Running] else [] }

/-- A factory for the class `faultyClass` at the tactic level, called "Faulty". -/
def faultyFactory : ActionFactory :=
  { _name := "Faulty", _abstractionLevel := .Tactic, klass := faultyClass }

/-- A tactic class that takes no parameters: it does not override `parseParameters`, is not
continuous and does not evaluate success. Its `update()` calls
`setState(ActionStateRunning)` when the state is SettingUp, and
`setState(ActionStateCompleted)` when its reading is 3. -/
def dashClass : TacticClass :=
  { evaluatesSuccess := false, continuous := false, robotRequirements := 0,
    parseParameters := fun _ => .ok (),
    update := fun state reading =>
      (if state = .SettingUp then [.setState .Running] else []) ++
        (if reading = 3 then [.setState .Completed] else []) }

/-- A factory for the class `dashClass` at the tactic level, called "Dash". -/
def dashFactory : ActionFactory :=
  { _name := "Dash", _abstractionLevel := .Tactic, klass := dashClass }

/-- A stub for "Dash", built as `TacticStub("Dash")`: its parameter tree is `NULL`, so the
`delete _parameters` of `~Tactic` frees nothing when a behaviour made from it is deleted. -/
def dashStub : TacticStub := { _name := "Dash", _invocationParameters := none }

/-- A world in which the tactic-level map holds factories for "Halt", "Move", "Faulty" and
"Dash", and nothing has happened yet. -/
def faultyWorld : World :=
  { statics :=
      { _factoriesByLevel :=
          [[],
           [("Halt", some haltFactory), ("Move", some moveFactory),
            ("Faulty", some faultyFactory), ("Dash", some dashFactory)],
           []],
        _factoryRegistryIsSetup := true },
    createCalls := [], events := [], sensed := fun _ => 0, allocatorAccepts := fun _ => true }

/-- The definition with lane 0 `[Dash, Dash]` for the role "a" and lane 1 `[Faulty]` for the
role "b", both between the sync points "start" and "end". No stub of it has a parameter
tree. -/
def faultyPlay : PlayFactory :=
  PlayFactory.addLanes emptyPlay
    [(some [dashStub, dashStub], "a", "start", "end"),
     (some [{ _name := "Faulty", _invocationParameters := none }], "b", "start", "end")]

/-- A tick at which the reading of lane 0 is 3 (its behaviour completes) and the reading of
lane 1 is 9. -/
def faultTick : Tick :=
  { sensed := fun i => if i = 0 then 3 else if i = 1 then 9 else 0,
    allocatorAccepts := fun _ => true, verdict := fun _ t => t }

/-- A Kick behaviour of the module at address 7, bound to the Role `role` and in the state
`state`. -/
def kickTactic (role : RolePtr) (state : ActionState) : Tactic :=
  { _gameplayModule := 7, _state := state, _evaluatesSuccess := true, _continuous := false,
    _role := some role, _parameters := none, klass := kickClass }

/-- A new Play of the parking definition whose pending-verdict queue holds four Kick
behaviours: the first and the third are EvaluatingSuccess, the second and the fourth are
Completed. -/
def sweepPlay : Play :=
  { freshPlay twoLanePlay with
    _tacticsAwaitingResults :=
      [kickTactic 0 .EvaluatingSuccess, kickTactic 1 .Completed,
       kickTactic 2 .EvaluatingSuccess, kickTactic 3 .Completed] }

/-- A tick before which every behaviour of the pending-verdict queue has become
Cancelled. -/
def verdictCancelledTick : Tick :=
  { sensed := fun _ => 0, allocatorAccepts := fun _ => true,
    verdict := fun _ t => { t with _state := .Cancelled } }

/-- The parking scenario after its first call of `update()`, when both lanes have started,
and then a call of `terminate()` on the Play. -/
def terminatedParking : Play × World :=
  ((Play.run [quietTick] (freshPlay twoLanePlay, populatedWorld)).1.terminate.2,
    (Play.run [quietTick] (freshPlay twoLanePlay, populatedWorld)).2)

/-- A definition in which the Role "a" is kept by one lane across the sync point "mid":
lane 0 is `[Move]` from "start" to "mid", lane 1 is `[Move]` from "mid" to "end", both for
the Role "a". -/
def relayPlay : PlayFactory :=
  PlayFactory.addLanes emptyPlay
    [(some [moveStub], "a", "start", "mid"),
     (some [moveStub], "a", "mid", "end")]

/-- A definition with two lanes `[Move]` from "start" to "end", both for the Role "a". -/
def twinPlay : PlayFactory :=
  PlayFactory.addLanes emptyPlay
    [(some [moveStub], "a", "start", "end"),
     (some [moveStub], "a", "start", "end")]

/-- A definition with the lane `[Halt]` for the Role "c" from "j" to "s" and the lane
`[Dash, Dash]` for the Role "b" from "k" to "s"; the sync points "j", "s", "k" have the
indices 0, 1, 2. No stub of it has a parameter tree. -/
def cascadePlay : PlayFactory :=
  PlayFactory.addLanes emptyPlay
    [(some [haltStub], "c", "j", "s"),
     (some [dashStub, dashStub], "b", "k", "s")]

/-- A tick at which every reading is 0 and the allocator can satisfy every request but the
one for the Role 1 alone. -/
def partlyRefusingTick : Tick :=
  { sensed := fun _ => 0, allocatorAccepts := fun roles => decide (roles ≠ [some 1]),
    verdict := fun _ t => t }

/-- A tick at which the reading of lane 1 is 3 (its behaviour completes) and every other
reading is 0. -/
def lane1DoneTick : Tick :=
  { sensed := fun i => if i = 1 then 3 else 0, allocatorAccepts := fun _ => true,
    verdict := fun _ t => t }

/-- A definition with two lanes `[Move, Move]` from "start" to "end", for the Roles "a" and
"b". -/
def longPlay : PlayFactory :=
  PlayFactory.addLanes emptyPlay
    [(some [moveStub, moveStub], "a", "start", "end"),
     (some [moveStub, moveStub], "b", "start", "end")]

/-- A Cancelled action that evaluates success. -/
def cancelledAction : Action :=
  { _gameplayModule := 7, _state := .Cancelled, _evaluatesSuccess := true,
    _continuous := false }

/-- A Running action that evaluates success. -/
def runningAction : Action :=
  { _gameplayModule := 7, _state := .Running, _evaluatesSuccess := true,
    _continuous := false }

/-! ## Theorems: the behaviour lifecycle -/

/-- C1 (as stated, refuted): asking a Failed action for the state Failed returns normally,
although Failed is a terminal state, so "succeeds iff s2 >= s1 and s1 is non-terminal"
fails at s1 = s2 = Failed. -/
theorem setState_same_terminal_state_returns :
    ¬ (returned (Action.setState
          { _gameplayModule := 0, _state := .Failed, _evaluatesSuccess := true,
            _continuous := false } .Failed).1 = true ↔
        (ActionState.Failed.toInt ≥ ActionState.Failed.toInt ∧
          ActionState.Failed.toInt ≤ ActionState.EvaluatingSuccess.toInt)) := by
  decide

/-- C1 (amended): `setState s2` on an action in state `s1` returns normally exactly when
`s2 = s1`, or `s2 >= s1` and `s1 <= EvaluatingSuccess`; when it returns normally the state
is `s2` and nothing else changed; in every other case it throws the invalid-transition
message and the action is exactly as before. -/
theorem setState_monotonic_transition (a : Action) (s2 : ActionState) :
    (returned (a.setState s2).1 = true ↔
      (s2 = a._state ∨
        (s2.toInt ≥ a._state.toInt ∧
          a._state.toInt ≤ ActionState.EvaluatingSuccess.toInt))) ∧
    (returned (a.setState s2).1 = true → (a.setState s2).2 = { a with _state := s2 }) ∧
    (returned (a.setState s2).1 = false →
      (a.setState s2).1 = .error "ERROR: invalid ActionState transition." ∧
        (a.setState s2).2 = a) := by
  obtain ⟨gm, s1, ev, co⟩ := a
  cases s1 <;> cases s2 <;>
    simp [Action.setState, Action.stateTransitionIsValid, Action.transition,
      ActionState.toInt, returned]

/-- C2: on an action whose state is Failed, Cancelled or Completed (`ACTION_STATE_IS_DONE`),
neither `setState s`, for any `s`, nor `terminate()` changes the state, whether the call
returns or throws; indeed the whole action is left as it was. -/
theorem terminal_states_absorbing (a : Action) (s : ActionState)
    (hdone : ACTION_STATE_IS_DONE a._state = true) :
    (a.setState s).2._state = a._state ∧ a.terminate.2._state = a._state ∧
      (a.setState s).2 = a ∧ a.terminate.2 = a := by
  obtain ⟨gm, s1, ev, co⟩ := a
  cases s1 <;> cases s <;> cases ev <;>
    simp_all [Action.setState, Action.terminate, Action.state, Action.stateTransitionIsValid,
      Action.transition, ActionState.toInt, ACTION_STATE_IS_DONE]

/-- Witness for C2: a Cancelled action that evaluates success, asked for Completed. -/
theorem terminal_states_absorbing_witness :
    ACTION_STATE_IS_DONE cancelledAction._state = true ∧
      ((cancelledAction.setState .Completed).2._state = cancelledAction._state ∧
        cancelledAction.terminate.2._state = cancelledAction._state ∧
        (cancelledAction.setState .Completed).2 = cancelledAction ∧
        cancelledAction.terminate.2 = cancelledAction) :=
  ⟨by decide, terminal_states_absorbing cancelledAction .Completed (by decide)⟩

/-- C3: on an action in a non-terminal state (SettingUp, Ready, Running, EvaluatingSuccess)
`terminate()` returns normally and leaves the state Cancelled when the action evaluates
success and Completed when it does not, the other members being untouched; and an action
that evaluates success and is already Completed stays Completed. -/
theorem terminate_result (a : Action) (hlive : ACTION_STATE_IS_DONE a._state = false) :
    a.terminate.1 = .ok () ∧
      a.terminate.2 =
        { a with _state := if a._evaluatesSuccess then .Cancelled else .Completed } ∧
      (∀ b : Action, b._evaluatesSuccess = true → b._state = .Completed →
        b.terminate = (.ok (), b)) := by
  obtain ⟨gm, s1, ev, co⟩ := a
  refine ⟨?_, ?_, ?_⟩
  · cases s1 <;> cases ev <;>
      simp_all [Action.setState, Action.terminate, Action.state,
        Action.stateTransitionIsValid, Action.transition, ActionState.toInt,
        ACTION_STATE_IS_DONE]
  · cases s1 <;> cases ev <;>
      simp_all [Action.setState, Action.terminate, Action.state,
        Action.stateTransitionIsValid, Action.transition, ActionState.toInt,
        ACTION_STATE_IS_DONE]
  · intro b hb hs
    simp [Action.terminate, Action.state, hb, hs]

/-- Witness for C3: a Running action that evaluates success is Cancelled by `terminate()`. -/
theorem terminate_result_witness :
    ACTION_STATE_IS_DONE runningAction._state = false ∧
      runningAction.terminate.1 = .ok () ∧
      runningAction.terminate.2 = { runningAction with _state := .Cancelled } :=
  ⟨by decide, (terminate_result runningAction (by decide)).1,
    (terminate_result runningAction (by decide)).2.1⟩

/-- C4 (the code at the failing inputs): `terminate()` throws the invalid-transition
message on a Failed action, for both values of `evaluatesSuccess`, and on a Cancelled
action that does not evaluate success; the action is left unchanged. It returns normally on
the three remaining terminal cases. -/
theorem terminate_throws_on_failed :
    (∀ gm co, Action.terminate
        { _gameplayModule := gm, _state := .Failed, _evaluatesSuccess := true,
          _continuous := co } =
      (.error "ERROR: invalid ActionState transition.",
        { _gameplayModule := gm, _state := .Failed, _evaluatesSuccess := true,
          _continuous := co })) ∧
    (∀ gm co, Action.terminate
        { _gameplayModule := gm, _state := .Failed, _evaluatesSuccess := false,
          _continuous := co } =
      (.error "ERROR: invalid ActionState transition.",
        { _gameplayModule := gm, _state := .Failed, _evaluatesSuccess := false,
          _continuous := co })) ∧
    (∀ gm co, Action.terminate
        { _gameplayModule := gm, _state := .Cancelled, _evaluatesSuccess := false,
          _continuous := co } =
      (.error "ERROR: invalid ActionState transition.",
        { _gameplayModule := gm, _state := .Cancelled, _evaluatesSuccess := false,
          _continuous := co })) ∧
    (∀ a : Action, (a._state = .Completed ∨ (a._state = .Cancelled ∧ a._evaluatesSuccess = true)) →
      a.terminate = (.ok (), a)) := by
  refine ⟨?_, ?_, ?_, ?_⟩
  · intro gm co
    simp [Action.terminate, Action.state, Action.setState, Action.stateTransitionIsValid,
      ActionState.toInt]
  · intro gm co
    simp [Action.terminate, Action.state, Action.setState, Action.stateTransitionIsValid,
      ActionState.toInt]
  · intro gm co
    simp [Action.terminate, Action.state, Action.setState, Action.stateTransitionIsValid,
      ActionState.toInt]
  · rintro ⟨gm, s1, ev, co⟩ h
    rcases h with h | ⟨h, he⟩
    · cases ev <;> simp_all [Action.terminate, Action.state, Action.setState]
    · simp_all [Action.terminate, Action.state, Action.setState]

/-! ## Lemmas: maps -/

/-- A lookup of the key of the first entry finds that entry. -/
theorem ptrMap_lookup_cons_eq {V : Type} (m : PtrMap V) (k : String) (b : Option V) :
    List.lookup k ((k, b) :: m) = some b := by
  simp [List.lookup]

/-- A lookup skips a first entry with another key. -/
theorem ptrMap_lookup_cons_ne {V : Type} (m : PtrMap V) (k a : String) (b : Option V) (h : k ≠ a) :
    List.lookup k ((a, b) :: m) = List.lookup k m := by
  have hb : (k == a) = false := by simpa using h
  simp [List.lookup, hb]

/-- Lookups after the in-place overwrite of the entry of `k`. -/
theorem ptrMap_lookup_map_assign {V : Type} (m : PtrMap V) (k : String) (v : Option V) (k2 : String) :
    List.lookup k2 (m.map (fun e => if e.1 == k then (k, v) else e)) =
      if k2 = k then (List.lookup k m).map (fun _ => v) else List.lookup k2 m := by
  induction m with
  | nil => simp
  | cons e m ih =>
    obtain ⟨a, b⟩ := e
    simp only [List.map_cons]
    by_cases hak : a = k
    · subst hak
      simp only [beq_self_eq_true, if_true]
      by_cases h2 : k2 = a
      · subst h2; simp [ptrMap_lookup_cons_eq]
      · rw [ptrMap_lookup_cons_ne _ _ _ _ h2, ih]; simp [h2, ptrMap_lookup_cons_ne _ _ _ _ h2]
    · have hka : k ≠ a := fun h => hak h.symm
      have hb : (a == k) = false := by simpa using hak
      simp only [hb, Bool.false_eq_true, if_false]
      by_cases h2 : k2 = k
      · subst h2
        rw [ptrMap_lookup_cons_ne _ _ _ _ hka, ptrMap_lookup_cons_ne _ _ _ _ hka, ih]
      · by_cases h3 : k2 = a
        · subst h3; simp [ptrMap_lookup_cons_eq, h2]
        · rw [ptrMap_lookup_cons_ne _ _ _ _ h3, ih]; simp [h2, ptrMap_lookup_cons_ne _ _ _ _ h3]

/-- Lookups after one entry was added at the end. -/
theorem ptrMap_lookup_snoc {V : Type} (m : PtrMap V) (k k2 : String) (v : Option V) :
    List.lookup k2 (m ++ [(k, v)]) =
      match List.lookup k2 m with
      | some w => some w
      | none => if k2 = k then some v else none := by
  induction m with
  | nil =>
    by_cases h : k2 = k
    · subst h; simp [ptrMap_lookup_cons_eq]
    · simp [ptrMap_lookup_cons_ne _ _ _ _ h, h]
  | cons e m ih =>
    obtain ⟨a, b⟩ := e
    by_cases h3 : k2 = a
    · subst h3; simp [ptrMap_lookup_cons_eq]
    · rw [List.cons_append, ptrMap_lookup_cons_ne _ _ _ _ h3, ptrMap_lookup_cons_ne _ _ _ _ h3, ih]

/-- After `m[k] = v`, `m[k]` reads `v` and every other key reads as before. -/
theorem ptrMap_read_assign {V : Type} (m : PtrMap V) (k : String) (v : Option V) (k2 : String) :
    (m.assign k v).read k2 = if k2 = k then v else m.read k2 := by
  unfold PtrMap.assign PtrMap.read
  cases hm : List.lookup k m with
  | none =>
    simp only [ptrMap_lookup_snoc]
    by_cases h2 : k2 = k
    · subst h2; simp [hm]
    · simp only [h2, if_false]
      cases List.lookup k2 m <;> simp
  | some w =>
    simp only [ptrMap_lookup_map_assign, hm]
    by_cases h2 : k2 = k
    · simp [h2]
    · simp [h2]

/-- The `NULL` entry that `operator[]` may add does not change what any key reads. -/
theorem ptrMap_read_touch {V : Type} (m : PtrMap V) (k k2 : String) :
    (m.touch k).read k2 = m.read k2 := by
  unfold PtrMap.touch PtrMap.read
  cases hm : List.lookup k m with
  | some w => simp
  | none =>
    simp only [ptrMap_lookup_snoc]
    by_cases h2 : k2 = k
    · subst h2; simp [hm]
    · simp only [h2, if_false]
      cases List.lookup k2 m <;> simp

/-! ## Theorems: the factory registry and stubs -/

/-- Setting the registry up twice is the same as setting it up once. -/
theorem setup_idem (g : FactoryStatics) :
    g._setupFactoryRegistryIfNecessary._setupFactoryRegistryIfNecessary =
      g._setupFactoryRegistryIfNecessary := by
  unfold FactoryStatics._setupFactoryRegistryIfNecessary
  by_cases h : g._factoryRegistryIsSetup <;> simp [h]

/-- Setting the registry up does not change what a level's map reads at a name. -/
theorem setup_read (g : FactoryStatics) (i : Nat) (name : String) :
    (g._setupFactoryRegistryIfNecessary._factoriesByLevel.getD i []).read name =
      (g._factoriesByLevel.getD i []).read name := by
  unfold FactoryStatics._setupFactoryRegistryIfNecessary
  by_cases h : g._factoryRegistryIsSetup
  · simp [h]
  · simp only [h, Bool.not_false, if_true, List.range_succ, List.range_zero, List.nil_append,
      List.foldl_append, List.foldl_cons, List.foldl_nil, List.append_assoc,
      List.singleton_append, Bool.false_eq_true, if_false]
    by_cases hi : i < g._factoriesByLevel.length
    · rw [List.getD_append _ _ _ _ hi]
    · have hi2 : g._factoriesByLevel.length ≤ i := Nat.le_of_not_lt hi
      rw [List.getD_append_right _ _ _ _ hi2, List.getD_eq_default _ _ hi2]
      generalize i - g._factoriesByLevel.length = k
      match k with
      | 0 => rfl
      | 1 => rfl
      | 2 => rfl
      | _ + 3 => rfl

/-- C5 (the code at the failing input): `registerFactory` leaves every lookup as it was:
`getRegisteredFactory` returns after `registerFactory(f, L)` what it returned before, for
every name and level; on the initial statics it returns `NULL` for `f.name()` instead of
`f`. The factory went into the local copy `registry` only. -/
theorem registerFactory_is_lost (f : ActionFactory) (L : ActionAbstractionLevel) :
    (∀ (g : FactoryStatics) (name : String) (L2 : ActionAbstractionLevel),
      ((g.registerFactory f L).getRegisteredFactory name L2).1 =
        (g.getRegisteredFactory name L2).1) ∧
    ((FactoryStatics.initial.registerFactory f L).getRegisteredFactory f.name L).1 = none ∧
    (∀ g : FactoryStatics, (g.registerFactoryLocal f L).read f.name = some f) := by
  refine ⟨?_, ?_, ?_⟩
  · intro g name L2
    simp [FactoryStatics.registerFactory, FactoryStatics.getRegisteredFactory, setup_idem]
  · simp only [FactoryStatics.registerFactory, FactoryStatics.getRegisteredFactory,
      setup_idem, setup_read]
    cases L <;> rfl
  · intro g
    simp [FactoryStatics.registerFactoryLocal, ptrMap_read_assign]

/-- C6: when the tactic-level map holds no factory under the stub's name (no entry, or a
`NULL` one), `instantiate` throws the lookup-failure message, returns no Tactic, and no
factory's `create` has been invoked. -/
theorem instantiate_unregistered (stub : TacticStub) (gm : Option GameplayModule) (w : World)
    (hnone : (w.statics._factoriesByLevel.getD ActionAbstractionLevel.Tactic.toNat []).read
      stub.name = none) :
    (stub.instantiate gm w).1 =
        .error ("ERROR: Unable to find factory for tactic named \x27" ++ stub.name ++ "\x27.") ∧
      returned (stub.instantiate gm w).1 = false ∧
      (stub.instantiate gm w).2.createCalls = w.createCalls := by
  have h : (w.statics.getRegisteredFactory stub.name .Tactic).1 = none := by
    simp only [FactoryStatics.getRegisteredFactory, setup_read]
    exact hnone
  simp only [FactoryStatics.getRegisteredFactory] at h
  simp only [TacticStub.instantiate, FactoryStatics.getRegisteredFactory, h, returned,
    and_self]

/-- Witness for C6: the stub `TacticStub("DoesNotExist")` in a world where "Halt" and "Move"
are the registered tactics. -/
theorem instantiate_unregistered_witness :
    (populatedWorld.statics._factoriesByLevel.getD ActionAbstractionLevel.Tactic.toNat []).read
        (TacticStub.name { _name := "DoesNotExist", _invocationParameters := none }) = none ∧
      returned (TacticStub.instantiate { _name := "DoesNotExist", _invocationParameters := none }
        (some 7) populatedWorld).1 = false ∧
      (TacticStub.instantiate { _name := "DoesNotExist", _invocationParameters := none }
        (some 7) populatedWorld).2.createCalls = [] :=
  ⟨rfl,
    (instantiate_unregistered { _name := "DoesNotExist", _invocationParameters := none }
      (some 7) populatedWorld rfl).2⟩

/-- C7: when the tactic-level map holds the factory `f` under the stub's name, `instantiate`
invokes `f.create(ctx)` once and nothing else; if `create` returns `t` and `parseParameters`
accepts the stub's parameters, the result is `t` with `_parameters` set to the stub's own
invocation parameters (what `setParameters` leaves); a throw of `create` or of
`parseParameters` is passed on. Only the tactic-level map is read: a world that differs in
the skill-level or play-level maps gives the same result. -/
theorem instantiate_registered (stub : TacticStub) (gm : Option GameplayModule) (w : World)
    (f : ActionFactory)
    (hreg : (w.statics._factoriesByLevel.getD ActionAbstractionLevel.Tactic.toNat []).read
      stub.name = some f) :
    (∀ t, f.create gm = .ok t →
      (t.setParameters stub._invocationParameters).1 = .ok () →
      (stub.instantiate gm w).1 = .ok (t.setParameters stub._invocationParameters).2 ∧
        (t.setParameters stub._invocationParameters).2 =
          { t with _parameters := stub._invocationParameters }) ∧
    (∀ t e, f.create gm = .ok t →
      (t.setParameters stub._invocationParameters).1 = .error e →
      (stub.instantiate gm w).1 = .error e) ∧
    (∀ e, f.create gm = .error e → (stub.instantiate gm w).1 = .error e) ∧
    (stub.instantiate gm w).2.createCalls = w.createCalls ++ [(f.name, gm)] ∧
    (∀ w2 : World,
      w2.statics._factoriesByLevel.getD ActionAbstractionLevel.Tactic.toNat [] =
        w.statics._factoriesByLevel.getD ActionAbstractionLevel.Tactic.toNat [] →
      (stub.instantiate gm w2).1 = (stub.instantiate gm w).1) := by
  have key : ∀ w3 : World,
      (w3.statics._factoriesByLevel.getD ActionAbstractionLevel.Tactic.toNat []).read
        stub.name = some f →
      (w3.statics._setupFactoryRegistryIfNecessary._factoriesByLevel.getD
        ActionAbstractionLevel.Tactic.toNat []).read stub.name = some f := by
    intro w3 h3
    rw [setup_read]; exact h3
  have h := key w hreg
  refine ⟨?_, ?_, ?_, ?_, ?_⟩
  · intro t ht hp
    refine ⟨?_, rfl⟩
    cases hsp : t.setParameters stub._invocationParameters with
    | mk r t1 =>
      rw [hsp] at hp
      simp only at hp
      subst hp
      simp only [TacticStub.instantiate, FactoryStatics.getRegisteredFactory, h, ht, hsp]
  · intro t e ht hp
    cases hsp : t.setParameters stub._invocationParameters with
    | mk r t1 =>
      rw [hsp] at hp
      simp only at hp
      subst hp
      simp only [TacticStub.instantiate, FactoryStatics.getRegisteredFactory, h, ht, hsp]
  · intro e he
    simp only [TacticStub.instantiate, FactoryStatics.getRegisteredFactory, h, he]
  · simp only [TacticStub.instantiate, FactoryStatics.getRegisteredFactory, h]
    cases f.create gm with
    | error e => rfl
    | ok t =>
      simp only
      cases hsp : t.setParameters stub._invocationParameters with
      | mk r t1 => cases r <;> rfl
  · intro w2 h2
    have h2k := key w2 (by rw [h2]; exact hreg)
    simp only [TacticStub.instantiate, FactoryStatics.getRegisteredFactory, h, h2k]
    cases f.create gm with
    | error e => rfl
    | ok t =>
      simp only
      cases hsp : t.setParameters stub._invocationParameters with
      | mk r t1 => cases r <;> rfl

/-- Witness for C7: the "Move" stub in a world whose tactic-level map holds `moveFactory`
under "Move" while the skill-level map holds another factory of that name. -/
theorem instantiate_registered_witness :
    (populatedWorld.statics._factoriesByLevel.getD ActionAbstractionLevel.Tactic.toNat []).read
        moveStub.name = some moveFactory ∧
      moveFactory.create (some 7) = .ok newMoveTactic ∧
      (newMoveTactic.setParameters moveStub._invocationParameters).1 = .ok () ∧
      (moveStub.instantiate (some 7) populatedWorld).1 =
        .ok (newMoveTactic.setParameters moveStub._invocationParameters).2 ∧
      (moveStub.instantiate (some 7) populatedWorld).2.createCalls = [("Move", some 7)] :=
  ⟨rfl, rfl, rfl,
    ((instantiate_registered moveStub (some 7) populatedWorld moveFactory rfl).1
      newMoveTactic rfl rfl).1,
    (instantiate_registered moveStub (some 7) populatedWorld moveFactory rfl).2.2.2.1⟩

/-! ## Theorems: the play definition -/

/-- The step of `updateRoleRequirements` writes to Role objects only. -/
theorem updateRoleRequirements_fold_frame (uninit : Nat → RobotRequirements) (l : List Nat)
    (acc : PlayFactory × FactoryStatics) :
    ∃ objs, (l.foldl
      (fun (acc : PlayFactory × FactoryStatics) seqIdx =>
        let sequence := acc.1.tacticSequenceAtIndex seqIdx
        let role := acc.1.roleForTacticSequenceAtIndex seqIdx
        let (reqs, g1) := PlayFactory.sequenceRequirements sequence (uninit seqIdx) acc.2
        match role with
        | none => (acc.1, g1)
        | some r =>
          ({ acc.1 with
              roleObjects :=
                acc.1.roleObjects.modify
                  (fun o => { o with robotRequirements := reqs ||| o.robotRequirements }) r },
            g1))
      acc).1 = { acc.1 with roleObjects := objs } := by
  induction l generalizing acc with
  | nil => exact ⟨acc.1.roleObjects, rfl⟩
  | cons i l ih =>
    simp only [List.foldl_cons]
    cases hr : acc.1.roleForTacticSequenceAtIndex i with
    | none =>
      obtain ⟨objs, h⟩ := ih
        ((acc.1, (PlayFactory.sequenceRequirements (acc.1.tacticSequenceAtIndex i) (uninit i)
          acc.2).2))
      exact ⟨objs, h⟩
    | some r =>
      obtain ⟨objs, h⟩ := ih
        (({ acc.1 with
            roleObjects :=
              acc.1.roleObjects.modify
                (fun o =>
                  { o with
                    robotRequirements :=
                      (PlayFactory.sequenceRequirements (acc.1.tacticSequenceAtIndex i) (uninit i)
                        acc.2).1 ||| o.robotRequirements }) r },
          (PlayFactory.sequenceRequirements (acc.1.tacticSequenceAtIndex i) (uninit i) acc.2).2))
      exact ⟨objs, h⟩

/-- After `finalize()` the factory is finalized, and everything but the Role objects is as
before. -/
theorem finalize_frame (uninit : Nat → RobotRequirements) (pf : PlayFactory) (g : FactoryStatics) :
    ∃ objs, (pf.finalize uninit g).1 = { pf with _finalized := true, roleObjects := objs } := by
  obtain ⟨objs, h⟩ := updateRoleRequirements_fold_frame uninit
    (List.range pf._rolesByTacticSequenceIndex.length) ({ pf with _finalized := true }, g)
  exact ⟨objs, h⟩

/-- C8: `addTacticSequence` throws for an empty and for a `NULL` tactic sequence, on every
definition; and on a definition on which `finalize()` has been called, `addTacticSequence`
throws whatever its arguments and so does `addSyncPointNamed`. In all these cases the
definition is left as it was. -/
theorem definition_mutation_rules :
    (∀ (pf : PlayFactory) (roleName startSyncPoint endSyncPoint : String),
      threw (pf.addTacticSequence (some []) roleName startSyncPoint endSyncPoint).1 = true ∧
      (pf.addTacticSequence (some []) roleName startSyncPoint endSyncPoint).2 = pf ∧
      threw (pf.addTacticSequence none roleName startSyncPoint endSyncPoint).1 = true ∧
      (pf.addTacticSequence none roleName startSyncPoint endSyncPoint).2 = pf) ∧
    (∀ (uninit : Nat → RobotRequirements) (pf : PlayFactory) (g : FactoryStatics)
        (sequence : Option TacticSequence) (roleName startSyncPoint endSyncPoint : String),
      ((pf.finalize uninit g).1.addTacticSequence sequence roleName startSyncPoint
          endSyncPoint) =
        (.error "ERROR: Attempt to mutate PlayFactory after it has been finalized",
          (pf.finalize uninit g).1)) ∧
    (∀ (uninit : Nat → RobotRequirements) (pf : PlayFactory) (g : FactoryStatics) (name : String),
      (pf.finalize uninit g).1.addSyncPointNamed name =
        (.error "ERROR: addSyncPoint() called on finalized PlayFactory",
          (pf.finalize uninit g).1)) := by
  refine ⟨?_, ?_, ?_⟩
  · intro pf r s e
    by_cases hf : pf._finalized <;>
      simp [PlayFactory.addTacticSequence, PlayFactory.ensureTacticSequenceValidity, hf, threw]
  · intro uninit pf g sequence r s e
    obtain ⟨objs, h⟩ := finalize_frame uninit pf g
    have hf : (pf.finalize uninit g).1._finalized = true := by rw [h]
    simp [PlayFactory.addTacticSequence, hf]
  · intro uninit pf g name
    obtain ⟨objs, h⟩ := finalize_frame uninit pf g
    have hf : (pf.finalize uninit g).1._finalized = true := by rw [h]
    simp [PlayFactory.addSyncPointNamed, hf]

/-- The loop of `ensureTacticSequenceValidity` rejects nothing. -/
theorem ensureTacticSequenceValidity_loop (seq : TacticSequence) (l : List Nat) :
    l.foldl
      (fun (r : Except String Unit) i =>
        match r with
        | .error e => .error e
        | .ok () =>
          let _stub := seq.get? i
          .ok ())
      (.ok ()) = .ok () := by
  induction l with
  | nil => rfl
  | cons i l ih => simpa using ih

/-- Every sequence that is neither `NULL` nor empty passes `ensureTacticSequenceValidity`. -/
theorem ensureTacticSequenceValidity_nonempty (seq : TacticSequence) (hne : seq ≠ []) :
    PlayFactory.ensureTacticSequenceValidity (some seq) = .ok () := by
  have hlen : seq.length ≠ 0 := by
    intro h; exact hne (List.length_eq_zero.mp h)
  simp only [PlayFactory.ensureTacticSequenceValidity, hlen, if_false]
  exact ensureTacticSequenceValidity_loop seq _

/-- C9 (the code at the failing input): the sequence `[Halt, Move]`, whose first stub names
the continuous tactic `Halt`, passes `ensureTacticSequenceValidity`, and `addTacticSequence`
returns normally with the sequence added as lane 0 of a new definition. -/
theorem continuous_before_last_is_accepted :
    haltFactory.klass.continuous = true ∧
    (haltFactory.create (some 7)).map (fun t => t._continuous) = .ok true ∧
    PlayFactory.ensureTacticSequenceValidity (some [haltStub, moveStub]) = .ok () ∧
    ((PlayFactory.new "p" "" FactoryStatics.initial).1.addTacticSequence
        (some [haltStub, moveStub]) "r" "start" "end").1 = .ok () ∧
    ((PlayFactory.new "p" "" FactoryStatics.initial).1.addTacticSequence
        (some [haltStub, moveStub]) "r" "start" "end").2._tacticSequences =
      [[haltStub, moveStub]] := by
  exact ⟨rfl, rfl, rfl, rfl, rfl⟩

/-! ## Lemmas: vectors and the sync-point table -/

/-- Reading a vector at the position that was modified. -/
theorem getD_modify_same {α : Type} (f : α → α) (l : List α) (n : Nat) (d : α)
    (h : n < l.length) : (l.modify f n).getD n d = f (l.getD n d) := by
  simp only [List.getD_eq_getElem?_getD, List.getElem?_modify]
  rw [List.getElem?_eq_getElem h]
  simp

/-- Reading a vector at another position than the modified one. -/
theorem getD_modify_other {α : Type} (f : α → α) (l : List α) (n m : Nat) (d : α)
    (h : n ≠ m) : (l.modify f n).getD m d = l.getD m d := by
  simp only [List.getD_eq_getElem?_getD, List.getElem?_modify]
  cases l[m]? <;> simp [h]

/-- Adding a sync point with an empty list changes the list of no name. -/
theorem byName_snoc (names : List String) (outs : List (List Nat)) (s name : String)
    (hlen : outs.length = names.length) :
    (outs ++ [[]]).getD ((names ++ [s]).indexOf name) [] =
      outs.getD (names.indexOf name) [] := by
  by_cases hm : name ∈ names
  · rw [List.indexOf_append_of_mem hm]
    have hlt : names.indexOf name < outs.length := by
      rw [hlen]; exact List.indexOf_lt_length.mpr hm
    rw [List.getD_append _ _ _ _ hlt]
  · rw [List.indexOf_append_of_not_mem hm]
    have h1 : names.indexOf name = names.length := List.indexOf_eq_length.mpr hm
    have hr : outs.getD (names.indexOf name) [] = [] := by
      rw [h1]; exact List.getD_eq_default _ _ (by omega)
    rw [hr, List.getD_append_right _ _ _ _ (by omega), hlen, Nat.add_sub_cancel_left]
    by_cases hns : name = s
    · subst hns; simp
    · have hb : (s == name) = false := by simpa using fun h => hns h.symm
      have h2 : List.indexOf name [s] = 1 := by
        simp [List.indexOf_cons, hb]
      rw [h2]; rfl

/-- Modifying the list of the sync point `s` changes the list of `s` and of no other name. -/
theorem byName_modify (names : List String) (outs : List (List Nat)) (s name : String)
    (f : List Nat → List Nat) (hs : s ∈ names) (hlen : outs.length = names.length) :
    (outs.modify f (names.indexOf s)).getD (names.indexOf name) [] =
      if name = s then f (outs.getD (names.indexOf s) [])
      else outs.getD (names.indexOf name) [] := by
  by_cases hns : name = s
  · subst hns
    simp only [if_true]
    apply getD_modify_same
    rw [hlen]; exact List.indexOf_lt_length.mpr hs
  · simp only [hns, if_false]
    apply getD_modify_other
    intro h
    by_cases hm : name ∈ names
    · exact hns ((List.indexOf_inj hs hm).mp h).symm
    · have h1 : names.indexOf name = names.length := List.indexOf_eq_length.mpr hm
      have h2 : names.indexOf s < names.length := List.indexOf_lt_length.mpr hs
      omega

/-- What `indexForSyncPointNamed` does on a definition that is not finalized: it returns the
position of the name, after having added the name with two empty lists when it was new. -/
theorem indexForSyncPointNamed_spec (pf : PlayFactory) (name : String)
    (hfin : pf._finalized = false)
    (hin : pf._syncPointInputs.length = pf._syncPointNames.length)
    (hout : pf._syncPointOutputs.length = pf._syncPointNames.length)
    (hnd : pf._syncPointNames.Nodup) :
    ∃ pf2 : PlayFactory,
      pf.indexForSyncPointNamed name = (.ok (pf2._syncPointNames.indexOf name), pf2) ∧
      name ∈ pf2._syncPointNames ∧
      pf2._syncPointNames =
        pf._syncPointNames ++ (if name ∈ pf._syncPointNames then [] else [name]) ∧
      pf2._syncPointInputs.length = pf2._syncPointNames.length ∧
      pf2._syncPointOutputs.length = pf2._syncPointNames.length ∧
      pf2._syncPointNames.Nodup ∧
      (∀ k, pf2.inputsOfSyncPointNamed k = pf.inputsOfSyncPointNamed k) ∧
      (∀ k, pf2.outputsOfSyncPointNamed k = pf.outputsOfSyncPointNamed k) ∧
      pf2 = { pf with
        _syncPointNames := pf2._syncPointNames,
        _syncPointInputs := pf2._syncPointInputs,
        _syncPointOutputs := pf2._syncPointOutputs } := by
  by_cases hm : name ∈ pf._syncPointNames
  · refine ⟨pf, ?_, hm, by simp [hm], hin, hout, hnd, fun _ => rfl, fun _ => rfl, rfl⟩
    have hne : pf._syncPointNames.indexOf name ≠ pf._syncPointNames.length :=
      fun h => (List.indexOf_eq_length.mp h) hm
    simp [PlayFactory.indexForSyncPointNamed, hne]
  · have heq : pf._syncPointNames.indexOf name = pf._syncPointNames.length :=
      List.indexOf_eq_length.mpr hm
    refine ⟨{ pf with
        _syncPointNames := pf._syncPointNames ++ [name],
        _syncPointInputs := pf._syncPointInputs ++ [[]],
        _syncPointOutputs := pf._syncPointOutputs ++ [[]] }, ?_, by simp, by simp [hm],
      by simp [hin], by simp [hout], ?_, ?_, ?_, rfl⟩
    · have hidx : (pf._syncPointNames ++ [name]).indexOf name = pf._syncPointNames.length := by
        rw [List.indexOf_append_of_not_mem hm]; simp
      simp [PlayFactory.indexForSyncPointNamed, PlayFactory.addSyncPointNamed, heq, hfin, hidx]
    · exact List.Nodup.append hnd (List.nodup_singleton _) (by simpa using hm)
    · intro k
      exact byName_snoc _ _ _ _ hin
    · intro k
      exact byName_snoc _ _ _ _ hout

/-- The call `indexForSyncPointNamed`, read from its outcome. -/
theorem indexForSyncPointNamed_outcome (pf : PlayFactory) (name : String)
    (res : Except String Nat) (pf2 : PlayFactory)
    (hcall : pf.indexForSyncPointNamed name = (res, pf2))
    (hfin : pf._finalized = false)
    (hin : pf._syncPointInputs.length = pf._syncPointNames.length)
    (hout : pf._syncPointOutputs.length = pf._syncPointNames.length)
    (hnd : pf._syncPointNames.Nodup) :
    res = .ok (pf2._syncPointNames.indexOf name) ∧
      name ∈ pf2._syncPointNames ∧
      pf2._syncPointNames =
        pf._syncPointNames ++ (if name ∈ pf._syncPointNames then [] else [name]) ∧
      pf2._syncPointInputs.length = pf2._syncPointNames.length ∧
      pf2._syncPointOutputs.length = pf2._syncPointNames.length ∧
      pf2._syncPointNames.Nodup ∧
      (∀ k, pf2.inputsOfSyncPointNamed k = pf.inputsOfSyncPointNamed k) ∧
      (∀ k, pf2.outputsOfSyncPointNamed k = pf.outputsOfSyncPointNamed k) ∧
      pf2 = { pf with
        _syncPointNames := pf2._syncPointNames,
        _syncPointInputs := pf2._syncPointInputs,
        _syncPointOutputs := pf2._syncPointOutputs } := by
  obtain ⟨pf3, h3, hrest⟩ := indexForSyncPointNamed_spec pf name hfin hin hout hnd
  rw [h3] at hcall
  have h1 : res = .ok (pf3._syncPointNames.indexOf name) := (congrArg Prod.fst hcall).symm
  have h2 : pf2 = pf3 := (congrArg Prod.snd hcall).symm
  subst h2
  exact ⟨h1, hrest⟩

/-- The last two statements of `addTacticSequence`, once both sync points are there: lane
`n` goes to the end of the outputs of `s` and of the inputs of `e`, nothing else moves. -/
theorem link_lane (pf4 pf6 pf8 : PlayFactory) (s e : String) (n : Nat)
    (hs : s ∈ pf6._syncPointNames) (he : e ∈ pf6._syncPointNames)
    (hin : pf6._syncPointInputs.length = pf6._syncPointNames.length)
    (hout : pf6._syncPointOutputs.length = pf6._syncPointNames.length)
    (hvin : ∀ k, pf6.inputsOfSyncPointNamed k = pf4.inputsOfSyncPointNamed k)
    (hvout : ∀ k, pf6.outputsOfSyncPointNamed k = pf4.outputsOfSyncPointNamed k)
    (h8n : pf8._syncPointNames = pf6._syncPointNames)
    (h8o : pf8._syncPointOutputs =
      pf6._syncPointOutputs.modify (fun v => v ++ [n]) (pf6._syncPointNames.indexOf s))
    (h8i : pf8._syncPointInputs =
      pf6._syncPointInputs.modify (fun v => v ++ [n]) (pf6._syncPointNames.indexOf e)) :
    pf8.outputsOfSyncPointNamed s = pf4.outputsOfSyncPointNamed s ++ [n] ∧
      pf8.inputsOfSyncPointNamed e = pf4.inputsOfSyncPointNamed e ++ [n] ∧
      (∀ k, k ≠ s → pf8.outputsOfSyncPointNamed k = pf4.outputsOfSyncPointNamed k) ∧
      (∀ k, k ≠ e → pf8.inputsOfSyncPointNamed k = pf4.inputsOfSyncPointNamed k) ∧
      pf8._syncPointInputs.length = pf8._syncPointNames.length ∧
      pf8._syncPointOutputs.length = pf8._syncPointNames.length := by
  have ho : ∀ k, pf8.outputsOfSyncPointNamed k =
      if k = s then pf6.outputsOfSyncPointNamed s ++ [n]
      else pf6.outputsOfSyncPointNamed k := by
    intro k
    simp only [PlayFactory.outputsOfSyncPointNamed, h8n, h8o]
    exact byName_modify _ _ _ _ _ hs hout
  have hi : ∀ k, pf8.inputsOfSyncPointNamed k =
      if k = e then pf6.inputsOfSyncPointNamed e ++ [n]
      else pf6.inputsOfSyncPointNamed k := by
    intro k
    simp only [PlayFactory.inputsOfSyncPointNamed, h8n, h8i]
    exact byName_modify _ _ _ _ _ he hin
  refine ⟨?_, ?_, ?_, ?_, ?_, ?_⟩
  · rw [ho, if_pos rfl, hvout]
  · rw [hi, if_pos rfl, hvin]
  · intro k hk
    rw [ho, if_neg hk, hvout]
  · intro k hk
    rw [hi, if_neg hk, hvin]
  · rw [h8i, h8n, List.length_modify, hin]
  · rw [h8o, h8n, List.length_modify, hout]

/-- A pointer that `_rolesByName` reads is stored in one of its entries. -/
theorem ptrMap_read_some_mem {V : Type} (m : PtrMap V) (k : String) (p : V)
    (h : m.read k = some p) : (k, some p) ∈ m := by
  unfold PtrMap.read at h
  cases hl : List.lookup k m with
  | none => rw [hl] at h; cases h
  | some v =>
    rw [hl] at h
    simp only at h
    subst h
    induction m with
    | nil => simp at hl
    | cons x m ih =>
      obtain ⟨a, b⟩ := x
      by_cases hka : k = a
      · subst hka
        rw [ptrMap_lookup_cons_eq] at hl
        cases hl
        exact List.mem_cons_self _ _
      · rw [ptrMap_lookup_cons_ne _ _ _ _ hka] at hl
        exact List.mem_cons_of_mem _ (ih hl)

/-- In a well-formed definition, a pointer that `_rolesByName` reads under `k` is to a Role
object named `k` that some lane is bound to. -/
theorem wellFormed_map_role (pf : PlayFactory) (hwf : pf.WellFormed) (k : String) (p : RolePtr)
    (h : pf._rolesByName.read k = some p) :
    (pf.roleObjects[p]?).map Role.name = some k ∧ some p ∈ pf._rolesByTacticSequenceIndex := by
  have hm := hwf.2.2.2.2.2 (k, some p) (ptrMap_read_some_mem _ _ _ h)
  simp only [PlayFactory.mapEntryBound, h, Bool.and_eq_true, decide_eq_true_eq] at hm
  exact hm

/-- In a well-formed definition, the Role pointer of a lane is to a Role object under whose
name `_rolesByName` reads that pointer. -/
theorem wellFormed_lane_role (pf : PlayFactory) (hwf : pf.WellFormed) (x : Option RolePtr)
    (hx : x ∈ pf._rolesByTacticSequenceIndex) :
    ∃ p r, x = some p ∧ pf.roleObjects[p]? = some r ∧ pf._rolesByName.read r.name = some p := by
  have hb := hwf.2.2.2.2.1 x hx
  cases x with
  | none => simp [PlayFactory.laneRoleBound] at hb
  | some p =>
    cases hr : pf.roleObjects[p]? with
    | none => simp [PlayFactory.laneRoleBound, hr] at hb
    | some r =>
      simp only [PlayFactory.laneRoleBound, hr, decide_eq_true_eq] at hb
      exact ⟨p, r, rfl, hr, hb⟩

/-- The sync-point part of `addTacticSequence`, read from the outcomes of its two calls of
`indexForSyncPointNamed`: both return normally, and afterwards both names are there, a new
name was added at the end, lane `n` is at the end of the outputs of `s` and of the inputs of
`e`, and no other list changed. -/
theorem link_outcome (pf4 pf5 pf6 pf8 : PlayFactory) (s e : String) (n si ei : Nat)
    (h1 : pf4.indexForSyncPointNamed s = (.ok si, pf5))
    (h2 : pf5.indexForSyncPointNamed e = (.ok ei, pf6))
    (hfin : pf4._finalized = false)
    (hin : pf4._syncPointInputs.length = pf4._syncPointNames.length)
    (hout : pf4._syncPointOutputs.length = pf4._syncPointNames.length)
    (hnd : pf4._syncPointNames.Nodup)
    (h8n : pf8._syncPointNames = pf6._syncPointNames)
    (h8o : pf8._syncPointOutputs = pf6._syncPointOutputs.modify (fun v => v ++ [n]) si)
    (h8i : pf8._syncPointInputs = pf6._syncPointInputs.modify (fun v => v ++ [n]) ei) :
    (pf8._syncPointNames =
        pf4._syncPointNames ++ (if s ∈ pf4._syncPointNames then [] else [s]) ++
          (if e ∈ pf4._syncPointNames ∨ e = s then [] else [e]) ∧
      s ∈ pf8._syncPointNames ∧ e ∈ pf8._syncPointNames ∧ pf8._syncPointNames.Nodup) ∧
    (pf8.outputsOfSyncPointNamed s = pf4.outputsOfSyncPointNamed s ++ [n] ∧
      pf8.inputsOfSyncPointNamed e = pf4.inputsOfSyncPointNamed e ++ [n] ∧
      (∀ k, k ≠ s → pf8.outputsOfSyncPointNamed k = pf4.outputsOfSyncPointNamed k) ∧
      (∀ k, k ≠ e → pf8.inputsOfSyncPointNamed k = pf4.inputsOfSyncPointNamed k) ∧
      pf8._syncPointInputs.length = pf8._syncPointNames.length ∧
      pf8._syncPointOutputs.length = pf8._syncPointNames.length) ∧
    (pf6._tacticSequences = pf4._tacticSequences ∧
      pf6._rolesByTacticSequenceIndex = pf4._rolesByTacticSequenceIndex ∧
      pf6._rolesByName = pf4._rolesByName ∧ pf6.roleObjects = pf4.roleObjects ∧
      pf6._finalized = pf4._finalized ∧ pf6._name = pf4._name ∧
      pf6._enabled = pf4._enabled ∧ pf6._category = pf4._category) := by
  obtain ⟨hr5, hs5, hn5, hin5, hout5, hnd5, hvi5, hvo5, heq5⟩ :=
    indexForSyncPointNamed_outcome pf4 s _ pf5 h1 hfin hin hout hnd
  have hfin5 : pf5._finalized = false := by
    have a : pf5._finalized = pf4._finalized := by rw [heq5]
    exact a.trans hfin
  obtain ⟨hr6, he6, hn6, hin6, hout6, hnd6, hvi6, hvo6, heq6⟩ :=
    indexForSyncPointNamed_outcome pf5 e _ pf6 h2 hfin5 hin5 hout5 hnd5
  have hs6 : s ∈ pf6._syncPointNames := by
    rw [hn6]; exact List.mem_append_left _ hs5
  have hsi : si = pf6._syncPointNames.indexOf s := by
    have h := Except.ok.inj hr5
    rw [h, hn6, List.indexOf_append_of_mem hs5]
  have hei : ei = pf6._syncPointNames.indexOf e := Except.ok.inj hr6
  subst hsi hei
  refine ⟨⟨?_, ?_, ?_, ?_⟩, ?_, ?_⟩
  · rw [h8n, hn6, hn5]
    congr 1
    by_cases he4 : e ∈ pf4._syncPointNames
    · simp [he4]
    · by_cases hes : e = s
      · subst hes
        by_cases hs4 : e ∈ pf4._syncPointNames
        · exact absurd hs4 he4
        · simp [hs4]
      · by_cases hs4 : s ∈ pf4._syncPointNames <;> simp [hs4, he4, hes]
  · rw [h8n]; exact hs6
  · rw [h8n]; exact he6
  · rw [h8n]; exact hnd6
  · exact link_lane pf4 pf6 pf8 s e n hs6 he6 hin6 hout6
      (fun k => (hvi6 k).trans (hvi5 k)) (fun k => (hvo6 k).trans (hvo5 k)) h8n h8o h8i
  · refine ⟨?_, ?_, ?_, ?_, ?_, ?_, ?_, ?_⟩
    · have a : pf6._tacticSequences = pf5._tacticSequences := by rw [heq6]
      have b : pf5._tacticSequences = pf4._tacticSequences := by rw [heq5]
      exact a.trans b
    · have a : pf6._rolesByTacticSequenceIndex = pf5._rolesByTacticSequenceIndex := by rw [heq6]
      have b : pf5._rolesByTacticSequenceIndex = pf4._rolesByTacticSequenceIndex := by rw [heq5]
      exact a.trans b
    · have a : pf6._rolesByName = pf5._rolesByName := by rw [heq6]
      have b : pf5._rolesByName = pf4._rolesByName := by rw [heq5]
      exact a.trans b
    · have a : pf6.roleObjects = pf5.roleObjects := by rw [heq6]
      have b : pf5.roleObjects = pf4.roleObjects := by rw [heq5]
      exact a.trans b
    · have a : pf6._finalized = pf5._finalized := by rw [heq6]
      have b : pf5._finalized = pf4._finalized := by rw [heq5]
      exact a.trans b
    · have a : pf6._name = pf5._name := by rw [heq6]
      have b : pf5._name = pf4._name := by rw [heq5]
      exact a.trans b
    · have a : pf6._enabled = pf5._enabled := by rw [heq6]
      have b : pf5._enabled = pf4._enabled := by rw [heq5]
      exact a.trans b
    · have a : pf6._category = pf5._category := by rw [heq6]
      have b : pf5._category = pf4._category := by rw [heq5]
      exact a.trans b

/-- On a definition that is not finalized `indexForSyncPointNamed` does not throw. -/
theorem indexForSyncPointNamed_no_throw (pf pf2 : PlayFactory) (name msg : String)
    (hfin : pf._finalized = false)
    (h : pf.indexForSyncPointNamed name = (.error msg, pf2)) : False := by
  unfold PlayFactory.indexForSyncPointNamed PlayFactory.addSyncPointNamed at h
  simp only [hfin, Bool.false_eq_true, if_false] at h
  split at h
  · cases h
  · cases h

/-- Well-formedness is kept when a lane is added whose Role pointer `p` is to an object of
the lane's role name and is what `_rolesByName` reads under that name from then on. -/
theorem wellFormed_extend (pf pf8 : PlayFactory) (roleName : String) (p : RolePtr) (r0 : Role)
    (hwf : pf.WellFormed)
    (hseq : pf8._tacticSequences.length = pf._tacticSequences.length + 1)
    (hroles : pf8._rolesByTacticSequenceIndex = pf._rolesByTacticSequenceIndex ++ [some p])
    (hin : pf8._syncPointInputs.length = pf8._syncPointNames.length)
    (hout : pf8._syncPointOutputs.length = pf8._syncPointNames.length)
    (hnd : pf8._syncPointNames.Nodup)
    (hobjs : ∀ (q : Nat) (r : Role),
      pf.roleObjects[q]? = some r → pf8.roleObjects[q]? = some r)
    (hp : pf8.roleObjects[p]? = some r0) (hname : r0.name = roleName)
    (hread : ∀ k, pf8._rolesByName.read k =
      if k = roleName then some p else pf._rolesByName.read k)
    (hold : ∀ q : RolePtr, pf._rolesByName.read roleName = some q → q = p) :
    pf8.WellFormed := by
  refine ⟨?_, hin, hout, hnd, ?_, ?_⟩
  · rw [hroles, hseq, List.length_append, hwf.1]; rfl
  · intro x hx
    rw [hroles, List.mem_append, List.mem_singleton] at hx
    rcases hx with hx | hx
    · obtain ⟨q, r, rfl, hq, hrd⟩ := wellFormed_lane_role pf hwf x hx
      have hrd8 : pf8._rolesByName.read r.name = some q := by
        rw [hread]
        by_cases hn : r.name = roleName
        · rw [if_pos hn, ← hold q (hn ▸ hrd)]
        · rw [if_neg hn]; exact hrd
      simp [PlayFactory.laneRoleBound, hobjs q r hq, hrd8]
    · subst hx
      have hrd8 : pf8._rolesByName.read r0.name = some p := by
        rw [hread, if_pos hname]
      simp [PlayFactory.laneRoleBound, hp, hrd8]
  · intro e _
    unfold PlayFactory.mapEntryBound
    rw [hread]
    by_cases hk : e.1 = roleName
    · rw [if_pos hk]
      simp [hp, hname, hk, hroles]
    · rw [if_neg hk]
      cases hrd : pf._rolesByName.read e.1 with
      | none => rfl
      | some q =>
        obtain ⟨hq, hmem⟩ := wellFormed_map_role pf hwf e.1 q hrd
        cases hobj : pf.roleObjects[q]? with
        | none => rw [hobj] at hq; cases hq
        | some r =>
          rw [hobj] at hq
          simp only [Option.map_some', Option.some.injEq] at hq
          simp [hobjs q r hobj, hq, hroles, hmem]

/-- In a well-formed definition a lane whose Role object has the name `roleName` is bound
to the pointer `_rolesByName` reads under `roleName`. -/
theorem roleNameOfLane_read (pf : PlayFactory) (hwf : pf.WellFormed) (i : Nat)
    (roleName : String) (h : pf.roleNameOfLane i = some roleName) :
    ∃ q, pf.roleForTacticSequenceAtIndex i = some q ∧ pf._rolesByName.read roleName = some q := by
  unfold PlayFactory.roleNameOfLane at h
  cases hq : pf.roleForTacticSequenceAtIndex i with
  | none => rw [hq] at h; cases h
  | some q =>
    rw [hq] at h
    simp only at h
    refine ⟨q, rfl, ?_⟩
    have hmem : some q ∈ pf._rolesByTacticSequenceIndex := by
      unfold PlayFactory.roleForTacticSequenceAtIndex at hq
      rw [List.getD_eq_getElem?_getD] at hq
      cases hi : pf._rolesByTacticSequenceIndex[i]? with
      | none => rw [hi] at hq; cases hq
      | some x =>
        rw [hi] at hq
        simp only [Option.getD_some] at hq
        subst hq
        exact List.getElem?_mem hi
    obtain ⟨p, r, hp, hr, hrd⟩ := wellFormed_lane_role pf hwf _ hmem
    cases hp
    rw [hr] at h
    simp only [Option.map_some', Option.some.injEq] at h
    rw [← h]; exact hrd

/-- A pointer some lane is bound to is the pointer of a lane position. -/
theorem lane_of_mem (pf : PlayFactory) (p : RolePtr)
    (h : some p ∈ pf._rolesByTacticSequenceIndex) :
    ∃ i, pf.roleForTacticSequenceAtIndex i = some p := by
  obtain ⟨i, hi⟩ := List.getElem?_of_mem h
  exact ⟨i, by simp [PlayFactory.roleForTacticSequenceAtIndex, List.getD_eq_getElem?_getD, hi]⟩

/-- What a successful `addTacticSequence` writes: the lane, its Role pointer (the one
`_rolesByName` reads under `roleName`, else a new Role object), the two sync points and the
lane in their lists; the definition stays well-formed and not finalized. -/
theorem addTacticSequence_effect (pf : PlayFactory) (seq : TacticSequence)
    (roleName startSyncPoint endSyncPoint : String) (res : Except String Unit)
    (pf2 : PlayFactory)
    (hwf : pf.WellFormed) (hfin : pf._finalized = false) (hne : seq ≠ [])
    (hcall : pf.addTacticSequence (some seq) roleName startSyncPoint endSyncPoint =
      (res, pf2)) :
    res = .ok () ∧
    pf2._tacticSequences = pf._tacticSequences ++ [seq] ∧
    (pf2._syncPointNames =
        pf._syncPointNames ++ (if startSyncPoint ∈ pf._syncPointNames then [] else [startSyncPoint])
          ++ (if endSyncPoint ∈ pf._syncPointNames ∨ endSyncPoint = startSyncPoint then []
              else [endSyncPoint]) ∧
      startSyncPoint ∈ pf2._syncPointNames ∧ endSyncPoint ∈ pf2._syncPointNames) ∧
    (pf2.outputsOfSyncPointNamed startSyncPoint =
        pf.outputsOfSyncPointNamed startSyncPoint ++ [pf._tacticSequences.length] ∧
      pf2.inputsOfSyncPointNamed endSyncPoint =
        pf.inputsOfSyncPointNamed endSyncPoint ++ [pf._tacticSequences.length] ∧
      (∀ k, k ≠ startSyncPoint →
        pf2.outputsOfSyncPointNamed k = pf.outputsOfSyncPointNamed k) ∧
      (∀ k, k ≠ endSyncPoint →
        pf2.inputsOfSyncPointNamed k = pf.inputsOfSyncPointNamed k)) ∧
    pf2._rolesByTacticSequenceIndex =
      pf._rolesByTacticSequenceIndex ++
        [some ((pf._rolesByName.read roleName).getD pf.roleObjects.length)] ∧
    pf2.roleObjects =
      pf.roleObjects ++
        (if (pf._rolesByName.read roleName).isSome then [] else [Role.new roleName]) ∧
    pf2.WellFormed ∧ pf2._finalized = false ∧
    (pf2._name = pf._name ∧ pf2._enabled = pf._enabled ∧ pf2._category = pf._category) := by
  have hens := ensureTacticSequenceValidity_nonempty seq hne
  obtain ⟨hlen, hin, hout, hnd, -, -⟩ := id hwf
  simp only [PlayFactory.addTacticSequence, hfin, hens, PlayFactory.roleNamed,
    Bool.false_eq_true, if_false] at hcall
  cases hread : pf._rolesByName.read roleName with
  | none =>
    simp only [hread, PlayFactory.addRoleNamed] at hcall
    split at hcall
    · rename_i msg pfx h1
      exact (indexForSyncPointNamed_no_throw _ _ _ _ rfl h1).elim
    · rename_i si pf5 h1
      have o5 := indexForSyncPointNamed_outcome _ _ _ _ h1 rfl hin hout hnd
      have hfin5 : pf5._finalized = false := by
        rw [o5.2.2.2.2.2.2.2.2]
      split at hcall
      · rename_i msg pfx h2
        exact (indexForSyncPointNamed_no_throw _ _ _ _ hfin5 h2).elim
      · rename_i ei pf6 h2
        obtain ⟨hres, hpf2⟩ := Prod.mk.inj hcall
        obtain ⟨⟨hn, hs, he, hnd8⟩, ⟨ho, hi, hoo, hio, hlin, hlout⟩,
            ⟨f1, f2, f3, f4, f5, f6, f7, f8⟩⟩ :=
          link_outcome _ pf5 pf6 pf2 startSyncPoint endSyncPoint pf._tacticSequences.length
            si ei h1 h2 rfl hin hout hnd (by rw [← hpf2]) (by rw [← hpf2]; simp)
            (by rw [← hpf2]; simp)
        have hseq : pf2._tacticSequences = pf._tacticSequences ++ [seq] := by
          rw [← hpf2]; exact f1
        have hroles : pf2._rolesByTacticSequenceIndex =
            pf._rolesByTacticSequenceIndex ++ [some pf.roleObjects.length] := by
          rw [← hpf2]; exact f2
        have hobjs : pf2.roleObjects = pf.roleObjects ++ [Role.new roleName] := by
          rw [← hpf2]; exact f4
        have hmap : pf2._rolesByName =
            (pf._rolesByName.touch roleName).assign roleName (some pf.roleObjects.length) := by
          rw [← hpf2]; exact f3
        have hfin2 : pf2._finalized = false := by
          rw [← hpf2]; exact f5
        have hnew : pf2.roleObjects[pf.roleObjects.length]? = some (Role.new roleName) := by
          rw [hobjs]; simp
        refine ⟨hres.symm, hseq, ⟨hn, hs, he⟩, ⟨ho, hi, hoo, hio⟩, hroles, hobjs, ?_, hfin2,
          ⟨by rw [← hpf2]; exact f6, by rw [← hpf2]; exact f7, by rw [← hpf2]; exact f8⟩⟩
        refine wellFormed_extend pf pf2 roleName pf.roleObjects.length (Role.new roleName)
          hwf ?_ hroles hlin hlout hnd8 ?_ hnew rfl ?_ ?_
        · rw [hseq]; simp
        · intro q r hq
          rw [hobjs, List.getElem?_append_left (List.getElem?_eq_some_iff.mp hq).1]
          exact hq
        · intro k
          rw [hmap, ptrMap_read_assign, ptrMap_read_touch]
        · intro q hq
          rw [hread] at hq; cases hq
  | some p0 =>
    simp only [hread] at hcall
    split at hcall
    · rename_i msg pfx h1
      exact (indexForSyncPointNamed_no_throw _ _ _ _ rfl h1).elim
    · rename_i si pf5 h1
      have o5 := indexForSyncPointNamed_outcome _ _ _ _ h1 rfl hin hout hnd
      have hfin5 : pf5._finalized = false := by
        rw [o5.2.2.2.2.2.2.2.2]
      split at hcall
      · rename_i msg pfx h2
        exact (indexForSyncPointNamed_no_throw _ _ _ _ hfin5 h2).elim
      · rename_i ei pf6 h2
        obtain ⟨hres, hpf2⟩ := Prod.mk.inj hcall
        obtain ⟨⟨hn, hs, he, hnd8⟩, ⟨ho, hi, hoo, hio, hlin, hlout⟩,
            ⟨f1, f2, f3, f4, f5, f6, f7, f8⟩⟩ :=
          link_outcome _ pf5 pf6 pf2 startSyncPoint endSyncPoint pf._tacticSequences.length
            si ei h1 h2 rfl hin hout hnd (by rw [← hpf2]) (by rw [← hpf2]; simp)
            (by rw [← hpf2]; simp)
        have hseq : pf2._tacticSequences = pf._tacticSequences ++ [seq] := by
          rw [← hpf2]; exact f1
        have hroles : pf2._rolesByTacticSequenceIndex =
            pf._rolesByTacticSequenceIndex ++ [some p0] := by
          rw [← hpf2]; exact f2
        have hobjs : pf2.roleObjects = pf.roleObjects := by
          rw [← hpf2]; exact f4
        have hmap : pf2._rolesByName = pf._rolesByName.touch roleName := by
          rw [← hpf2]; exact f3
        have hfin2 : pf2._finalized = false := by
          rw [← hpf2]; exact f5
        obtain ⟨hp0, hmem0⟩ := wellFormed_map_role pf hwf roleName p0 hread
        cases hobj0 : pf.roleObjects[p0]? with
        | none => rw [hobj0] at hp0; cases hp0
        | some r0 =>
          rw [hobj0] at hp0
          simp only [Option.map_some', Option.some.injEq] at hp0
          refine ⟨hres.symm, hseq, ⟨hn, hs, he⟩, ⟨ho, hi, hoo, hio⟩, hroles,
            by simpa using hobjs, ?_, hfin2,
            ⟨by rw [← hpf2]; exact f6, by rw [← hpf2]; exact f7, by rw [← hpf2]; exact f8⟩⟩
          refine wellFormed_extend pf pf2 roleName p0 r0 hwf ?_ hroles hlin hlout hnd8 ?_
            (by rw [hobjs]; exact hobj0) hp0 ?_ ?_
          · rw [hseq]; simp
          · intro q r hq
            rw [hobjs]; exact hq
          · intro k
            rw [hmap, ptrMap_read_touch]
            by_cases hk : k = roleName
            · rw [if_pos hk, hk]; exact hread
            · rw [if_neg hk]
          · intro q hq
            rw [hread] at hq
            exact (Option.some.inj hq).symm

/-- The definition a constructor call gives is well-formed. -/
theorem wellFormed_new (name category : String) (g : FactoryStatics) :
    (PlayFactory.new name category g).1.WellFormed := by
  refine ⟨rfl, rfl, rfl, List.nodup_nil, ?_, ?_⟩
  · intro x hx; cases hx
  · intro e he; cases he

/-- The public `roleNamed` leaves a well-formed definition well-formed: the `NULL` entry
`operator[]` may add changes what no key reads. -/
theorem wellFormed_roleNamed (pf : PlayFactory) (name : String) (hwf : pf.WellFormed) :
    (pf.roleNamed name).2.WellFormed := by
  obtain ⟨h1, h2, h3, h4, h5, -⟩ := id hwf
  refine ⟨h1, h2, h3, h4, ?_, ?_⟩
  · intro x hx
    have hb := h5 x hx
    cases x with
    | none => exact hb
    | some p =>
      simp only [PlayFactory.laneRoleBound, PlayFactory.roleNamed, ptrMap_read_touch] at hb ⊢
      exact hb
  · intro e _
    simp only [PlayFactory.mapEntryBound, PlayFactory.roleNamed, ptrMap_read_touch]
    cases hrd : pf._rolesByName.read e.1 with
    | none => rfl
    | some q =>
      obtain ⟨hq, hmem⟩ := wellFormed_map_role pf hwf e.1 q hrd
      simp [hq, hmem]

/-- Every call of `addTacticSequence`, whatever its arguments and whether it returns or
throws, leaves a well-formed definition well-formed. -/
theorem wellFormed_addTacticSequence (pf : PlayFactory) (sequence : Option TacticSequence)
    (roleName startSyncPoint endSyncPoint : String) (hwf : pf.WellFormed) :
    (pf.addTacticSequence sequence roleName startSyncPoint endSyncPoint).2.WellFormed := by
  by_cases hfin : pf._finalized = true
  · simp only [PlayFactory.addTacticSequence, hfin, if_true]
    exact hwf
  · have hfin2 : pf._finalized = false := by simpa using hfin
    cases sequence with
    | none =>
      simp only [PlayFactory.addTacticSequence, hfin2, Bool.false_eq_true, if_false,
        PlayFactory.ensureTacticSequenceValidity]
      exact hwf
    | some seq =>
      by_cases hne : seq = []
      · subst hne
        simp only [PlayFactory.addTacticSequence, hfin2, Bool.false_eq_true, if_false,
          PlayFactory.ensureTacticSequenceValidity, List.length_nil, if_true]
        exact hwf
      · exact (addTacticSequence_effect pf seq roleName startSyncPoint endSyncPoint _ _ hwf
          hfin2 hne rfl).2.2.2.2.2.2.1

/-- C10: on a well-formed definition that is not finalized and has `n` lanes,
`addTacticSequence` with a non-empty sequence returns normally; the sequence is lane `n`;
the sync points named `startSyncPoint` and `endSyncPoint` exist afterwards, each added at
the end of the sync-point list (with empty lists) if the name was new; `n` is appended to
the outputs of the first and to the inputs of the second, and the outputs of every
sync point of another name than `startSyncPoint`, and the inputs of every sync point of
another name than `endSyncPoint`, are as before; lane `n` is bound to a Role object named
`roleName`: the object every earlier lane with a Role of that name is bound to (no Role
object is allocated then), and a newly allocated one when there is no such lane. -/
theorem addTacticSequence_postcondition (pf : PlayFactory) (seq : TacticSequence)
    (roleName startSyncPoint endSyncPoint : String) (res : Except String Unit)
    (pf2 : PlayFactory)
    (hwf : pf.WellFormed) (hfin : pf._finalized = false) (hne : seq ≠ [])
    (hcall : pf.addTacticSequence (some seq) roleName startSyncPoint endSyncPoint =
      (res, pf2)) :
    res = .ok () ∧
    (pf2._tacticSequences = pf._tacticSequences ++ [seq] ∧
      pf2.tacticSequenceAtIndex pf._tacticSequences.length = seq) ∧
    (pf2._syncPointNames =
        pf._syncPointNames ++ (if startSyncPoint ∈ pf._syncPointNames then [] else [startSyncPoint])
          ++ (if endSyncPoint ∈ pf._syncPointNames ∨ endSyncPoint = startSyncPoint then []
              else [endSyncPoint]) ∧
      startSyncPoint ∈ pf2._syncPointNames ∧ endSyncPoint ∈ pf2._syncPointNames) ∧
    (pf2.outputsOfSyncPointNamed startSyncPoint =
        pf.outputsOfSyncPointNamed startSyncPoint ++ [pf._tacticSequences.length] ∧
      pf2.inputsOfSyncPointNamed endSyncPoint =
        pf.inputsOfSyncPointNamed endSyncPoint ++ [pf._tacticSequences.length] ∧
      (∀ k, k ≠ startSyncPoint →
        pf2.outputsOfSyncPointNamed k = pf.outputsOfSyncPointNamed k) ∧
      (∀ k, k ≠ endSyncPoint →
        pf2.inputsOfSyncPointNamed k = pf.inputsOfSyncPointNamed k)) ∧
    (∃ p : RolePtr,
      pf2._rolesByTacticSequenceIndex = pf._rolesByTacticSequenceIndex ++ [some p] ∧
      pf2.roleForTacticSequenceAtIndex pf._tacticSequences.length = some p ∧
      pf2.roleNameOfLane pf._tacticSequences.length = some roleName ∧
      (∀ i, pf.roleNameOfLane i = some roleName →
        pf.roleForTacticSequenceAtIndex i = some p ∧ pf2.roleObjects = pf.roleObjects) ∧
      ((∀ i, pf.roleNameOfLane i ≠ some roleName) →
        p = pf.roleObjects.length ∧
          pf2.roleObjects = pf.roleObjects ++ [Role.new roleName])) := by
  obtain ⟨hres, hseq, hnames, hviews, hroles, hobjs, -, -, -⟩ :=
    addTacticSequence_effect pf seq roleName startSyncPoint endSyncPoint res pf2 hwf hfin hne
      hcall
  have hlen : pf._rolesByTacticSequenceIndex.length = pf._tacticSequences.length := hwf.1
  have hrole : pf2.roleForTacticSequenceAtIndex pf._tacticSequences.length =
      some ((pf._rolesByName.read roleName).getD pf.roleObjects.length) := by
    simp [PlayFactory.roleForTacticSequenceAtIndex, hroles, ← hlen]
  refine ⟨hres, ⟨hseq, by simp [PlayFactory.tacticSequenceAtIndex, hseq]⟩, hnames, hviews,
    (pf._rolesByName.read roleName).getD pf.roleObjects.length, hroles, hrole, ?_⟩
  cases hread : pf._rolesByName.read roleName with
  | none =>
    rw [hread] at hobjs hrole
    simp only [Option.isSome_none, Bool.false_eq_true, if_false] at hobjs
    simp only [Option.getD_none] at hrole ⊢
    have hnone : ∀ i, pf.roleNameOfLane i ≠ some roleName := by
      intro i hi2
      obtain ⟨q, -, hq⟩ := roleNameOfLane_read pf hwf i roleName hi2
      rw [hread] at hq; cases hq
    refine ⟨?_, fun i hi2 => absurd hi2 (hnone i), fun _ => ⟨trivial, hobjs⟩⟩
    simp [PlayFactory.roleNameOfLane, hrole, hobjs, Role.new]
  | some p0 =>
    rw [hread] at hobjs hrole
    simp only [Option.isSome_some, if_true, List.append_nil] at hobjs
    simp only [Option.getD_some] at hrole ⊢
    obtain ⟨hp0, hmem0⟩ := wellFormed_map_role pf hwf roleName p0 hread
    refine ⟨?_, ?_, ?_⟩
    · simp [PlayFactory.roleNameOfLane, hrole, hobjs, hp0]
    · intro i hi2
      obtain ⟨q, hq1, hq2⟩ := roleNameOfLane_read pf hwf i roleName hi2
      rw [hread] at hq2
      cases hq2
      exact ⟨hq1, hobjs⟩
    · intro hno
      obtain ⟨i, hi2⟩ := lane_of_mem pf p0 hmem0
      exact absurd (by simp [PlayFactory.roleNameOfLane, hi2, hp0]) (hno i)

/-- Witness for C10: a second lane for the role "striker", from the sync point "end" that
exists to the new sync point "fin", on the one-lane definition `oneLanePlay`. -/
theorem addTacticSequence_postcondition_witness :
    oneLanePlay.WellFormed ∧ oneLanePlay._finalized = false ∧
      ([haltStub] : TacticSequence) ≠ [] ∧
      (oneLanePlay.addTacticSequence (some [haltStub]) "striker" "end" "fin").1 = .ok () ∧
      (oneLanePlay.addTacticSequence (some [haltStub]) "striker" "end" "fin").2._tacticSequences
        = oneLanePlay._tacticSequences ++ [[haltStub]] :=
  ⟨by decide, rfl, by decide,
    (addTacticSequence_postcondition oneLanePlay [haltStub] "striker" "end" "fin"
      (oneLanePlay.addTacticSequence (some [haltStub]) "striker" "end" "fin").1
      (oneLanePlay.addTacticSequence (some [haltStub]) "striker" "end" "fin").2
      (by decide) rfl (by decide) rfl).1,
    (addTacticSequence_postcondition oneLanePlay [haltStub] "striker" "end" "fin"
      (oneLanePlay.addTacticSequence (some [haltStub]) "striker" "end" "fin").1
      (oneLanePlay.addTacticSequence (some [haltStub]) "striker" "end" "fin").2
      (by decide) rfl (by decide) rfl).2.1.1⟩


/-! ## Theorems: finalize -/

/-- C11 (the code at the failing input): the local `reqs` of `updateRoleRequirements` is read
without having been initialised. For the one-lane definition `kickPlay`, whose only stub
names a tactic with the requirement bit 2, `finalize()` leaves the definition finalized and
the Role "striker" with the bits 4 and 2 when `reqs` happens to start as 4: the bit 4 is the
requirement of no tactic of the lane. When `reqs` happens to start as 0 the Role gets
exactly the bit 2. -/
theorem finalize_reads_uninitialised_reqs :
    kickPlay._tacticSequences = [[kickStub]] ∧
    kickPlay._rolesByTacticSequenceIndex = [some 0] ∧
    (kickStub.factory kickStatics).1.map ActionFactory.robotRequirements = some 2 ∧
    kickPlay.roleObjects.map Role.robotRequirements = [0] ∧
    (kickPlay.finalize (fun _ => 4) kickStatics).1._finalized = true ∧
    (kickPlay.finalize (fun _ => 4) kickStatics).1.roleObjects.map Role.robotRequirements
      = [6] ∧
    (kickPlay.finalize (fun _ => 0) kickStatics).1.roleObjects.map Role.robotRequirements
      = [2] := by
  refine ⟨by decide, by decide, rfl, by decide, by decide, by decide, by decide⟩

/-! ## Theorems: the engine on the parking scenario -/

/-- A non-negative `int` keeps its value when converted to `size_t`. -/
theorem toSizeT_of_nonneg (x : Int) (h0 : 0 ≤ x) (h1 : x < 2147483648) :
    toSizeT x = x.toNat := by
  unfold toSizeT
  rw [Int.emod_eq_of_lt h0 (by omega)]

/-- A non-negative `int` keeps its value when converted to `unsigned int`. -/
theorem toUnsigned_of_nonneg (x : Int) (h0 : 0 ≤ x) (h1 : x < 2147483648) :
    toUnsigned x = x.toNat := by
  unfold toUnsigned
  rw [Int.emod_eq_of_lt h0 (by omega)]

/-- The `int` -1 converted to `unsigned int` is the largest value of that type. -/
theorem toUnsigned_neg_one : toUnsigned (-1) = 4294967295 := by decide

/-- The stub `transitionSequenceAtIndex` chooses for a lane at cursor `c` with `0 <= c`:
the stub at `c + 1` if the lane has one, and the placeholder otherwise. -/
theorem stub_choice (sequence : TacticSequence) (c : Int) (hc0 : 0 ≤ c)
    (hc1 : c < 2147483647) (hl0 : 1 ≤ sequence.length) (hl1 : sequence.length < 2147483648) :
    (if toSizeT c ≥ toSizeT ((sequence.length : Int) - 1) then
        some PlayFactory.placeholderTacticStub
      else sequence.get? (c + 1).toNat) =
      if c + 1 < (sequence.length : Int) then sequence.get? (c + 1).toNat
      else some PlayFactory.placeholderTacticStub := by
  rw [toSizeT_of_nonneg c hc0 (by omega),
    toSizeT_of_nonneg ((sequence.length : Int) - 1) (by omega) (by omega)]
  by_cases h : c + 1 < (sequence.length : Int)
  · rw [if_pos h, if_neg (by omega)]
  · rw [if_neg h, if_pos (by omega)]

/-! ## Lemmas: instantiate -/

/-- A Tactic that `instantiate` returns has no Role. -/
theorem instantiate_role_none (stub : TacticStub) (gm : Option GameplayModule) (w w2 : World)
    (t : Tactic) (h : stub.instantiate gm w = (.ok t, w2)) : t._role = none := by
  unfold TacticStub.instantiate at h
  simp only at h
  split at h
  · cases h
  · rename_i f hf
    cases hc : f.create gm with
    | error e => rw [hc] at h; cases h
    | ok t0 =>
      rw [hc] at h
      simp only at h
      have hr : t0._role = none := by
        unfold ActionFactory.create at hc
        split at hc
        · cases hc
        · cases hc; rfl
      have hsp : (t0.setParameters stub._invocationParameters).2._role = none := hr
      cases hq : t0.setParameters stub._invocationParameters with
      | mk r t1 =>
        rw [hq] at h hsp
        cases r with
        | error e => cases h
        | ok u =>
          simp only at h
          cases h
          exact hsp

/-- A call of `instantiate` leaves the record of events, the readings and the allocator as
they are. -/
theorem instantiate_world (stub : TacticStub) (gm : Option GameplayModule) (w : World) :
    (stub.instantiate gm w).2.events = w.events ∧
      (stub.instantiate gm w).2.sensed = w.sensed ∧
      (stub.instantiate gm w).2.allocatorAccepts = w.allocatorAccepts := by
  unfold TacticStub.instantiate
  simp only
  split
  · exact ⟨rfl, rfl, rfl⟩
  · split
    · exact ⟨rfl, rfl, rfl⟩
    · split <;> exact ⟨rfl, rfl, rfl⟩

/-! ## Theorems: the lane advance -/

/-- Reading a vector at the position that was just written. -/
theorem getD_set_same {α : Type} (l : List α) (i : Nat) (x d : α) (h : i < l.length) :
    (l.set i x).getD i d = x := by
  simp [List.getD_eq_getElem?_getD, List.getElem?_set, h]

/-- Reading a vector at another position than the one written. -/
theorem getD_set_other {α : Type} (l : List α) (i j : Nat) (x d : α) (h : i ≠ j) :
    (l.set i x).getD j d = l.getD j d := by
  simp [List.getD_eq_getElem?_getD, List.getElem?_set, h]

/-- What `transitionSequenceAtIndex` does for a lane that has the behaviour `tactic`: the
behaviour joins the pending-verdict queue if it is evaluating success, the cursor is
incremented, and the lane gets the Tactic `instantiate` returns for the chosen stub; if
there is no stub or `instantiate` throws, the call throws and the lane keeps `tactic`. -/
theorem transitionSequenceAtIndex_eq (p : Play) (w : World) (seqIndex : Nat) (tactic : Tactic)
    (ht : p.tacticOfSequenceAtIndex seqIndex = some tactic) :
    p.transitionSequenceAtIndex w seqIndex =
      match
        (if toSizeT (p.stateOfTacticSequenceAtIndex seqIndex) ≥
            toSizeT (((p._playFactory.tacticSequenceAtIndex seqIndex).length : Int) - 1) then
          some PlayFactory.placeholderTacticStub
        else
          (p._playFactory.tacticSequenceAtIndex seqIndex).get?
            (p.stateOfTacticSequenceAtIndex seqIndex + 1).toNat) with
      | some stub =>
        match stub.instantiate (some p._gameplayModule) w with
        | (.error e, w1) =>
          (.error e,
            { p with
              _tacticsAwaitingResults :=
                p._tacticsAwaitingResults ++
                  (if tactic.state = .EvaluatingSuccess then [tactic] else []),
              _sequenceStateByIndex :=
                p._sequenceStateByIndex.modify (fun c => c + 1) seqIndex }, w1)
        | (.ok newTactic, w1) =>
          (.ok (),
            { p with
              _tacticsAwaitingResults :=
                p._tacticsAwaitingResults ++
                  (if tactic.state = .EvaluatingSuccess then [tactic] else []),
              _sequenceStateByIndex :=
                p._sequenceStateByIndex.modify (fun c => c + 1) seqIndex,
              _tacticsBySequenceIndex :=
                p._tacticsBySequenceIndex.set seqIndex (some newTactic) }, w1)
      | none =>
        (.error "STP.cpp error???",
          { p with
            _tacticsAwaitingResults :=
              p._tacticsAwaitingResults ++
                (if tactic.state = .EvaluatingSuccess then [tactic] else []),
            _sequenceStateByIndex :=
              p._sequenceStateByIndex.modify (fun c => c + 1) seqIndex }, w) := by
  unfold Play.transitionSequenceAtIndex
  rw [ht]
  simp only
  by_cases hes : tactic.state = .EvaluatingSuccess
  · simp only [hes, if_true]
  · simp only [hes, if_false, List.append_nil]

/-- C20 (the code at the failing input): a Tactic that `transitionSequenceAtIndex` puts into
a lane has no Role, whatever the lane's Role is: the function never calls `setRole`, which
`transitionRole` does for the first stub of a lane. In the parking scenario, after the
second call of `update()`, lane 0 holds the new placeholder behaviour without Role, while
`roleForTacticSequenceAtIndex(0)` is the Role "a" the first behaviour of the lane had. -/
theorem lane_advance_leaves_new_behaviour_without_role :
    (∀ (p : Play) (w : World) (seqIndex : Nat) (p2 : Play) (w2 : World),
      seqIndex < p._tacticsBySequenceIndex.length →
      p.transitionSequenceAtIndex w seqIndex = (.ok (), p2, w2) →
      ∃ t, p2.tacticOfSequenceAtIndex seqIndex = some t ∧ t.role = none) ∧
    (Play.run [quietTick] (freshPlay twoLanePlay, populatedWorld)).1._tacticsBySequenceIndex.map
      (fun o => o.map Tactic.role) = [some (some 0), some (some 1)] ∧
    (Play.run [quietTick, lane0DoneTick]
      (freshPlay twoLanePlay, populatedWorld)).1._tacticsBySequenceIndex.map
      (fun o => o.map Tactic.role) = [some none, some (some 1)] ∧
    (Play.run [quietTick, lane0DoneTick]
      (freshPlay twoLanePlay, populatedWorld)).1.roleForTacticSequenceAtIndex 0 = some 0 ∧
    (Play.run [quietTick, lane0DoneTick] (freshPlay twoLanePlay, populatedWorld)).2.events =
      [.fired 0, .allocate [some 0, some 1], .updated 0 .Completed, .updated 1 .Running] := by
  refine ⟨?_, by decide, by decide, by decide, by decide⟩
  intro p w seqIndex p2 w2 hi h
  cases ht : p.tacticOfSequenceAtIndex seqIndex with
  | none =>
    unfold Play.transitionSequenceAtIndex at h
    rw [ht] at h
    cases h
  | some tactic =>
    rw [transitionSequenceAtIndex_eq p w seqIndex tactic ht] at h
    split at h
    · rename_i stub hstub
      cases hin : stub.instantiate (some p._gameplayModule) w with
      | mk r w1 =>
        rw [hin] at h
        cases r with
        | error e => cases h
        | ok newTactic =>
          simp only at h
          have hp2 := (congrArg (fun x => x.2.1) h).symm
          simp only at hp2
          refine ⟨newTactic, ?_, instantiate_role_none _ _ _ _ _ hin⟩
          rw [hp2]
          exact getD_set_same _ _ _ _ hi
    · cases h

/-- What `transitionSequenceAtIndex` leaves for a lane `i` that has the behaviour `t1` and is
at a cursor `c >= 0` of a non-empty sequence. -/
theorem transitionSequenceAtIndex_outcome (q : Play) (w1 : World) (i : Nat) (t1 : Tactic)
    (r : Except String Unit) (q2 : Play) (w2 : World)
    (ht1 : q.tacticOfSequenceAtIndex i = some t1)
    (hi : i < q._tacticsBySequenceIndex.length)
    (hic : i < q._sequenceStateByIndex.length)
    (hc0 : 0 ≤ q.stateOfTacticSequenceAtIndex i)
    (hc1 : q.stateOfTacticSequenceAtIndex i < 2147483647)
    (hl0 : 1 ≤ (q._playFactory.tacticSequenceAtIndex i).length)
    (hl1 : (q._playFactory.tacticSequenceAtIndex i).length < 2147483648)
    (hcall : q.transitionSequenceAtIndex w1 i = (r, q2, w2)) :
    q2.stateOfTacticSequenceAtIndex i = q.stateOfTacticSequenceAtIndex i + 1 ∧
    q2._tacticsAwaitingResults =
      q._tacticsAwaitingResults ++ (if t1.state = .EvaluatingSuccess then [t1] else []) ∧
    ∃ stub,
      (if q.stateOfTacticSequenceAtIndex i + 1 <
          ((q._playFactory.tacticSequenceAtIndex i).length : Int) then
        (q._playFactory.tacticSequenceAtIndex i).get?
          (q.stateOfTacticSequenceAtIndex i + 1).toNat
      else some PlayFactory.placeholderTacticStub) = some stub ∧
      ((∃ t2, (stub.instantiate (some q._gameplayModule) w1).1 = .ok t2 ∧
          r = .ok () ∧ q2.tacticOfSequenceAtIndex i = some t2) ∨
        (∃ e, (stub.instantiate (some q._gameplayModule) w1).1 = .error e ∧
          r = .error e ∧ q2.tacticOfSequenceAtIndex i = some t1)) := by
  rw [transitionSequenceAtIndex_eq _ _ i t1 ht1,
    stub_choice (q._playFactory.tacticSequenceAtIndex i)
      (q.stateOfTacticSequenceAtIndex i) hc0 hc1 hl0 hl1] at hcall
  have hsome : ∃ stub,
      (if q.stateOfTacticSequenceAtIndex i + 1 <
          ((q._playFactory.tacticSequenceAtIndex i).length : Int) then
        (q._playFactory.tacticSequenceAtIndex i).get?
          (q.stateOfTacticSequenceAtIndex i + 1).toNat
      else some PlayFactory.placeholderTacticStub) = some stub := by
    by_cases hlt : q.stateOfTacticSequenceAtIndex i + 1 <
        ((q._playFactory.tacticSequenceAtIndex i).length : Int)
    · rw [if_pos hlt]
      have hlt2 : (q.stateOfTacticSequenceAtIndex i + 1).toNat <
          (q._playFactory.tacticSequenceAtIndex i).length := by omega
      exact ⟨_, List.get?_eq_get hlt2⟩
    · rw [if_neg hlt]; exact ⟨_, rfl⟩
  obtain ⟨stub, hstub⟩ := hsome
  rw [hstub] at hcall
  simp only at hcall
  have hcur : ∀ x : Play,
      x._sequenceStateByIndex = q._sequenceStateByIndex.modify (fun c => c + 1) i →
      x.stateOfTacticSequenceAtIndex i = q.stateOfTacticSequenceAtIndex i + 1 := by
    intro x hx
    unfold Play.stateOfTacticSequenceAtIndex
    rw [hx]
    exact getD_modify_same _ _ _ _ hic
  cases hin : stub.instantiate (some q._gameplayModule) w1 with
  | mk ri wi =>
    rw [hin] at hcall
    cases ri with
    | error e =>
      simp only at hcall
      have hr := (congrArg Prod.fst hcall).symm
      have hq2 := (congrArg (fun x => x.2.1) hcall).symm
      simp only at hr hq2
      subst hr hq2
      exact ⟨hcur _ rfl, rfl, stub, hstub, Or.inr ⟨e, by rw [hin], rfl, ht1⟩⟩
    | ok t2 =>
      simp only at hcall
      have hr := (congrArg Prod.fst hcall).symm
      have hq2 := (congrArg (fun x => x.2.1) hcall).symm
      simp only at hr hq2
      subst hr hq2
      exact ⟨hcur _ rfl, rfl, stub, hstub,
        Or.inl ⟨t2, by rw [hin], rfl, getD_set_same _ _ _ _ hi⟩⟩

/-- C19: in the loop over the lanes, for a lane `i` that has a behaviour `t`, is at cursor
`c >= 0` of a non-empty sequence, and whose `update()` returns leaving the behaviour as `t1`:
if `t1` is Completed or EvaluatingSuccess, the cursor becomes `c + 1`, `t1` is appended to
the pending-verdict queue exactly when it is EvaluatingSuccess, and the lane's next
behaviour is what `instantiate` returns for the stub at index `c + 1` when `c + 1 < length`
and for the placeholder stub "Halt" otherwise (when `instantiate` throws, the loop throws
and the lane still holds `t1`); if `t1` is in any other state but Failed, the lane keeps its
cursor and holds `t1`, and the queue is as before. -/
theorem lane_advance (p : Play) (w : World) (i : Nat) (t t1 : Tactic)
    (r : Except String LaneLoopExit) (p2 : Play) (w2 : World)
    (ht : p.tacticOfSequenceAtIndex i = some t)
    (hi : i < p._tacticsBySequenceIndex.length)
    (hic : i < p._sequenceStateByIndex.length)
    (hc0 : 0 ≤ p.stateOfTacticSequenceAtIndex i)
    (hc1 : p.stateOfTacticSequenceAtIndex i < 2147483647)
    (hl0 : 1 ≤ (p._playFactory.tacticSequenceAtIndex i).length)
    (hl1 : (p._playFactory.tacticSequenceAtIndex i).length < 2147483648)
    (hup : t.update (w.sensed i) = (.ok (), t1))
    (hloop : Play.laneLoop [i] p w = (r, p2, w2)) :
    ((t1.state = .Completed ∨ t1.state = .EvaluatingSuccess) →
      p2.stateOfTacticSequenceAtIndex i = p.stateOfTacticSequenceAtIndex i + 1 ∧
      p2._tacticsAwaitingResults =
        p._tacticsAwaitingResults ++ (if t1.state = .EvaluatingSuccess then [t1] else []) ∧
      ∃ stub,
        (if p.stateOfTacticSequenceAtIndex i + 1 <
            ((p._playFactory.tacticSequenceAtIndex i).length : Int) then
          (p._playFactory.tacticSequenceAtIndex i).get?
            (p.stateOfTacticSequenceAtIndex i + 1).toNat
        else some PlayFactory.placeholderTacticStub) = some stub ∧
        ((∃ t2, (stub.instantiate (some p._gameplayModule)
              (w.note (.updated i t1.state))).1 = .ok t2 ∧
            r = .ok .finished ∧ p2.tacticOfSequenceAtIndex i = some t2) ∨
          (∃ e, (stub.instantiate (some p._gameplayModule)
              (w.note (.updated i t1.state))).1 = .error e ∧
            r = .error e ∧ p2.tacticOfSequenceAtIndex i = some t1))) ∧
    (t1.state ≠ .Completed → t1.state ≠ .EvaluatingSuccess → t1.state ≠ .Failed →
      r = .ok .finished ∧
      p2.stateOfTacticSequenceAtIndex i = p.stateOfTacticSequenceAtIndex i ∧
      p2.tacticOfSequenceAtIndex i = some t1 ∧
      p2._tacticsAwaitingResults = p._tacticsAwaitingResults) := by
  unfold Play.laneLoop at hloop
  rw [ht] at hloop
  simp only [hup] at hloop
  have ht1 : Play.tacticOfSequenceAtIndex
      { p with _tacticsBySequenceIndex := p._tacticsBySequenceIndex.set i (some t1) } i =
        some t1 := getD_set_same _ _ _ _ hi
  have hi1 : i < (Play._tacticsBySequenceIndex
      { p with _tacticsBySequenceIndex := p._tacticsBySequenceIndex.set i (some t1) }).length := by
    simpa using hi
  constructor
  · intro hadv
    rw [if_pos hadv] at hloop
    cases hts : Play.transitionSequenceAtIndex
        { p with _tacticsBySequenceIndex := p._tacticsBySequenceIndex.set i (some t1) }
        (w.note (.updated i t1.state)) i with
    | mk r1 rest =>
      obtain ⟨q2, w3⟩ := rest
      rw [hts] at hloop
      obtain ⟨h1, h2, stub, hstub, hcases⟩ :=
        transitionSequenceAtIndex_outcome _ _ i t1 r1 q2 w3 ht1 hi1 hic hc0 hc1 hl0 hl1 hts
      refine ⟨?_, ?_, stub, hstub, ?_⟩
      · cases r1 with
        | error e =>
          simp only at hloop
          have hq2 := (congrArg (fun x => x.2.1) hloop).symm
          simp only at hq2
          rw [hq2]; exact h1
        | ok u =>
          simp only [Play.laneLoop] at hloop
          have hq2 := (congrArg (fun x => x.2.1) hloop).symm
          simp only at hq2
          rw [hq2]; exact h1
      · cases r1 with
        | error e =>
          simp only at hloop
          have hq2 := (congrArg (fun x => x.2.1) hloop).symm
          simp only at hq2
          rw [hq2]; exact h2
        | ok u =>
          simp only [Play.laneLoop] at hloop
          have hq2 := (congrArg (fun x => x.2.1) hloop).symm
          simp only at hq2
          rw [hq2]; exact h2
      · rcases hcases with ⟨t2, hin, hr1, hq⟩ | ⟨e, hin, hr1, hq⟩
        · subst hr1
          simp only [Play.laneLoop] at hloop
          have hr := (congrArg Prod.fst hloop).symm
          have hq2 := (congrArg (fun x => x.2.1) hloop).symm
          simp only at hr hq2
          subst hr hq2
          exact Or.inl ⟨t2, hin, rfl, hq⟩
        · subst hr1
          simp only at hloop
          have hr := (congrArg Prod.fst hloop).symm
          have hq2 := (congrArg (fun x => x.2.1) hloop).symm
          simp only at hr hq2
          subst hr hq2
          exact Or.inr ⟨e, hin, rfl, hq⟩
  · intro h1 h2 h3
    rw [if_neg (by intro h; rcases h with h | h; exact h1 h; exact h2 h), if_neg h3] at hloop
    simp only [Play.laneLoop] at hloop
    have hr := (congrArg Prod.fst hloop).symm
    have hq2 := (congrArg (fun x => x.2.1) hloop).symm
    simp only at hr hq2
    subst hr hq2
    exact ⟨rfl, rfl, ht1, rfl⟩

/-! ## Lemmas: what the parts of update leave as it is -/

/-- Nothing is framed by itself. -/
theorem framed_refl (p : Play) (w : World) : Play.Framed p p w w :=
  ⟨rfl, rfl, rfl, rfl, rfl, rfl⟩

/-- Frames compose. -/
theorem framed_trans (p p2 p3 : Play) (w w2 w3 : World) (h1 : Play.Framed p p2 w w2)
    (h2 : Play.Framed p2 p3 w2 w3) : Play.Framed p p3 w w3 :=
  ⟨h2.1.trans h1.1, h2.2.1.trans h1.2.1, h2.2.2.1.trans h1.2.2.1,
    h2.2.2.2.1.trans h1.2.2.2.1, h2.2.2.2.2.1.trans h1.2.2.2.2.1,
    h2.2.2.2.2.2.trans h1.2.2.2.2.2⟩

/-- `transitionRole` changes cursors and behaviours only. -/
theorem transitionRole_frame (p : Play) (w : World) (role : Option RolePtr)
    (currSeqIdx newSeqIdx : Int) (r : Except String Bool) (p2 : Play) (w2 : World)
    (h : p.transitionRole w role currSeqIdx newSeqIdx = (r, p2, w2)) :
    Play.Framed p p2 w w2 ∧ p2._unreachedSyncPoints = p._unreachedSyncPoints ∧
      p2._tacticsAwaitingResults = p._tacticsAwaitingResults ∧ w2.events = w.events := by
  unfold Play.transitionRole at h
  split at h
  · cases h; exact ⟨framed_refl _ _, rfl, rfl, rfl⟩
  · by_cases hc : currSeqIdx = -1 <;> by_cases hn : newSeqIdx = -1
    · simp only [hc, hn, if_true] at h
      cases h; exact ⟨framed_refl _ _, rfl, rfl, rfl⟩
    · simp only [hc, hn, if_true, if_false] at h
      split at h
      · cases h
        exact ⟨⟨rfl, rfl, by simp, rfl, rfl, rfl⟩, rfl, rfl, rfl⟩
      · rename_i stub _
        have hw := instantiate_world stub (some p._gameplayModule) w
        cases hin : stub.instantiate (some p._gameplayModule) w with
        | mk ri wi =>
          rw [hin] at hw
          simp only at hw
          have hin2 : stub.instantiate
              (some (Play.toAction
                { p with
                  _sequenceStateByIndex :=
                    p._sequenceStateByIndex.set newSeqIdx.toNat 0 })._gameplayModule) w =
              (ri, wi) := hin
          rw [hin2] at h
          cases ri with
          | error e =>
            cases h
            exact ⟨⟨rfl, rfl, by simp, rfl, hw.2.1, hw.2.2⟩, rfl, rfl, hw.1⟩
          | ok t =>
            cases h
            exact ⟨⟨rfl, rfl, by simp, by simp, hw.2.1, hw.2.2⟩, rfl, rfl, hw.1⟩
    · simp only [hc, hn, if_true, if_false] at h
      cases h
      exact ⟨⟨rfl, rfl, by simp, by simp, rfl, rfl⟩, rfl, rfl, rfl⟩
    · simp only [hc, hn, if_false] at h
      split at h
      · cases h
        exact ⟨⟨rfl, rfl, by simp, by simp, rfl, rfl⟩, rfl, rfl, rfl⟩
      · rename_i stub _
        have hw := instantiate_world stub (some p._gameplayModule) w
        cases hin : stub.instantiate (some p._gameplayModule) w with
        | mk ri wi =>
          rw [hin] at hw
          simp only at hw
          have hin2 : stub.instantiate
              (some (Play.toAction
                { p with
                  _sequenceStateByIndex :=
                    (p._sequenceStateByIndex.modify (fun c => c + 1) currSeqIdx.toNat).set
                      newSeqIdx.toNat 0,
                  _tacticsBySequenceIndex :=
                    p._tacticsBySequenceIndex.set currSeqIdx.toNat none })._gameplayModule) w =
              (ri, wi) := hin
          rw [hin2] at h
          cases ri with
          | error e =>
            cases h
            exact ⟨⟨rfl, rfl, by simp, by simp, hw.2.1, hw.2.2⟩, rfl, rfl, hw.1⟩
          | ok t =>
            cases h
            exact ⟨⟨rfl, rfl, by simp, by simp, hw.2.1, hw.2.2⟩, rfl, rfl, hw.1⟩

/-- The loop over the inputs of a firing changes cursors and behaviours, and tells the
allocator which Roles to release. -/
theorem transitionInputs_frame (outputs : List Nat) (inputs : List Nat) :
    ∀ (tr : List Int) (p : Play) (w : World) (r : Except String Unit) (tr2 : List Int)
      (p2 : Play) (w2 : World),
      Play.transitionInputs outputs inputs tr p w = (r, tr2, p2, w2) →
      Play.Framed p p2 w w2 ∧ p2._unreachedSyncPoints = p._unreachedSyncPoints ∧
        p2._tacticsAwaitingResults = p._tacticsAwaitingResults ∧
        ∃ new, w2.events = w.events ++ new ∧
          ∀ e ∈ new, e.firedIndex = none ∧ e.isUpdated = false := by
  induction inputs with
  | nil =>
    intro tr p w r tr2 p2 w2 h
    simp only [Play.transitionInputs] at h
    cases h
    exact ⟨framed_refl _ _, rfl, rfl, [], by simp, by simp⟩
  | cons inputSeqIdx rest ih =>
    intro tr p w r tr2 p2 w2 h
    simp only [Play.transitionInputs] at h
    cases htr : p.transitionRole w (p._playFactory.roleForTacticSequenceAtIndex inputSeqIdx)
        inputSeqIdx
        (Play.outputForRole p._playFactory
          (p._playFactory.roleForTacticSequenceAtIndex inputSeqIdx) outputs) with
    | mk r1 rest1 =>
      obtain ⟨p1, w1⟩ := rest1
      obtain ⟨hf, hu, hq, he⟩ := transitionRole_frame _ _ _ _ _ _ _ _ htr
      rw [htr] at h
      cases r1 with
      | error e =>
        simp only at h
        cases h
        exact ⟨hf, hu, hq, [], by simp [he], by simp⟩
      | ok b =>
        simp only at h
        split at h
        · obtain ⟨hf2, hu2, hq2, new, hnew, hall⟩ := ih _ _ _ _ _ _ _ h
          refine ⟨framed_trans _ _ _ _ _ _ hf ?_, hu2.trans hu, hq2.trans hq, ?_⟩
          · exact hf2
          · refine ⟨.deallocate (p._playFactory.roleForTacticSequenceAtIndex inputSeqIdx) :: new,
              ?_, ?_⟩
            · rw [hnew]
              simp [World.deallocateRoleForToplevelAction, World.note, he]
            · intro e hmem
              rcases List.mem_cons.mp hmem with h0 | h0
              · subst h0; exact ⟨rfl, rfl⟩
              · exact hall e h0
        · obtain ⟨hf2, hu2, hq2, new, hnew, hall⟩ := ih _ _ _ _ _ _ _ h
          exact ⟨framed_trans _ _ _ _ _ _ hf hf2, hu2.trans hu, hq2.trans hq, new,
            by rw [hnew, he], hall⟩

/-- The loop over the outputs of a firing changes cursors and behaviours only. -/
theorem transitionOutputs_frame (tr : List Int) (outputs : List Nat) :
    ∀ (roles : List (Option RolePtr)) (p : Play) (w : World) (r : Except String Unit)
      (roles2 : List (Option RolePtr)) (p2 : Play) (w2 : World),
      Play.transitionOutputs tr outputs roles p w = (r, roles2, p2, w2) →
      Play.Framed p p2 w w2 ∧ p2._unreachedSyncPoints = p._unreachedSyncPoints ∧
        p2._tacticsAwaitingResults = p._tacticsAwaitingResults ∧ w2.events = w.events := by
  induction outputs with
  | nil =>
    intro roles p w r roles2 p2 w2 h
    simp only [Play.transitionOutputs] at h
    cases h
    exact ⟨framed_refl _ _, rfl, rfl, rfl⟩
  | cons outputSeqIdx rest ih =>
    intro roles p w r roles2 p2 w2 h
    simp only [Play.transitionOutputs] at h
    split at h
    · cases htr : p.transitionRole w (p._playFactory.roleForTacticSequenceAtIndex outputSeqIdx)
          (-1) outputSeqIdx with
      | mk r1 rest1 =>
        obtain ⟨p1, w1⟩ := rest1
        obtain ⟨hf, hu, hq, he⟩ := transitionRole_frame _ _ _ _ _ _ _ _ htr
        rw [htr] at h
        cases r1 with
        | error e =>
          simp only at h
          cases h
          exact ⟨hf, hu, hq, he⟩
        | ok b =>
          simp only at h
          obtain ⟨hf2, hu2, hq2, he2⟩ := ih _ _ _ _ _ _ _ h
          exact ⟨framed_trans _ _ _ _ _ _ hf hf2, hu2.trans hu, hq2.trans hq, he2.trans he⟩
    · exact ih _ _ _ _ _ _ _ h

/-- A firing changes cursors and behaviours, removes the fired index from the unfired list
when it returns, leaves the list as it is when it throws, and adds to the record the firing
itself followed by calls of the allocator. -/
theorem transitionToSyncPointAtIndex_frame (p : Play) (w : World) (k : Nat)
    (r : Except String Unit) (p2 : Play) (w2 : World)
    (h : p.transitionToSyncPointAtIndex w k = (r, p2, w2)) :
    Play.Framed p p2 w w2 ∧
      p2._tacticsAwaitingResults = p._tacticsAwaitingResults ∧
      (r = .ok () → p2._unreachedSyncPoints = p._unreachedSyncPoints.erase k) ∧
      (r ≠ .ok () → p2._unreachedSyncPoints = p._unreachedSyncPoints) ∧
      ∃ new, w2.events = w.events ++ .fired k :: new ∧
        ∀ e ∈ new, e.firedIndex = none ∧ e.isUpdated = false := by
  unfold Play.transitionToSyncPointAtIndex at h
  simp only at h
  cases hin : Play.transitionInputs (p._playFactory._syncPointOutputs.getD k [])
      (p._playFactory._syncPointInputs.getD k []) [] p (w.note (.fired k)) with
  | mk r1 rest1 =>
    obtain ⟨tr, p1, w1⟩ := rest1
    obtain ⟨hf1, hu1, hq1, new1, hnew1, hall1⟩ := transitionInputs_frame _ _ _ _ _ _ _ _ _ hin
    have hf1' : Play.Framed p p1 w w1 := hf1
    have hev1 : w1.events = w.events ++ .fired k :: new1 := by
      rw [hnew1]; simp [World.note]
    rw [hin] at h
    cases r1 with
    | error e =>
      simp only at h
      cases h
      exact ⟨hf1', hq1, (by intro hc; cases hc), fun _ => hu1, new1, hev1, hall1⟩
    | ok u =>
      simp only at h
      cases hout : Play.transitionOutputs tr (p._playFactory._syncPointOutputs.getD k []) []
          p1 w1 with
      | mk r2 rest2 =>
        obtain ⟨roles, p3, w3⟩ := rest2
        obtain ⟨hf2, hu2, hq2, he2⟩ := transitionOutputs_frame _ _ _ _ _ _ _ _ _ hout
        have hf3 : Play.Framed p p3 w w3 := framed_trans _ _ _ _ _ _ hf1' hf2
        rw [hout] at h
        cases r2 with
        | error e =>
          simp only at h
          cases h
          exact ⟨hf3, hq2.trans hq1, (by intro hc; cases hc), fun _ => hu2.trans hu1, new1,
            by rw [he2, hev1], hall1⟩
        | ok u2 =>
          simp only [World.allocateRolesForToplevelAction] at h
          by_cases hacc : w3.allocatorAccepts roles
          · simp only [hacc, if_true] at h
            cases h
            refine ⟨⟨hf3.1, hf3.2.1, hf3.2.2.1, hf3.2.2.2.1, hf3.2.2.2.2.1, hf3.2.2.2.2.2⟩,
              hq2.trans hq1, fun _ => ?_, fun hc => absurd rfl hc,
              new1 ++ [.allocate roles], ?_, ?_⟩
            · show p3._unreachedSyncPoints.erase k = p._unreachedSyncPoints.erase k
              rw [hu2, hu1]
            · simp [World.note, he2, hev1]
            · intro e hmem
              rcases List.mem_append.mp hmem with h0 | h0
              · exact hall1 e h0
              · rw [List.mem_singleton] at h0
                subst h0; exact ⟨rfl, rfl⟩
          · simp only [hacc, Bool.false_eq_true, if_false] at h
            cases h
            refine ⟨⟨hf3.1, hf3.2.1, hf3.2.2.1, hf3.2.2.2.1, hf3.2.2.2.2.1, hf3.2.2.2.2.2⟩,
              hq2.trans hq1, (by intro hc; cases hc), fun _ => hu2.trans hu1,
              new1 ++ [.allocate roles], ?_, ?_⟩
            · simp [World.note, he2, hev1]
            · intro e hmem
              rcases List.mem_append.mp hmem with h0 | h0
              · exact hall1 e h0
              · rw [List.mem_singleton] at h0
                subst h0; exact ⟨rfl, rfl⟩

/-! ## Lemmas: the parts of update -/

/-- A request for a state that is not below the current one, made of an action that is not
in a terminal state, is granted. -/
theorem action_setState_live (a : Action) (s : ActionState)
    (hlive : ACTION_STATE_IS_DONE a._state = false) (hs : a._state.toInt ≤ s.toInt) :
    (a.setState s).1 = .ok () ∧ (a.setState s).2 = { a with _state := s } := by
  obtain ⟨gm, st, es, co⟩ := a
  cases st <;> cases s <;>
    simp [Action.setState, Action.stateTransitionIsValid, Action.transition,
      ActionState.toInt, ACTION_STATE_IS_DONE] at hlive hs ⊢

/-- The same for a Play; nothing but the state changes. -/
theorem play_setState_live (p : Play) (s : ActionState)
    (hlive : ACTION_STATE_IS_DONE p._state = false) (hs : p._state.toInt ≤ s.toInt) :
    p.setState s = (.ok (), { p with _state := s }) := by
  have h := action_setState_live p.toAction s hlive hs
  unfold Play.setState
  cases hc : p.toAction.setState s with
  | mk r a =>
    rw [hc] at h
    simp only at h
    obtain ⟨h1, h2⟩ := h
    subst h1 h2
    rfl

/-- `setState` on a Play changes nothing but the `Action` base. -/
theorem play_setState_frame (p : Play) (s : ActionState) :
    (p.setState s).2._playFactory = p._playFactory ∧
    (p.setState s).2._unreachedSyncPoints = p._unreachedSyncPoints ∧
    (p.setState s).2._sequenceStateByIndex = p._sequenceStateByIndex ∧
    (p.setState s).2._tacticsBySequenceIndex = p._tacticsBySequenceIndex ∧
    (p.setState s).2._tacticsAwaitingResults = p._tacticsAwaitingResults := by
  unfold Play.setState
  cases hc : p.toAction.setState s with
  | mk r a => exact ⟨rfl, rfl, rfl, rfl, rfl⟩

/-- The check of the pending-verdict queue answers "failed" when it meets a Failed behaviour
after behaviours that are EvaluatingSuccess or Completed. -/
theorem checkPendingFrom_failed (pre : List Tactic) (t : Tactic) (post : List Tactic)
    (hpre : ∀ x ∈ pre, x.state = .EvaluatingSuccess ∨ x.state = .Completed)
    (ht : t.state = .Failed) :
    ∀ kept, (Play.checkPendingFrom kept (pre ++ t :: post)).1 = .ok false := by
  induction pre with
  | nil =>
    intro kept
    simp [Play.checkPendingFrom, ht]
  | cons x rest ih =>
    intro kept
    have hx := hpre x (List.mem_cons_self _ _)
    have hrest : ∀ y ∈ rest, y.state = .EvaluatingSuccess ∨ y.state = .Completed :=
      fun y hy => hpre y (List.mem_cons_of_mem _ hy)
    simp only [List.cons_append, Play.checkPendingFrom]
    rcases hx with hx | hx
    · simp [hx, ih hrest]
    · simp [hx, ih hrest]

/-- The check of the pending-verdict queue answers "failed" only when a behaviour of the
queue is Failed. -/
theorem checkPendingFrom_false (q : List Tactic) :
    ∀ kept, (Play.checkPendingFrom kept q).1 = .ok false → ∃ t ∈ q, t.state = .Failed := by
  induction q with
  | nil =>
    intro kept h
    simp [Play.checkPendingFrom] at h
  | cons t rest ih =>
    intro kept h
    simp only [Play.checkPendingFrom] at h
    split at h
    · split at h
      · rename_i hf
        exact ⟨t, List.mem_cons_self _ _, hf⟩
      · split at h
        · obtain ⟨x, hx, hxs⟩ := ih _ h
          exact ⟨x, List.mem_cons_of_mem _ hx, hxs⟩
        · cases h
    · obtain ⟨x, hx, hxs⟩ := ih _ h
      exact ⟨x, List.mem_cons_of_mem _ hx, hxs⟩

/-- What `transitionSequenceAtIndex` leaves as it is, and what it does to the cursors and the
behaviours. -/
theorem transitionSequenceAtIndex_frame (p : Play) (w : World) (i : Nat)
    (r : Except String Unit) (p2 : Play) (w2 : World)
    (h : p.transitionSequenceAtIndex w i = (r, p2, w2)) :
    Play.Framed p p2 w w2 ∧ p2._unreachedSyncPoints = p._unreachedSyncPoints ∧
      w2.events = w.events ∧
      ((p2._sequenceStateByIndex = p._sequenceStateByIndex ∧
          p2._tacticsBySequenceIndex = p._tacticsBySequenceIndex) ∨
        (p.tacticOfSequenceAtIndex i ≠ none ∧
          p2._sequenceStateByIndex = p._sequenceStateByIndex.modify (fun c => c + 1) i ∧
          (p2._tacticsBySequenceIndex = p._tacticsBySequenceIndex ∨
            ∃ t2, p2._tacticsBySequenceIndex = p._tacticsBySequenceIndex.set i (some t2)))) := by
  cases ht : p.tacticOfSequenceAtIndex i with
  | none =>
    unfold Play.transitionSequenceAtIndex at h
    rw [ht] at h
    cases h
    exact ⟨framed_refl _ _, rfl, rfl, Or.inl ⟨rfl, rfl⟩⟩
  | some tactic =>
    rw [transitionSequenceAtIndex_eq p w i tactic ht] at h
    split at h
    · rename_i stub hstub
      have hw := instantiate_world stub (some p._gameplayModule) w
      cases hin : stub.instantiate (some p._gameplayModule) w with
      | mk ri wi =>
        rw [hin] at h hw
        simp only at hw
        cases ri with
        | error e =>
          cases h
          exact ⟨⟨rfl, rfl, by simp, rfl, hw.2.1, hw.2.2⟩, rfl, hw.1,
            Or.inr ⟨by simp, rfl, Or.inl rfl⟩⟩
        | ok t2 =>
          cases h
          exact ⟨⟨rfl, rfl, by simp, by simp, hw.2.1, hw.2.2⟩, rfl, hw.1,
            Or.inr ⟨by simp, rfl, Or.inr ⟨t2, rfl⟩⟩⟩
    · cases h
      exact ⟨⟨rfl, rfl, by simp, rfl, rfl, rfl⟩, rfl, rfl, Or.inr ⟨by simp, rfl, Or.inl rfl⟩⟩

/-- The sync points fired according to a record in which no event is a firing. -/
theorem firedIndices_of_none (l : List Event) (h : ∀ e ∈ l, e.firedIndex = none) :
    firedIndices l = [] := by
  unfold firedIndices
  rw [List.filterMap_eq_nil_iff]
  exact h

/-- The sync points fired according to two records put together. -/
theorem firedIndices_append (a b : List Event) :
    firedIndices (a ++ b) = firedIndices a ++ firedIndices b := by
  unfold firedIndices
  exact List.filterMap_append _ _ _

/-- What the loop over the lanes leaves as it is, what it adds to the record, and what it
does to the state of a Play that is not in a terminal state: either it ends by the
fail-fast exit with the Play Failed, or it leaves the `Action` base as it is and has seen no
behaviour Failed after its `update()`. -/
theorem laneLoop_frame (lanes : List Nat) :
    ∀ (p : Play) (w : World) (r : Except String LaneLoopExit) (p2 : Play) (w2 : World),
      Play.laneLoop lanes p w = (r, p2, w2) →
      p2._playFactory = p._playFactory ∧ p2._unreachedSyncPoints = p._unreachedSyncPoints ∧
      p2._gameplayModule = p._gameplayModule ∧
      w2.sensed = w.sensed ∧ w2.allocatorAccepts = w.allocatorAccepts ∧
      ∃ new, w2.events = w.events ++ new ∧ (∀ e ∈ new, e.firedIndex = none) ∧
        (ACTION_STATE_IS_DONE p._state = false →
          (r = .ok .failedFast ∧ p2._state = .Failed ∧ ∃ i, Event.updated i .Failed ∈ new) ∨
          (r ≠ .ok .failedFast ∧ p2.toAction = p.toAction ∧
            ∀ i, Event.updated i .Failed ∉ new)) := by
  induction lanes with
  | nil =>
    intro p w r p2 w2 h
    simp only [Play.laneLoop] at h
    cases h
    exact ⟨rfl, rfl, rfl, rfl, rfl, [], by simp, by simp,
      fun _ => Or.inr ⟨by simp, rfl, by simp⟩⟩
  | cons i rest ih =>
    intro p w r p2 w2 h
    simp only [Play.laneLoop] at h
    cases ht : p.tacticOfSequenceAtIndex i with
    | none =>
      rw [ht] at h
      exact ih _ _ _ _ _ h
    | some t =>
      rw [ht] at h
      simp only at h
      cases hup : t.update (w.sensed i) with
      | mk ru t1 =>
        rw [hup] at h
        cases ru with
        | error e =>
          simp only at h
          cases h
          exact ⟨rfl, rfl, rfl, rfl, rfl, [], by simp, by simp,
            fun _ => Or.inr ⟨by simp, rfl, by simp⟩⟩
        | ok u =>
          simp only at h
          by_cases hadv : t1.state = .Completed ∨ t1.state = .EvaluatingSuccess
          · rw [if_pos hadv] at h
            have hnf : t1.state ≠ .Failed := by
              rcases hadv with h0 | h0 <;> rw [h0] <;> decide
            cases hts : Play.transitionSequenceAtIndex
                { p with _tacticsBySequenceIndex := p._tacticsBySequenceIndex.set i (some t1) }
                (w.note (.updated i t1.state)) i with
            | mk r1 rest1 =>
              obtain ⟨q2, w3⟩ := rest1
              rw [hts] at h
              obtain ⟨hf, hu, he, _⟩ := transitionSequenceAtIndex_frame _ _ _ _ _ _ hts
              have hev : w3.events = w.events ++ [.updated i t1.state] := by
                rw [he]; rfl
              cases r1 with
              | error e =>
                simp only at h
                cases h
                refine ⟨hf.2.1, hu, by rw [hf.1], hf.2.2.2.2.1, hf.2.2.2.2.2,
                  [.updated i t1.state], hev, by simp [Event.firedIndex], fun _ =>
                    Or.inr ⟨by simp, hf.1, ?_⟩⟩
                intro j hj
                rw [List.mem_singleton] at hj
                injection hj with _ hj2
                exact hnf hj2.symm
              | ok u2 =>
                simp only at h
                obtain ⟨g1, g2, g3, g4, g5, new, hnew, hall, hst⟩ := ih _ _ _ _ _ h
                refine ⟨g1.trans hf.2.1, g2.trans hu, g3.trans (by rw [hf.1]),
                  g4.trans hf.2.2.2.2.1, g5.trans hf.2.2.2.2.2,
                  .updated i t1.state :: new, by rw [hnew, hev]; simp, ?_, ?_⟩
                · intro e hmem
                  rcases List.mem_cons.mp hmem with h0 | h0
                  · subst h0; rfl
                  · exact hall e h0
                · intro hlive
                  have hlive2 : ACTION_STATE_IS_DONE q2._state = false := by
                    rw [hf.1]; exact hlive
                  rcases hst hlive2 with ⟨h1, h2, j, hj⟩ | ⟨h1, h2, h3⟩
                  · exact Or.inl ⟨h1, h2, j, List.mem_cons_of_mem _ hj⟩
                  · refine Or.inr ⟨h1, h2.trans hf.1, ?_⟩
                    intro j hj
                    rcases List.mem_cons.mp hj with h0 | h0
                    · injection h0 with _ hj2
                      exact hnf hj2.symm
                    · exact h3 j h0
          · rw [if_neg hadv] at h
            by_cases hfail : t1.state = .Failed
            · rw [if_pos hfail] at h
              have hfr := play_setState_frame
                { p with _tacticsBySequenceIndex := p._tacticsBySequenceIndex.set i (some t1) }
                .Failed
              cases hss : Play.setState
                  { p with _tacticsBySequenceIndex := p._tacticsBySequenceIndex.set i (some t1) }
                  .Failed with
              | mk rs ps =>
                rw [hss] at h hfr
                simp only at hfr
                have hgm : ps._gameplayModule = p._gameplayModule := by
                  have h0 := congrArg (fun x => x.2._gameplayModule) hss
                  simp only [Play.setState] at h0
                  rw [← h0]
                  unfold Action.setState
                  split
                  · split <;> rfl
                  · rfl
                have hpw : p2 = ps ∧ w2 = w.note (.updated i t1.state) := by
                  cases rs <;> (simp only at h; cases h; exact ⟨rfl, rfl⟩)
                obtain ⟨hp2, hw2⟩ := hpw
                subst hp2 hw2
                refine ⟨hfr.1, hfr.2.1, hgm, rfl, rfl, ?_⟩
                · refine ⟨[.updated i t1.state], rfl, by simp [Event.firedIndex], ?_⟩
                  · intro hlive
                    have hl := play_setState_live
                      { p with
                        _tacticsBySequenceIndex := p._tacticsBySequenceIndex.set i (some t1) }
                      .Failed hlive (by
                        revert hlive
                        show ACTION_STATE_IS_DONE p._state = false →
                          p._state.toInt ≤ ActionState.Failed.toInt
                        cases p._state <;> simp [ACTION_STATE_IS_DONE, ActionState.toInt])
                    rw [hl] at hss
                    cases hss
                    simp only at h
                    cases h
                    exact Or.inl ⟨rfl, rfl, i, by rw [hfail]; exact List.mem_singleton_self _⟩
            · rw [if_neg hfail] at h
              obtain ⟨g1, g2, g3, g4, g5, new, hnew, hall, hst⟩ := ih _ _ _ _ _ h
              refine ⟨g1, g2, g3, g4, g5, .updated i t1.state :: new,
                by rw [hnew]; simp [World.note], ?_, ?_⟩
              · intro e hmem
                rcases List.mem_cons.mp hmem with h0 | h0
                · subst h0; rfl
                · exact hall e h0
              · intro hlive
                rcases hst hlive with ⟨h1, h2, j, hj⟩ | ⟨h1, h2, h3⟩
                · exact Or.inl ⟨h1, h2, j, List.mem_cons_of_mem _ hj⟩
                · refine Or.inr ⟨h1, h2, ?_⟩
                  intro j hj
                  rcases List.mem_cons.mp hj with h0 | h0
                  · injection h0 with _ hj2
                    exact hfail hj2.symm
                  · exact h3 j h0

/-- Removing from a list without repetition the entries of a list that begins with `k` is
removing `k` and then the others. -/
theorem filter_erase_cons (l : List Nat) (k : Nat) (f : List Nat) (hl : l.Nodup) :
    (l.erase k).filter (fun x => decide (x ∉ f)) =
      l.filter (fun x => decide (x ∉ k :: f)) := by
  rw [List.Nodup.erase_eq_filter hl, List.filter_filter]
  apply List.filter_congr
  intro x _
  by_cases hx : x = k <;> by_cases hf : x ∈ f <;> simp [hx, hf]

/-- The entry at a position of a list is in the list. -/
theorem getD_mem_of_lt (l : List Nat) (i : Nat) (h : i < l.length) : l.getD i 0 ∈ l := by
  rw [List.getD_eq_getElem _ _ h]
  exact List.getElem_mem _

/-- What the loop over the unreached sync points leaves as it is, what it adds to the
record, and how the unfired list changes: it only loses entries, the sync points fired were
in it, and when the loop ends normally each was fired once and the list has lost exactly
them. -/
theorem barrierScan_frame : ∀ (fuel i : Nat) (p : Play) (w : World) (r : Except String Unit)
    (p2 : Play) (w2 : World), Play.barrierScan fuel i p w = some (r, p2, w2) →
    Play.Framed p p2 w w2 ∧ p2._tacticsAwaitingResults = p._tacticsAwaitingResults ∧
      ∃ new, w2.events = w.events ++ new ∧ (∀ e ∈ new, e.isUpdated = false) ∧
        p2._unreachedSyncPoints.Sublist p._unreachedSyncPoints ∧
        (∀ k ∈ firedIndices new, k ∈ p._unreachedSyncPoints) ∧
        (r = .ok () → p._unreachedSyncPoints.Nodup →
          (firedIndices new).Nodup ∧
          p2._unreachedSyncPoints =
            p._unreachedSyncPoints.filter (fun k => decide (k ∉ firedIndices new))) := by
  intro fuel
  induction fuel with
  | zero =>
    intro i p w r p2 w2 h
    simp [Play.barrierScan] at h
  | succ n ih =>
    intro i p w r p2 w2 h
    simp only [Play.barrierScan] at h
    by_cases hi : i < p._unreachedSyncPoints.length
    · rw [if_pos hi] at h
      have hk := getD_mem_of_lt _ _ hi
      by_cases hre : p.syncPointAtIndexIsReachableNow (p._unreachedSyncPoints.getD i 0) = true
      · rw [if_pos hre] at h
        cases htr : p.transitionToSyncPointAtIndex w (p._unreachedSyncPoints.getD i 0) with
        | mk r1 rest1 =>
          obtain ⟨p1, w1⟩ := rest1
          rw [htr] at h
          obtain ⟨hf, hq, hok, herr, new1, hnew1, hall1⟩ :=
            transitionToSyncPointAtIndex_frame _ _ _ _ _ _ htr
          have hfi1 : firedIndices (Event.fired (p._unreachedSyncPoints.getD i 0) :: new1) =
              [p._unreachedSyncPoints.getD i 0] := by
            have h0 := firedIndices_of_none new1 (fun e he => (hall1 e he).1)
            unfold firedIndices at h0 ⊢
            rw [List.filterMap_cons]
            simp only [Event.firedIndex]
            rw [h0]
          cases r1 with
          | error e =>
            simp only at h
            cases h
            refine ⟨hf, hq, _, hnew1, ?_, ?_, ?_, ?_⟩
            · intro e he
              rcases List.mem_cons.mp he with h0 | h0
              · subst h0; rfl
              · exact (hall1 e h0).2
            · rw [herr (by intro hc; cases hc)]
            · rw [hfi1]
              intro k hk2
              rw [List.mem_singleton] at hk2
              rw [hk2]; exact hk
            · intro hc; cases hc
          | ok u =>
            simp only at h
            obtain ⟨hf2, hq2, new2, hnew2, hall2, hsub2, hmem2, hok2⟩ := ih _ _ _ _ _ _ h
            have hu1 := hok rfl
            refine ⟨framed_trans _ _ _ _ _ _ hf hf2, hq2.trans hq,
              Event.fired (p._unreachedSyncPoints.getD i 0) :: new1 ++ new2,
              by rw [hnew2, hnew1]; simp, ?_, ?_, ?_, ?_⟩
            · intro e he
              rcases List.mem_append.mp he with h0 | h0
              · rcases List.mem_cons.mp h0 with h1 | h1
                · subst h1; rfl
                · exact (hall1 e h1).2
              · exact hall2 e h0
            · refine hsub2.trans ?_
              rw [hu1]
              exact List.erase_sublist _ _
            · rw [firedIndices_append, hfi1]
              intro k hk2
              rcases List.mem_append.mp hk2 with h0 | h0
              · rw [List.mem_singleton] at h0
                rw [h0]; exact hk
              · have h1 := hmem2 k h0
                rw [hu1] at h1
                exact List.mem_of_mem_erase h1
            · intro hr hnd
              have hnd1 : p1._unreachedSyncPoints.Nodup := by
                rw [hu1]; exact hnd.erase _
              obtain ⟨hn2, he2⟩ := hok2 hr hnd1
              rw [firedIndices_append, hfi1]
              refine ⟨?_, ?_⟩
              · show (p._unreachedSyncPoints.getD i 0 :: firedIndices new2).Nodup
                refine List.nodup_cons.mpr ⟨?_, hn2⟩
                intro hin
                have h1 := hmem2 _ hin
                rw [hu1] at h1
                exact (List.Nodup.mem_erase_iff hnd).mp h1 |>.1 rfl
              · rw [he2, hu1]
                exact filter_erase_cons _ _ _ hnd
      · rw [if_neg hre] at h
        exact ih _ _ _ _ _ _ h
    · rw [if_neg hi] at h
      cases h
      exact ⟨framed_refl _ _, rfl, [], by simp, by simp, List.Sublist.refl _,
        by simp [firedIndices], fun _ _ => by simp [firedIndices]⟩

/-- The loop over the unreached sync points ends within one pass through its head for every
entry of the list from the current position on, and one more. -/
theorem barrierScan_enough_fuel : ∀ (n i : Nat) (p : Play) (w : World),
    p._unreachedSyncPoints.length < n + 1 + i →
    ∃ res, Play.barrierScan (n + 1) i p w = some res := by
  intro n
  induction n with
  | zero =>
    intro i p w hlen
    simp only [Play.barrierScan]
    rw [if_neg (by omega)]
    exact ⟨_, rfl⟩
  | succ n ih =>
    intro i p w hlen
    rw [Play.barrierScan]
    by_cases hi : i < p._unreachedSyncPoints.length
    · rw [if_pos hi]
      have hk := getD_mem_of_lt _ _ hi
      simp only
      by_cases hre : p.syncPointAtIndexIsReachableNow (p._unreachedSyncPoints.getD i 0) = true
      · rw [if_pos hre]
        cases htr : p.transitionToSyncPointAtIndex w (p._unreachedSyncPoints.getD i 0) with
        | mk r1 rest1 =>
          obtain ⟨p1, w1⟩ := rest1
          obtain ⟨_, _, hok, _, _⟩ := transitionToSyncPointAtIndex_frame _ _ _ _ _ _ htr
          cases r1 with
          | error e => exact ⟨_, rfl⟩
          | ok u =>
            simp only
            apply ih
            rw [hok rfl, List.length_erase_of_mem hk]
            omega
      · rw [if_neg hre]
        apply ih
        omega
    · rw [if_neg hi]
      exact ⟨_, rfl⟩

/-- The check of the pending-verdict queue changes nothing but the queue. -/
theorem checkPendingTacticResults_frame (p : Play) :
    (p.checkPendingTacticResults).1 = (Play.checkPendingFrom [] p._tacticsAwaitingResults).1 ∧
    (p.checkPendingTacticResults).2.toAction = p.toAction ∧
    (p.checkPendingTacticResults).2._playFactory = p._playFactory ∧
    (p.checkPendingTacticResults).2._unreachedSyncPoints = p._unreachedSyncPoints ∧
    (p.checkPendingTacticResults).2._sequenceStateByIndex = p._sequenceStateByIndex ∧
    (p.checkPendingTacticResults).2._tacticsBySequenceIndex = p._tacticsBySequenceIndex := by
  unfold Play.checkPendingTacticResults
  cases hc : Play.checkPendingFrom [] p._tacticsAwaitingResults with
  | mk r q => exact ⟨rfl, rfl, rfl, rfl, rfl, rfl⟩

/-- The stages of `update()`: the check of the pending-verdict queue, the loop over the
lanes, the loop over the unreached sync points, which always ends, and the completion
check. -/
theorem update_cases (p : Play) (w : World) :
    (∃ e, (p.checkPendingTacticResults).1 = .error e ∧
      p.update w = (.error e, (p.checkPendingTacticResults).2, w)) ∨
    ((p.checkPendingTacticResults).1 = .ok false ∧
      p.update w = (((p.checkPendingTacticResults).2.setState .Failed).1,
        ((p.checkPendingTacticResults).2.setState .Failed).2, w)) ∨
    ((p.checkPendingTacticResults).1 = .ok true ∧
      ∃ r2 p2 w2,
        Play.laneLoop (List.range (p.checkPendingTacticResults).2._tacticsBySequenceIndex.length)
          (p.checkPendingTacticResults).2 w = (r2, p2, w2) ∧
        ((∃ e, r2 = .error e ∧ p.update w = (.error e, p2, w2)) ∨
          (r2 = .ok .failedFast ∧ p.update w = (.ok (), p2, w2)) ∨
          (r2 = .ok .finished ∧ ∃ r3 p3 w3,
            Play.barrierScan (p2._unreachedSyncPoints.length + 1) 0 p2 w2 = some (r3, p3, w3) ∧
            ((∃ e, r3 = .error e ∧ p.update w = (.error e, p3, w3)) ∨
              (r3 = .ok () ∧
                p.update w = (p3.completionCheck.1, p3.completionCheck.2, w3)))))) := by
  unfold Play.update
  cases hc : p.checkPendingTacticResults with
  | mk rc p1 =>
    cases rc with
    | error e => exact Or.inl ⟨e, rfl, rfl⟩
    | ok b =>
      cases b with
      | false => exact Or.inr (Or.inl ⟨rfl, rfl⟩)
      | true =>
        refine Or.inr (Or.inr ⟨rfl, ?_⟩)
        simp only
        cases hl : Play.laneLoop (List.range p1._tacticsBySequenceIndex.length) p1 w with
        | mk r2 rest2 =>
          obtain ⟨p2, w2⟩ := rest2
          refine ⟨r2, p2, w2, rfl, ?_⟩
          cases r2 with
          | error e => exact Or.inl ⟨e, rfl, rfl⟩
          | ok x =>
            cases x with
            | failedFast => exact Or.inr (Or.inl ⟨rfl, rfl⟩)
            | finished =>
              refine Or.inr (Or.inr ⟨rfl, ?_⟩)
              simp only
              obtain ⟨res, hres⟩ := barrierScan_enough_fuel p2._unreachedSyncPoints.length 0 p2 w2
                (by omega)
              obtain ⟨r3, p3, w3⟩ := res
              refine ⟨r3, p3, w3, hres, ?_⟩
              rw [hres]
              cases r3 with
              | error e => exact Or.inl ⟨e, rfl, rfl⟩
              | ok u => exact Or.inr ⟨rfl, rfl⟩

/-- C12: fail-fast. For a Play that is not in a terminal state, a call of `update()` returns
normally and leaves the Play Failed (a) when the check of the pending-verdict queue meets a
Failed behaviour, that is when the queue holds a Failed behaviour after behaviours that are
EvaluatingSuccess or Completed, and (b) when, during the call, the `update()` of the
behaviour of some lane has returned and left that behaviour Failed. -/
theorem fail_fast (p : Play) (w : World) (hlive : ACTION_STATE_IS_DONE p._state = false) :
    (∀ pre t post, p._tacticsAwaitingResults = pre ++ t :: post →
      (∀ x ∈ pre, x.state = .EvaluatingSuccess ∨ x.state = .Completed) →
      t.state = .Failed →
      (p.update w).1 = .ok () ∧ (p.update w).2.1._state = .Failed) ∧
    (∀ i, Event.updated i .Failed ∈ (p.update w).2.2.events.drop w.events.length →
      (p.update w).1 = .ok () ∧ (p.update w).2.1._state = .Failed) := by
  obtain ⟨hc1, hc2, _, _, _, _⟩ := checkPendingTacticResults_frame p
  have hlive1 : ACTION_STATE_IS_DONE (p.checkPendingTacticResults).2._state = false := by
    rw [hc2]; exact hlive
  have hle : (p.checkPendingTacticResults).2._state.toInt ≤ ActionState.Failed.toInt := by
    revert hlive1
    cases (p.checkPendingTacticResults).2._state <;>
      simp [ACTION_STATE_IS_DONE, ActionState.toInt]
  have hset := play_setState_live _ .Failed hlive1 hle
  constructor
  · intro pre t post hq hpre ht
    have hfalse : (p.checkPendingTacticResults).1 = .ok false := by
      rw [hc1, hq]
      exact checkPendingFrom_failed pre t post hpre ht []
    rcases update_cases p w with ⟨e, h1, _⟩ | ⟨_, h2⟩ | ⟨h1, _⟩
    · rw [hfalse] at h1; cases h1
    · rw [h2, hset]
      exact ⟨rfl, rfl⟩
    · rw [hfalse] at h1; cases h1
  · intro i hmem
    rcases update_cases p w with ⟨e, _, h2⟩ | ⟨_, h2⟩ | ⟨_, r2, p2, w2, hl, hrest⟩
    · rw [h2] at hmem
      simp at hmem
    · rw [h2] at hmem
      simp at hmem
    · obtain ⟨_, _, _, _, _, new, hnew, _, hst⟩ := laneLoop_frame _ _ _ _ _ _ hl
      rcases hst hlive1 with ⟨hr, hs, _⟩ | ⟨hr, _, hno⟩
      · rcases hrest with ⟨e, hr2, _⟩ | ⟨_, hu⟩ | ⟨hr2, _⟩
        · rw [hr] at hr2; cases hr2
        · rw [hu]; exact ⟨rfl, hs⟩
        · rw [hr] at hr2; cases hr2
      · exfalso
        rcases hrest with ⟨e, _, hu⟩ | ⟨hr2, _⟩ | ⟨_, r3, p3, w3, hb, hrest3⟩
        · rw [hu] at hmem
          simp only [hnew, List.drop_left] at hmem
          exact hno i hmem
        · exact hr hr2
        · obtain ⟨_, _, new3, hnew3, hall3, _⟩ := barrierScan_frame _ _ _ _ _ _ _ hb
          have hev : (p.update w).2.2.events = w.events ++ (new ++ new3) := by
            rcases hrest3 with ⟨e, _, hu⟩ | ⟨_, hu⟩
            · rw [hu]; simp only; rw [hnew3, hnew, List.append_assoc]
            · rw [hu]; simp only; rw [hnew3, hnew, List.append_assoc]
          rw [hev, List.drop_left] at hmem
          rcases List.mem_append.mp hmem with h0 | h0
          · exact hno i h0
          · have := hall3 _ h0
            simp [Event.isUpdated] at this

/-- C17: the completion check. When a call of `update()` on a Play that is not in a terminal
state returns normally and has observed no failure (no behaviour of the pending-verdict
queue is Failed and no lane behaviour is Failed after its `update()`), then at the end of
the call: if the unfired list is empty, the Play is Completed when the pending-verdict queue
is empty and EvaluatingSuccess when it is not; if the unfired list is not empty, the state
of the Play is what it was before the call. -/
theorem completion_check (p : Play) (w : World)
    (hlive : ACTION_STATE_IS_DONE p._state = false)
    (hret : (p.update w).1 = .ok ())
    (hq : ∀ t ∈ p._tacticsAwaitingResults, t.state ≠ .Failed)
    (hl : ∀ i, Event.updated i .Failed ∉ (p.update w).2.2.events.drop w.events.length) :
    ((p.update w).2.1._unreachedSyncPoints = [] →
      (p.update w).2.1._tacticsAwaitingResults = [] →
      (p.update w).2.1._state = .Completed) ∧
    ((p.update w).2.1._unreachedSyncPoints = [] →
      (p.update w).2.1._tacticsAwaitingResults ≠ [] →
      (p.update w).2.1._state = .EvaluatingSuccess) ∧
    ((p.update w).2.1._unreachedSyncPoints ≠ [] →
      (p.update w).2.1._state = p._state) := by
  obtain ⟨hc1, hc2, _, _, _, _⟩ := checkPendingTacticResults_frame p
  have hlive1 : ACTION_STATE_IS_DONE (p.checkPendingTacticResults).2._state = false := by
    rw [hc2]; exact hlive
  rcases update_cases p w with ⟨e, _, h2⟩ | ⟨h1, _⟩ | ⟨_, r2, p2, w2, hlane, hrest⟩
  · rw [h2] at hret; cases hret
  · exfalso
    rw [hc1] at h1
    obtain ⟨t, ht, hts⟩ := checkPendingFrom_false _ _ h1
    exact hq t ht hts
  · obtain ⟨_, _, _, _, _, new, hnew, _, hst⟩ := laneLoop_frame _ _ _ _ _ _ hlane
    rcases hrest with ⟨e, _, hu⟩ | ⟨hr2, hu⟩ | ⟨hr2, r3, p3, w3, hb, hrest3⟩
    · rw [hu] at hret; cases hret
    · exfalso
      rcases hst hlive1 with ⟨_, _, i, hi⟩ | ⟨hr, _, _⟩
      · apply hl i
        rw [hu]
        simp only [hnew, List.drop_left]
        exact hi
      · exact hr hr2
    · rcases hst hlive1 with ⟨hr, _, _⟩ | ⟨_, hact, _⟩
      · rw [hr] at hr2; cases hr2
      · obtain ⟨hf3, _, _⟩ := barrierScan_frame _ _ _ _ _ _ _ hb
        rcases hrest3 with ⟨e, _, hu⟩ | ⟨_, hu⟩
        · rw [hu] at hret; cases hret
        · have hact3 : p3.toAction = p.toAction := (hf3.1.trans hact).trans hc2
          have hlive3 : ACTION_STATE_IS_DONE p3._state = false := by
            rw [hact3]; exact hlive
          have hst3 : p3._state = p._state := by rw [hact3]
          rw [hu]
          simp only
          unfold Play.completionCheck
          by_cases hun : p3._unreachedSyncPoints.length = 0
          · rw [if_pos hun]
            by_cases hqe : p3._tacticsAwaitingResults.length > 0
            · rw [if_pos hqe]
              rw [play_setState_live p3 .EvaluatingSuccess hlive3 (by
                revert hlive3
                cases p3._state <;> simp [ACTION_STATE_IS_DONE, ActionState.toInt])]
              refine ⟨fun _ h0 => ?_, fun _ _ => rfl, fun h0 => ?_⟩
              · exfalso
                have h1 : p3._tacticsAwaitingResults = [] := h0
                rw [h1] at hqe
                simp at hqe
              · exfalso
                exact h0 (List.length_eq_zero.mp hun)
            · rw [if_neg hqe]
              rw [play_setState_live p3 .Completed hlive3 (by
                revert hlive3
                cases p3._state <;> simp [ACTION_STATE_IS_DONE, ActionState.toInt])]
              refine ⟨fun _ _ => rfl, fun _ h0 => ?_, fun h0 => ?_⟩
              · exfalso
                apply h0
                apply List.length_eq_zero.mp
                show p3._tacticsAwaitingResults.length = 0
                omega
              · exfalso
                exact h0 (List.length_eq_zero.mp hun)
          · rw [if_neg hun]
            refine ⟨fun h0 => ?_, fun h0 => ?_, fun _ => hst3⟩
            · exfalso
              apply hun
              have h1 : p3._unreachedSyncPoints = [] := h0
              rw [h1]; rfl
            · exfalso
              apply hun
              have h1 : p3._unreachedSyncPoints = [] := h0
              rw [h1]; rfl

/-- Witness for C12: in the parking scenario, the call of `update()` at which the Move skill
of lane 0 is Failed sees the behaviour of lane 0 Failed after its `update()`; and for the
definition with one Kick, the call of `update()` before which the queued Kick has become
Failed meets it in the queue. Both calls return and leave the Play Failed. -/
theorem fail_fast_witness :
    (ACTION_STATE_IS_DONE
        (Play.arrange lane0OneTick
          (Play.run [quietTick] (freshPlay twoLanePlay, populatedWorld))).1._state = false ∧
      Event.updated 0 .Failed ∈
        ((Play.arrange lane0OneTick
            (Play.run [quietTick] (freshPlay twoLanePlay, populatedWorld))).1.update
          (Play.arrange lane0OneTick
            (Play.run [quietTick] (freshPlay twoLanePlay, populatedWorld))).2).2.2.events.drop
          (Play.arrange lane0OneTick
            (Play.run [quietTick] (freshPlay twoLanePlay, populatedWorld))).2.events.length ∧
      ((Play.arrange lane0OneTick
          (Play.run [quietTick] (freshPlay twoLanePlay, populatedWorld))).1.update
        (Play.arrange lane0OneTick
          (Play.run [quietTick] (freshPlay twoLanePlay, populatedWorld))).2).1 = .ok () ∧
      ((Play.arrange lane0OneTick
          (Play.run [quietTick] (freshPlay twoLanePlay, populatedWorld))).1.update
        (Play.arrange lane0OneTick
          (Play.run [quietTick] (freshPlay twoLanePlay, populatedWorld))).2).2.1._state =
        .Failed) ∧
    ((Play.arrange verdictFailedTick
        (Play.run [quietTick, lane0OneTick]
          (freshPlay kickPlay, kickWorld))).1._tacticsAwaitingResults.map
        (fun t => t.state) = [.Failed] ∧
      ((Play.arrange verdictFailedTick
          (Play.run [quietTick, lane0OneTick] (freshPlay kickPlay, kickWorld))).1.update
        (Play.arrange verdictFailedTick
          (Play.run [quietTick, lane0OneTick] (freshPlay kickPlay, kickWorld))).2).1 = .ok () ∧
      ((Play.arrange verdictFailedTick
          (Play.run [quietTick, lane0OneTick] (freshPlay kickPlay, kickWorld))).1.update
        (Play.arrange verdictFailedTick
          (Play.run [quietTick, lane0OneTick] (freshPlay kickPlay, kickWorld))).2).2.1._state =
        .Failed) :=
  ⟨⟨by decide, by decide,
      (fail_fast
        (Play.arrange lane0OneTick
          (Play.run [quietTick] (freshPlay twoLanePlay, populatedWorld))).1
        (Play.arrange lane0OneTick
          (Play.run [quietTick] (freshPlay twoLanePlay, populatedWorld))).2
        (by decide)).2 0 (by decide)⟩,
    ⟨by decide,
      (fail_fast
        (Play.arrange verdictFailedTick
          (Play.run [quietTick, lane0OneTick] (freshPlay kickPlay, kickWorld))).1
        (Play.arrange verdictFailedTick
          (Play.run [quietTick, lane0OneTick] (freshPlay kickPlay, kickWorld))).2
        (by decide)).1 [] _ [] rfl (by simp) rfl⟩⟩

/-- Witness for C17: in the parking scenario, the third call of `update()` returns, has
observed no failure, and ends with an empty unfired list and an empty pending-verdict queue;
the Play is Completed. -/
theorem completion_check_witness :
    ACTION_STATE_IS_DONE
        (Play.arrange quietTick
          (Play.run [quietTick, lane0DoneTick]
            (freshPlay twoLanePlay, populatedWorld))).1._state = false ∧
      ((Play.arrange quietTick
          (Play.run [quietTick, lane0DoneTick] (freshPlay twoLanePlay, populatedWorld))).1.update
        (Play.arrange quietTick
          (Play.run [quietTick, lane0DoneTick]
            (freshPlay twoLanePlay, populatedWorld))).2).2.1._unreachedSyncPoints = [] ∧
      ((Play.arrange quietTick
          (Play.run [quietTick, lane0DoneTick] (freshPlay twoLanePlay, populatedWorld))).1.update
        (Play.arrange quietTick
          (Play.run [quietTick, lane0DoneTick]
            (freshPlay twoLanePlay, populatedWorld))).2).2.1._state = .Completed :=
  ⟨by decide, by decide,
    (completion_check
      (Play.arrange quietTick
        (Play.run [quietTick, lane0DoneTick] (freshPlay twoLanePlay, populatedWorld))).1
      (Play.arrange quietTick
        (Play.run [quietTick, lane0DoneTick] (freshPlay twoLanePlay, populatedWorld))).2
      (by decide) rfl (by decide)
      (by
        intro i
        have hev : ((Play.arrange quietTick
            (Play.run [quietTick, lane0DoneTick]
              (freshPlay twoLanePlay, populatedWorld))).1.update
          (Play.arrange quietTick
            (Play.run [quietTick, lane0DoneTick]
              (freshPlay twoLanePlay, populatedWorld))).2).2.2.events.drop
            (Play.arrange quietTick
              (Play.run [quietTick, lane0DoneTick]
                (freshPlay twoLanePlay, populatedWorld))).2.events.length =
            [.updated 0 .Running, .updated 1 .Running, .fired 1, .deallocate (some 0),
              .deallocate (some 1), .allocate []] := by decide
        rw [hev]
        simp)).1 (by decide) rfl⟩

/-- Witness for C19: in the parking scenario, at the second call of `update()`, lane 0 is at
cursor 0 of a sequence of length 1 and its Move becomes Completed; the loop over the lanes
leaves the lane at cursor 1 with a behaviour made from the placeholder stub, and the queue
as it was. -/
theorem lane_advance_witness :
    parkingSecondTick.1.stateOfTacticSequenceAtIndex 0 = 0 ∧
    (parkingSecondTick.1._playFactory.tacticSequenceAtIndex 0).length = 1 ∧
    (Play.laneLoop [0] parkingSecondTick.1
      parkingSecondTick.2).2.1.stateOfTacticSequenceAtIndex 0 =
        parkingSecondTick.1.stateOfTacticSequenceAtIndex 0 + 1 ∧
    (Play.laneLoop [0] parkingSecondTick.1 parkingSecondTick.2).2.1._tacticsAwaitingResults =
      parkingSecondTick.1._tacticsAwaitingResults ++ [] :=
  ⟨by decide, by decide,
    ((lane_advance parkingSecondTick.1 parkingSecondTick.2 0 _ _
      (Play.laneLoop [0] parkingSecondTick.1 parkingSecondTick.2).1
      (Play.laneLoop [0] parkingSecondTick.1 parkingSecondTick.2).2.1
      (Play.laneLoop [0] parkingSecondTick.1 parkingSecondTick.2).2.2
      rfl (by decide) (by decide) (by decide) (by decide) (by decide) (by decide) rfl rfl).1
        (Or.inl rfl)).1,
    ((lane_advance parkingSecondTick.1 parkingSecondTick.2 0 _ _
      (Play.laneLoop [0] parkingSecondTick.1 parkingSecondTick.2).1
      (Play.laneLoop [0] parkingSecondTick.1 parkingSecondTick.2).2.1
      (Play.laneLoop [0] parkingSecondTick.1 parkingSecondTick.2).2.2
      rfl (by decide) (by decide) (by decide) (by decide) (by decide) (by decide) rfl rfl).1
        (Or.inl rfl)).2.1⟩

/-! ## Lemmas: cursors and behaviours through update -/

/-- Reading a vector at a position where the default value was written. -/
theorem getD_set_self {α : Type} (l : List α) (i : Nat) (d : α) : (l.set i d).getD i d = d := by
  by_cases h : i < l.length
  · exact getD_set_same _ _ _ _ h
  · simp [List.getD_eq_getElem?_getD, List.getElem?_set, h]

/-- Incrementing a cursor leaves it as it is or makes it one more. -/
theorem getD_modify_bounds (l : List Int) (i : Nat) :
    l.getD i 0 ≤ (l.modify (fun c => c + 1) i).getD i 0 ∧
      (l.modify (fun c => c + 1) i).getD i 0 ≤ l.getD i 0 + 1 := by
  by_cases h : i < l.length
  · rw [getD_modify_same _ _ _ _ h]
    omega
  · have h2 : l[i]? = none := List.getElem?_eq_none (by omega)
    simp [List.getD_eq_getElem?_getD, List.getElem?_modify, h2]

/-- The cursors and the behaviours after the part of `transitionRole` that retires the role
from its current lane. -/
theorem retire_point (C : List Int) (T : List (Option Tactic)) (curr : Int) (L : Nat) :
    (curr ≠ -1 ∧ L = curr.toNat ∧
      C.getD L 0 ≤ (if curr = -1 then C else C.modify (fun c => c + 1) curr.toNat).getD L 0 ∧
      (if curr = -1 then C else C.modify (fun c => c + 1) curr.toNat).getD L 0 ≤
        C.getD L 0 + 1 ∧
      (if curr = -1 then T else T.set curr.toNat none).getD L none = none) ∨
    ((if curr = -1 then C else C.modify (fun c => c + 1) curr.toNat).getD L 0 = C.getD L 0 ∧
      (if curr = -1 then T else T.set curr.toNat none).getD L none = T.getD L none) := by
  by_cases hc : curr = -1
  · right
    rw [if_pos hc, if_pos hc]
    exact ⟨rfl, rfl⟩
  · rw [if_neg hc, if_neg hc]
    by_cases hL : L = curr.toNat
    · left
      subst hL
      exact ⟨hc, rfl, (getD_modify_bounds C _).1, (getD_modify_bounds C _).2,
        getD_set_self T _ none⟩
    · right
      exact ⟨getD_modify_other _ _ _ _ _ (Ne.symm hL), getD_set_other _ _ _ _ _ (Ne.symm hL)⟩

/-- The cursors and the behaviours `transitionRole` leaves, as vectors. -/
theorem transitionRole_shape (p : Play) (w : World) (role : Option RolePtr)
    (currSeqIdx newSeqIdx : Int) (r : Except String Bool) (p2 : Play) (w2 : World)
    (h : p.transitionRole w role currSeqIdx newSeqIdx = (r, p2, w2)) :
    p2._sequenceStateByIndex =
      (if newSeqIdx = -1 then
        (if currSeqIdx = -1 then p._sequenceStateByIndex
          else p._sequenceStateByIndex.modify (fun c => c + 1) currSeqIdx.toNat)
      else
        (if currSeqIdx = -1 then p._sequenceStateByIndex
          else p._sequenceStateByIndex.modify (fun c => c + 1) currSeqIdx.toNat).set
            newSeqIdx.toNat 0) ∧
    (p2._tacticsBySequenceIndex =
        (if currSeqIdx = -1 then p._tacticsBySequenceIndex
          else p._tacticsBySequenceIndex.set currSeqIdx.toNat none) ∨
      (newSeqIdx ≠ -1 ∧ ∃ t, p2._tacticsBySequenceIndex =
        (if currSeqIdx = -1 then p._tacticsBySequenceIndex
          else p._tacticsBySequenceIndex.set currSeqIdx.toNat none).set
            newSeqIdx.toNat (some t))) := by
  unfold Play.transitionRole at h
  split at h
  · rename_i hboth
    cases h
    rw [if_pos hboth.2, if_pos hboth.1, if_pos hboth.1]
    exact ⟨rfl, Or.inl rfl⟩
  · by_cases hc : currSeqIdx = -1 <;> by_cases hn : newSeqIdx = -1
    · simp only [hc, hn, if_true] at h
      rw [if_pos hn, if_pos hc, if_pos hc]
      cases h
      exact ⟨rfl, Or.inl rfl⟩
    · simp only [hc, hn, if_true, if_false] at h
      rw [if_neg hn, if_pos hc, if_pos hc]
      split at h
      · cases h
        exact ⟨rfl, Or.inl rfl⟩
      · split at h
        · cases h
          exact ⟨rfl, Or.inl rfl⟩
        · cases h
          exact ⟨rfl, Or.inr ⟨hn, _, rfl⟩⟩
    · simp only [hc, hn, if_true, if_false] at h
      rw [if_pos hn, if_neg hc, if_neg hc]
      cases h
      exact ⟨rfl, Or.inl rfl⟩
    · simp only [hc, hn, if_false] at h
      rw [if_neg hn, if_neg hc, if_neg hc]
      split at h
      · cases h
        exact ⟨rfl, Or.inl rfl⟩
      · split at h
        · cases h
          exact ⟨rfl, Or.inl rfl⟩
        · cases h
          exact ⟨rfl, Or.inr ⟨hn, _, rfl⟩⟩

/-- The cursor and the behaviour of a lane after `transitionRole`: the lane the role moves
to is at cursor 0; the lane it leaves has its cursor incremented at most and no behaviour;
any other lane is as before. -/
theorem transitionRole_point (p : Play) (w : World) (role : Option RolePtr)
    (currSeqIdx newSeqIdx : Int) (r : Except String Bool) (p2 : Play) (w2 : World)
    (h : p.transitionRole w role currSeqIdx newSeqIdx = (r, p2, w2)) (L : Nat) :
    (newSeqIdx ≠ -1 ∧ L = newSeqIdx.toNat ∧ p2.stateOfTacticSequenceAtIndex L = 0) ∨
    ((newSeqIdx = -1 ∨ L ≠ newSeqIdx.toNat) ∧
      ((currSeqIdx ≠ -1 ∧ L = currSeqIdx.toNat ∧
          p.stateOfTacticSequenceAtIndex L ≤ p2.stateOfTacticSequenceAtIndex L ∧
          p2.stateOfTacticSequenceAtIndex L ≤ p.stateOfTacticSequenceAtIndex L + 1 ∧
          p2.tacticOfSequenceAtIndex L = none) ∨
        (p2.stateOfTacticSequenceAtIndex L = p.stateOfTacticSequenceAtIndex L ∧
          p2.tacticOfSequenceAtIndex L = p.tacticOfSequenceAtIndex L))) := by
  obtain ⟨hC, hT⟩ := transitionRole_shape _ _ _ _ _ _ _ _ h
  unfold Play.stateOfTacticSequenceAtIndex Play.tacticOfSequenceAtIndex
  have hret := retire_point p._sequenceStateByIndex p._tacticsBySequenceIndex currSeqIdx L
  by_cases hn : newSeqIdx = -1
  · right
    refine ⟨Or.inl hn, ?_⟩
    rw [if_pos hn] at hC
    have hT2 : p2._tacticsBySequenceIndex =
        (if currSeqIdx = -1 then p._tacticsBySequenceIndex
          else p._tacticsBySequenceIndex.set currSeqIdx.toNat none) := by
      rcases hT with h0 | ⟨h0, _⟩
      · exact h0
      · exact absurd hn h0
    rw [hC, hT2]
    exact hret
  · rw [if_neg hn] at hC
    by_cases hL : L = newSeqIdx.toNat
    · left
      refine ⟨hn, hL, ?_⟩
      rw [hC, hL]
      exact getD_set_self _ _ _
    · right
      refine ⟨Or.inr hL, ?_⟩
      have hC2 : p2._sequenceStateByIndex.getD L 0 =
          (if currSeqIdx = -1 then p._sequenceStateByIndex
            else p._sequenceStateByIndex.modify (fun c => c + 1) currSeqIdx.toNat).getD L 0 := by
        rw [hC]
        exact getD_set_other _ _ _ _ _ (Ne.symm hL)
      have hT2 : p2._tacticsBySequenceIndex.getD L none =
          (if currSeqIdx = -1 then p._tacticsBySequenceIndex
            else p._tacticsBySequenceIndex.set currSeqIdx.toNat none).getD L none := by
        rcases hT with h0 | ⟨_, t, h0⟩
        · rw [h0]
        · rw [h0]
          exact getD_set_other _ _ _ _ _ (Ne.symm hL)
      rw [hC2, hT2]
      exact hret

/-- `transitionRole` keeps the cursors consistent. -/
theorem transitionRole_consistent (p : Play) (w : World) (role : Option RolePtr)
    (currSeqIdx newSeqIdx : Int) (r : Except String Bool) (p2 : Play) (w2 : World)
    (h : p.transitionRole w role currSeqIdx newSeqIdx = (r, p2, w2)) (hp : p.Consistent) :
    p2.Consistent := by
  intro L
  obtain ⟨h1, h2⟩ := hp L
  rcases transitionRole_point _ _ _ _ _ _ _ _ h L with ⟨_, _, h0⟩ | ⟨_, ⟨_, _, ha, _, hc⟩ | ⟨ha, hb⟩⟩
  · rw [h0]
    exact ⟨by omega, fun hx => by omega⟩
  · exact ⟨by omega, fun _ => hc⟩
  · rw [ha, hb]
    exact ⟨h1, h2⟩

/-- The loop over the inputs of a firing keeps the cursors consistent. -/
theorem transitionInputs_consistent (outputs : List Nat) (inputs : List Nat) :
    ∀ (tr : List Int) (p : Play) (w : World) (r : Except String Unit) (tr2 : List Int)
      (p2 : Play) (w2 : World),
      Play.transitionInputs outputs inputs tr p w = (r, tr2, p2, w2) →
      p.Consistent → p2.Consistent := by
  induction inputs with
  | nil =>
    intro tr p w r tr2 p2 w2 h hp
    simp only [Play.transitionInputs] at h
    cases h
    exact hp
  | cons inputSeqIdx rest ih =>
    intro tr p w r tr2 p2 w2 h hp
    simp only [Play.transitionInputs] at h
    cases htr : p.transitionRole w (p._playFactory.roleForTacticSequenceAtIndex inputSeqIdx)
        inputSeqIdx
        (Play.outputForRole p._playFactory
          (p._playFactory.roleForTacticSequenceAtIndex inputSeqIdx) outputs) with
    | mk r1 rest1 =>
      obtain ⟨p1, w1⟩ := rest1
      have hp1 := transitionRole_consistent _ _ _ _ _ _ _ _ htr hp
      rw [htr] at h
      cases r1 with
      | error e =>
        simp only at h
        cases h
        exact hp1
      | ok b =>
        simp only at h
        split at h
        · exact ih _ _ _ _ _ _ _ h hp1
        · exact ih _ _ _ _ _ _ _ h hp1

/-- The loop over the outputs of a firing keeps the cursors consistent. -/
theorem transitionOutputs_consistent (tr : List Int) (outputs : List Nat) :
    ∀ (roles : List (Option RolePtr)) (p : Play) (w : World) (r : Except String Unit)
      (roles2 : List (Option RolePtr)) (p2 : Play) (w2 : World),
      Play.transitionOutputs tr outputs roles p w = (r, roles2, p2, w2) →
      p.Consistent → p2.Consistent := by
  induction outputs with
  | nil =>
    intro roles p w r roles2 p2 w2 h hp
    simp only [Play.transitionOutputs] at h
    cases h
    exact hp
  | cons outputSeqIdx rest ih =>
    intro roles p w r roles2 p2 w2 h hp
    simp only [Play.transitionOutputs] at h
    split at h
    · cases htr : p.transitionRole w (p._playFactory.roleForTacticSequenceAtIndex outputSeqIdx)
          (-1) outputSeqIdx with
      | mk r1 rest1 =>
        obtain ⟨p1, w1⟩ := rest1
        have hp1 := transitionRole_consistent _ _ _ _ _ _ _ _ htr hp
        rw [htr] at h
        cases r1 with
        | error e =>
          simp only at h
          cases h
          exact hp1
        | ok b =>
          simp only at h
          exact ih _ _ _ _ _ _ _ h hp1
    · exact ih _ _ _ _ _ _ _ h hp

/-- The stages of a firing. -/
theorem transitionToSyncPointAtIndex_cases (p : Play) (w : World) (k : Nat)
    (r : Except String Unit) (p2 : Play) (w2 : World)
    (h : p.transitionToSyncPointAtIndex w k = (r, p2, w2)) :
    ∃ r1 tr p1 w1,
      Play.transitionInputs (p._playFactory._syncPointOutputs.getD k [])
        (p._playFactory._syncPointInputs.getD k []) [] p (w.note (.fired k)) =
          (r1, tr, p1, w1) ∧
      ((r1 ≠ .ok () ∧ r ≠ .ok () ∧ p2 = p1) ∨
        (r1 = .ok () ∧ ∃ r3 roles p3 w3,
          Play.transitionOutputs tr (p._playFactory._syncPointOutputs.getD k []) [] p1 w1 =
            (r3, roles, p3, w3) ∧
          ((r3 ≠ .ok () ∧ r ≠ .ok () ∧ p2 = p3) ∨
            (r3 = .ok () ∧ r ≠ .ok () ∧ p2 = p3) ∨
            (r3 = .ok () ∧ r = .ok () ∧
              p2 = { p3 with _unreachedSyncPoints := p3._unreachedSyncPoints.erase k })))) := by
  unfold Play.transitionToSyncPointAtIndex at h
  simp only at h
  cases hin : Play.transitionInputs (p._playFactory._syncPointOutputs.getD k [])
      (p._playFactory._syncPointInputs.getD k []) [] p (w.note (.fired k)) with
  | mk r1 rest1 =>
    obtain ⟨tr, p1, w1⟩ := rest1
    refine ⟨r1, tr, p1, w1, rfl, ?_⟩
    rw [hin] at h
    cases r1 with
    | error e =>
      simp only at h
      cases h
      exact Or.inl ⟨(by intro hc; cases hc), (by intro hc; cases hc), rfl⟩
    | ok u =>
      simp only at h
      refine Or.inr ⟨rfl, ?_⟩
      cases hout : Play.transitionOutputs tr (p._playFactory._syncPointOutputs.getD k []) []
          p1 w1 with
      | mk r3 rest3 =>
        obtain ⟨roles, p3, w3⟩ := rest3
        refine ⟨r3, roles, p3, w3, rfl, ?_⟩
        rw [hout] at h
        cases r3 with
        | error e =>
          simp only at h
          cases h
          exact Or.inl ⟨(by intro hc; cases hc), (by intro hc; cases hc), rfl⟩
        | ok u2 =>
          simp only [World.allocateRolesForToplevelAction] at h
          by_cases hacc : w3.allocatorAccepts roles
          · simp only [hacc, if_true] at h
            cases h
            exact Or.inr (Or.inr ⟨rfl, rfl, rfl⟩)
          · simp only [hacc, Bool.false_eq_true, if_false] at h
            cases h
            exact Or.inr (Or.inl ⟨rfl, (by intro hc; cases hc), rfl⟩)

/-- A Play with the same cursors and behaviours is as consistent. -/
theorem consistent_of_eq (p p2 : Play)
    (hC : p2._sequenceStateByIndex = p._sequenceStateByIndex)
    (hT : p2._tacticsBySequenceIndex = p._tacticsBySequenceIndex) (hp : p.Consistent) :
    p2.Consistent := by
  intro L
  have h := hp L
  unfold Play.stateOfTacticSequenceAtIndex Play.tacticOfSequenceAtIndex at h ⊢
  rw [hC, hT]
  exact h

/-- A firing keeps the cursors consistent. -/
theorem transitionToSyncPointAtIndex_consistent (p : Play) (w : World) (k : Nat)
    (r : Except String Unit) (p2 : Play) (w2 : World)
    (h : p.transitionToSyncPointAtIndex w k = (r, p2, w2)) (hp : p.Consistent) :
    p2.Consistent := by
  obtain ⟨r1, tr, p1, w1, hin, hrest⟩ := transitionToSyncPointAtIndex_cases _ _ _ _ _ _ h
  have hp1 := transitionInputs_consistent _ _ _ _ _ _ _ _ _ hin hp
  rcases hrest with ⟨_, _, h2⟩ | ⟨_, r3, roles, p3, w3, hout, hrest3⟩
  · rw [h2]; exact hp1
  · have hp3 := transitionOutputs_consistent _ _ _ _ _ _ _ _ _ hout hp1
    rcases hrest3 with ⟨_, _, h2⟩ | ⟨_, _, h2⟩ | ⟨_, _, h2⟩
    · rw [h2]; exact hp3
    · rw [h2]; exact hp3
    · rw [h2]; exact consistent_of_eq p3 _ rfl rfl hp3

/-- The loop over the unreached sync points keeps the cursors consistent. -/
theorem barrierScan_consistent : ∀ (fuel i : Nat) (p : Play) (w : World)
    (r : Except String Unit) (p2 : Play) (w2 : World),
    Play.barrierScan fuel i p w = some (r, p2, w2) → p.Consistent → p2.Consistent := by
  intro fuel
  induction fuel with
  | zero =>
    intro i p w r p2 w2 h
    simp [Play.barrierScan] at h
  | succ n ih =>
    intro i p w r p2 w2 h hp
    simp only [Play.barrierScan] at h
    by_cases hi : i < p._unreachedSyncPoints.length
    · rw [if_pos hi] at h
      by_cases hre : p.syncPointAtIndexIsReachableNow (p._unreachedSyncPoints.getD i 0) = true
      · rw [if_pos hre] at h
        cases htr : p.transitionToSyncPointAtIndex w (p._unreachedSyncPoints.getD i 0) with
        | mk r1 rest1 =>
          obtain ⟨p1, w1⟩ := rest1
          rw [htr] at h
          have hp1 := transitionToSyncPointAtIndex_consistent _ _ _ _ _ _ htr hp
          cases r1 with
          | error e =>
            simp only at h
            cases h
            exact hp1
          | ok u =>
            simp only at h
            exact ih _ _ _ _ _ _ h hp1
      · rw [if_neg hre] at h
        exact ih _ _ _ _ _ _ h hp
    · rw [if_neg hi] at h
      cases h
      exact hp

/-- Writing a behaviour into a lane that has one keeps the cursors consistent. -/
theorem consistent_set_tactic (p : Play) (i : Nat) (t t1 : Tactic)
    (ht : p.tacticOfSequenceAtIndex i = some t) (hp : p.Consistent) :
    Play.Consistent
      { p with _tacticsBySequenceIndex := p._tacticsBySequenceIndex.set i (some t1) } := by
  intro L
  obtain ⟨h1, h2⟩ := hp L
  refine ⟨h1, fun hc => ?_⟩
  by_cases hL : L = i
  · subst hL
    have := h2 hc
    rw [ht] at this
    cases this
  · have h3 := h2 hc
    unfold Play.tacticOfSequenceAtIndex at h3 ⊢
    show (p._tacticsBySequenceIndex.set i (some t1)).getD L none = none
    rw [getD_set_other _ _ _ _ _ (Ne.symm hL)]
    exact h3

/-- `transitionSequenceAtIndex` keeps the cursors consistent. -/
theorem transitionSequenceAtIndex_consistent (p : Play) (w : World) (i : Nat)
    (r : Except String Unit) (p2 : Play) (w2 : World)
    (h : p.transitionSequenceAtIndex w i = (r, p2, w2)) (hp : p.Consistent) :
    p2.Consistent := by
  obtain ⟨_, _, _, hsh⟩ := transitionSequenceAtIndex_frame _ _ _ _ _ _ h
  rcases hsh with ⟨hC, hT⟩ | ⟨hne, hC, hT⟩
  · exact consistent_of_eq p p2 hC hT hp
  · intro L
    obtain ⟨h1, h2⟩ := hp L
    simp only [Play.stateOfTacticSequenceAtIndex, Play.tacticOfSequenceAtIndex] at h1 h2 hne ⊢
    by_cases hL : L = i
    · subst hL
      have hb := getD_modify_bounds p._sequenceStateByIndex L
      have hne1 : p._sequenceStateByIndex.getD L 0 ≠ -1 := fun hc => hne (h2 hc)
      rw [hC]
      exact ⟨by omega, fun hc => by omega⟩
    · rw [hC, getD_modify_other _ _ _ _ _ (Ne.symm hL)]
      refine ⟨h1, fun hc => ?_⟩
      rcases hT with h0 | ⟨t2, h0⟩
      · rw [h0]; exact h2 hc
      · rw [h0, getD_set_other _ _ _ _ _ (Ne.symm hL)]; exact h2 hc

/-- The loop over the lanes keeps the cursors consistent. -/
theorem laneLoop_consistent (lanes : List Nat) :
    ∀ (p : Play) (w : World) (r : Except String LaneLoopExit) (p2 : Play) (w2 : World),
      Play.laneLoop lanes p w = (r, p2, w2) → p.Consistent → p2.Consistent := by
  induction lanes with
  | nil =>
    intro p w r p2 w2 h hp
    simp only [Play.laneLoop] at h
    cases h
    exact hp
  | cons i rest ih =>
    intro p w r p2 w2 h hp
    simp only [Play.laneLoop] at h
    cases ht : p.tacticOfSequenceAtIndex i with
    | none =>
      rw [ht] at h
      exact ih _ _ _ _ _ h hp
    | some t =>
      rw [ht] at h
      simp only at h
      cases hup : t.update (w.sensed i) with
      | mk ru t1 =>
        rw [hup] at h
        have hp1 := consistent_set_tactic p i t t1 ht hp
        cases ru with
        | error e =>
          simp only at h
          cases h
          exact hp1
        | ok u =>
          simp only at h
          by_cases hadv : t1.state = .Completed ∨ t1.state = .EvaluatingSuccess
          · rw [if_pos hadv] at h
            cases hts : Play.transitionSequenceAtIndex
                { p with _tacticsBySequenceIndex := p._tacticsBySequenceIndex.set i (some t1) }
                (w.note (.updated i t1.state)) i with
            | mk r1 rest1 =>
              obtain ⟨q2, w3⟩ := rest1
              rw [hts] at h
              have hq2 := transitionSequenceAtIndex_consistent _ _ _ _ _ _ hts hp1
              cases r1 with
              | error e =>
                simp only at h
                cases h
                exact hq2
              | ok u2 =>
                simp only at h
                exact ih _ _ _ _ _ h hq2
          · rw [if_neg hadv] at h
            by_cases hfail : t1.state = .Failed
            · rw [if_pos hfail] at h
              have hfr := play_setState_frame
                { p with _tacticsBySequenceIndex := p._tacticsBySequenceIndex.set i (some t1) }
                .Failed
              cases hss : Play.setState
                  { p with _tacticsBySequenceIndex := p._tacticsBySequenceIndex.set i (some t1) }
                  .Failed with
              | mk rs ps =>
                rw [hss] at h hfr
                simp only at hfr
                have hpw : p2 = ps := by
                  cases rs <;> (simp only at h; cases h; rfl)
                rw [hpw]
                exact consistent_of_eq
                  { p with
                    _tacticsBySequenceIndex := p._tacticsBySequenceIndex.set i (some t1) }
                  ps hfr.2.2.1 hfr.2.2.2.1 hp1
            · rw [if_neg hfail] at h
              exact ih _ _ _ _ _ h hp1

/-- A call of `update()` keeps the cursors consistent and the definition the Play points
to. -/
theorem update_consistent (p : Play) (w : World) (hp : p.Consistent) :
    (p.update w).2.1.Consistent ∧ (p.update w).2.1._playFactory = p._playFactory := by
  obtain ⟨_, _, hpf, _, hC, hT⟩ := checkPendingTacticResults_frame p
  have hp1 := consistent_of_eq p _ hC hT hp
  rcases update_cases p w with ⟨e, _, h2⟩ | ⟨_, h2⟩ | ⟨_, r2, p2, w2, hlane, hrest⟩
  · rw [h2]; exact ⟨hp1, hpf⟩
  · rw [h2]
    have hfr := play_setState_frame (p.checkPendingTacticResults).2 .Failed
    exact ⟨consistent_of_eq _ _ hfr.2.2.1 hfr.2.2.2.1 hp1, hfr.1.trans hpf⟩
  · have hp2 := laneLoop_consistent _ _ _ _ _ _ hlane hp1
    obtain ⟨hpf2, _⟩ := laneLoop_frame _ _ _ _ _ _ hlane
    rcases hrest with ⟨e, _, hu⟩ | ⟨_, hu⟩ | ⟨_, r3, p3, w3, hb, hrest3⟩
    · rw [hu]; exact ⟨hp2, hpf2.trans hpf⟩
    · rw [hu]; exact ⟨hp2, hpf2.trans hpf⟩
    · have hp3 := barrierScan_consistent _ _ _ _ _ _ _ hb hp2
      obtain ⟨hf3, _⟩ := barrierScan_frame _ _ _ _ _ _ _ hb
      rcases hrest3 with ⟨e, _, hu⟩ | ⟨_, hu⟩
      · rw [hu]; exact ⟨hp3, (hf3.2.1.trans hpf2).trans hpf⟩
      · rw [hu]
        simp only
        unfold Play.completionCheck
        split
        · split
          · have hfr := play_setState_frame p3 .EvaluatingSuccess
            exact ⟨consistent_of_eq _ _ hfr.2.2.1 hfr.2.2.2.1 hp3,
              hfr.1.trans ((hf3.2.1.trans hpf2).trans hpf)⟩
          · have hfr := play_setState_frame p3 .Completed
            exact ⟨consistent_of_eq _ _ hfr.2.2.1 hfr.2.2.2.1 hp3,
              hfr.1.trans ((hf3.2.1.trans hpf2).trans hpf)⟩
        · exact ⟨hp3, (hf3.2.1.trans hpf2).trans hpf⟩

/-- Successive calls of `update()` keep the cursors consistent and the definition the Play
points to. -/
theorem run_consistent (ticks : List Tick) :
    ∀ s : Play × World, s.1.Consistent →
      (Play.run ticks s).1.Consistent ∧ (Play.run ticks s).1._playFactory = s.1._playFactory := by
  induction ticks with
  | nil =>
    intro s hs
    exact ⟨hs, rfl⟩
  | cons tick rest ih =>
    intro s hs
    simp only [Play.run]
    have ha : (Play.arrange tick s).1.Consistent := consistent_of_eq s.1 _ rfl rfl hs
    obtain ⟨h1, h2⟩ := update_consistent (Play.arrange tick s).1 (Play.arrange tick s).2 ha
    obtain ⟨h3, h4⟩ := ih (Play.step tick s).2 h1
    exact ⟨h3, h4.trans h2⟩

/-- What the constructor of Play leaves: every cursor is -1, no lane has a behaviour, the
unfired list holds every sync point of the definition `_playFactory` points to once, and
the pending-verdict queue is empty. -/
theorem new_shape (playFactory : Option PlayFactory) (gameplayModule : Option GameplayModule)
    (pf : PlayFactory) (p : Play) (h : Play.new playFactory gameplayModule pf = .ok p) :
    p._playFactory = pf ∧
    p._sequenceStateByIndex = List.replicate pf._tacticSequences.length (-1) ∧
    p._tacticsBySequenceIndex = List.replicate pf._tacticSequences.length none ∧
    p._unreachedSyncPoints = List.range pf._syncPointNames.length ∧
    p._tacticsAwaitingResults = [] ∧ p._state = .SettingUp := by
  unfold Play.new at h
  cases gameplayModule with
  | none => simp [Action.new] at h
  | some gm =>
    simp only [Action.new] at h
    cases playFactory with
    | none => simp at h
    | some x =>
      simp only [Except.ok.injEq] at h
      subst h
      simp [Play.initializeIvars]

/-- A new Play has consistent cursors. -/
theorem new_consistent (playFactory : Option PlayFactory)
    (gameplayModule : Option GameplayModule) (pf : PlayFactory) (p : Play)
    (h : Play.new playFactory gameplayModule pf = .ok p) : p.Consistent := by
  obtain ⟨_, hC, hT, _⟩ := new_shape _ _ _ _ h
  intro L
  unfold Play.stateOfTacticSequenceAtIndex Play.tacticOfSequenceAtIndex
  rw [hC, hT]
  constructor
  · by_cases hL : L < pf._tacticSequences.length
    · simp [List.getD_eq_getElem?_getD, List.getElem?_replicate, hL]
    · simp [List.getD_eq_getElem?_getD, List.getElem?_replicate, hL]
  · intro _
    by_cases hL : L < pf._tacticSequences.length
    · simp [List.getD_eq_getElem?_getD, List.getElem?_replicate, hL]
    · simp [List.getD_eq_getElem?_getD, List.getElem?_replicate, hL]

/-! ## Theorems: reachability of a sync point -/

/-- Two tests that agree on the entries of a list hold of all of them together. -/
theorem all_congr_mem {α : Type} (l : List α) (f g : α → Bool) (h : ∀ x ∈ l, f x = g x) :
    l.all f = l.all g := by
  induction l with
  | nil => rfl
  | cons a rest ih =>
    simp only [List.all_cons]
    rw [h a (List.mem_cons_self _ _), ih (fun x hx => h x (List.mem_cons_of_mem _ hx))]

/-- A value that fits into 32 bits is not changed by the conversion to `unsigned int`. -/
theorem toUnsigned_small (x : Int) (h0 : 0 ≤ x) (h1 : x < 4294967296) :
    toUnsigned x = x.toNat := by
  unfold toUnsigned
  rw [Int.emod_eq_of_lt h0 h1]

/-- For a Play with consistent cursors, `syncPointAtIndexIsReachableNow` decides reachability
as the specification words it, provided the input lanes of the sync point are not empty and
lengths and cursors fit into their machine types. -/
theorem reachable_of_consistent (p : Play) (k : Nat) (hp : p.Consistent)
    (hlen : ∀ lane ∈ p._playFactory._syncPointInputs.getD k [],
      1 ≤ (p._playFactory.tacticSequenceAtIndex lane).length ∧
        (p._playFactory.tacticSequenceAtIndex lane).length < 4294967296)
    (hcur : ∀ lane ∈ p._playFactory._syncPointInputs.getD k [],
      p.stateOfTacticSequenceAtIndex lane < 2147483648) :
    p.syncPointAtIndexIsReachableNow k = p.reachableAsSpecified k := by
  unfold Play.syncPointAtIndexIsReachableNow Play.reachableAsSpecified
  apply all_congr_mem
  intro lane hl
  obtain ⟨hl0, hl1⟩ := hlen lane hl
  have hc1 := hcur lane hl
  obtain ⟨hc0, hnone⟩ := hp lane
  simp only
  have hlenU : toUnsigned (((p._playFactory.tacticSequenceAtIndex lane).length : Nat) : Int) =
      (p._playFactory.tacticSequenceAtIndex lane).length := by
    rw [toUnsigned_small _ (by omega) (by omega)]
    simp
  rw [hlenU]
  have hlen1 : toUnsigned (((p._playFactory.tacticSequenceAtIndex lane).length : Int) - 1) =
      (p._playFactory.tacticSequenceAtIndex lane).length - 1 := by
    rw [toUnsigned_small _ (by omega) (by omega)]
    omega
  rw [hlen1]
  by_cases hneg : p.stateOfTacticSequenceAtIndex lane = -1
  · rw [hneg, hnone hneg, toUnsigned_neg_one]
    simp
  · have hcu : toUnsigned (p.stateOfTacticSequenceAtIndex lane) =
        (p.stateOfTacticSequenceAtIndex lane).toNat :=
      toUnsigned_small _ (by omega) (by omega)
    rw [hcu]
    have hiff : ((p.stateOfTacticSequenceAtIndex lane).toNat ≥
          (p._playFactory.tacticSequenceAtIndex lane).length - 1) ↔
        (((p._playFactory.tacticSequenceAtIndex lane).length : Int) - 1 ≤
          p.stateOfTacticSequenceAtIndex lane) := by
      omega
    by_cases hge : ((p._playFactory.tacticSequenceAtIndex lane).length : Int) - 1 ≤
        p.stateOfTacticSequenceAtIndex lane
    · rw [if_pos (hiff.mpr hge), if_pos hge]
      cases p.tacticOfSequenceAtIndex lane with
      | none => rfl
      | some t => rfl
    · rw [if_neg (fun h => hge (hiff.mp h)), if_neg hge]

/-- C18: reachability of a sync point. In every state that successive calls of `update()`
make of a new Play, whose `_playFactory` points to the definition `pf`,
`syncPointAtIndexIsReachableNow(k)` holds exactly when every input lane
of `k` whose cursor has reached or passed the lane's last index has no behaviour, or a
Completed one, or one that is Running and continuous (the input lanes are not empty, and
lengths and cursors fit into `unsigned int` and `int`). In particular, in any state, a sync
point all of whose input lanes hold a Running continuous behaviour is reachable, and a sync
point with an input lane that is at its last stub with a Running behaviour that is not
continuous is not. -/
theorem reachability_definition (playFactory : Option PlayFactory)
    (gameplayModule : Option GameplayModule) (pf : PlayFactory) (p0 : Play) (w0 : World)
    (ticks : List Tick) (k : Nat)
    (hnew : Play.new playFactory gameplayModule pf = .ok p0)
    (hlen : ∀ lane ∈ pf._syncPointInputs.getD k [],
      1 ≤ (pf.tacticSequenceAtIndex lane).length ∧
        (pf.tacticSequenceAtIndex lane).length < 4294967296)
    (hcur : ∀ lane ∈ pf._syncPointInputs.getD k [],
      (Play.run ticks (p0, w0)).1.stateOfTacticSequenceAtIndex lane < 2147483648) :
    (Play.run ticks (p0, w0)).1.syncPointAtIndexIsReachableNow k =
        (Play.run ticks (p0, w0)).1.reachableAsSpecified k ∧
    (∀ (p : Play) (j : Nat),
      (∀ lane ∈ p._playFactory._syncPointInputs.getD j [],
        ∃ t, p.tacticOfSequenceAtIndex lane = some t ∧ t.state = .Running ∧
          t._continuous = true) →
      p.syncPointAtIndexIsReachableNow j = true) ∧
    (∀ (p : Play) (j lane : Nat) (t : Tactic),
      lane ∈ p._playFactory._syncPointInputs.getD j [] →
      1 ≤ (p._playFactory.tacticSequenceAtIndex lane).length →
      (p._playFactory.tacticSequenceAtIndex lane).length < 4294967296 →
      p.stateOfTacticSequenceAtIndex lane =
        ((p._playFactory.tacticSequenceAtIndex lane).length : Int) - 1 →
      p.tacticOfSequenceAtIndex lane = some t → t.state = .Running →
      t._continuous = false →
      p.syncPointAtIndexIsReachableNow j = false) := by
  refine ⟨?_, ?_, ?_⟩
  · obtain ⟨hpf, _⟩ := new_shape _ _ _ _ hnew
    obtain ⟨hcons, hpf2⟩ := run_consistent ticks (p0, w0) (new_consistent _ _ _ _ hnew)
    have hpf3 : (Play.run ticks (p0, w0)).1._playFactory = pf := hpf2.trans hpf
    apply reachable_of_consistent _ _ hcons
    · rw [hpf3]; exact hlen
    · rw [hpf3]; exact hcur
  · intro p j hall
    unfold Play.syncPointAtIndexIsReachableNow
    rw [List.all_eq_true]
    intro lane hl
    obtain ⟨t, ht, hs, hc⟩ := hall lane hl
    simp only
    split
    · rw [ht]
      simp [Play.tacticCanBeConsideredCompleted, hs, hc]
    · rfl
  · intro p j lane t hl hl0 hl1 hc ht hs hnc
    unfold Play.syncPointAtIndexIsReachableNow
    rw [List.all_eq_false]
    refine ⟨lane, hl, ?_⟩
    simp only
    have hlenU : toUnsigned (((p._playFactory.tacticSequenceAtIndex lane).length : Nat) : Int) =
        (p._playFactory.tacticSequenceAtIndex lane).length := by
      rw [toUnsigned_small _ (by omega) (by omega)]
      simp
    rw [hlenU, hc, if_pos (le_refl _), ht]
    simp [Play.tacticCanBeConsideredCompleted, hs, hnc]

/-- Witness for C18: the end sync point of the parking scenario after two calls of
`update()`. -/
theorem reachability_definition_witness :
    (Play.run [quietTick, lane0DoneTick]
        (freshPlay twoLanePlay, populatedWorld)).1.syncPointAtIndexIsReachableNow 1 =
      (Play.run [quietTick, lane0DoneTick]
        (freshPlay twoLanePlay, populatedWorld)).1.reachableAsSpecified 1 :=
  (reachability_definition (some twoLanePlay) (some 7) twoLanePlay (freshPlay twoLanePlay)
    populatedWorld [quietTick, lane0DoneTick] 1 rfl (by decide) (by decide)).1

/-! ## Theorems: completion of a Play with one lane -/

/-- What a call of `update()` does to the unfired list and to the record of firings: the
list only loses entries, the sync points fired were in it, and when the call returns
normally each was fired once and the list has lost exactly them. -/
theorem update_unreached (p : Play) (w : World) :
    (p.update w).2.1._unreachedSyncPoints.Sublist p._unreachedSyncPoints ∧
    ∃ new, (p.update w).2.2.events = w.events ++ new ∧
      (∀ k ∈ firedIndices new, k ∈ p._unreachedSyncPoints) ∧
      ((p.update w).1 = .ok () → p._unreachedSyncPoints.Nodup →
        (firedIndices new).Nodup ∧
        (p.update w).2.1._unreachedSyncPoints =
          p._unreachedSyncPoints.filter (fun k => decide (k ∉ firedIndices new))) := by
  obtain ⟨_, _, _, hun, _, _⟩ := checkPendingTacticResults_frame p
  have hnil : ∀ l : List Nat, l = l.filter (fun k => decide (k ∉ firedIndices [])) := by
    intro l
    simp [firedIndices]
  rcases update_cases p w with ⟨e, _, h2⟩ | ⟨_, h2⟩ | ⟨_, r2, p2, w2, hlane, hrest⟩
  · rw [h2]
    simp only
    rw [hun]
    exact ⟨List.Sublist.refl _, [], by simp, by simp [firedIndices], fun _ _ =>
      ⟨by simp [firedIndices], hnil _⟩⟩
  · rw [h2]
    simp only
    rw [(play_setState_frame _ _).2.1, hun]
    exact ⟨List.Sublist.refl _, [], by simp, by simp [firedIndices], fun _ _ =>
      ⟨by simp [firedIndices], hnil _⟩⟩
  · obtain ⟨_, hun2, _, _, _, new, hnew, hall, _⟩ := laneLoop_frame _ _ _ _ _ _ hlane
    have hf0 : firedIndices new = [] := firedIndices_of_none new hall
    have hun2' : p2._unreachedSyncPoints = p._unreachedSyncPoints := hun2.trans hun
    rcases hrest with ⟨e, _, hu⟩ | ⟨_, hu⟩ | ⟨_, r3, p3, w3, hb, hrest3⟩
    · rw [hu]
      simp only
      rw [hun2']
      refine ⟨List.Sublist.refl _, new, hnew, by simp [hf0], fun _ _ => ?_⟩
      rw [hf0]
      exact ⟨by simp, hnil _⟩
    · rw [hu]
      simp only
      rw [hun2']
      refine ⟨List.Sublist.refl _, new, hnew, by simp [hf0], fun _ _ => ?_⟩
      rw [hf0]
      exact ⟨by simp, hnil _⟩
    · obtain ⟨_, _, new3, hnew3, _, hsub3, hmem3, hok3⟩ := barrierScan_frame _ _ _ _ _ _ _ hb
      have hfi : firedIndices (new ++ new3) = firedIndices new3 := by
        rw [firedIndices_append, hf0, List.nil_append]
      have hev : w3.events = w.events ++ (new ++ new3) := by
        rw [hnew3, hnew, List.append_assoc]
      rw [hun2'] at hsub3 hmem3 hok3
      rcases hrest3 with ⟨e, _, hu⟩ | ⟨hr3, hu⟩
      · rw [hu]
        simp only
        refine ⟨hsub3, new ++ new3, hev, ?_, fun hc => by cases hc⟩
        rw [hfi]; exact hmem3
      · rw [hu]
        simp only
        have hcc : p3.completionCheck.2._unreachedSyncPoints = p3._unreachedSyncPoints := by
          unfold Play.completionCheck
          split
          · split
            · exact (play_setState_frame _ _).2.1
            · exact (play_setState_frame _ _).2.1
          · rfl
        rw [hcc]
        refine ⟨hsub3, new ++ new3, hev, ?_, fun _ hnd => ?_⟩
        · rw [hfi]; exact hmem3
        · rw [hfi]
          exact hok3 hr3 hnd

/-- Successive calls of `update()` never add to the unfired list. -/
theorem run_unreached_sublist (ticks : List Tick) :
    ∀ s : Play × World,
      (Play.run ticks s).1._unreachedSyncPoints.Sublist s.1._unreachedSyncPoints := by
  induction ticks with
  | nil =>
    intro s
    exact List.Sublist.refl _
  | cons tick rest ih =>
    intro s
    simp only [Play.run]
    refine (ih _).trans ?_
    exact (update_unreached (Play.arrange tick s).1 (Play.arrange tick s).2).1

/-- Calls of `update()` made after others. -/
theorem run_append (a b : List Tick) :
    ∀ s : Play × World, Play.run (a ++ b) s = Play.run b (Play.run a s) := by
  induction a with
  | nil => intro s; rfl
  | cons tick rest ih =>
    intro s
    simp only [List.cons_append, Play.run]
    exact ih _

/-- As long as every call of `update()` returns normally, no sync point is fired twice and
the unfired list is the list `R` it started as without the sync points fired. -/
theorem run_fired_once (R : List Nat) (hR : R.Nodup) (ticks : List Tick) :
    ∀ s : Play × World,
      (firedIndices s.2.events).Nodup →
      s.1._unreachedSyncPoints = R.filter (fun k => decide (k ∉ firedIndices s.2.events)) →
      Play.runReturned ticks s = true →
      (firedIndices (Play.run ticks s).2.events).Nodup ∧
      (Play.run ticks s).1._unreachedSyncPoints =
        R.filter (fun k => decide (k ∉ firedIndices (Play.run ticks s).2.events)) := by
  induction ticks with
  | nil =>
    intro s h1 h2 _
    exact ⟨h1, h2⟩
  | cons tick rest ih =>
    intro s h1 h2 hret
    simp only [Play.runReturned, Bool.and_eq_true] at hret
    obtain ⟨hret1, hret2⟩ := hret
    simp only [Play.run]
    apply ih _ _ _ hret2
    all_goals
      obtain ⟨_, new, hnew, hmem, hok⟩ :=
        update_unreached (Play.arrange tick s).1 (Play.arrange tick s).2
      have hu0 : (Play.arrange tick s).1._unreachedSyncPoints = s.1._unreachedSyncPoints := rfl
      have he0 : (Play.arrange tick s).2.events = s.2.events := rfl
      have hok1 : ((Play.arrange tick s).1.update (Play.arrange tick s).2).1 = .ok () := by
        have : returned ((Play.arrange tick s).1.update (Play.arrange tick s).2).1 = true :=
          hret1
        cases hc : ((Play.arrange tick s).1.update (Play.arrange tick s).2).1 with
        | error e => rw [hc] at this; cases this
        | ok u => rfl
      have hnd : (Play.arrange tick s).1._unreachedSyncPoints.Nodup := by
        rw [hu0, h2]
        exact hR.filter _
      obtain ⟨hn2, he2⟩ := hok hok1 hnd
      rw [hu0] at hmem he2
      rw [he0] at hnew
    · show (firedIndices ((Play.arrange tick s).1.update (Play.arrange tick s).2).2.2.events).Nodup
      rw [hnew, firedIndices_append]
      refine List.Nodup.append h1 hn2 ?_
      intro k hk1 hk2
      have := hmem k hk2
      rw [h2, List.mem_filter] at this
      simpa [hk1] using this.2
    · show ((Play.arrange tick s).1.update (Play.arrange tick s).2).2.1._unreachedSyncPoints =
        R.filter (fun k => decide (k ∉ firedIndices
          ((Play.arrange tick s).1.update (Play.arrange tick s).2).2.2.events))
      rw [he2, hnew, firedIndices_append, h2, List.filter_filter]
      apply List.filter_congr
      intro x _
      by_cases ha : x ∈ firedIndices s.2.events <;> by_cases hb : x ∈ firedIndices new <;>
        simp [ha, hb]

/-- C15 (as stated, refuted): in the parking scenario, when the allocator cannot satisfy the
request of the first call of `update()`, that call fires the sync point 0 and throws, the
unfired list still holds 0, and the second call fires the sync point 0 again. -/
theorem refused_allocation_fires_start_twice :
    Play.new (some twoLanePlay) (some 7) twoLanePlay = .ok (freshPlay twoLanePlay) ∧
    Play.runReturned [refusingTick] (freshPlay twoLanePlay, populatedWorld) = false ∧
    (Play.run [refusingTick] (freshPlay twoLanePlay, populatedWorld)).2.events =
      [.fired 0, .allocate [some 0, some 1]] ∧
    (Play.run [refusingTick]
      (freshPlay twoLanePlay, populatedWorld)).1._unreachedSyncPoints = [0, 1] ∧
    firedIndices
      (Play.run [refusingTick, quietTick] (freshPlay twoLanePlay, populatedWorld)).2.events =
        [0, 0] := by
  refine ⟨rfl, by decide, by decide, by decide, by decide⟩

/-- C15 (amended): starting from a new Play, whose `_playFactory` points to the definition
`pf`, after any successive calls of `update()` the
unfired list holds no index twice, and a further call never adds to it; as long as every
call has returned normally, no sync point index has been fired twice, and the unfired list
is the list of all sync points of the definition without those fired: each firing has
removed exactly the fired index. -/
theorem barrier_fires_at_most_once (playFactory : Option PlayFactory)
    (gameplayModule : Option GameplayModule) (pf : PlayFactory) (p0 : Play) (w0 : World)
    (ticks : List Tick) (tick : Tick)
    (hnew : Play.new playFactory gameplayModule pf = .ok p0)
    (hw : firedIndices w0.events = []) :
    (Play.run ticks (p0, w0)).1._unreachedSyncPoints.Nodup ∧
    (Play.run (ticks ++ [tick]) (p0, w0)).1._unreachedSyncPoints.Sublist
      (Play.run ticks (p0, w0)).1._unreachedSyncPoints ∧
    (Play.runReturned ticks (p0, w0) = true →
      (firedIndices (Play.run ticks (p0, w0)).2.events).Nodup ∧
      (Play.run ticks (p0, w0)).1._unreachedSyncPoints =
        (List.range pf._syncPointNames.length).filter
          (fun k => decide (k ∉ firedIndices (Play.run ticks (p0, w0)).2.events))) := by
  obtain ⟨_, _, _, hun, _, _⟩ := new_shape _ _ _ _ hnew
  refine ⟨?_, ?_, ?_⟩
  · have hsub := run_unreached_sublist ticks (p0, w0)
    rw [show (p0, w0).1._unreachedSyncPoints = List.range pf._syncPointNames.length from hun]
      at hsub
    exact hsub.nodup (List.nodup_range _)
  · rw [run_append]
    exact run_unreached_sublist [tick] _
  · intro hret
    apply run_fired_once _ (List.nodup_range _) ticks (p0, w0) _ _ hret
    · show (firedIndices w0.events).Nodup
      rw [hw]; exact List.nodup_nil
    · show p0._unreachedSyncPoints = _
      rw [hun]
      show _ = (List.range pf._syncPointNames.length).filter
        (fun k => decide (k ∉ firedIndices w0.events))
      rw [hw]
      simp

/-- Witness for C15: the three calls of `update()` of the parking scenario, which all
return. -/
theorem barrier_fires_at_most_once_witness :
    Play.runReturned [quietTick, lane0DoneTick, quietTick]
      (freshPlay twoLanePlay, populatedWorld) = true ∧
    (firedIndices (Play.run [quietTick, lane0DoneTick, quietTick]
      (freshPlay twoLanePlay, populatedWorld)).2.events).Nodup ∧
    (Play.run [quietTick, lane0DoneTick, quietTick]
      (freshPlay twoLanePlay, populatedWorld)).1._unreachedSyncPoints =
        (List.range twoLanePlay._syncPointNames.length).filter
          (fun k => decide (k ∉ firedIndices (Play.run [quietTick, lane0DoneTick, quietTick]
            (freshPlay twoLanePlay, populatedWorld)).2.events)) :=
  ⟨by decide,
    (barrier_fires_at_most_once (some twoLanePlay) (some 7) twoLanePlay (freshPlay twoLanePlay)
      populatedWorld [quietTick, lane0DoneTick, quietTick] quietTick rfl rfl).2.2
        (by decide)⟩

/-! ## Lemmas: cursors never go back while every call returns -/

/-- An entry of one of the lists is an entry of the lists put together. -/
theorem mem_flatten_of_getD (l : List (List Nat)) (i x : Nat) (h : x ∈ l.getD i []) :
    x ∈ l.flatten := by
  rw [List.mem_flatten]
  by_cases hi : i < l.length
  · rw [List.getD_eq_getElem _ _ hi] at h
    exact ⟨_, List.getElem_mem _, h⟩
  · rw [List.getD_eq_default _ _ (by omega)] at h
    cases h

/-- When the lists put together hold no entry twice, no entry is in two of them. -/
theorem flatten_nodup_index (l : List (List Nat)) (h : l.flatten.Nodup) :
    ∀ (i j x : Nat), x ∈ l.getD i [] → x ∈ l.getD j [] → i = j := by
  induction l with
  | nil =>
    intro i j x hi _
    simp at hi
  | cons a rest ih =>
    intro i j x hi hj
    rw [List.flatten_cons, List.nodup_append] at h
    obtain ⟨_, hr, hd⟩ := h
    cases i with
    | zero =>
      cases j with
      | zero => rfl
      | succ j =>
        exfalso
        exact hd hi (mem_flatten_of_getD rest j x hj)
    | succ i =>
      cases j with
      | zero =>
        exfalso
        exact hd hj (mem_flatten_of_getD rest i x hi)
      | succ j =>
        rw [ih hr i j x hi hj]

/-- When the lists put together hold no entry twice, neither does one of them. -/
theorem flatten_nodup_getD (l : List (List Nat)) (h : l.flatten.Nodup) (i : Nat) :
    (l.getD i []).Nodup := by
  by_cases hi : i < l.length
  · rw [List.getD_eq_getElem _ _ hi]
    exact (List.nodup_flatten.mp h).1 _ (List.getElem_mem _)
  · rw [List.getD_eq_default _ _ (by omega)]
    exact List.nodup_nil

/-- The lane `outputForRole` finds is one of the outputs, if it finds one. -/
theorem outputForRole_mem (pf : PlayFactory) (role : Option RolePtr) (outputs : List Nat) :
    Play.outputForRole pf role outputs = -1 ∨
      ∃ o ∈ outputs, Play.outputForRole pf role outputs = (o : Int) := by
  induction outputs with
  | nil => exact Or.inl rfl
  | cons o rest ih =>
    simp only [Play.outputForRole]
    split
    · exact Or.inr ⟨o, List.mem_cons_self _ _, rfl⟩
    · rcases ih with h | ⟨x, hx, h⟩
      · exact Or.inl h
      · exact Or.inr ⟨x, List.mem_cons_of_mem _ hx, h⟩

/-- The loop over the inputs of a firing and a lane that is not an output: the cursor is
incremented once at most for each time the lane is an input, and the lane has its behaviour
of before or none. -/
theorem transitionInputs_outside (O : List Nat) (inputs : List Nat) :
    ∀ (tr : List Int) (p : Play) (w : World) (r : Except String Unit) (tr2 : List Int)
      (p2 : Play) (w2 : World),
      Play.transitionInputs O inputs tr p w = (r, tr2, p2, w2) →
      ∀ L, L ∉ O →
        p.stateOfTacticSequenceAtIndex L ≤ p2.stateOfTacticSequenceAtIndex L ∧
        p2.stateOfTacticSequenceAtIndex L ≤
          p.stateOfTacticSequenceAtIndex L + (inputs.count L : Int) ∧
        (p2.tacticOfSequenceAtIndex L = none ∨
          p2.tacticOfSequenceAtIndex L = p.tacticOfSequenceAtIndex L) := by
  induction inputs with
  | nil =>
    intro tr p w r tr2 p2 w2 h L _
    simp only [Play.transitionInputs] at h
    cases h
    exact ⟨le_refl _, by simp, Or.inr rfl⟩
  | cons i rest ih =>
    intro tr p w r tr2 p2 w2 h L hL
    simp only [Play.transitionInputs] at h
    cases htr : p.transitionRole w (p._playFactory.roleForTacticSequenceAtIndex i) i
        (Play.outputForRole p._playFactory (p._playFactory.roleForTacticSequenceAtIndex i) O) with
    | mk r1 rest1 =>
      obtain ⟨p1, w1⟩ := rest1
      have hpt := transitionRole_point _ _ _ _ _ _ _ _ htr L
      have hstep : p.stateOfTacticSequenceAtIndex L ≤ p1.stateOfTacticSequenceAtIndex L ∧
          p1.stateOfTacticSequenceAtIndex L ≤
            p.stateOfTacticSequenceAtIndex L + (if i = L then 1 else 0) ∧
          (p1.tacticOfSequenceAtIndex L = none ∨
            p1.tacticOfSequenceAtIndex L = p.tacticOfSequenceAtIndex L) := by
        rcases hpt with ⟨hn, hLn, _⟩ | ⟨_, ⟨_, hLc, h1, h2, h3⟩ | ⟨h1, h2⟩⟩
        · exfalso
          rcases outputForRole_mem p._playFactory
              (p._playFactory.roleForTacticSequenceAtIndex i) O with h0 | ⟨o, ho, h0⟩
          · exact hn h0
          · rw [h0] at hLn
            simp only [Int.toNat_ofNat] at hLn
            rw [hLn] at hL
            exact hL ho
        · simp only [Int.toNat_ofNat] at hLc
          rw [if_pos hLc.symm]
          exact ⟨h1, h2, Or.inl h3⟩
        · rw [h1, h2]
          refine ⟨le_refl _, ?_, Or.inr rfl⟩
          split <;> omega
      rw [htr] at h
      have hcount : ((i :: rest).count L : Int) = (rest.count L : Int) + (if i = L then 1 else 0) := by
        rw [List.count_cons]
        by_cases hiL : i = L
        · simp [hiL]
        · simp [hiL]
      cases r1 with
      | error e =>
        simp only at h
        cases h
        refine ⟨hstep.1, ?_, hstep.2.2⟩
        rw [hcount]
        have := hstep.2.1
        have hnn : (0 : Int) ≤ (rest.count L : Int) := Int.ofNat_nonneg _
        omega
      | ok b =>
        simp only at h
        have hrec : p1.stateOfTacticSequenceAtIndex L ≤ p2.stateOfTacticSequenceAtIndex L ∧
            p2.stateOfTacticSequenceAtIndex L ≤
              p1.stateOfTacticSequenceAtIndex L + (rest.count L : Int) ∧
            (p2.tacticOfSequenceAtIndex L = none ∨
              p2.tacticOfSequenceAtIndex L = p1.tacticOfSequenceAtIndex L) := by
          split at h
          · exact ih _ _ _ _ _ _ _ h L hL
          · exact ih _ _ _ _ _ _ _ h L hL
        refine ⟨le_trans hstep.1 hrec.1, ?_, ?_⟩
        · rw [hcount]
          have h1 := hstep.2.1
          have h2 := hrec.2.1
          omega
        · rcases hrec.2.2 with h0 | h0
          · exact Or.inl h0
          · rw [h0]; exact hstep.2.2

/-- The loop over the inputs of a firing: the lanes it records as transitioned are at a
cursor that is not negative. -/
theorem transitionInputs_inside (O : List Nat) (inputs : List Nat) :
    ∀ (tr : List Int) (p : Play) (w : World) (r : Except String Unit) (tr2 : List Int)
      (p2 : Play) (w2 : World),
      Play.transitionInputs O inputs tr p w = (r, tr2, p2, w2) →
      (∀ L : Nat, (L : Int) ∈ tr → 0 ≤ p.stateOfTacticSequenceAtIndex L) →
      ∀ L : Nat, (L : Int) ∈ tr2 → 0 ≤ p2.stateOfTacticSequenceAtIndex L := by
  induction inputs with
  | nil =>
    intro tr p w r tr2 p2 w2 h hA
    simp only [Play.transitionInputs] at h
    cases h
    exact hA
  | cons i rest ih =>
    intro tr p w r tr2 p2 w2 h hA
    simp only [Play.transitionInputs] at h
    cases htr : p.transitionRole w (p._playFactory.roleForTacticSequenceAtIndex i) i
        (Play.outputForRole p._playFactory (p._playFactory.roleForTacticSequenceAtIndex i) O) with
    | mk r1 rest1 =>
      obtain ⟨p1, w1⟩ := rest1
      have hstab : ∀ L : Nat, 0 ≤ p.stateOfTacticSequenceAtIndex L →
          0 ≤ p1.stateOfTacticSequenceAtIndex L := by
        intro L h0
        rcases transitionRole_point _ _ _ _ _ _ _ _ htr L with
          ⟨_, _, h1⟩ | ⟨_, ⟨_, _, h1, _, _⟩ | ⟨h1, _⟩⟩
        · rw [h1]
        · omega
        · rw [h1]; exact h0
      rw [htr] at h
      cases r1 with
      | error e =>
        simp only at h
        cases h
        exact fun L hL => hstab L (hA L hL)
      | ok b =>
        simp only at h
        split at h
        · exact ih _ _ _ _ _ _ _ h (fun L hL => hstab L (hA L hL))
        · rename_i hne
          apply ih _ _ _ _ _ _ _ h
          intro L hL
          rcases List.mem_append.mp hL with h0 | h0
          · exact hstab L (hA L h0)
          · rw [List.mem_singleton] at h0
            rcases transitionRole_point _ _ _ _ _ _ _ _ htr L with
              ⟨_, _, h1⟩ | ⟨hor, _⟩
            · rw [h1]
            · exfalso
              rcases hor with h2 | h2
              · exact hne h2
              · apply h2
                rw [← h0]
                simp

/-- The loop over the outputs of a firing leaves every lane that is not an output as it
is, and no cursor that is not negative becomes negative. -/
theorem transitionOutputs_outside (tr : List Int) (outputs : List Nat) :
    ∀ (roles : List (Option RolePtr)) (p : Play) (w : World) (r : Except String Unit)
      (roles2 : List (Option RolePtr)) (p2 : Play) (w2 : World),
      Play.transitionOutputs tr outputs roles p w = (r, roles2, p2, w2) →
      (∀ L, L ∉ outputs →
        p2.stateOfTacticSequenceAtIndex L = p.stateOfTacticSequenceAtIndex L ∧
        p2.tacticOfSequenceAtIndex L = p.tacticOfSequenceAtIndex L) ∧
      (∀ L, 0 ≤ p.stateOfTacticSequenceAtIndex L → 0 ≤ p2.stateOfTacticSequenceAtIndex L) := by
  induction outputs with
  | nil =>
    intro roles p w r roles2 p2 w2 h
    simp only [Play.transitionOutputs] at h
    cases h
    exact ⟨fun _ _ => ⟨rfl, rfl⟩, fun _ h0 => h0⟩
  | cons o rest ih =>
    intro roles p w r roles2 p2 w2 h
    simp only [Play.transitionOutputs] at h
    split at h
    · cases htr : p.transitionRole w (p._playFactory.roleForTacticSequenceAtIndex o)
          (-1) o with
      | mk r1 rest1 =>
        obtain ⟨p1, w1⟩ := rest1
        have hpt := transitionRole_point _ _ _ _ _ _ _ _ htr
        have hstep : (∀ L, L ≠ o →
              p1.stateOfTacticSequenceAtIndex L = p.stateOfTacticSequenceAtIndex L ∧
              p1.tacticOfSequenceAtIndex L = p.tacticOfSequenceAtIndex L) ∧
            (∀ L, 0 ≤ p.stateOfTacticSequenceAtIndex L →
              0 ≤ p1.stateOfTacticSequenceAtIndex L) := by
          constructor
          · intro L hL
            rcases hpt L with ⟨_, h1, _⟩ | ⟨_, ⟨h1, _⟩ | h1⟩
            · simp only [Int.toNat_ofNat] at h1
              exact absurd h1 hL
            · exact absurd rfl h1
            · exact h1
          · intro L h0
            rcases hpt L with ⟨_, _, h1⟩ | ⟨_, ⟨h1, _⟩ | ⟨h1, _⟩⟩
            · rw [h1]
            · exact absurd rfl h1
            · rw [h1]; exact h0
        rw [htr] at h
        cases r1 with
        | error e =>
          simp only at h
          cases h
          exact ⟨fun L hL => hstep.1 L (fun hc => hL (hc ▸ List.mem_cons_self _ _)), hstep.2⟩
        | ok b =>
          simp only at h
          obtain ⟨h1, h2⟩ := ih _ _ _ _ _ _ _ h
          refine ⟨fun L hL => ?_, fun L h0 => h2 L (hstep.2 L h0)⟩
          have ha := h1 L (fun hc => hL (List.mem_cons_of_mem _ hc))
          have hb := hstep.1 L (fun hc => hL (hc ▸ List.mem_cons_self _ _))
          exact ⟨ha.1.trans hb.1, ha.2.trans hb.2⟩
    · obtain ⟨h1, h2⟩ := ih _ _ _ _ _ _ _ h
      exact ⟨fun L hL => h1 L (fun hc => hL (List.mem_cons_of_mem _ hc)), h2⟩

/-- After the loop over the outputs of a firing has run through, every output is at a
cursor that is not negative. -/
theorem transitionOutputs_inside (tr : List Int) (outputs : List Nat) :
    ∀ (roles : List (Option RolePtr)) (p : Play) (w : World)
      (roles2 : List (Option RolePtr)) (p2 : Play) (w2 : World),
      Play.transitionOutputs tr outputs roles p w = (.ok (), roles2, p2, w2) →
      (∀ L : Nat, (L : Int) ∈ tr → 0 ≤ p.stateOfTacticSequenceAtIndex L) →
      ∀ L ∈ outputs, 0 ≤ p2.stateOfTacticSequenceAtIndex L := by
  induction outputs with
  | nil =>
    intro roles p w roles2 p2 w2 _ _ L hL
    cases hL
  | cons o rest ih =>
    intro roles p w roles2 p2 w2 h hA L hL
    simp only [Play.transitionOutputs] at h
    split at h
    · cases htr : p.transitionRole w (p._playFactory.roleForTacticSequenceAtIndex o)
          (-1) o with
      | mk r1 rest1 =>
        obtain ⟨p1, w1⟩ := rest1
        have hpt := transitionRole_point _ _ _ _ _ _ _ _ htr
        have hstab : ∀ L : Nat, 0 ≤ p.stateOfTacticSequenceAtIndex L →
            0 ≤ p1.stateOfTacticSequenceAtIndex L := by
          intro L h0
          rcases hpt L with ⟨_, _, h1⟩ | ⟨_, ⟨h1, _⟩ | ⟨h1, _⟩⟩
          · rw [h1]
          · exact absurd rfl h1
          · rw [h1]; exact h0
        have ho : 0 ≤ p1.stateOfTacticSequenceAtIndex o := by
          rcases hpt o with ⟨_, _, h1⟩ | ⟨hor, _⟩
          · rw [h1]
          · exfalso
            rcases hor with h2 | h2
            · omega
            · apply h2; simp
        rw [htr] at h
        cases r1 with
        | error e =>
          simp only at h
          cases h
        | ok b =>
          simp only at h
          rcases List.mem_cons.mp hL with h0 | h0
          · rw [h0]
            exact (transitionOutputs_outside _ _ _ _ _ _ _ _ _ h).2 o ho
          · exact ih _ _ _ _ _ _ h (fun L hL => hstab L (hA L hL)) L h0
    · rename_i hin
      rcases List.mem_cons.mp hL with h0 | h0
      · rw [h0]
        have ho : 0 ≤ p.stateOfTacticSequenceAtIndex o := hA o (by
          by_contra hc
          exact hin hc)
        exact (transitionOutputs_outside _ _ _ _ _ _ _ _ _ h).2 o ho
      · exact ih _ _ _ _ _ _ h hA L h0

/-- A firing that runs through: every output lane is at a cursor that is not negative; for
any other lane the cursor is incremented once at most for each time the lane is an input,
and the lane has its behaviour of before or none. -/
theorem firing_outcome (p : Play) (w : World) (k : Nat) (p2 : Play) (w2 : World)
    (h : p.transitionToSyncPointAtIndex w k = (.ok (), p2, w2)) :
    (∀ L ∈ p._playFactory._syncPointOutputs.getD k [],
      0 ≤ p2.stateOfTacticSequenceAtIndex L) ∧
    (∀ L, L ∉ p._playFactory._syncPointOutputs.getD k [] →
      p.stateOfTacticSequenceAtIndex L ≤ p2.stateOfTacticSequenceAtIndex L ∧
      p2.stateOfTacticSequenceAtIndex L ≤ p.stateOfTacticSequenceAtIndex L +
        ((p._playFactory._syncPointInputs.getD k []).count L : Int) ∧
      (p2.tacticOfSequenceAtIndex L = none ∨
        p2.tacticOfSequenceAtIndex L = p.tacticOfSequenceAtIndex L)) := by
  obtain ⟨r1, tr, p1, w1, hin, hrest⟩ := transitionToSyncPointAtIndex_cases _ _ _ _ _ _ h
  rcases hrest with ⟨_, hne, _⟩ | ⟨_, r3, roles, p3, w3, hout, hrest3⟩
  · exact absurd rfl hne
  · rcases hrest3 with ⟨_, hne, _⟩ | ⟨_, hne, _⟩ | ⟨hr3, _, hp2⟩
    · exact absurd rfl hne
    · exact absurd rfl hne
    · subst hr3
      have hA := transitionInputs_inside _ _ _ _ _ _ _ _ _ hin (by intro L hL; cases hL)
      have hI := transitionInputs_outside _ _ _ _ _ _ _ _ _ hin
      have hO := transitionOutputs_outside _ _ _ _ _ _ _ _ _ hout
      have hO2 := transitionOutputs_inside _ _ _ _ _ _ _ _ hout hA
      have hc : ∀ L, p2.stateOfTacticSequenceAtIndex L = p3.stateOfTacticSequenceAtIndex L := by
        intro L; rw [hp2]; rfl
      have ht : ∀ L, p2.tacticOfSequenceAtIndex L = p3.tacticOfSequenceAtIndex L := by
        intro L; rw [hp2]; rfl
      refine ⟨fun L hL => ?_, fun L hL => ?_⟩
      · rw [hc]; exact hO2 L hL
      · obtain ⟨h1, h2, h3⟩ := hI L hL
        obtain ⟨h4, h5⟩ := hO.1 L hL
        rw [hc, ht, h4, h5]
        exact ⟨h1, h2, h3⟩

/-- A firing that runs through, of a sync point of the unfired list, in a definition whose
lanes are linked once: no cursor goes back, and the lanes that start at a sync point still
unfired have still not started. -/
theorem firing_unstarted (p : Play) (w : World) (k : Nat) (p2 : Play) (w2 : World)
    (h : p.transitionToSyncPointAtIndex w k = (.ok (), p2, w2))
    (hk : k ∈ p._unreachedSyncPoints) (hnd : p._unreachedSyncPoints.Nodup)
    (hD : p._playFactory.LanesLinkedOnce) (hK : p.Unstarted) :
    p2.Unstarted ∧
      ∀ L, p.stateOfTacticSequenceAtIndex L ≤ p2.stateOfTacticSequenceAtIndex L := by
  obtain ⟨hO, hI⟩ := firing_outcome _ _ _ _ _ h
  obtain ⟨hf, _, hok, _, _⟩ := transitionToSyncPointAtIndex_frame _ _ _ _ _ _ h
  have hun : p2._unreachedSyncPoints = p._unreachedSyncPoints.erase k := hok rfl
  have hpf : p2._playFactory = p._playFactory := hf.2.1
  constructor
  · intro k2 hk2 L hL
    rw [hun] at hk2
    rw [hpf] at hL
    have hk2ne : k2 ≠ k := fun hc => by
      rw [hc] at hk2
      exact ((List.Nodup.mem_erase_iff hnd).mp hk2).1 rfl
    have hk2m : k2 ∈ p._unreachedSyncPoints := List.mem_of_mem_erase hk2
    have hLO : L ∉ p._playFactory._syncPointOutputs.getD k [] := fun hc =>
      hk2ne (flatten_nodup_index _ hD.1 _ _ _ hL hc)
    obtain ⟨t0, c0, e0⟩ := hK k2 hk2m L hL
    obtain ⟨h1, h2, h3⟩ := hI L hLO
    by_cases hLI : L ∈ p._playFactory._syncPointInputs.getD k []
    · have hcnt : (p._playFactory._syncPointInputs.getD k []).count L ≤ 1 :=
        List.nodup_iff_count_le_one.mp (flatten_nodup_getD _ hD.2.1 k) L
      have hc0 : p.stateOfTacticSequenceAtIndex L ≠ 0 := fun hc => e0 hc k hk hLI
      refine ⟨?_, by omega, ?_⟩
      · rcases h3 with h0 | h0
        · exact h0
        · rw [h0]; exact t0
      · intro _ e he hLe
        rw [hun] at he
        rw [hpf] at hLe
        have hee : e = k := flatten_nodup_index _ hD.2.1 _ _ _ hLe hLI
        rw [hee] at he
        exact ((List.Nodup.mem_erase_iff hnd).mp he).1 rfl
    · have hcnt : (p._playFactory._syncPointInputs.getD k []).count L = 0 :=
        List.count_eq_zero_of_not_mem hLI
      rw [hcnt] at h2
      have hceq : p2.stateOfTacticSequenceAtIndex L = p.stateOfTacticSequenceAtIndex L := by
        simp only [Nat.cast_zero, add_zero] at h2
        omega
      refine ⟨?_, by omega, ?_⟩
      · rcases h3 with h0 | h0
        · exact h0
        · rw [h0]; exact t0
      · intro hz e he hLe
        rw [hun] at he
        rw [hpf] at hLe
        rw [hceq] at hz
        exact e0 hz e (List.mem_of_mem_erase he) hLe
  · intro L
    by_cases hLO : L ∈ p._playFactory._syncPointOutputs.getD k []
    · have := (hK k hk L hLO).2.1
      have := hO L hLO
      omega
    · exact (hI L hLO).1

/-- The loop over the lanes changes the lanes that have a behaviour only, and their cursors
do not go back. -/
theorem laneLoop_lanes (lanes : List Nat) :
    ∀ (p : Play) (w : World) (r : Except String LaneLoopExit) (p2 : Play) (w2 : World),
      Play.laneLoop lanes p w = (r, p2, w2) →
      ∀ L, (p.tacticOfSequenceAtIndex L ≠ none ∧
          p.stateOfTacticSequenceAtIndex L ≤ p2.stateOfTacticSequenceAtIndex L) ∨
        (p2.stateOfTacticSequenceAtIndex L = p.stateOfTacticSequenceAtIndex L ∧
          p2.tacticOfSequenceAtIndex L = p.tacticOfSequenceAtIndex L) := by
  induction lanes with
  | nil =>
    intro p w r p2 w2 h L
    simp only [Play.laneLoop] at h
    cases h
    exact Or.inr ⟨rfl, rfl⟩
  | cons i rest ih =>
    intro p w r p2 w2 h L
    simp only [Play.laneLoop] at h
    cases ht : p.tacticOfSequenceAtIndex i with
    | none =>
      rw [ht] at h
      exact ih _ _ _ _ _ h L
    | some t =>
      rw [ht] at h
      simp only at h
      cases hup : t.update (w.sensed i) with
      | mk ru t1 =>
        rw [hup] at h
        have hset : ∀ L, (p.tacticOfSequenceAtIndex L ≠ none ∧
              Play.stateOfTacticSequenceAtIndex
                { p with
                  _tacticsBySequenceIndex := p._tacticsBySequenceIndex.set i (some t1) } L =
                p.stateOfTacticSequenceAtIndex L ∧
              Play.tacticOfSequenceAtIndex
                { p with
                  _tacticsBySequenceIndex := p._tacticsBySequenceIndex.set i (some t1) } L ≠
                none) ∨
            (Play.stateOfTacticSequenceAtIndex
                { p with
                  _tacticsBySequenceIndex := p._tacticsBySequenceIndex.set i (some t1) } L =
                p.stateOfTacticSequenceAtIndex L ∧
              Play.tacticOfSequenceAtIndex
                { p with
                  _tacticsBySequenceIndex := p._tacticsBySequenceIndex.set i (some t1) } L =
                p.tacticOfSequenceAtIndex L) := by
          intro L
          by_cases hL : L = i
          · left
            subst hL
            refine ⟨by rw [ht]; simp, rfl, ?_⟩
            have hlt : L < p._tacticsBySequenceIndex.length := by
              by_contra hc
              unfold Play.tacticOfSequenceAtIndex at ht
              rw [List.getD_eq_default _ _ (by omega)] at ht
              cases ht
            show (p._tacticsBySequenceIndex.set L (some t1)).getD L none ≠ none
            rw [getD_set_same _ _ _ _ hlt]
            simp
          · right
            exact ⟨rfl, getD_set_other _ _ _ _ _ (Ne.symm hL)⟩
        have hcomb : ∀ (q : Play),
            (∀ L, (Play.tacticOfSequenceAtIndex
                  { p with
                    _tacticsBySequenceIndex := p._tacticsBySequenceIndex.set i (some t1) } L ≠
                  none ∧
                Play.stateOfTacticSequenceAtIndex
                  { p with
                    _tacticsBySequenceIndex := p._tacticsBySequenceIndex.set i (some t1) } L ≤
                  q.stateOfTacticSequenceAtIndex L) ∨
              (q.stateOfTacticSequenceAtIndex L =
                  Play.stateOfTacticSequenceAtIndex
                    { p with
                      _tacticsBySequenceIndex :=
                        p._tacticsBySequenceIndex.set i (some t1) } L ∧
                q.tacticOfSequenceAtIndex L =
                  Play.tacticOfSequenceAtIndex
                    { p with
                      _tacticsBySequenceIndex :=
                        p._tacticsBySequenceIndex.set i (some t1) } L)) →
            ∀ L, (p.tacticOfSequenceAtIndex L ≠ none ∧
                p.stateOfTacticSequenceAtIndex L ≤ q.stateOfTacticSequenceAtIndex L) ∨
              (q.stateOfTacticSequenceAtIndex L = p.stateOfTacticSequenceAtIndex L ∧
                q.tacticOfSequenceAtIndex L = p.tacticOfSequenceAtIndex L) := by
          intro q hq L
          rcases hset L with ⟨a1, a2, a3⟩ | ⟨a1, a2⟩
          · rcases hq L with ⟨_, b2⟩ | ⟨b1, _⟩
            · exact Or.inl ⟨a1, by rw [← a2]; exact b2⟩
            · exact Or.inl ⟨a1, by rw [b1, a2]⟩
          · rcases hq L with ⟨b1, b2⟩ | ⟨b1, b2⟩
            · exact Or.inl ⟨by rw [← a2]; exact b1, by rw [← a1]; exact b2⟩
            · exact Or.inr ⟨b1.trans a1, b2.trans a2⟩
        cases ru with
        | error e =>
          simp only at h
          cases h
          exact hcomb _ (fun L => Or.inr ⟨rfl, rfl⟩) L
        | ok u =>
          simp only at h
          by_cases hadv : t1.state = .Completed ∨ t1.state = .EvaluatingSuccess
          · rw [if_pos hadv] at h
            cases hts : Play.transitionSequenceAtIndex
                { p with _tacticsBySequenceIndex := p._tacticsBySequenceIndex.set i (some t1) }
                (w.note (.updated i t1.state)) i with
            | mk r1 rest1 =>
              obtain ⟨q2, w3⟩ := rest1
              rw [hts] at h
              obtain ⟨_, _, _, hsh⟩ := transitionSequenceAtIndex_frame _ _ _ _ _ _ hts
              have hq2 : ∀ L, (Play.tacticOfSequenceAtIndex
                    { p with
                      _tacticsBySequenceIndex :=
                        p._tacticsBySequenceIndex.set i (some t1) } L ≠ none ∧
                  Play.stateOfTacticSequenceAtIndex
                    { p with
                      _tacticsBySequenceIndex :=
                        p._tacticsBySequenceIndex.set i (some t1) } L ≤
                    q2.stateOfTacticSequenceAtIndex L ∧
                  q2.tacticOfSequenceAtIndex L ≠ none) ∨
                (q2.stateOfTacticSequenceAtIndex L =
                    Play.stateOfTacticSequenceAtIndex
                      { p with
                        _tacticsBySequenceIndex :=
                          p._tacticsBySequenceIndex.set i (some t1) } L ∧
                  q2.tacticOfSequenceAtIndex L =
                    Play.tacticOfSequenceAtIndex
                      { p with
                        _tacticsBySequenceIndex :=
                          p._tacticsBySequenceIndex.set i (some t1) } L) := by
                intro L
                rcases hsh with ⟨hC, hT⟩ | ⟨hne, hC, hT⟩
                · right
                  unfold Play.stateOfTacticSequenceAtIndex Play.tacticOfSequenceAtIndex
                  rw [hC, hT]
                  exact ⟨rfl, rfl⟩
                · by_cases hL : L = i
                  · left
                    subst hL
                    refine ⟨hne, ?_, ?_⟩
                    · unfold Play.stateOfTacticSequenceAtIndex
                      rw [hC]
                      exact (getD_modify_bounds _ _).1
                    · rcases hT with h0 | ⟨t2, h0⟩
                      · unfold Play.tacticOfSequenceAtIndex at hne ⊢
                        rw [h0]; exact hne
                      · have hlt : L < (p._tacticsBySequenceIndex.set L (some t1)).length := by
                          by_contra hc
                          apply hne
                          show (p._tacticsBySequenceIndex.set L (some t1)).getD L none = none
                          exact List.getD_eq_default _ _ (by omega)
                        unfold Play.tacticOfSequenceAtIndex
                        rw [h0]
                        show (List.set (p._tacticsBySequenceIndex.set L (some t1)) L
                          (some t2)).getD L none ≠ none
                        rw [getD_set_same _ _ _ _ hlt]
                        simp
                  · right
                    unfold Play.stateOfTacticSequenceAtIndex Play.tacticOfSequenceAtIndex
                    rw [hC]
                    refine ⟨getD_modify_other _ _ _ _ _ (Ne.symm hL), ?_⟩
                    rcases hT with h0 | ⟨t2, h0⟩
                    · rw [h0]
                    · rw [h0]
                      exact getD_set_other _ _ _ _ _ (Ne.symm hL)
              cases r1 with
              | error e =>
                simp only at h
                cases h
                apply hcomb
                intro L
                rcases hq2 L with ⟨a1, a2, _⟩ | a
                · exact Or.inl ⟨a1, a2⟩
                · exact Or.inr a
              | ok u2 =>
                simp only at h
                apply hcomb
                intro L
                rcases hq2 L with ⟨a1, a2, a3⟩ | ⟨a1, a2⟩
                · rcases ih _ _ _ _ _ h L with ⟨_, b2⟩ | ⟨b1, _⟩
                  · exact Or.inl ⟨a1, le_trans a2 b2⟩
                  · exact Or.inl ⟨a1, by rw [b1]; exact a2⟩
                · rcases ih _ _ _ _ _ h L with ⟨b1, b2⟩ | ⟨b1, b2⟩
                  · exact Or.inl ⟨by rw [← a2]; exact b1, by rw [← a1]; exact b2⟩
                  · exact Or.inr ⟨b1.trans a1, b2.trans a2⟩
          · rw [if_neg hadv] at h
            by_cases hfail : t1.state = .Failed
            · rw [if_pos hfail] at h
              have hfr := play_setState_frame
                { p with _tacticsBySequenceIndex := p._tacticsBySequenceIndex.set i (some t1) }
                .Failed
              cases hss : Play.setState
                  { p with _tacticsBySequenceIndex := p._tacticsBySequenceIndex.set i (some t1) }
                  .Failed with
              | mk rs ps =>
                rw [hss] at h hfr
                simp only at hfr
                have hpw : p2 = ps := by
                  cases rs <;> (simp only at h; cases h; rfl)
                rw [hpw]
                apply hcomb
                intro L
                right
                unfold Play.stateOfTacticSequenceAtIndex Play.tacticOfSequenceAtIndex
                rw [hfr.2.2.1, hfr.2.2.2.1]
                exact ⟨rfl, rfl⟩
            · rw [if_neg hfail] at h
              exact hcomb _ (ih _ _ _ _ _ h) L

/-- A Play with the same definition, unfired list, cursors and behaviours has as many
unstarted lanes. -/
theorem unstarted_of_eq (p p2 : Play) (hpf : p2._playFactory = p._playFactory)
    (hun : p2._unreachedSyncPoints = p._unreachedSyncPoints)
    (hC : p2._sequenceStateByIndex = p._sequenceStateByIndex)
    (hT : p2._tacticsBySequenceIndex = p._tacticsBySequenceIndex) (hK : p.Unstarted) :
    p2.Unstarted := by
  intro k hk L hL
  rw [hun] at hk
  rw [hpf] at hL
  have h := hK k hk L hL
  unfold Play.stateOfTacticSequenceAtIndex Play.tacticOfSequenceAtIndex at h ⊢
  rw [hC, hT, hun, hpf]
  exact h

/-- The loop over the lanes leaves the unstarted lanes unstarted, and no cursor goes
back. -/
theorem laneLoop_unstarted (lanes : List Nat) (p : Play) (w : World)
    (r : Except String LaneLoopExit) (p2 : Play) (w2 : World)
    (h : Play.laneLoop lanes p w = (r, p2, w2)) (hK : p.Unstarted) :
    p2.Unstarted ∧
      ∀ L, p.stateOfTacticSequenceAtIndex L ≤ p2.stateOfTacticSequenceAtIndex L := by
  obtain ⟨hpf, hun, _⟩ := laneLoop_frame _ _ _ _ _ _ h
  have hS := laneLoop_lanes _ _ _ _ _ _ h
  constructor
  · intro k hk L hL
    rw [hun] at hk
    rw [hpf] at hL
    obtain ⟨t0, c0, e0⟩ := hK k hk L hL
    rcases hS L with ⟨h1, _⟩ | ⟨h1, h2⟩
    · exact absurd t0 h1
    · rw [h1, h2, hun, hpf]
      exact ⟨t0, c0, e0⟩
  · intro L
    rcases hS L with ⟨_, h1⟩ | ⟨h1, _⟩
    · exact h1
    · rw [h1]

/-- The loop over the unreached sync points, when it ends normally, in a definition whose
lanes are linked once: the unstarted lanes of the sync points still unfired are unstarted,
and no cursor has gone back. -/
theorem barrierScan_unstarted : ∀ (fuel i : Nat) (p : Play) (w : World) (p2 : Play)
    (w2 : World), Play.barrierScan fuel i p w = some (.ok (), p2, w2) →
    p._unreachedSyncPoints.Nodup → p._playFactory.LanesLinkedOnce → p.Unstarted →
    p2.Unstarted ∧
      ∀ L, p.stateOfTacticSequenceAtIndex L ≤ p2.stateOfTacticSequenceAtIndex L := by
  intro fuel
  induction fuel with
  | zero =>
    intro i p w p2 w2 h
    simp [Play.barrierScan] at h
  | succ n ih =>
    intro i p w p2 w2 h hnd hD hK
    simp only [Play.barrierScan] at h
    by_cases hi : i < p._unreachedSyncPoints.length
    · rw [if_pos hi] at h
      have hk := getD_mem_of_lt _ _ hi
      by_cases hre : p.syncPointAtIndexIsReachableNow (p._unreachedSyncPoints.getD i 0) = true
      · rw [if_pos hre] at h
        cases htr : p.transitionToSyncPointAtIndex w (p._unreachedSyncPoints.getD i 0) with
        | mk r1 rest1 =>
          obtain ⟨p1, w1⟩ := rest1
          rw [htr] at h
          cases r1 with
          | error e =>
            simp only at h
            cases h
          | ok u =>
            simp only at h
            obtain ⟨hf, _, hok, _, _⟩ := transitionToSyncPointAtIndex_frame _ _ _ _ _ _ htr
            obtain ⟨hK1, hm1⟩ := firing_unstarted _ _ _ _ _ htr hk hnd hD hK
            have hnd1 : p1._unreachedSyncPoints.Nodup := by
              rw [hok rfl]; exact hnd.erase _
            have hD1 : p1._playFactory.LanesLinkedOnce := by
              rw [hf.2.1]; exact hD
            obtain ⟨hK2, hm2⟩ := ih _ _ _ _ _ h hnd1 hD1 hK1
            exact ⟨hK2, fun L => le_trans (hm1 L) (hm2 L)⟩
      · rw [if_neg hre] at h
        exact ih _ _ _ _ _ h hnd hD hK
    · rw [if_neg hi] at h
      cases h
      exact ⟨hK, fun _ => le_refl _⟩

/-- A call of `update()` that returns normally, in a definition whose lanes are linked
once: no cursor goes back, and what this rests on holds again after the call. -/
theorem update_unstarted (p : Play) (w : World) (hret : (p.update w).1 = .ok ())
    (hnd : p._unreachedSyncPoints.Nodup) (hD : p._playFactory.LanesLinkedOnce)
    (hK : p.Unstarted) :
    (p.update w).2.1.Unstarted ∧
      ∀ L, p.stateOfTacticSequenceAtIndex L ≤
        (p.update w).2.1.stateOfTacticSequenceAtIndex L := by
  obtain ⟨_, _, hpf, hun, hC, hT⟩ := checkPendingTacticResults_frame p
  have hK1 := unstarted_of_eq p _ hpf hun hC hT hK
  have hc1 : ∀ L, (p.checkPendingTacticResults).2.stateOfTacticSequenceAtIndex L =
      p.stateOfTacticSequenceAtIndex L := by
    intro L
    unfold Play.stateOfTacticSequenceAtIndex
    rw [hC]
  have hset : ∀ (q : Play) (s : ActionState), q.Unstarted →
      (q.setState s).2.Unstarted ∧
        ∀ L, (q.setState s).2.stateOfTacticSequenceAtIndex L =
          q.stateOfTacticSequenceAtIndex L := by
    intro q s hq
    have hfr := play_setState_frame q s
    refine ⟨unstarted_of_eq q _ hfr.1 hfr.2.1 hfr.2.2.1 hfr.2.2.2.1 hq, fun L => ?_⟩
    unfold Play.stateOfTacticSequenceAtIndex
    rw [hfr.2.2.1]
  rcases update_cases p w with ⟨e, _, h2⟩ | ⟨_, h2⟩ | ⟨_, r2, p2, w2, hlane, hrest⟩
  · rw [h2] at hret; cases hret
  · rw [h2]
    obtain ⟨h3, h4⟩ := hset _ .Failed hK1
    exact ⟨h3, fun L => by rw [h4, hc1]⟩
  · obtain ⟨hK2, hm2⟩ := laneLoop_unstarted _ _ _ _ _ _ hlane hK1
    obtain ⟨hpf2, hun2, _⟩ := laneLoop_frame _ _ _ _ _ _ hlane
    have hm2' : ∀ L, p.stateOfTacticSequenceAtIndex L ≤ p2.stateOfTacticSequenceAtIndex L := by
      intro L
      rw [← hc1]
      exact hm2 L
    rcases hrest with ⟨e, _, hu⟩ | ⟨_, hu⟩ | ⟨_, r3, p3, w3, hb, hrest3⟩
    · rw [hu] at hret; cases hret
    · rw [hu]
      exact ⟨hK2, hm2'⟩
    · rcases hrest3 with ⟨e, _, hu⟩ | ⟨hr3, hu⟩
      · rw [hu] at hret; cases hret
      · subst hr3
        have hnd2 : p2._unreachedSyncPoints.Nodup := by
          rw [hun2, hun]; exact hnd
        have hD2 : p2._playFactory.LanesLinkedOnce := by
          rw [hpf2, hpf]; exact hD
        obtain ⟨hK3, hm3⟩ := barrierScan_unstarted _ _ _ _ _ _ hb hnd2 hD2 hK2
        rw [hu]
        simp only
        have hcc : p3.completionCheck.2.Unstarted ∧
            ∀ L, p3.completionCheck.2.stateOfTacticSequenceAtIndex L =
              p3.stateOfTacticSequenceAtIndex L := by
          unfold Play.completionCheck
          split
          · split
            · exact hset _ _ hK3
            · exact hset _ _ hK3
          · exact ⟨hK3, fun _ => rfl⟩
        exact ⟨hcc.1, fun L => by rw [hcc.2]; exact le_trans (hm2' L) (hm3 L)⟩

/-- A call of `update()` leaves the definition the Play points to. -/
theorem update_playFactory (p : Play) (w : World) :
    (p.update w).2.1._playFactory = p._playFactory := by
  obtain ⟨_, _, hpf, _, _, _⟩ := checkPendingTacticResults_frame p
  rcases update_cases p w with ⟨e, _, h2⟩ | ⟨_, h2⟩ | ⟨_, r2, p2, w2, hlane, hrest⟩
  · rw [h2]; exact hpf
  · rw [h2]
    exact (play_setState_frame _ _).1.trans hpf
  · obtain ⟨hpf2, _⟩ := laneLoop_frame _ _ _ _ _ _ hlane
    rcases hrest with ⟨e, _, hu⟩ | ⟨_, hu⟩ | ⟨_, r3, p3, w3, hb, hrest3⟩
    · rw [hu]; exact hpf2.trans hpf
    · rw [hu]; exact hpf2.trans hpf
    · obtain ⟨hf3, _⟩ := barrierScan_frame _ _ _ _ _ _ _ hb
      rcases hrest3 with ⟨e, _, hu⟩ | ⟨_, hu⟩
      · rw [hu]; exact (hf3.2.1.trans hpf2).trans hpf
      · rw [hu]
        simp only
        unfold Play.completionCheck
        split
        · split
          · exact (play_setState_frame _ _).1.trans ((hf3.2.1.trans hpf2).trans hpf)
          · exact (play_setState_frame _ _).1.trans ((hf3.2.1.trans hpf2).trans hpf)
        · exact (hf3.2.1.trans hpf2).trans hpf

/-- Whether each call of a succession made after others returned. -/
theorem runReturned_append (a b : List Tick) :
    ∀ s : Play × World,
      Play.runReturned (a ++ b) s =
        (Play.runReturned a s && Play.runReturned b (Play.run a s)) := by
  induction a with
  | nil => intro s; simp [Play.runReturned, Play.run]
  | cons tick rest ih =>
    intro s
    show (returned (Play.step tick s).1 &&
        Play.runReturned (rest ++ b) (Play.step tick s).2) =
      (returned (Play.step tick s).1 && Play.runReturned rest (Play.step tick s).2 &&
        Play.runReturned b (Play.run rest (Play.step tick s).2))
    rw [ih, Bool.and_assoc]

/-- As long as every call of `update()` returns normally, in a definition whose lanes are
linked once, the lanes of the sync points still unfired stay unstarted. -/
theorem run_unstarted (ticks : List Tick) :
    ∀ s : Play × World, s.1._unreachedSyncPoints.Nodup →
      s.1._playFactory.LanesLinkedOnce → s.1.Unstarted →
      Play.runReturned ticks s = true →
      (Play.run ticks s).1._unreachedSyncPoints.Nodup ∧
      (Play.run ticks s).1._playFactory.LanesLinkedOnce ∧
      (Play.run ticks s).1.Unstarted := by
  induction ticks with
  | nil =>
    intro s h1 h2 h3 _
    exact ⟨h1, h2, h3⟩
  | cons tick rest ih =>
    intro s h1 h2 h3 hret
    simp only [Play.runReturned, Bool.and_eq_true] at hret
    obtain ⟨hret1, hret2⟩ := hret
    simp only [Play.run]
    have hok1 : ((Play.arrange tick s).1.update (Play.arrange tick s).2).1 = .ok () := by
      have : returned ((Play.arrange tick s).1.update (Play.arrange tick s).2).1 = true :=
        hret1
      cases hc : ((Play.arrange tick s).1.update (Play.arrange tick s).2).1 with
      | error e => rw [hc] at this; cases this
      | ok u => rfl
    have ha : (Play.arrange tick s).1.Unstarted := unstarted_of_eq s.1 _ rfl rfl rfl rfl h3
    obtain ⟨hK, _⟩ := update_unstarted _ _ hok1 h1 h2 ha
    have hsub := (update_unreached (Play.arrange tick s).1 (Play.arrange tick s).2).1
    have hpf := (update_playFactory (Play.arrange tick s).1 (Play.arrange tick s).2)
    apply ih _ _ _ hK hret2
    · exact hsub.nodup h1
    · show ((Play.arrange tick s).1.update (Play.arrange tick s).2).2.1._playFactory.LanesLinkedOnce
      rw [hpf]
      exact h2

/-- In a new Play of a definition whose lanes are linked once, no lane has started. -/
theorem new_unstarted (playFactory : Option PlayFactory)
    (gameplayModule : Option GameplayModule) (pf : PlayFactory) (p : Play)
    (h : Play.new playFactory gameplayModule pf = .ok p) (hD : pf.LanesLinkedOnce) :
    p.Unstarted := by
  obtain ⟨hpf, hC, hT, _⟩ := new_shape _ _ _ _ h
  intro k _ L hL
  rw [hpf] at hL
  have hlt : L < pf._tacticSequences.length := hD.2.2.1 L (mem_flatten_of_getD _ _ _ hL)
  have hc : p.stateOfTacticSequenceAtIndex L = -1 := by
    unfold Play.stateOfTacticSequenceAtIndex
    rw [hC]
    simp [List.getD_eq_getElem?_getD, List.getElem?_replicate, hlt]
  have ht : p.tacticOfSequenceAtIndex L = none := by
    unfold Play.tacticOfSequenceAtIndex
    rw [hT]
    simp [List.getD_eq_getElem?_getD, List.getElem?_replicate, hlt]
  rw [hc]
  exact ⟨ht, by omega, fun hz => by omega⟩

/-- Empty lists add nothing to lists put together. -/
theorem flatten_append_replicate_nil (l : List (List Nat)) (a : Nat) :
    (l ++ List.replicate a []).flatten = l.flatten := by
  rw [List.flatten_append]
  have : (List.replicate a ([] : List Nat)).flatten = [] := by
    induction a with
    | zero => rfl
    | succ n ih => rw [List.replicate_succ, List.flatten_cons, ih]; rfl
  rw [this, List.append_nil]

/-- The entries of lists put together after `n` was appended to one of them. -/
theorem mem_flatten_modify (n : Nat) (l : List (List Nat)) :
    ∀ (i x : Nat), x ∈ (l.modify (fun v => v ++ [n]) i).flatten → x ∈ l.flatten ∨ x = n := by
  induction l with
  | nil =>
    intro i x hx
    cases i <;> simp [List.modify] at hx
  | cons a rest ih =>
    intro i x hx
    cases i with
    | zero =>
      simp only [List.modify_zero_cons, List.flatten_cons, List.mem_append,
        List.mem_singleton] at hx ⊢
      tauto
    | succ i =>
      simp only [List.modify_succ_cons, List.flatten_cons, List.mem_append] at hx ⊢
      rcases hx with h0 | h0
      · exact Or.inl (Or.inl h0)
      · rcases ih i x h0 with h1 | h1
        · exact Or.inl (Or.inr h1)
        · exact Or.inr h1

/-- Appending a new entry to one of the lists keeps the lists put together without an entry
twice. -/
theorem nodup_flatten_modify (n : Nat) (l : List (List Nat)) :
    ∀ (i : Nat), l.flatten.Nodup → n ∉ l.flatten →
      (l.modify (fun v => v ++ [n]) i).flatten.Nodup := by
  induction l with
  | nil =>
    intro i _ _
    cases i <;> simp [List.modify]
  | cons a rest ih =>
    intro i hnd hn
    rw [List.flatten_cons, List.nodup_append] at hnd
    rw [List.flatten_cons, List.mem_append, not_or] at hn
    obtain ⟨ha, hr, hd⟩ := hnd
    cases i with
    | zero =>
      simp only [List.modify_zero_cons, List.flatten_cons]
      rw [List.nodup_append]
      refine ⟨?_, hr, ?_⟩
      · rw [List.nodup_append]
        refine ⟨ha, List.nodup_singleton _, ?_⟩
        intro x hx1 hx2
        rw [List.mem_singleton] at hx2
        rw [hx2] at hx1
        exact hn.1 hx1
      · intro x hx1 hx2
        rcases List.mem_append.mp hx1 with h0 | h0
        · exact hd h0 hx2
        · rw [List.mem_singleton] at h0
          rw [h0] at hx2
          exact hn.2 hx2
    | succ i =>
      simp only [List.modify_succ_cons, List.flatten_cons]
      rw [List.nodup_append]
      refine ⟨ha, ih i hr hn.2, ?_⟩
      intro x hx1 hx2
      rcases mem_flatten_modify n rest i x hx2 with h0 | h0
      · exact hd hx1 h0
      · rw [h0] at hx1
        exact hn.1 hx1

/-- What `indexForSyncPointNamed` does to the lists of a definition that is not finalized:
it may add an empty input list and an empty output list. -/
theorem indexForSyncPointNamed_lists (pf : PlayFactory) (name : String)
    (hfin : pf._finalized = false) :
    ∃ a, (pf.indexForSyncPointNamed name).2._syncPointOutputs =
        pf._syncPointOutputs ++ List.replicate a [] ∧
      (pf.indexForSyncPointNamed name).2._syncPointInputs =
        pf._syncPointInputs ++ List.replicate a [] ∧
      (pf.indexForSyncPointNamed name).2._tacticSequences = pf._tacticSequences ∧
      (pf.indexForSyncPointNamed name).2._finalized = false := by
  unfold PlayFactory.indexForSyncPointNamed PlayFactory.addSyncPointNamed
  simp only [hfin, Bool.false_eq_true, if_false]
  split
  · exact ⟨1, rfl, rfl, rfl, rfl⟩
  · exact ⟨0, by simp, by simp, rfl, hfin⟩

/-- What `addTacticSequence` does to the lanes and to the lists of the sync points: nothing,
or it adds one lane and appends its index to one output list and to one input list, after
empty lists may have been added. -/
theorem addTacticSequence_lists (pf : PlayFactory) (sequence : Option TacticSequence)
    (roleName startSyncPoint endSyncPoint : String) :
    ((pf.addTacticSequence sequence roleName startSyncPoint endSyncPoint).2._syncPointOutputs =
        pf._syncPointOutputs ∧
      (pf.addTacticSequence sequence roleName startSyncPoint endSyncPoint).2._syncPointInputs =
        pf._syncPointInputs ∧
      (pf.addTacticSequence sequence roleName startSyncPoint endSyncPoint).2._tacticSequences =
        pf._tacticSequences) ∨
    (∃ a b si ei,
      (pf.addTacticSequence sequence roleName startSyncPoint
        endSyncPoint).2._tacticSequences.length = pf._tacticSequences.length + 1 ∧
      (pf.addTacticSequence sequence roleName startSyncPoint endSyncPoint).2._syncPointOutputs =
        (pf._syncPointOutputs ++ List.replicate a []).modify
          (fun v => v ++ [pf._tacticSequences.length]) si ∧
      (pf.addTacticSequence sequence roleName startSyncPoint endSyncPoint).2._syncPointInputs =
        (pf._syncPointInputs ++ List.replicate b []).modify
          (fun v => v ++ [pf._tacticSequences.length]) ei) := by
  unfold PlayFactory.addTacticSequence
  by_cases hfin : pf._finalized = true
  · rw [if_pos hfin]
    exact Or.inl ⟨rfl, rfl, rfl⟩
  · rw [if_neg hfin]
    have hfin0 : pf._finalized = false := by
      cases h : pf._finalized
      · rfl
      · exact absurd h hfin
    cases hens : PlayFactory.ensureTacticSequenceValidity sequence with
    | error e => exact Or.inl ⟨rfl, rfl, rfl⟩
    | ok u =>
      right
      simp only [PlayFactory.roleNamed, PlayFactory.addRoleNamed]
      have key : ∀ pf4 : PlayFactory, pf4._finalized = false →
          pf4._syncPointOutputs = pf._syncPointOutputs →
          pf4._syncPointInputs = pf._syncPointInputs →
          pf4._tacticSequences.length = pf._tacticSequences.length + 1 →
          ∃ a b si ei,
            (match pf4.indexForSyncPointNamed startSyncPoint with
              | (.error e, pf5) => ((.error e : Except String Unit), pf5)
              | (.ok startSyncPtIdx, pf5) =>
                match pf5.indexForSyncPointNamed endSyncPoint with
                | (.error e, pf6) => (.error e, pf6)
                | (.ok endSyncPtIdx, pf6) =>
                  (.ok (),
                    { pf6 with
                      _syncPointOutputs :=
                        pf6._syncPointOutputs.modify
                          (fun v => v ++ [pf4._tacticSequences.length - 1]) startSyncPtIdx,
                      _syncPointInputs :=
                        pf6._syncPointInputs.modify
                          (fun v => v ++ [pf4._tacticSequences.length - 1])
                            endSyncPtIdx })).2._tacticSequences.length =
              pf._tacticSequences.length + 1 ∧
            (match pf4.indexForSyncPointNamed startSyncPoint with
              | (.error e, pf5) => ((.error e : Except String Unit), pf5)
              | (.ok startSyncPtIdx, pf5) =>
                match pf5.indexForSyncPointNamed endSyncPoint with
                | (.error e, pf6) => (.error e, pf6)
                | (.ok endSyncPtIdx, pf6) =>
                  (.ok (),
                    { pf6 with
                      _syncPointOutputs :=
                        pf6._syncPointOutputs.modify
                          (fun v => v ++ [pf4._tacticSequences.length - 1]) startSyncPtIdx,
                      _syncPointInputs :=
                        pf6._syncPointInputs.modify
                          (fun v => v ++ [pf4._tacticSequences.length - 1])
                            endSyncPtIdx })).2._syncPointOutputs =
              (pf._syncPointOutputs ++ List.replicate a []).modify
                (fun v => v ++ [pf._tacticSequences.length]) si ∧
            (match pf4.indexForSyncPointNamed startSyncPoint with
              | (.error e, pf5) => ((.error e : Except String Unit), pf5)
              | (.ok startSyncPtIdx, pf5) =>
                match pf5.indexForSyncPointNamed endSyncPoint with
                | (.error e, pf6) => (.error e, pf6)
                | (.ok endSyncPtIdx, pf6) =>
                  (.ok (),
                    { pf6 with
                      _syncPointOutputs :=
                        pf6._syncPointOutputs.modify
                          (fun v => v ++ [pf4._tacticSequences.length - 1]) startSyncPtIdx,
                      _syncPointInputs :=
                        pf6._syncPointInputs.modify
                          (fun v => v ++ [pf4._tacticSequences.length - 1])
                            endSyncPtIdx })).2._syncPointInputs =
              (pf._syncPointInputs ++ List.replicate b []).modify
                (fun v => v ++ [pf._tacticSequences.length]) ei := by
        intro pf4 hf4 ho4 hi4 hl4
        obtain ⟨a1, o1, i1, s1, f1⟩ := indexForSyncPointNamed_lists pf4 startSyncPoint hf4
        cases h1 : pf4.indexForSyncPointNamed startSyncPoint with
        | mk r1 pf5 =>
          rw [h1] at o1 i1 s1 f1
          simp only at o1 i1 s1 f1
          cases r1 with
          | error e => exact (indexForSyncPointNamed_no_throw _ _ _ _ hf4 h1).elim
          | ok si =>
            obtain ⟨a2, o2, i2, s2, f2⟩ := indexForSyncPointNamed_lists pf5 endSyncPoint f1
            cases h2 : pf5.indexForSyncPointNamed endSyncPoint with
            | mk r2 pf6 =>
              rw [h2] at o2 i2 s2 f2
              simp only at o2 i2 s2 f2
              cases r2 with
              | error e => exact (indexForSyncPointNamed_no_throw _ _ _ _ f1 h2).elim
              | ok ei =>
                refine ⟨a1 + a2, a1 + a2, si, ei, ?_, ?_, ?_⟩
                · simp only
                  rw [h2]
                  simp only
                  rw [s2, s1, hl4]
                · simp only
                  rw [h2]
                  simp only
                  rw [o2, o1, ho4, hl4, List.append_assoc, ← List.replicate_add]
                  rfl
                · simp only
                  rw [h2]
                  simp only
                  rw [i2, i1, hi4, hl4, List.append_assoc, ← List.replicate_add]
                  rfl
      cases hread : pf._rolesByName.read roleName with
      | none =>
        simp only
        exact key _ hfin0 rfl rfl (by simp)
      | some p0 =>
        simp only
        exact key _ hfin0 rfl rfl (by simp)

/-- A call of `addTacticSequence` keeps the lanes linked once. -/
theorem linkedOnce_addTacticSequence (pf : PlayFactory) (sequence : Option TacticSequence)
    (roleName startSyncPoint endSyncPoint : String) (hD : pf.LanesLinkedOnce) :
    (pf.addTacticSequence sequence roleName startSyncPoint endSyncPoint).2.LanesLinkedOnce := by
  obtain ⟨h1, h2, h3, h4⟩ := hD
  rcases addTacticSequence_lists pf sequence roleName startSyncPoint endSyncPoint with
    ⟨ho, hi, hs⟩ | ⟨a, b, si, ei, hs, ho, hi⟩
  · unfold PlayFactory.LanesLinkedOnce
    rw [ho, hi, hs]
    exact ⟨h1, h2, h3, h4⟩
  · unfold PlayFactory.LanesLinkedOnce
    rw [ho, hi, hs]
    have hno : pf._tacticSequences.length ∉
        (pf._syncPointOutputs ++ List.replicate a []).flatten := by
      rw [flatten_append_replicate_nil]
      intro hc
      exact absurd (h3 _ hc) (lt_irrefl _)
    have hni : pf._tacticSequences.length ∉
        (pf._syncPointInputs ++ List.replicate b []).flatten := by
      rw [flatten_append_replicate_nil]
      intro hc
      exact absurd (h4 _ hc) (lt_irrefl _)
    refine ⟨nodup_flatten_modify _ _ _ (by rw [flatten_append_replicate_nil]; exact h1) hno,
      nodup_flatten_modify _ _ _ (by rw [flatten_append_replicate_nil]; exact h2) hni, ?_, ?_⟩
    · intro L hL
      rcases mem_flatten_modify _ _ _ _ hL with h0 | h0
      · rw [flatten_append_replicate_nil] at h0
        exact Nat.lt_succ_of_lt (h3 L h0)
      · rw [h0]; exact Nat.lt_succ_self _
    · intro L hL
      rcases mem_flatten_modify _ _ _ _ hL with h0 | h0
      · rw [flatten_append_replicate_nil] at h0
        exact Nat.lt_succ_of_lt (h4 L h0)
      · rw [h0]; exact Nat.lt_succ_self _

/-- Successive calls of `addTacticSequence` keep the lanes linked once. -/
theorem linkedOnce_addLanes
    (lanes : List (Option TacticSequence × String × String × String)) :
    ∀ pf : PlayFactory, pf.LanesLinkedOnce → (pf.addLanes lanes).LanesLinkedOnce := by
  induction lanes with
  | nil => intro pf h; exact h
  | cons x rest ih =>
    intro pf h
    obtain ⟨sequence, roleName, startSyncPoint, endSyncPoint⟩ := x
    simp only [PlayFactory.addLanes]
    exact ih _ (linkedOnce_addTacticSequence _ _ _ _ _ h)

/-- A new definition has no lane and no sync point. -/
theorem linkedOnce_new (name category : String) (g : FactoryStatics) :
    (PlayFactory.new name category g).1.LanesLinkedOnce := by
  unfold PlayFactory.LanesLinkedOnce PlayFactory.new
  simp

/-- A call of `update()` that returns normally, made after calls that all returned normally
on a new Play of a definition whose lanes are linked once, moves no cursor back. -/
theorem run_cursor_monotone (playFactory : Option PlayFactory)
    (gameplayModule : Option GameplayModule) (pf : PlayFactory) (p0 : Play) (w0 : World)
    (ticks : List Tick) (tick : Tick) (lane : Nat)
    (hnew : Play.new playFactory gameplayModule pf = .ok p0) (hD : pf.LanesLinkedOnce)
    (hret : Play.runReturned (ticks ++ [tick]) (p0, w0) = true) :
    (Play.run ticks (p0, w0)).1.stateOfTacticSequenceAtIndex lane ≤
      (Play.run (ticks ++ [tick]) (p0, w0)).1.stateOfTacticSequenceAtIndex lane := by
  obtain ⟨hpf, _, _, hun, _, _⟩ := new_shape _ _ _ _ hnew
  rw [runReturned_append, Bool.and_eq_true] at hret
  obtain ⟨hret1, hret2⟩ := hret
  have hnd0 : (p0, w0).1._unreachedSyncPoints.Nodup := by
    show p0._unreachedSyncPoints.Nodup
    rw [hun]; exact List.nodup_range _
  have hD0 : (p0, w0).1._playFactory.LanesLinkedOnce := by
    show p0._playFactory.LanesLinkedOnce
    rw [hpf]; exact hD
  obtain ⟨hnd, hD1, hK⟩ := run_unstarted ticks (p0, w0) hnd0 hD0
    (new_unstarted _ _ _ _ hnew hD) hret1
  rw [run_append]
  simp only [Play.runReturned, Bool.and_true] at hret2
  have hok : ((Play.arrange tick (Play.run ticks (p0, w0))).1.update
      (Play.arrange tick (Play.run ticks (p0, w0))).2).1 = .ok () := by
    have : returned ((Play.arrange tick (Play.run ticks (p0, w0))).1.update
        (Play.arrange tick (Play.run ticks (p0, w0))).2).1 = true := hret2
    cases hc : ((Play.arrange tick (Play.run ticks (p0, w0))).1.update
        (Play.arrange tick (Play.run ticks (p0, w0))).2).1 with
    | error e => rw [hc] at this; cases this
    | ok u => rfl
  have ha : (Play.arrange tick (Play.run ticks (p0, w0))).1.Unstarted :=
    unstarted_of_eq _ _ rfl rfl rfl rfl hK
  exact (update_unstarted _ _ hok hnd hD1 ha).2 lane

/-! ## Theorems: the cursors of the lanes -/

/-- C16 (as stated, refuted): the definition with the lanes `[Dash, Dash]` and `[Faulty]`
between "start" and "end" is built by `addTacticSequence`, and none of its stubs has a
parameter tree, so deleting a behaviour made from one of them frees nothing a later
`instantiate` reads. The first call of `update()` fires "start" and throws because the
allocator refuses; in the second call lane 0 advances to cursor 1 and the `update()` of the
behaviour of lane 1 throws; the third call returns, fires "start" again and leaves lane 0 at
cursor 0. The factories invoked over the three calls are those of "Dash" and "Faulty"
only. -/
theorem cursor_goes_back_after_thrown_updates :
    faultyPlay = (PlayFactory.new "kickoff" "" FactoryStatics.initial).1.addLanes
      [(some [dashStub, dashStub], "a", "start", "end"),
       (some [{ _name := "Faulty", _invocationParameters := none }], "b", "start", "end")] ∧
    [0, 1].map (fun lane =>
        (faultyPlay.tacticSequenceAtIndex lane).map fun stub => stub._invocationParameters) =
      [[none, none], [none]] ∧
    Play.new (some faultyPlay) (some 7) faultyPlay = .ok (freshPlay faultyPlay) ∧
    (Play.run [refusingTick]
      (freshPlay faultyPlay, faultyWorld)).1._sequenceStateByIndex = [0, 0] ∧
    (Play.run [refusingTick, faultTick]
      (freshPlay faultyPlay, faultyWorld)).1._sequenceStateByIndex = [1, 0] ∧
    (Play.run [refusingTick, faultTick, quietTick]
      (freshPlay faultyPlay, faultyWorld)).1._sequenceStateByIndex = [0, 0] ∧
    (Play.step refusingTick (freshPlay faultyPlay, faultyWorld)).1 =
      .error "AllocationFailure" ∧
    (Play.step faultTick
      (Play.run [refusingTick] (freshPlay faultyPlay, faultyWorld))).1 = .error "fault" ∧
    (Play.step quietTick
      (Play.run [refusingTick, faultTick] (freshPlay faultyPlay, faultyWorld))).1 = .ok () ∧
    (Play.run [refusingTick, faultTick, quietTick]
        (freshPlay faultyPlay, faultyWorld)).2.createCalls.map (fun c => c.1) =
      ["Dash", "Faulty", "Dash", "Dash", "Faulty"] := by
  refine ⟨by decide, by decide, rfl, by decide, by decide, by decide, rfl, rfl, rfl,
    by decide⟩

/-- C16 (amended): for a new Play whose `_playFactory` points to a definition that was built
by calls of `addTacticSequence` on a new definition, and every lane: a call of `update()` that returns
normally, made after calls that all returned normally, leaves the cursor of the lane where
it was or further. -/
theorem cursor_monotone_while_updates_return (name category : String) (g : FactoryStatics)
    (lanes : List (Option TacticSequence × String × String × String))
    (playFactory : Option PlayFactory) (gameplayModule : Option GameplayModule)
    (p0 : Play) (w0 : World) (ticks : List Tick) (tick : Tick) (lane : Nat)
    (hnew : Play.new playFactory gameplayModule
      ((PlayFactory.new name category g).1.addLanes lanes) = .ok p0)
    (hret : Play.runReturned (ticks ++ [tick]) (p0, w0) = true) :
    (Play.run ticks (p0, w0)).1.stateOfTacticSequenceAtIndex lane ≤
      (Play.run (ticks ++ [tick]) (p0, w0)).1.stateOfTacticSequenceAtIndex lane :=
  run_cursor_monotone _ _ _ _ _ _ _ _ hnew
    (linkedOnce_addLanes lanes _ (linkedOnce_new name category g)) hret

/-- Witness for C16: lane 0 of the parking scenario over its second call of `update()`, in
which the lane advances from cursor 0 to cursor 1. -/
theorem cursor_monotone_while_updates_return_witness :
    Play.runReturned ([quietTick] ++ [lane0DoneTick])
      (freshPlay twoLanePlay, populatedWorld) = true ∧
    (Play.run [quietTick]
      (freshPlay twoLanePlay, populatedWorld)).1.stateOfTacticSequenceAtIndex 0 ≤
      (Play.run ([quietTick] ++ [lane0DoneTick])
        (freshPlay twoLanePlay, populatedWorld)).1.stateOfTacticSequenceAtIndex 0 :=
  ⟨by decide,
    cursor_monotone_while_updates_return "kickoff" "" FactoryStatics.initial
      [(some [moveStub], "a", "start", "end"),
       (some [moveStub, moveStub], "b", "start", "end")]
      (some twoLanePlay) (some 7) (freshPlay twoLanePlay) populatedWorld [quietTick]
      lane0DoneTick 0 rfl (by decide)⟩

/-! ## Theorems: the sweep of the pending-verdict queue -/

/-- The sweep of a queue whose behaviours are all EvaluatingSuccess or Completed answers
"no failure" and keeps the behaviours that are EvaluatingSuccess, in their order. -/
theorem checkPendingFrom_sweep (q : List Tactic) :
    ∀ kept, (∀ t ∈ q, t.state = .EvaluatingSuccess ∨ t.state = .Completed) →
      Play.checkPendingFrom kept q =
        (.ok true, kept ++ q.filter (fun t => decide (t.state = .EvaluatingSuccess))) := by
  induction q with
  | nil =>
    intro kept _
    simp [Play.checkPendingFrom]
  | cons t rest ih =>
    intro kept h
    have ht := h t (List.mem_cons_self _ _)
    have hrest : ∀ y ∈ rest, y.state = .EvaluatingSuccess ∨ y.state = .Completed :=
      fun y hy => h y (List.mem_cons_of_mem _ hy)
    simp only [Play.checkPendingFrom]
    rcases ht with ht | ht
    · simp [ht, ih _ hrest]
    · simp [ht, ih _ hrest]

/-- The sweep answers "no failure" only when every behaviour of the queue is
EvaluatingSuccess or Completed. -/
theorem checkPendingFrom_true (q : List Tactic) :
    ∀ kept, (Play.checkPendingFrom kept q).1 = .ok true →
      ∀ t ∈ q, t.state = .EvaluatingSuccess ∨ t.state = .Completed := by
  induction q with
  | nil =>
    intro kept _ t ht
    cases ht
  | cons x rest ih =>
    intro kept h t ht
    simp only [Play.checkPendingFrom] at h
    split at h
    · split at h
      · cases h
      · split at h
        · rename_i hc
          rcases List.mem_cons.mp ht with h0 | h0
          · rw [h0]; exact Or.inr hc
          · exact ih _ h t h0
        · cases h
    · rename_i hes
      rcases List.mem_cons.mp ht with h0 | h0
      · rw [h0]
        left
        by_contra hc
        exact hes hc
      · exact ih _ h t h0

/-- The sweep throws when it meets a behaviour that is neither EvaluatingSuccess nor
Completed nor Failed and no behaviour before it is Failed. -/
theorem checkPendingFrom_invalid (pre : List Tactic) (t : Tactic) (post : List Tactic)
    (hpre : ∀ x ∈ pre, x.state ≠ .Failed)
    (h1 : t.state ≠ .EvaluatingSuccess) (h2 : t.state ≠ .Completed) (h3 : t.state ≠ .Failed) :
    ∀ kept, (Play.checkPendingFrom kept (pre ++ t :: post)).1 =
      .error ("C++ Programmer ERROR: Invalid Play state transition from " ++
        "EvaluatingSuccess -> !\x7bFailed, Completed\x7d") := by
  induction pre with
  | nil =>
    intro kept
    simp [Play.checkPendingFrom, h1, h2, h3]
  | cons x rest ih =>
    intro kept
    have hx := hpre x (List.mem_cons_self _ _)
    have hrest : ∀ y ∈ rest, y.state ≠ .Failed :=
      fun y hy => hpre y (List.mem_cons_of_mem _ hy)
    simp only [List.cons_append, Play.checkPendingFrom]
    by_cases he : x.state = .EvaluatingSuccess
    · simp [he, ih hrest]
    · by_cases hc : x.state = .Completed
      · simp [hc, ih hrest]
      · simp [he, hc, hx]

/-- C21: the sweep of the pending-verdict queue. When every behaviour of the queue is
EvaluatingSuccess or Completed, `checkPendingTacticResults` returns true, and the queue it
leaves is the queue of before without the Completed behaviours: the behaviours that are
EvaluatingSuccess, all of them, in their order. Nothing else of the Play changes. -/
theorem pending_verdict_sweep (p : Play)
    (h : ∀ t ∈ p._tacticsAwaitingResults,
      t.state = .EvaluatingSuccess ∨ t.state = .Completed) :
    p.checkPendingTacticResults =
      (.ok true,
        { p with
          _tacticsAwaitingResults :=
            p._tacticsAwaitingResults.filter
              (fun t => decide (t.state = .EvaluatingSuccess)) }) := by
  unfold Play.checkPendingTacticResults
  rw [checkPendingFrom_sweep _ [] h]
  rfl

/-- Witness for C21: a queue of four behaviours, EvaluatingSuccess, Completed,
EvaluatingSuccess, Completed, bound to the Roles 0 to 3; the sweep leaves those of the Roles
0 and 2. -/
theorem pending_verdict_sweep_witness :
    sweepPlay._tacticsAwaitingResults.map (fun t => (t._role, t._state)) =
      [(some 0, .EvaluatingSuccess), (some 1, .Completed), (some 2, .EvaluatingSuccess),
        (some 3, .Completed)] ∧
    sweepPlay.checkPendingTacticResults =
      (.ok true,
        { sweepPlay with
          _tacticsAwaitingResults := [kickTactic 0 .EvaluatingSuccess,
            kickTactic 2 .EvaluatingSuccess] }) :=
  ⟨by decide, pending_verdict_sweep sweepPlay (by decide)⟩

/-- C27: no further phase after a failed verdict. When a behaviour of the pending-verdict
queue is Failed as `update()` is called, the call leaves the world as it is (it updates no
lane behaviour, fires no sync point and makes no request to the role allocator), and it
leaves every cursor, every lane behaviour and the unfired list as they are. -/
theorem failed_verdict_ends_update (p : Play) (w : World)
    (hf : ∃ t ∈ p._tacticsAwaitingResults, t.state = .Failed) :
    (p.update w).2.2 = w ∧
    (p.update w).2.1._sequenceStateByIndex = p._sequenceStateByIndex ∧
    (p.update w).2.1._tacticsBySequenceIndex = p._tacticsBySequenceIndex ∧
    (p.update w).2.1._unreachedSyncPoints = p._unreachedSyncPoints := by
  obtain ⟨hc1, _, _, hun, hC, hT⟩ := checkPendingTacticResults_frame p
  rcases update_cases p w with ⟨e, _, h2⟩ | ⟨_, h2⟩ | ⟨h1, _⟩
  · rw [h2]
    exact ⟨rfl, hC, hT, hun⟩
  · rw [h2]
    have hfr := play_setState_frame (p.checkPendingTacticResults).2 .Failed
    exact ⟨rfl, hfr.2.2.1.trans hC, hfr.2.2.2.1.trans hT, hfr.2.1.trans hun⟩
  · exfalso
    rw [hc1] at h1
    obtain ⟨t, ht, hts⟩ := hf
    rcases checkPendingFrom_true _ _ h1 t ht with h0 | h0
    · rw [h0] at hts; cases hts
    · rw [h0] at hts; cases hts

/-- Witness for C27: the definition with one Kick, at the call of `update()` before which
the queued Kick has become Failed; the lane holds the placeholder behaviour, which is not
updated. -/
theorem failed_verdict_ends_update_witness :
    (Play.arrange verdictFailedTick
      (Play.run [quietTick, lane0OneTick]
        (freshPlay kickPlay, kickWorld))).1._tacticsAwaitingResults.map
          (fun t => t.state) = [.Failed] ∧
    ((Play.arrange verdictFailedTick
        (Play.run [quietTick, lane0OneTick] (freshPlay kickPlay, kickWorld))).1.update
      (Play.arrange verdictFailedTick
        (Play.run [quietTick, lane0OneTick] (freshPlay kickPlay, kickWorld))).2).2.2 =
      (Play.arrange verdictFailedTick
        (Play.run [quietTick, lane0OneTick] (freshPlay kickPlay, kickWorld))).2 :=
  ⟨by decide,
    (failed_verdict_ends_update
      (Play.arrange verdictFailedTick
        (Play.run [quietTick, lane0OneTick] (freshPlay kickPlay, kickWorld))).1
      (Play.arrange verdictFailedTick
        (Play.run [quietTick, lane0OneTick] (freshPlay kickPlay, kickWorld))).2
      ⟨_, List.mem_singleton_self _, rfl⟩).1⟩

/-- C28: a behaviour of the pending-verdict queue in a state that it must not have. When the
queue holds a behaviour that is neither EvaluatingSuccess nor Completed nor Failed, and no
behaviour before it is Failed, `checkPendingTacticResults` throws, `update()` throws the
same message, and the call of `update()` leaves the `Action` base of the Play, so its state,
and the world as they are. -/
theorem invalid_verdict_state_is_fatal (p : Play) (w : World) (pre : List Tactic)
    (t : Tactic) (post : List Tactic)
    (hq : p._tacticsAwaitingResults = pre ++ t :: post)
    (hpre : ∀ x ∈ pre, x.state ≠ .Failed)
    (h1 : t.state ≠ .EvaluatingSuccess) (h2 : t.state ≠ .Completed) (h3 : t.state ≠ .Failed) :
    (p.checkPendingTacticResults).1 =
      .error ("C++ Programmer ERROR: Invalid Play state transition from " ++
        "EvaluatingSuccess -> !\x7bFailed, Completed\x7d") ∧
    (p.update w).1 =
      .error ("C++ Programmer ERROR: Invalid Play state transition from " ++
        "EvaluatingSuccess -> !\x7bFailed, Completed\x7d") ∧
    (p.update w).2.1.toAction = p.toAction ∧ (p.update w).2.2 = w := by
  obtain ⟨hc1, hact, _⟩ := checkPendingTacticResults_frame p
  have herr : (p.checkPendingTacticResults).1 =
      .error ("C++ Programmer ERROR: Invalid Play state transition from " ++
        "EvaluatingSuccess -> !\x7bFailed, Completed\x7d") := by
    rw [hc1, hq]
    exact checkPendingFrom_invalid pre t post hpre h1 h2 h3 []
  refine ⟨herr, ?_⟩
  rcases update_cases p w with ⟨e, he, hu⟩ | ⟨h0, _⟩ | ⟨h0, _⟩
  · rw [hu]
    rw [herr] at he
    cases he
    exact ⟨rfl, hact, rfl⟩
  · rw [herr] at h0; cases h0
  · rw [herr] at h0; cases h0

/-- Witness for C28: the definition with one Kick, at the call of `update()` before which
the queued Kick has become Cancelled. -/
theorem invalid_verdict_state_is_fatal_witness :
    (Play.arrange verdictCancelledTick
      (Play.run [quietTick, lane0OneTick]
        (freshPlay kickPlay, kickWorld))).1._tacticsAwaitingResults.map
          (fun t => t.state) = [.Cancelled] ∧
    threw ((Play.arrange verdictCancelledTick
        (Play.run [quietTick, lane0OneTick] (freshPlay kickPlay, kickWorld))).1.update
      (Play.arrange verdictCancelledTick
        (Play.run [quietTick, lane0OneTick] (freshPlay kickPlay, kickWorld))).2).1 = true ∧
    ((Play.arrange verdictCancelledTick
        (Play.run [quietTick, lane0OneTick] (freshPlay kickPlay, kickWorld))).1.update
      (Play.arrange verdictCancelledTick
        (Play.run [quietTick, lane0OneTick] (freshPlay kickPlay, kickWorld))).2).2.1.toAction =
      (Play.arrange verdictCancelledTick
        (Play.run [quietTick, lane0OneTick] (freshPlay kickPlay, kickWorld))).1.toAction :=
  ⟨by decide, by decide,
    (invalid_verdict_state_is_fatal
      (Play.arrange verdictCancelledTick
        (Play.run [quietTick, lane0OneTick] (freshPlay kickPlay, kickWorld))).1
      (Play.arrange verdictCancelledTick
        (Play.run [quietTick, lane0OneTick] (freshPlay kickPlay, kickWorld))).2
      [] _ [] rfl (by simp) (by decide) (by decide) (by decide)).2.2.1⟩

/-! ## Theorems: the end of the loop over the unreached sync points -/

/-- More passes than the loop over the unreached sync points needs change nothing. -/
theorem barrierScan_fuel_mono : ∀ (fuel i : Nat) (p : Play) (w : World)
    (res : Except String Unit × Play × World),
    Play.barrierScan fuel i p w = some res →
    ∀ more, Play.barrierScan (fuel + more) i p w = some res := by
  intro fuel
  induction fuel with
  | zero =>
    intro i p w res h
    simp [Play.barrierScan] at h
  | succ n ih =>
    intro i p w res h more
    rw [show n + 1 + more = (n + more) + 1 by omega]
    simp only [Play.barrierScan] at h ⊢
    by_cases hi : i < p._unreachedSyncPoints.length
    · rw [if_pos hi] at h ⊢
      by_cases hre : p.syncPointAtIndexIsReachableNow (p._unreachedSyncPoints.getD i 0) = true
      · rw [if_pos hre] at h ⊢
        cases htr : p.transitionToSyncPointAtIndex w (p._unreachedSyncPoints.getD i 0) with
        | mk r1 rest1 =>
          obtain ⟨p1, w1⟩ := rest1
          rw [htr] at h
          cases r1 with
          | error e => exact h
          | ok u =>
            simp only at h ⊢
            exact ih _ _ _ _ h more
      · rw [if_neg hre] at h ⊢
        exact ih _ _ _ _ h more
    · rw [if_neg hi] at h ⊢
      exact h

/-- The loop over the unreached sync points, from the position `i` on, fires no more sync
points than the unfired list has entries from that position on. -/
theorem barrierScan_firings : ∀ (fuel i : Nat) (p : Play) (w : World)
    (r : Except String Unit) (p2 : Play) (w2 : World),
    Play.barrierScan fuel i p w = some (r, p2, w2) →
    (firedIndices (w2.events.drop w.events.length)).length ≤
      p._unreachedSyncPoints.length - i := by
  intro fuel
  induction fuel with
  | zero =>
    intro i p w r p2 w2 h
    simp [Play.barrierScan] at h
  | succ n ih =>
    intro i p w r p2 w2 h
    simp only [Play.barrierScan] at h
    by_cases hi : i < p._unreachedSyncPoints.length
    · rw [if_pos hi] at h
      have hk := getD_mem_of_lt _ _ hi
      by_cases hre : p.syncPointAtIndexIsReachableNow (p._unreachedSyncPoints.getD i 0) = true
      · rw [if_pos hre] at h
        cases htr : p.transitionToSyncPointAtIndex w (p._unreachedSyncPoints.getD i 0) with
        | mk r1 rest1 =>
          obtain ⟨p1, w1⟩ := rest1
          rw [htr] at h
          obtain ⟨_, _, hok, _, new1, hnew1, hall1⟩ :=
            transitionToSyncPointAtIndex_frame _ _ _ _ _ _ htr
          have hf1 : firedIndices (Event.fired (p._unreachedSyncPoints.getD i 0) :: new1) =
              [p._unreachedSyncPoints.getD i 0] := by
            have h0 := firedIndices_of_none new1 (fun e he => (hall1 e he).1)
            unfold firedIndices at h0 ⊢
            rw [List.filterMap_cons]
            simp only [Event.firedIndex]
            rw [h0]
          cases r1 with
          | error e =>
            simp only at h
            cases h
            rw [hnew1, List.drop_left, hf1]
            simp only [List.length_singleton]
            omega
          | ok u =>
            simp only at h
            have h2 := ih _ _ _ _ _ _ h
            obtain ⟨_, _, new2, hnew2, _⟩ := barrierScan_frame _ _ _ _ _ _ _ h
            rw [hnew2, List.drop_left] at h2
            rw [hok rfl, List.length_erase_of_mem hk] at h2
            rw [hnew2, hnew1, List.append_assoc, List.drop_left, firedIndices_append, hf1]
            simp only [List.length_append, List.length_singleton]
            omega
      · rw [if_neg hre] at h
        have h2 := ih _ _ _ _ _ _ h
        omega
    · rw [if_neg hi] at h
      cases h
      simp [firedIndices]

/-- C30: the loop over the unreached sync points ends. With one pass through its head for
every entry of the unfired list and one more the loop has ended, and more passes give the
same result; a firing that returns makes the unfired list one entry shorter; the loop fires
no more sync points than the unfired list has entries when it starts, and so does a call of
`update()`. -/
theorem barrier_scan_terminates (p : Play) (w : World) :
    (∃ res, Play.barrierScan (p._unreachedSyncPoints.length + 1) 0 p w = some res ∧
      ∀ more, Play.barrierScan (p._unreachedSyncPoints.length + 1 + more) 0 p w = some res) ∧
    (∀ k p2 w2, k ∈ p._unreachedSyncPoints →
      p.transitionToSyncPointAtIndex w k = (.ok (), p2, w2) →
      p2._unreachedSyncPoints.length + 1 = p._unreachedSyncPoints.length) ∧
    (∀ fuel r p2 w2, Play.barrierScan fuel 0 p w = some (r, p2, w2) →
      (firedIndices (w2.events.drop w.events.length)).length ≤
        p._unreachedSyncPoints.length) ∧
    (firedIndices ((p.update w).2.2.events.drop w.events.length)).length ≤
      p._unreachedSyncPoints.length := by
  refine ⟨?_, ?_, ?_, ?_⟩
  · obtain ⟨res, hres⟩ := barrierScan_enough_fuel p._unreachedSyncPoints.length 0 p w (by omega)
    exact ⟨res, hres, barrierScan_fuel_mono _ _ _ _ _ hres⟩
  · intro k p2 w2 hk h
    obtain ⟨_, _, hok, _, _⟩ := transitionToSyncPointAtIndex_frame _ _ _ _ _ _ h
    rw [hok rfl, List.length_erase_of_mem hk]
    have : 0 < p._unreachedSyncPoints.length := List.length_pos_of_mem hk
    omega
  · intro fuel r p2 w2 h
    exact barrierScan_firings _ _ _ _ _ _ _ h
  · obtain ⟨_, _, _, hun, _, _⟩ := checkPendingTacticResults_frame p
    rcases update_cases p w with ⟨e, _, h2⟩ | ⟨_, h2⟩ | ⟨_, r2, p2, w2, hlane, hrest⟩
    · rw [h2]; simp [firedIndices]
    · rw [h2]; simp [firedIndices]
    · obtain ⟨_, hun2, _, _, _, new, hnew, hall, _⟩ := laneLoop_frame _ _ _ _ _ _ hlane
      have hf0 : firedIndices new = [] := firedIndices_of_none new hall
      rcases hrest with ⟨e, _, hu⟩ | ⟨_, hu⟩ | ⟨_, r3, p3, w3, hb, hrest3⟩
      · rw [hu]
        simp only
        rw [hnew, List.drop_left, hf0]
        exact Nat.zero_le _
      · rw [hu]
        simp only
        rw [hnew, List.drop_left, hf0]
        exact Nat.zero_le _
      · have h3 := barrierScan_firings _ _ _ _ _ _ _ hb
        obtain ⟨_, _, new3, hnew3, _⟩ := barrierScan_frame _ _ _ _ _ _ _ hb
        rw [hnew3, List.drop_left, hun2, hun] at h3
        have hev : w3.events.drop w.events.length = new ++ new3 := by
          rw [hnew3, hnew, List.append_assoc, List.drop_left]
        have hfin : (firedIndices (w3.events.drop w.events.length)).length ≤
            p._unreachedSyncPoints.length := by
          rw [hev, firedIndices_append, hf0, List.nil_append]
          omega
        rcases hrest3 with ⟨e, _, hu⟩ | ⟨_, hu⟩
        · rw [hu]; exact hfin
        · rw [hu]; exact hfin

/-! ## Theorems: the range of the cursors -/

/-- C26 (the code at the failing input): the constructor of Play never assigns
`_playFactory`, and `initializeIvars()` sizes the cursors, the lane slots and the unfired
list from the definition that uninitialised member happens to point to. When that is the
definition `pf`, the new Play is in state SettingUp with one cursor -1 and one empty slot for
each lane of `pf`, an empty pending-verdict queue and the unfired list `0 .. m-1` for the `m`
sync points of `pf`. For the parking definition, which has 2 lanes and 2 sync points,
`create` gives that when the member happens to point to the parking definition, and a Play
without cursors, slots and unfired sync points when it happens to point to an empty
definition. -/
theorem new_play_is_sized_by_uninitialised_member :
    (∀ (playFactory : Option PlayFactory) (gameplayModule : Option GameplayModule)
        (pf : PlayFactory) (p : Play),
      Play.new playFactory gameplayModule pf = .ok p →
      p._state = .SettingUp ∧
      p._sequenceStateByIndex = List.replicate pf._tacticSequences.length (-1) ∧
      p._tacticsBySequenceIndex = List.replicate pf._tacticSequences.length none ∧
      p._tacticsAwaitingResults = [] ∧
      p._unreachedSyncPoints = List.range pf._syncPointNames.length) ∧
    twoLanePlay._tacticSequences.length = 2 ∧ twoLanePlay._syncPointNames.length = 2 ∧
    emptyPlay._tacticSequences.length = 0 ∧ emptyPlay._syncPointNames.length = 0 ∧
    (twoLanePlay.create (some 7) twoLanePlay).map
        (fun p => (p._state, p._sequenceStateByIndex, p._tacticsBySequenceIndex.length,
          p._unreachedSyncPoints)) = .ok (.SettingUp, [-1, -1], 2, [0, 1]) ∧
    (twoLanePlay.create (some 7) emptyPlay).map
        (fun p => (p._state, p._sequenceStateByIndex, p._tacticsBySequenceIndex.length,
          p._unreachedSyncPoints)) = .ok (.SettingUp, [], 0, []) := by
  refine ⟨?_, by decide, by decide, by decide, by decide, rfl, rfl⟩
  intro playFactory gameplayModule pf p h
  obtain ⟨_, hC, hT, hun, hq, hs⟩ := new_shape _ _ _ _ h
  exact ⟨hs, hC, hT, hq, hun⟩

/-! ## Lemmas: the state of the Play through update, whatever it is -/

/-- A call of `setState` leaves the action as it is, or it returns and has changed the
state of an action that was not in a terminal state. -/
theorem action_setState_cases (a : Action) (s : ActionState) :
    (a.setState s).2 = a ∨
      ((a.setState s).1 = .ok () ∧ (a.setState s).2 = { a with _state := s } ∧
        ACTION_STATE_IS_DONE a._state = false) := by
  obtain ⟨gm, st, es, co⟩ := a
  cases st <;> cases s <;>
    simp [Action.setState, Action.stateTransitionIsValid, Action.transition,
      ActionState.toInt, ACTION_STATE_IS_DONE]

/-- The same for a Play. -/
theorem play_setState_cases (p : Play) (s : ActionState) :
    (p.setState s).2 = p ∨
      ((p.setState s).1 = .ok () ∧ (p.setState s).2 = { p with _state := s } ∧
        ACTION_STATE_IS_DONE p._state = false) := by
  unfold Play.setState
  cases hc : p.toAction.setState s with
  | mk r a =>
    have h := action_setState_cases p.toAction s
    rw [hc] at h
    simp only at h ⊢
    rcases h with h | ⟨h1, h2, h3⟩
    · left; rw [h]
    · right; rw [h2]; exact ⟨h1, rfl, h3⟩

/-- The loop over the lanes leaves the `Action` base of the Play as it is, unless it ends by
the fail-fast exit on a Play that was not in a terminal state. -/
theorem laneLoop_action (lanes : List Nat) :
    ∀ (p : Play) (w : World) (r : Except String LaneLoopExit) (p2 : Play) (w2 : World),
      Play.laneLoop lanes p w = (r, p2, w2) →
      p2.toAction = p.toAction ∨
        (r = .ok .failedFast ∧ ACTION_STATE_IS_DONE p._state = false ∧
          p2._state = .Failed) := by
  induction lanes with
  | nil =>
    intro p w r p2 w2 h
    simp only [Play.laneLoop] at h
    cases h
    exact Or.inl rfl
  | cons i rest ih =>
    intro p w r p2 w2 h
    simp only [Play.laneLoop] at h
    cases ht : p.tacticOfSequenceAtIndex i with
    | none =>
      rw [ht] at h
      exact ih _ _ _ _ _ h
    | some t =>
      rw [ht] at h
      simp only at h
      cases hup : t.update (w.sensed i) with
      | mk ru t1 =>
        rw [hup] at h
        cases ru with
        | error e =>
          simp only at h
          cases h
          exact Or.inl rfl
        | ok u =>
          simp only at h
          by_cases hadv : t1.state = .Completed ∨ t1.state = .EvaluatingSuccess
          · rw [if_pos hadv] at h
            cases hts : Play.transitionSequenceAtIndex
                { p with _tacticsBySequenceIndex := p._tacticsBySequenceIndex.set i (some t1) }
                (w.note (.updated i t1.state)) i with
            | mk r1 rest1 =>
              obtain ⟨q2, w3⟩ := rest1
              rw [hts] at h
              obtain ⟨hf, _⟩ := transitionSequenceAtIndex_frame _ _ _ _ _ _ hts
              have hact : q2.toAction = p.toAction := hf.1
              cases r1 with
              | error e =>
                simp only at h
                cases h
                exact Or.inl hact
              | ok u2 =>
                simp only at h
                rcases ih _ _ _ _ _ h with h0 | ⟨h1, h2, h3⟩
                · exact Or.inl (h0.trans hact)
                · exact Or.inr ⟨h1, by rw [← hact]; exact h2, h3⟩
          · rw [if_neg hadv] at h
            by_cases hfail : t1.state = .Failed
            · rw [if_pos hfail] at h
              have hcs := play_setState_cases
                { p with _tacticsBySequenceIndex := p._tacticsBySequenceIndex.set i (some t1) }
                .Failed
              cases hss : Play.setState
                  { p with _tacticsBySequenceIndex := p._tacticsBySequenceIndex.set i (some t1) }
                  .Failed with
              | mk rs ps =>
                rw [hss] at h hcs
                simp only at hcs
                have hpw : p2 = ps := by
                  cases rs <;> (simp only at h; cases h; rfl)
                rcases hcs with h0 | ⟨h1, h2, h3⟩
                · left
                  rw [hpw, h0]
                · right
                  subst h1
                  simp only at h
                  cases h
                  rw [h2]
                  exact ⟨rfl, h3, rfl⟩
            · rw [if_neg hfail] at h
              have h0 := ih _ _ _ _ _ h
              exact h0

/-- A call of `update()` on a Play in a terminal state leaves the `Action` base of the Play
as it is. -/
theorem update_action_done (p : Play) (w : World)
    (hdone : ACTION_STATE_IS_DONE p._state = true) :
    (p.update w).2.1.toAction = p.toAction := by
  obtain ⟨_, hact, _⟩ := checkPendingTacticResults_frame p
  have hset : ∀ (q : Play) (s : ActionState), q.toAction = p.toAction →
      (q.setState s).2.toAction = p.toAction := by
    intro q s hq
    rcases play_setState_cases q s with h0 | ⟨_, _, h3⟩
    · rw [h0]; exact hq
    · exfalso
      rw [hq, hdone] at h3
      cases h3
  rcases update_cases p w with ⟨e, _, h2⟩ | ⟨_, h2⟩ | ⟨_, r2, p2, w2, hlane, hrest⟩
  · rw [h2]; exact hact
  · rw [h2]; exact hset _ _ hact
  · have hact2 : p2.toAction = p.toAction := by
      rcases laneLoop_action _ _ _ _ _ _ hlane with h0 | ⟨_, h1, _⟩
      · exact h0.trans hact
      · exfalso
        rw [hact, hdone] at h1
        cases h1
    rcases hrest with ⟨e, _, hu⟩ | ⟨_, hu⟩ | ⟨_, r3, p3, w3, hb, hrest3⟩
    · rw [hu]; exact hact2
    · rw [hu]; exact hact2
    · obtain ⟨hf3, _⟩ := barrierScan_frame _ _ _ _ _ _ _ hb
      have hact3 : p3.toAction = p.toAction := hf3.1.trans hact2
      rcases hrest3 with ⟨e, _, hu⟩ | ⟨_, hu⟩
      · rw [hu]; exact hact3
      · rw [hu]
        simp only
        unfold Play.completionCheck
        split
        · split
          · exact hset _ _ hact3
          · exact hset _ _ hact3
        · exact hact3

/-! ## Theorems: update after terminate -/

/-- C25 (as stated, refuted): in the parking scenario, after the first call of `update()`
has started both lanes, `terminate()` returns and leaves the Play Cancelled; the next call
of `update()` returns and has called `update()` on the behaviours of both lanes, which are
Running instead of SettingUp afterwards. -/
theorem update_after_terminate_updates_lanes :
    (Play.run [quietTick] (freshPlay twoLanePlay, populatedWorld)).1.terminate.1 = .ok () ∧
    terminatedParking.1._state = .Cancelled ∧
    terminatedParking.1._tacticsBySequenceIndex.map (fun o => o.map fun t => t._state) =
      [some .SettingUp, some .SettingUp] ∧
    (Play.step quietTick terminatedParking).1 = .ok () ∧
    (Play.step quietTick terminatedParking).2.1._tacticsBySequenceIndex.map
      (fun o => o.map fun t => t._state) = [some .Running, some .Running] ∧
    (Play.step quietTick terminatedParking).2.2.events.drop
      terminatedParking.2.events.length = [.updated 0 .Running, .updated 1 .Running] := by
  refine ⟨rfl, by decide, by decide, rfl, by decide, by decide⟩

/-- C25 (amended): a Play on which `terminate()` has returned is in a terminal state, and a
following call of `update()`, whether it returns or throws, leaves the `Action` base of the
Play, so its state, as it is. -/
theorem update_after_terminate_keeps_state (p0 p : Play) (w : World)
    (hterm : p0.terminate = (.ok (), p)) :
    ACTION_STATE_IS_DONE p._state = true ∧ (p.update w).2.1.toAction = p.toAction := by
  have hdone : ACTION_STATE_IS_DONE p._state = true := by
    unfold Play.terminate at hterm
    cases hc : p0.toAction.terminate with
    | mk r a =>
      rw [hc] at hterm
      simp only at hterm
      obtain ⟨hr, hp⟩ := Prod.mk.inj hterm
      subst hr
      rw [← hp]
      show ACTION_STATE_IS_DONE a._state = true
      have ha : a = p0.toAction.terminate.2 := by rw [hc]
      have hr1 : p0.toAction.terminate.1 = .ok () := by rw [hc]
      rw [ha]
      revert hr1
      obtain ⟨gm, st, es, co⟩ := p0.toAction
      cases st <;> cases es <;>
        simp [Action.terminate, Action.setState, Action.state, Action.stateTransitionIsValid,
          Action.transition, ActionState.toInt, ACTION_STATE_IS_DONE]
  exact ⟨hdone, update_action_done p w hdone⟩

/-- Witness for C25: the parking scenario, terminated after its first call of `update()`. -/
theorem update_after_terminate_keeps_state_witness :
    ACTION_STATE_IS_DONE terminatedParking.1._state = true ∧
    (terminatedParking.1.update terminatedParking.2).2.1.toAction =
      terminatedParking.1.toAction :=
  update_after_terminate_keeps_state
    (Play.run [quietTick] (freshPlay twoLanePlay, populatedWorld)).1 terminatedParking.1
    terminatedParking.2 rfl

/-! ## Lemmas: the requests of a firing to the role allocator -/

/-- The releases for inputs listed one after the other. -/
theorem releasesFor_append (pf : PlayFactory) (outputs a b : List Nat) :
    Play.releasesFor pf outputs (a ++ b) =
      Play.releasesFor pf outputs a ++ Play.releasesFor pf outputs b := by
  unfold Play.releasesFor
  rw [List.filter_append, List.map_append]

/-- A release is made for an input whose Role is the Role of no output. -/
theorem mem_releasesFor (pf : PlayFactory) (outputs inputs : List Nat) (e : Event)
    (h : e ∈ Play.releasesFor pf outputs inputs) :
    ∃ i ∈ inputs, Play.outputForRole pf (pf.roleForTacticSequenceAtIndex i) outputs = -1 ∧
      e = .deallocate (pf.roleForTacticSequenceAtIndex i) := by
  unfold Play.releasesFor at h
  rw [List.mem_map] at h
  obtain ⟨i, hi, he⟩ := h
  rw [List.mem_filter] at hi
  exact ⟨i, hi.1, by simpa using hi.2, he.symm⟩

/-- `outputForRole` finds an output of the Role when there is one, and the output it finds
is of the Role. -/
theorem outputForRole_spec (pf : PlayFactory) (role : Option RolePtr) (outputs : List Nat) :
    (Play.outputForRole pf role outputs = -1 ∧
        ∀ o ∈ outputs, pf.roleForTacticSequenceAtIndex o ≠ role) ∨
      ∃ o ∈ outputs, pf.roleForTacticSequenceAtIndex o = role ∧
        Play.outputForRole pf role outputs = (o : Int) := by
  induction outputs with
  | nil => exact Or.inl ⟨rfl, fun _ h => by cases h⟩
  | cons o rest ih =>
    simp only [Play.outputForRole]
    by_cases ho : pf.roleForTacticSequenceAtIndex o = role
    · rw [if_pos ho]
      exact Or.inr ⟨o, List.mem_cons_self _ _, ho, rfl⟩
    · rw [if_neg ho]
      rcases ih with ⟨h1, h2⟩ | ⟨x, hx, h1, h2⟩
      · refine Or.inl ⟨h1, fun y hy => ?_⟩
        rcases List.mem_cons.mp hy with h0 | h0
        · rw [h0]; exact ho
        · exact h2 y h0
      · exact Or.inr ⟨x, List.mem_cons_of_mem _ hx, h1, h2⟩

/-- The loop over the inputs of a firing: its releases are those for the inputs it has got
through, which are all inputs when it returns; and the lanes it records as transitioned are
the outputs found for the inputs. -/
theorem transitionInputs_events (outputs : List Nat) (inputs : List Nat) :
    ∀ (tr : List Int) (p : Play) (w : World) (r : Except String Unit) (tr2 : List Int)
      (p2 : Play) (w2 : World),
      Play.transitionInputs outputs inputs tr p w = (r, tr2, p2, w2) →
      (∃ n, n ≤ inputs.length ∧
        w2.events = w.events ++ Play.releasesFor p._playFactory outputs (inputs.take n) ∧
        (r = .ok () → n = inputs.length)) ∧
      (∀ x ∈ tr2, x ∈ tr ∨ ∃ i ∈ inputs,
        x = Play.outputForRole p._playFactory
          (p._playFactory.roleForTacticSequenceAtIndex i) outputs) ∧
      (r = .ok () → ∀ i ∈ inputs,
        Play.outputForRole p._playFactory
          (p._playFactory.roleForTacticSequenceAtIndex i) outputs ≠ -1 →
        Play.outputForRole p._playFactory
          (p._playFactory.roleForTacticSequenceAtIndex i) outputs ∈ tr2) ∧
      (∀ x ∈ tr, x ∈ tr2) := by
  induction inputs with
  | nil =>
    intro tr p w r tr2 p2 w2 h
    simp only [Play.transitionInputs] at h
    cases h
    exact ⟨⟨0, le_refl _, by simp [Play.releasesFor], fun _ => rfl⟩,
      fun x hx => Or.inl hx, fun _ i hi => (by cases hi), fun x hx => hx⟩
  | cons i rest ih =>
    intro tr p w r tr2 p2 w2 h
    simp only [Play.transitionInputs] at h
    cases htr : p.transitionRole w (p._playFactory.roleForTacticSequenceAtIndex i) i
        (Play.outputForRole p._playFactory (p._playFactory.roleForTacticSequenceAtIndex i)
          outputs) with
    | mk r1 rest1 =>
      obtain ⟨p1, w1⟩ := rest1
      obtain ⟨hf, _, _, he⟩ := transitionRole_frame _ _ _ _ _ _ _ _ htr
      have hpf : p1._playFactory = p._playFactory := hf.2.1
      rw [htr] at h
      cases r1 with
      | error e =>
        simp only at h
        cases h
        exact ⟨⟨0, Nat.zero_le _, by simp [Play.releasesFor, he], fun hc => by cases hc⟩,
          fun x hx => Or.inl hx, fun hc => (by cases hc), fun x hx => hx⟩
      | ok b =>
        simp only at h
        by_cases hneg : Play.outputForRole p._playFactory
            (p._playFactory.roleForTacticSequenceAtIndex i) outputs = -1
        · rw [if_pos hneg] at h
          obtain ⟨⟨n, hn, hev, hok⟩, hsub, hall, hkeep⟩ := ih _ _ _ _ _ _ _ h
          rw [hpf] at hev hsub hall
          refine ⟨⟨n + 1, by simp only [List.length_cons]; omega, ?_, fun hr => by
              rw [List.length_cons, hok hr]⟩, ?_, ?_, hkeep⟩
          · rw [hev]
            simp only [World.deallocateRoleForToplevelAction, World.note, he, List.take_succ_cons]
            rw [show i :: List.take n rest = [i] ++ List.take n rest from rfl,
              releasesFor_append, List.append_assoc]
            congr 1
            simp [Play.releasesFor, hneg]
          · intro x hx
            rcases hsub x hx with h0 | ⟨j, hj, h0⟩
            · exact Or.inl h0
            · exact Or.inr ⟨j, List.mem_cons_of_mem _ hj, h0⟩
          · intro hr j hj hne
            rcases List.mem_cons.mp hj with h0 | h0
            · rw [h0] at hne
              exact absurd hneg hne
            · exact hall hr j h0 hne
        · rw [if_neg hneg] at h
          obtain ⟨⟨n, hn, hev, hok⟩, hsub, hall, hkeep⟩ := ih _ _ _ _ _ _ _ h
          rw [hpf] at hev hsub hall
          refine ⟨⟨n + 1, by simp only [List.length_cons]; omega, ?_, fun hr => by
              rw [List.length_cons, hok hr]⟩, ?_, ?_, ?_⟩
          · rw [hev, he]
            simp only [List.take_succ_cons]
            rw [show i :: List.take n rest = [i] ++ List.take n rest from rfl,
              releasesFor_append]
            congr 1
            simp [Play.releasesFor, hneg]
          · intro x hx
            rcases hsub x hx with h0 | ⟨j, hj, h0⟩
            · rcases List.mem_append.mp h0 with h1 | h1
              · exact Or.inl h1
              · rw [List.mem_singleton] at h1
                exact Or.inr ⟨i, List.mem_cons_self _ _, h1⟩
            · exact Or.inr ⟨j, List.mem_cons_of_mem _ hj, h0⟩
          · intro hr j hj hne
            rcases List.mem_cons.mp hj with h0 | h0
            · rw [h0]
              exact hkeep _ (List.mem_append_right _ (List.mem_singleton_self _))
            · exact hall hr j h0 hne
          · intro x hx
            exact hkeep x (List.mem_append_left _ hx)

/-- An element of a set after an insertion. -/
theorem mem_setInsert (s : List (Option RolePtr)) (role x : Option RolePtr) :
    x ∈ Play.setInsert s role ↔ x ∈ s ∨ x = role := by
  unfold Play.setInsert
  split
  · rename_i h
    constructor
    · exact fun hx => Or.inl hx
    · rintro (hx | hx)
      · exact hx
      · rw [hx]; exact h
  · simp

/-- The loop over the outputs of a firing: the Roles it collects are the Roles of the
outputs that were not recorded as transitioned, of all of them when it returns. -/
theorem transitionOutputs_roles (tr : List Int) (outputs : List Nat) :
    ∀ (roles : List (Option RolePtr)) (p : Play) (w : World) (r : Except String Unit)
      (roles2 : List (Option RolePtr)) (p2 : Play) (w2 : World),
      Play.transitionOutputs tr outputs roles p w = (r, roles2, p2, w2) →
      (∀ R ∈ roles2, R ∈ roles ∨ ∃ o ∈ outputs, (o : Int) ∉ tr ∧
        p._playFactory.roleForTacticSequenceAtIndex o = R) ∧
      (r = .ok () → ∀ o ∈ outputs, (o : Int) ∉ tr →
        p._playFactory.roleForTacticSequenceAtIndex o ∈ roles2) ∧
      (∀ R ∈ roles, R ∈ roles2) := by
  induction outputs with
  | nil =>
    intro roles p w r roles2 p2 w2 h
    simp only [Play.transitionOutputs] at h
    cases h
    exact ⟨fun R hR => Or.inl hR, fun _ o ho => (by cases ho), fun R hR => hR⟩
  | cons o rest ih =>
    intro roles p w r roles2 p2 w2 h
    simp only [Play.transitionOutputs] at h
    by_cases hin : (o : Int) ∉ tr
    · rw [if_pos hin] at h
      cases htr : p.transitionRole w (p._playFactory.roleForTacticSequenceAtIndex o)
          (-1) o with
      | mk r1 rest1 =>
        obtain ⟨p1, w1⟩ := rest1
        obtain ⟨hf, _⟩ := transitionRole_frame _ _ _ _ _ _ _ _ htr
        have hpf : p1._playFactory = p._playFactory := hf.2.1
        rw [htr] at h
        cases r1 with
        | error e =>
          simp only at h
          cases h
          exact ⟨fun R hR => Or.inl hR, fun hc => (by cases hc), fun R hR => hR⟩
        | ok b =>
          simp only at h
          obtain ⟨h1, h2, h3⟩ := ih _ _ _ _ _ _ _ h
          rw [hpf] at h1 h2
          refine ⟨fun R hR => ?_, fun hr x hx hxt => ?_, fun R hR => ?_⟩
          · rcases h1 R hR with h0 | ⟨x, hx, hxt, hxr⟩
            · rcases (mem_setInsert _ _ _).mp h0 with h4 | h4
              · exact Or.inl h4
              · exact Or.inr ⟨o, List.mem_cons_self _ _, hin, h4.symm⟩
            · exact Or.inr ⟨x, List.mem_cons_of_mem _ hx, hxt, hxr⟩
          · rcases List.mem_cons.mp hx with h0 | h0
            · rw [h0]
              exact h3 _ ((mem_setInsert _ _ _).mpr (Or.inr rfl))
            · exact h2 hr x h0 hxt
          · exact h3 R ((mem_setInsert _ _ _).mpr (Or.inl hR))
    · rw [if_neg hin] at h
      obtain ⟨h1, h2, h3⟩ := ih _ _ _ _ _ _ _ h
      refine ⟨fun R hR => ?_, fun hr x hx hxt => ?_, h3⟩
      · rcases h1 R hR with h0 | ⟨x, hx, hxt, hxr⟩
        · exact Or.inl h0
        · exact Or.inr ⟨x, List.mem_cons_of_mem _ hx, hxt, hxr⟩
      · rcases List.mem_cons.mp hx with h0 | h0
        · rw [h0] at hxt
          exact absurd hxt hin
        · exact h2 hr x h0 hxt

/-- The requests of a firing to the role allocator: after the event of the firing come
releases for inputs whose Role is the Role of no output; then either the firing has thrown
before its allocation request, or it has released the Role of every such input and made one
allocation request, which the allocator accepts exactly when the firing returns; the
requested Roles are those of the outputs that no input was transitioned to. -/
theorem firing_requests (p : Play) (w : World) (k : Nat) (r : Except String Unit)
    (p2 : Play) (w2 : World) (h : p.transitionToSyncPointAtIndex w k = (r, p2, w2)) :
    ∃ rel : List Event,
      (∀ e ∈ rel, ∃ i ∈ p._playFactory._syncPointInputs.getD k [],
        Play.outputForRole p._playFactory (p._playFactory.roleForTacticSequenceAtIndex i)
          (p._playFactory._syncPointOutputs.getD k []) = -1 ∧
        e = .deallocate (p._playFactory.roleForTacticSequenceAtIndex i)) ∧
      ((w2.events = w.events ++ .fired k :: rel ∧ r ≠ .ok ()) ∨
        ∃ roles, w2.events = w.events ++ .fired k :: rel ++ [.allocate roles] ∧
          rel = Play.releasesFor p._playFactory (p._playFactory._syncPointOutputs.getD k [])
            (p._playFactory._syncPointInputs.getD k []) ∧
          (w.allocatorAccepts roles = true → r = .ok ()) ∧
          (w.allocatorAccepts roles = false → r = .error "AllocationFailure") ∧
          (∀ R ∈ roles, ∃ o ∈ p._playFactory._syncPointOutputs.getD k [],
            p._playFactory.roleForTacticSequenceAtIndex o = R ∧
            ∀ i ∈ p._playFactory._syncPointInputs.getD k [],
              Play.outputForRole p._playFactory
                (p._playFactory.roleForTacticSequenceAtIndex i)
                (p._playFactory._syncPointOutputs.getD k []) ≠ (o : Int)) ∧
          (∀ o ∈ p._playFactory._syncPointOutputs.getD k [],
            (∀ i ∈ p._playFactory._syncPointInputs.getD k [],
              Play.outputForRole p._playFactory
                (p._playFactory.roleForTacticSequenceAtIndex i)
                (p._playFactory._syncPointOutputs.getD k []) ≠ (o : Int)) →
            p._playFactory.roleForTacticSequenceAtIndex o ∈ roles)) := by
  unfold Play.transitionToSyncPointAtIndex at h
  simp only at h
  cases hin : Play.transitionInputs (p._playFactory._syncPointOutputs.getD k [])
      (p._playFactory._syncPointInputs.getD k []) [] p (w.note (.fired k)) with
  | mk r1 rest1 =>
    obtain ⟨tr, p1, w1⟩ := rest1
    obtain ⟨⟨n, hn, hev, hok⟩, hsub, hall, _⟩ := transitionInputs_events _ _ _ _ _ _ _ _ _ hin
    obtain ⟨hf1, _, _, _⟩ := transitionInputs_frame _ _ _ _ _ _ _ _ _ hin
    have hev1 : w1.events = w.events ++ .fired k ::
        Play.releasesFor p._playFactory (p._playFactory._syncPointOutputs.getD k [])
          ((p._playFactory._syncPointInputs.getD k []).take n) := by
      rw [hev]; simp [World.note]
    have hrel : ∀ e ∈ Play.releasesFor p._playFactory
        (p._playFactory._syncPointOutputs.getD k [])
        ((p._playFactory._syncPointInputs.getD k []).take n),
        ∃ i ∈ p._playFactory._syncPointInputs.getD k [],
          Play.outputForRole p._playFactory (p._playFactory.roleForTacticSequenceAtIndex i)
            (p._playFactory._syncPointOutputs.getD k []) = -1 ∧
          e = .deallocate (p._playFactory.roleForTacticSequenceAtIndex i) := by
      intro e he
      obtain ⟨i, hi, h1, h2⟩ := mem_releasesFor _ _ _ _ he
      exact ⟨i, List.mem_of_mem_take hi, h1, h2⟩
    refine ⟨_, hrel, ?_⟩
    rw [hin] at h
    cases r1 with
    | error e =>
      simp only at h
      cases h
      exact Or.inl ⟨hev1, by intro hc; cases hc⟩
    | ok u =>
      simp only at h
      have hn2 : n = (p._playFactory._syncPointInputs.getD k []).length := hok rfl
      cases hout : Play.transitionOutputs tr (p._playFactory._syncPointOutputs.getD k []) []
          p1 w1 with
      | mk r3 rest3 =>
        obtain ⟨roles, p3, w3⟩ := rest3
        obtain ⟨hf3, _, _, he3⟩ := transitionOutputs_frame _ _ _ _ _ _ _ _ _ hout
        obtain ⟨hr1, hr2, _⟩ := transitionOutputs_roles _ _ _ _ _ _ _ _ _ hout
        rw [hf1.2.1] at hr1 hr2
        rw [hout] at h
        cases r3 with
        | error e =>
          simp only at h
          cases h
          exact Or.inl ⟨by rw [he3]; exact hev1, by intro hc; cases hc⟩
        | ok u2 =>
          right
          have hacc : w3.allocatorAccepts = w.allocatorAccepts :=
            hf3.2.2.2.2.2.trans hf1.2.2.2.2.2
          have hnotin : ∀ o : Nat,
              (∀ i ∈ p._playFactory._syncPointInputs.getD k [],
                Play.outputForRole p._playFactory
                  (p._playFactory.roleForTacticSequenceAtIndex i)
                  (p._playFactory._syncPointOutputs.getD k []) ≠ (o : Int)) →
              (o : Int) ∉ tr := by
            intro o ho hc
            rcases hsub _ hc with h0 | ⟨i, hi, h0⟩
            · cases h0
            · exact ho i hi h0.symm
          have hin2 : ∀ o : Nat, (o : Int) ∉ tr →
              ∀ i ∈ p._playFactory._syncPointInputs.getD k [],
                Play.outputForRole p._playFactory
                  (p._playFactory.roleForTacticSequenceAtIndex i)
                  (p._playFactory._syncPointOutputs.getD k []) ≠ (o : Int) := by
            intro o ho i hi hc
            apply ho
            rw [← hc]
            apply hall rfl i hi
            rw [hc]
            omega
          refine ⟨roles, ?_, by rw [hn2, List.take_length], ?_, ?_, ?_, ?_⟩
          · simp only [World.allocateRolesForToplevelAction] at h
            have hw2 : w2.events = w3.events ++ [.allocate roles] := by
              by_cases ha : w3.allocatorAccepts roles = true
              · simp only [ha, if_true] at h
                cases h; rfl
              · simp only [ha, Bool.false_eq_true, if_false] at h
                cases h; rfl
            rw [hw2, he3, hev1]
          · intro ha
            rw [← hacc] at ha
            simp only [World.allocateRolesForToplevelAction, ha, if_true] at h
            cases h; rfl
          · intro ha
            rw [← hacc] at ha
            simp only [World.allocateRolesForToplevelAction, ha, Bool.false_eq_true,
              if_false] at h
            cases h; rfl
          · intro R hR
            rcases hr1 R hR with h0 | ⟨o, ho, hot, hor⟩
            · cases h0
            · exact ⟨o, ho, hor, hin2 o hot⟩
          · intro o ho hno
            exact hr2 rfl o ho (hnotin o hno)

/-! ## Theorems: the requests of a firing to the role allocator -/

/-- C22: batched allocation. When the loops of a firing over the inputs and over the
outputs return, the firing makes one allocation request, for the Roles the loop over the
outputs has collected: the record gets the event of the firing, then the releases, then that
one request, and the cursors and the behaviours the firing leaves are those the loops have
left. The request holds the Role of every output of which no input has the Role. -/
theorem batched_allocation (p : Play) (w : World) (k : Nat) (r : Except String Unit)
    (p2 : Play) (w2 : World) (tr : List Int) (p1 : Play) (w1 : World)
    (roles : List (Option RolePtr)) (p3 : Play) (w3 : World)
    (hin : Play.transitionInputs (p._playFactory._syncPointOutputs.getD k [])
      (p._playFactory._syncPointInputs.getD k []) [] p (w.note (.fired k)) =
        (.ok (), tr, p1, w1))
    (hout : Play.transitionOutputs tr (p._playFactory._syncPointOutputs.getD k []) [] p1 w1 =
      (.ok (), roles, p3, w3))
    (h : p.transitionToSyncPointAtIndex w k = (r, p2, w2)) :
    w2.events = w.events ++ .fired k ::
      Play.releasesFor p._playFactory (p._playFactory._syncPointOutputs.getD k [])
        (p._playFactory._syncPointInputs.getD k []) ++ [.allocate roles] ∧
    p2._sequenceStateByIndex = p3._sequenceStateByIndex ∧
    p2._tacticsBySequenceIndex = p3._tacticsBySequenceIndex ∧
    (∀ o ∈ p._playFactory._syncPointOutputs.getD k [],
      (∀ i ∈ p._playFactory._syncPointInputs.getD k [],
        p._playFactory.roleForTacticSequenceAtIndex i ≠
          p._playFactory.roleForTacticSequenceAtIndex o) →
      p._playFactory.roleForTacticSequenceAtIndex o ∈ roles) := by
  obtain ⟨rel, hrelP, hcases⟩ := firing_requests _ _ _ _ _ _ h
  have hshape : p2._sequenceStateByIndex = p3._sequenceStateByIndex ∧
      p2._tacticsBySequenceIndex = p3._tacticsBySequenceIndex ∧
      ∃ roles2, w2.events = w3.events ++ [.allocate roles2] ∧ roles2 = roles := by
    unfold Play.transitionToSyncPointAtIndex at h
    simp only [hin, hout, World.allocateRolesForToplevelAction] at h
    by_cases ha : w3.allocatorAccepts roles = true
    · simp only [ha, if_true] at h
      cases h
      exact ⟨rfl, rfl, roles, rfl, rfl⟩
    · simp only [ha, Bool.false_eq_true, if_false] at h
      cases h
      exact ⟨rfl, rfl, roles, rfl, rfl⟩
  obtain ⟨hC, hT, roles2, hw2, hroles⟩ := hshape
  subst hroles
  obtain ⟨_, _, _, he3⟩ := transitionOutputs_frame _ _ _ _ _ _ _ _ _ hout
  rcases hcases with ⟨hev, _⟩ | ⟨roles3, hev, hrel, _, _, _, hall⟩
  · exfalso
    obtain ⟨⟨n, _, hev1, hok⟩, _⟩ := transitionInputs_events _ _ _ _ _ _ _ _ _ hin
    have hev2 : w2.events = w.events ++ .fired k ::
        (Play.releasesFor p._playFactory (p._playFactory._syncPointOutputs.getD k [])
          (List.take n (p._playFactory._syncPointInputs.getD k [])) ++
            [.allocate roles2]) := by
      rw [hw2, he3, hev1]
      simp [World.note]
    rw [hev2] at hev
    have hrel2 := (List.cons.inj (List.append_cancel_left hev)).2
    have hmem : Event.allocate roles2 ∈ rel := by
      rw [← hrel2]
      exact List.mem_append_right _ (List.mem_singleton_self _)
    obtain ⟨i, _, _, hc⟩ := hrelP _ hmem
    cases hc
  · subst hrel
    have hsame : roles3 = roles2 := by
      rw [hw2, he3] at hev
      obtain ⟨⟨n, _, hev1, hok⟩, _⟩ := transitionInputs_events _ _ _ _ _ _ _ _ _ hin
      rw [hev1, hok rfl, List.take_length] at hev
      simp only [World.note, List.append_assoc, List.cons_append, List.singleton_append] at hev
      have h1 := List.append_cancel_left hev
      simp only [List.nil_append] at h1
      have h2 := List.append_cancel_left (List.cons.inj h1).2
      injection h2 with h3
      injection h3 with h4
      exact h4.symm
    subst hsame
    refine ⟨hev, hC, hT, fun o ho hno => hall o ho (fun i hi hc => ?_)⟩
    rcases outputForRole_spec p._playFactory (p._playFactory.roleForTacticSequenceAtIndex i)
        (p._playFactory._syncPointOutputs.getD k []) with ⟨h1, _⟩ | ⟨x, hx, hxr, hxo⟩
    · rw [h1] at hc
      omega
    · rw [hxo] at hc
      have hxe : x = o := by omega
      rw [hxe] at hxr
      exact hno i hi hxr.symm

/-- Witness of `batched_allocation`: the firing of "start" on a new Play of the definition
with two lanes; both loops return, and the firing requests the Roles of both lanes at once. -/
theorem batched_allocation_witness :
    ((Play.transitionInputs ((freshPlay twoLanePlay)._playFactory._syncPointOutputs.getD 0 [])
        ((freshPlay twoLanePlay)._playFactory._syncPointInputs.getD 0 []) []
        (freshPlay twoLanePlay) (populatedWorld.note (.fired 0))).1 = .ok () ∧
      (Play.transitionOutputs [] ((freshPlay twoLanePlay)._playFactory._syncPointOutputs.getD 0 [])
        [] (freshPlay twoLanePlay) (populatedWorld.note (.fired 0))).1 = .ok ()) ∧
    ((freshPlay twoLanePlay).transitionToSyncPointAtIndex populatedWorld 0).2.2.events =
      [.fired 0, .allocate [some 0, some 1]] :=
  ⟨⟨rfl, rfl⟩,
    (batched_allocation (freshPlay twoLanePlay) populatedWorld 0 _ _ _ _ _ _ _ _ _
      rfl rfl rfl).1⟩

/-- The events a stage has added are those found after the events of before. -/
theorem mem_drop_events (old new all : List Event) (h : all = old ++ new) (e : Event) :
    e ∈ all.drop old.length ↔ e ∈ new := by
  rw [h, List.drop_left]

/-- The loop over the lanes adds to the record only returns of `update()` of behaviours. -/
theorem laneLoop_events (lanes : List Nat) :
    ∀ (p : Play) (w : World) (r : Except String LaneLoopExit) (p2 : Play) (w2 : World),
      Play.laneLoop lanes p w = (r, p2, w2) →
      ∃ new, w2.events = w.events ++ new ∧ ∀ e ∈ new, e.isUpdated = true := by
  induction lanes with
  | nil =>
    intro p w r p2 w2 h
    simp only [Play.laneLoop] at h
    cases h
    exact ⟨[], by simp, by simp⟩
  | cons i rest ih =>
    intro p w r p2 w2 h
    simp only [Play.laneLoop] at h
    cases ht : p.tacticOfSequenceAtIndex i with
    | none =>
      rw [ht] at h
      exact ih _ _ _ _ _ h
    | some t =>
      rw [ht] at h
      simp only at h
      cases hup : t.update (w.sensed i) with
      | mk ru t1 =>
        rw [hup] at h
        cases ru with
        | error e =>
          simp only at h
          cases h
          exact ⟨[], by simp, by simp⟩
        | ok u =>
          simp only at h
          by_cases hadv : t1.state = .Completed ∨ t1.state = .EvaluatingSuccess
          · rw [if_pos hadv] at h
            cases hts : Play.transitionSequenceAtIndex
                { p with _tacticsBySequenceIndex := p._tacticsBySequenceIndex.set i (some t1) }
                (w.note (.updated i t1.state)) i with
            | mk r1 rest1 =>
              obtain ⟨q2, w3⟩ := rest1
              rw [hts] at h
              obtain ⟨_, _, he, _⟩ := transitionSequenceAtIndex_frame _ _ _ _ _ _ hts
              have hev : w3.events = w.events ++ [.updated i t1.state] := by
                rw [he]; rfl
              cases r1 with
              | error e =>
                simp only at h
                cases h
                exact ⟨[.updated i t1.state], hev, by simp [Event.isUpdated]⟩
              | ok u2 =>
                simp only at h
                obtain ⟨new, hnew, hall⟩ := ih _ _ _ _ _ h
                refine ⟨.updated i t1.state :: new, by rw [hnew, hev]; simp, ?_⟩
                intro e hmem
                rcases List.mem_cons.mp hmem with h0 | h0
                · subst h0; rfl
                · exact hall e h0
          · rw [if_neg hadv] at h
            by_cases hfail : t1.state = .Failed
            · rw [if_pos hfail] at h
              cases hss : Play.setState
                  { p with _tacticsBySequenceIndex := p._tacticsBySequenceIndex.set i (some t1) }
                  .Failed with
              | mk rs ps =>
                rw [hss] at h
                have hw2 : w2 = w.note (.updated i t1.state) := by
                  cases rs <;> (simp only at h; cases h; rfl)
                subst hw2
                exact ⟨[.updated i t1.state], rfl, by simp [Event.isUpdated]⟩
            · rw [if_neg hfail] at h
              obtain ⟨new, hnew, hall⟩ := ih _ _ _ _ _ h
              refine ⟨.updated i t1.state :: new, by rw [hnew]; simp [World.note], ?_⟩
              intro e hmem
              rcases List.mem_cons.mp hmem with h0 | h0
              · subst h0; rfl
              · exact hall e h0

/-- An allocation request of a firing that the allocator cannot satisfy makes the firing
throw "AllocationFailure". -/
theorem firing_refused (p : Play) (w : World) (k : Nat) (r : Except String Unit)
    (p2 : Play) (w2 : World) (h : p.transitionToSyncPointAtIndex w k = (r, p2, w2))
    (roles : List (Option RolePtr))
    (hreq : Event.allocate roles ∈ w2.events.drop w.events.length)
    (hrefuse : w.allocatorAccepts roles = false) : r = .error "AllocationFailure" := by
  obtain ⟨rel, hrelP, hcases⟩ := firing_requests _ _ _ _ _ _ h
  rcases hcases with ⟨hev, _⟩ | ⟨roles2, hev, _, _, href, _⟩
  · rw [mem_drop_events _ _ _ hev] at hreq
    rcases List.mem_cons.mp hreq with h0 | h0
    · cases h0
    · obtain ⟨_, _, _, hc⟩ := hrelP _ h0
      cases hc
  · rw [List.append_assoc] at hev
    rw [mem_drop_events _ _ _ hev] at hreq
    rcases List.mem_append.mp hreq with h0 | h0
    · rcases List.mem_cons.mp h0 with h1 | h1
      · cases h1
      · obtain ⟨_, _, _, hc⟩ := hrelP _ h1
        cases hc
    · rw [List.mem_singleton] at h0
      injection h0 with h1
      subst h1
      exact href hrefuse

/-- An allocation request made in the loop over the unreached sync points that the allocator
cannot satisfy ends the loop by the exception "AllocationFailure", with a sync point fired
that is still in the unfired list. -/
theorem barrierScan_refused : ∀ (fuel i : Nat) (p : Play) (w : World)
    (r : Except String Unit) (p2 : Play) (w2 : World),
    Play.barrierScan fuel i p w = some (r, p2, w2) →
    ∀ roles, Event.allocate roles ∈ w2.events.drop w.events.length →
      w.allocatorAccepts roles = false →
      r = .error "AllocationFailure" ∧
        ∃ k, Event.fired k ∈ w2.events.drop w.events.length ∧ k ∈ p2._unreachedSyncPoints := by
  intro fuel
  induction fuel with
  | zero =>
    intro i p w r p2 w2 h
    simp [Play.barrierScan] at h
  | succ n ih =>
    intro i p w r p2 w2 h roles hreq hrefuse
    simp only [Play.barrierScan] at h
    by_cases hi : i < p._unreachedSyncPoints.length
    · rw [if_pos hi] at h
      have hk := getD_mem_of_lt _ _ hi
      by_cases hre : p.syncPointAtIndexIsReachableNow (p._unreachedSyncPoints.getD i 0) = true
      · rw [if_pos hre] at h
        cases htr : p.transitionToSyncPointAtIndex w (p._unreachedSyncPoints.getD i 0) with
        | mk r1 rest1 =>
          obtain ⟨p1, w1⟩ := rest1
          rw [htr] at h
          obtain ⟨hF, _, _, hne, new1, hnew1, _⟩ :=
            transitionToSyncPointAtIndex_frame _ _ _ _ _ _ htr
          cases r1 with
          | error e =>
            simp only at h
            cases h
            have hr := firing_refused _ _ _ _ _ _ htr roles hreq hrefuse
            refine ⟨hr, p._unreachedSyncPoints.getD i 0, ?_, ?_⟩
            · rw [mem_drop_events _ _ _ hnew1]
              exact List.mem_cons_self _ _
            · rw [hne (by intro hc; cases hc)]
              exact hk
          | ok u =>
            simp only at h
            obtain ⟨_, _, new2, hnew2, _⟩ := barrierScan_frame _ _ _ _ _ _ _ h
            have hall : w2.events = w.events ++ (.fired (p._unreachedSyncPoints.getD i 0) ::
                new1 ++ new2) := by
              rw [hnew2, hnew1, List.append_assoc]
            rw [mem_drop_events _ _ _ hall] at hreq
            rcases List.mem_append.mp hreq with h0 | h0
            · have hr := firing_refused _ _ _ _ _ _ htr roles
                ((mem_drop_events _ _ _ hnew1 _).mpr h0) hrefuse
              cases hr
            · obtain ⟨hr, k, hk1, hk2⟩ := ih _ _ _ _ _ _ h roles
                ((mem_drop_events _ _ _ hnew2 _).mpr h0) (by rw [hF.2.2.2.2.2]; exact hrefuse)
              refine ⟨hr, k, ?_, hk2⟩
              rw [mem_drop_events _ _ _ hall]
              exact List.mem_append_right _ ((mem_drop_events _ _ _ hnew2 _).mp hk1)
      · rw [if_neg hre] at h
        exact ih _ _ _ _ _ _ h roles hreq hrefuse
    · rw [if_neg hi] at h
      cases h
      simp at hreq

/-! ## Theorems: a Role kept across a sync point -/

/-- A Role kept across a sync point: in a firing, a Role that is the Role of an input lane
and of an output lane is not released to the allocator; and when one output lane only of
the sync point has that Role, no allocation request of the firing holds the Role. -/
theorem direct_rebind (p : Play) (w : World) (k : Nat) (r : Except String Unit)
    (p2 : Play) (w2 : World) (h : p.transitionToSyncPointAtIndex w k = (r, p2, w2))
    (i o : Nat) (hi : i ∈ p._playFactory._syncPointInputs.getD k [])
    (ho : o ∈ p._playFactory._syncPointOutputs.getD k [])
    (hio : p._playFactory.roleForTacticSequenceAtIndex i =
      p._playFactory.roleForTacticSequenceAtIndex o) :
    Event.deallocate (p._playFactory.roleForTacticSequenceAtIndex o) ∉
      w2.events.drop w.events.length ∧
    ((∀ o2 ∈ p._playFactory._syncPointOutputs.getD k [],
        p._playFactory.roleForTacticSequenceAtIndex o2 =
          p._playFactory.roleForTacticSequenceAtIndex o → o2 = o) →
      ∀ roles, Event.allocate roles ∈ w2.events.drop w.events.length →
        p._playFactory.roleForTacticSequenceAtIndex o ∉ roles) := by
  obtain ⟨rel, hrelP, hcases⟩ := firing_requests _ _ _ _ _ _ h
  have hnorel : Event.deallocate (p._playFactory.roleForTacticSequenceAtIndex o) ∉ rel := by
    intro hc
    obtain ⟨j, _, hj1, hj2⟩ := hrelP _ hc
    injection hj2 with hj3
    rcases outputForRole_spec p._playFactory (p._playFactory.roleForTacticSequenceAtIndex j)
        (p._playFactory._syncPointOutputs.getD k []) with ⟨_, hnone⟩ | ⟨x, _, _, hx⟩
    · exact hnone o ho hj3
    · rw [hx] at hj1
      omega
  rcases hcases with ⟨hev, _⟩ | ⟨roles2, hev, _, _, _, hsub, _⟩
  · refine ⟨?_, ?_⟩
    · rw [mem_drop_events _ _ _ hev]
      intro hc
      rcases List.mem_cons.mp hc with h0 | h0
      · cases h0
      · exact hnorel h0
    · intro _ roles hc
      rw [mem_drop_events _ _ _ hev] at hc
      rcases List.mem_cons.mp hc with h0 | h0
      · cases h0
      · obtain ⟨_, _, _, h1⟩ := hrelP _ h0
        cases h1
  · rw [List.append_assoc] at hev
    refine ⟨?_, ?_⟩
    · rw [mem_drop_events _ _ _ hev]
      intro hc
      rcases List.mem_append.mp hc with h0 | h0
      · rcases List.mem_cons.mp h0 with h1 | h1
        · cases h1
        · exact hnorel h1
      · rw [List.mem_singleton] at h0
        cases h0
    · intro huniq roles hc hR
      rw [mem_drop_events _ _ _ hev] at hc
      have hroles : roles = roles2 := by
        rcases List.mem_append.mp hc with h0 | h0
        · rcases List.mem_cons.mp h0 with h1 | h1
          · cases h1
          · obtain ⟨_, _, _, h2⟩ := hrelP _ h1
            cases h2
        · rw [List.mem_singleton] at h0
          injection h0
      subst hroles
      obtain ⟨o2, ho2, hr2, hno⟩ := hsub _ hR
      have ho2e : o2 = o := huniq o2 ho2 hr2
      subst ho2e
      rcases outputForRole_spec p._playFactory (p._playFactory.roleForTacticSequenceAtIndex i)
          (p._playFactory._syncPointOutputs.getD k []) with ⟨_, hnone⟩ | ⟨x, hx, hxr, hxo⟩
      · exact hnone o2 ho2 hio.symm
      · have hxe : x = o2 := huniq x hx (hxr.trans hio)
        subst hxe
        exact hno i hi hxo

/-- Witness of `direct_rebind`: the firing of "mid" in the definition with lane 0 from
"start" to "mid" and lane 1 from "mid" to "end", both for the Role "a". -/
theorem direct_rebind_witness :
    (0 ∈ (freshPlay relayPlay)._playFactory._syncPointInputs.getD 1 [] ∧
      1 ∈ (freshPlay relayPlay)._playFactory._syncPointOutputs.getD 1 [] ∧
      (freshPlay relayPlay)._playFactory.roleForTacticSequenceAtIndex 0 =
        (freshPlay relayPlay)._playFactory.roleForTacticSequenceAtIndex 1) ∧
    (Event.deallocate ((freshPlay relayPlay)._playFactory.roleForTacticSequenceAtIndex 1) ∉
      ((freshPlay relayPlay).transitionToSyncPointAtIndex populatedWorld 1).2.2.events.drop
        populatedWorld.events.length ∧
    ((∀ o2 ∈ (freshPlay relayPlay)._playFactory._syncPointOutputs.getD 1 [],
        (freshPlay relayPlay)._playFactory.roleForTacticSequenceAtIndex o2 =
          (freshPlay relayPlay)._playFactory.roleForTacticSequenceAtIndex 1 → o2 = 1) →
      ∀ roles, Event.allocate roles ∈
        ((freshPlay relayPlay).transitionToSyncPointAtIndex populatedWorld 1).2.2.events.drop
          populatedWorld.events.length →
        (freshPlay relayPlay)._playFactory.roleForTacticSequenceAtIndex 1 ∉ roles)) :=
  ⟨⟨by decide, by decide, by decide⟩,
    direct_rebind (freshPlay relayPlay) populatedWorld 1 _ _ _ rfl 0 1
      (by decide) (by decide) (by decide)⟩

/-! ## Theorems: an allocation request the allocator cannot satisfy -/

/-- C24 (as stated, refuted): the first call of `update()` on a new Play of the definition
with two lanes, at a tick at which the allocator can satisfy no request, throws
"AllocationFailure"; when it ends the Play is in the state SettingUp, both lanes are at
cursor 0 with their first behaviours, bound to their Roles, and no sync point has left the
unfired list. -/
theorem allocation_failure_leaves_play_unfailed :
    (Play.step refusingTick (freshPlay twoLanePlay, populatedWorld)).1 =
      .error "AllocationFailure" ∧
    (Play.step refusingTick (freshPlay twoLanePlay, populatedWorld)).2.1._state =
      .SettingUp ∧
    (Play.step refusingTick (freshPlay twoLanePlay, populatedWorld)).2.1._sequenceStateByIndex =
      [0, 0] ∧
    (Play.step refusingTick
      (freshPlay twoLanePlay, populatedWorld)).2.1._tacticsBySequenceIndex.map
        (fun t => t.map fun x => (x.role, x.state)) =
      [some (some 0, .SettingUp), some (some 1, .SettingUp)] ∧
    (Play.step refusingTick (freshPlay twoLanePlay, populatedWorld)).2.1._unreachedSyncPoints =
      [0, 1] ∧
    (Play.step refusingTick (freshPlay twoLanePlay, populatedWorld)).2.2.events =
      [.fired 0, .allocate [some 0, some 1]] := by
  refine ⟨rfl, by decide, by decide, by decide, by decide, by decide⟩

/-- C24 (amended): if in a call of `update()` a firing makes an allocation request that the
allocator cannot satisfy, the call throws "AllocationFailure", the `Action` base of the
Play, its state included, is as before the call, and a sync point fired in the call is
still in the unfired list. -/
theorem allocation_failure_propagates (p : Play) (w : World) (roles : List (Option RolePtr))
    (hreq : Event.allocate roles ∈ (p.update w).2.2.events.drop w.events.length)
    (hrefuse : w.allocatorAccepts roles = false) :
    (p.update w).1 = .error "AllocationFailure" ∧
    (p.update w).2.1.toAction = p.toAction ∧
    ∃ k, Event.fired k ∈ (p.update w).2.2.events.drop w.events.length ∧
      k ∈ (p.update w).2.1._unreachedSyncPoints := by
  obtain ⟨_, hcA, _⟩ := checkPendingTacticResults_frame p
  rcases update_cases p w with ⟨e, _, hu⟩ | ⟨_, hu⟩ | ⟨_, r2, p2, w2, hl, hrest⟩
  · rw [hu] at hreq
    simp at hreq
  · rw [hu] at hreq
    simp at hreq
  · obtain ⟨newL, hnewL, hallL⟩ := laneLoop_events _ _ _ _ _ _ hl
    obtain ⟨_, _, _, _, haccL, _⟩ := laneLoop_frame _ _ _ _ _ _ hl
    have hnotL : Event.allocate roles ∉ newL := by
      intro hc
      have h0 := hallL _ hc
      simp [Event.isUpdated] at h0
    rcases hrest with ⟨e, _, hu⟩ | ⟨_, hu⟩ | ⟨hr2, r3, p3, w3, hs, hrest3⟩
    · rw [hu] at hreq
      exact absurd ((mem_drop_events _ _ _ hnewL _).mp hreq) hnotL
    · rw [hu] at hreq
      exact absurd ((mem_drop_events _ _ _ hnewL _).mp hreq) hnotL
    · obtain ⟨hF, _, newS, hnewS, _⟩ := barrierScan_frame _ _ _ _ _ _ _ hs
      have hall : w3.events = w.events ++ (newL ++ newS) := by
        rw [hnewS, hnewL, List.append_assoc]
      have hev3 : (p.update w).2.2.events = w3.events := by
        rcases hrest3 with ⟨e, _, hu⟩ | ⟨_, hu⟩ <;> rw [hu]
      rw [hev3, mem_drop_events _ _ _ hall] at hreq
      have hreqS : Event.allocate roles ∈ w3.events.drop w2.events.length := by
        rw [mem_drop_events _ _ _ hnewS]
        rcases List.mem_append.mp hreq with h0 | h0
        · exact absurd h0 hnotL
        · exact h0
      obtain ⟨hr3, k, hk1, hk2⟩ := barrierScan_refused _ _ _ _ _ _ _ hs roles hreqS
        (by rw [haccL]; exact hrefuse)
      rcases hrest3 with ⟨e, he, hu⟩ | ⟨hok, _⟩
      · rw [hu]
        refine ⟨by rw [← he, hr3], ?_, k, ?_, hk2⟩
        · show p3.toAction = p.toAction
          rw [hF.1]
          rcases laneLoop_action _ _ _ _ _ _ hl with h0 | ⟨h0, _⟩
          · rw [h0, hcA]
          · rw [hr2] at h0
            cases h0
        · show Event.fired k ∈ w3.events.drop w.events.length
          rw [mem_drop_events _ _ _ hall]
          exact List.mem_append_right _ ((mem_drop_events _ _ _ hnewS _).mp hk1)
      · rw [hok] at hr3
        cases hr3

/-- Witness of `allocation_failure_propagates`: the first call of `update()` on a new Play
of the definition with two lanes, at a tick at which the allocator can satisfy no request. -/
theorem allocation_failure_propagates_witness :
    (Event.allocate [some 0, some 1] ∈
        ((Play.arrange refusingTick (freshPlay twoLanePlay, populatedWorld)).1.update
          (Play.arrange refusingTick (freshPlay twoLanePlay, populatedWorld)).2).2.2.events.drop
            (Play.arrange refusingTick
              (freshPlay twoLanePlay, populatedWorld)).2.events.length ∧
      (Play.arrange refusingTick (freshPlay twoLanePlay, populatedWorld)).2.allocatorAccepts
        [some 0, some 1] = false) ∧
    ((Play.arrange refusingTick (freshPlay twoLanePlay, populatedWorld)).1.update
      (Play.arrange refusingTick (freshPlay twoLanePlay, populatedWorld)).2).1 =
        .error "AllocationFailure" :=
  ⟨⟨by decide, rfl⟩,
    (allocation_failure_propagates
      (Play.arrange refusingTick (freshPlay twoLanePlay, populatedWorld)).1
      (Play.arrange refusingTick (freshPlay twoLanePlay, populatedWorld)).2
      [some 0, some 1] (by decide) rfl).1⟩

/-! ## Theorems: a call of addTacticSequence that throws -/

/-- The two calls of `indexForSyncPointNamed` and the two `push_back` that end
`addTacticSequence`, on a definition that is not finalized, do not throw. -/
theorem link_no_throw (pf4 : PlayFactory) (s e : String) (n : Nat)
    (hfin : pf4._finalized = false) :
    ∃ pf8, (match pf4.indexForSyncPointNamed s with
      | (.error m, pf5) => ((.error m : Except String Unit), pf5)
      | (.ok startSyncPtIdx, pf5) =>
        match pf5.indexForSyncPointNamed e with
        | (.error m, pf6) => (.error m, pf6)
        | (.ok endSyncPtIdx, pf6) =>
          (.ok (),
            { pf6 with
              _syncPointOutputs :=
                pf6._syncPointOutputs.modify (fun v => v ++ [n]) startSyncPtIdx,
              _syncPointInputs :=
                pf6._syncPointInputs.modify (fun v => v ++ [n]) endSyncPtIdx })) =
      (.ok (), pf8) := by
  cases h1 : pf4.indexForSyncPointNamed s with
  | mk r1 pf5 =>
    cases r1 with
    | error m => exact absurd h1 (fun hc => indexForSyncPointNamed_no_throw _ _ _ _ hfin hc)
    | ok si =>
      simp only
      have hfin5 : pf5._finalized = false := by
        obtain ⟨_, _, _, _, h5⟩ := indexForSyncPointNamed_lists pf4 s hfin
        rw [h1] at h5
        exact h5
      cases h2 : pf5.indexForSyncPointNamed e with
      | mk r2 pf6 =>
        cases r2 with
        | error m =>
          exact absurd h2 (fun hc => indexForSyncPointNamed_no_throw _ _ _ _ hfin5 hc)
        | ok ei => exact ⟨_, rfl⟩

/-- C37: a call of `addTacticSequence` that throws leaves the definition as it was: no lane,
no Role, no sync point and no entry of an input or output list has been added. The call
throws only when the definition is finalized or the sequence is `NULL` or empty. -/
theorem addTacticSequence_atomic_on_failure (pf : PlayFactory)
    (sequence : Option TacticSequence) (roleName startSyncPoint endSyncPoint msg : String)
    (pf2 : PlayFactory)
    (h : pf.addTacticSequence sequence roleName startSyncPoint endSyncPoint =
      (.error msg, pf2)) :
    pf2 = pf ∧ (pf._finalized = true ∨ sequence = none ∨ sequence = some []) := by
  unfold PlayFactory.addTacticSequence at h
  by_cases hfin : pf._finalized = true
  · rw [if_pos hfin] at h
    cases h
    exact ⟨rfl, Or.inl hfin⟩
  · rw [if_neg hfin] at h
    have hfin0 : pf._finalized = false := by
      cases h0 : pf._finalized
      · rfl
      · exact absurd h0 hfin
    cases hens : PlayFactory.ensureTacticSequenceValidity sequence with
    | error e =>
      rw [hens] at h
      simp only at h
      cases h
      refine ⟨rfl, Or.inr ?_⟩
      cases sequence with
      | none => exact Or.inl rfl
      | some seq =>
        right
        by_cases hne : seq = []
        · rw [hne]
        · rw [ensureTacticSequenceValidity_nonempty seq hne] at hens
          cases hens
    | ok u =>
      rw [hens] at h
      exfalso
      simp only [PlayFactory.roleNamed, PlayFactory.addRoleNamed] at h
      cases hfound : pf._rolesByName.read roleName with
      | none =>
        rw [hfound] at h
        simp only at h
        obtain ⟨pf8, h8⟩ := link_no_throw
          { pf with
            _tacticSequences := pf._tacticSequences ++ [sequence.getD []],
            _rolesByName :=
              (pf._rolesByName.touch roleName).assign roleName (some pf.roleObjects.length),
            roleObjects := pf.roleObjects ++ [Role.new roleName],
            _rolesByTacticSequenceIndex :=
              pf._rolesByTacticSequenceIndex ++ [some pf.roleObjects.length] }
          startSyncPoint endSyncPoint ((pf._tacticSequences ++ [sequence.getD []]).length - 1)
          hfin0
        rw [h8] at h
        cases h
      | some role =>
        rw [hfound] at h
        simp only at h
        obtain ⟨pf8, h8⟩ := link_no_throw
          { pf with
            _tacticSequences := pf._tacticSequences ++ [sequence.getD []],
            _rolesByName := pf._rolesByName.touch roleName,
            _rolesByTacticSequenceIndex :=
              pf._rolesByTacticSequenceIndex ++ [some role] }
          startSyncPoint endSyncPoint ((pf._tacticSequences ++ [sequence.getD []]).length - 1)
          hfin0
        rw [h8] at h
        cases h

/-- Witness for C37: a call with a `NULL` sequence on a new definition. -/
theorem addTacticSequence_atomic_on_failure_witness :
    emptyPlay.addTacticSequence none "a" "start" "end" =
      (.error "ERROR: TacticSequence can\x27t be NULL", emptyPlay) ∧
    (emptyPlay = emptyPlay ∧
      (emptyPlay._finalized = true ∨ (none : Option TacticSequence) = none ∨
        (none : Option TacticSequence) = some [])) :=
  ⟨rfl, addTacticSequence_atomic_on_failure emptyPlay none "a" "start" "end" _ _ rfl⟩

/-! ## Theorems: the definition a created Play points to -/

/-- C34 (the code at the failing input): `create` passes the definition to the constructor of
Play, which tests the pointer and never stores it, so `factory()` returns what the
uninitialised member `_playFactory` happens to point to, and the cursors and the unfired
list are sized from that. For the parking definition, with the member pointing to an empty
definition, `create` returns a Play whose `factory()` is not the parking definition and
which has no cursor and no unfired sync point, though the definition has 2 lanes and 2 sync
points. -/
theorem created_play_is_not_bound_to_its_definition :
    (∀ (pf : PlayFactory) (gameplayModule : Option GameplayModule)
        (indeterminate : PlayFactory) (p : Play),
      pf.create gameplayModule indeterminate = .ok p →
      p.factory = indeterminate ∧
      p._sequenceStateByIndex.length = indeterminate._tacticSequences.length ∧
      p._unreachedSyncPoints = List.range indeterminate._syncPointNames.length) ∧
    twoLanePlay._tacticSequences.length = 2 ∧ twoLanePlay._syncPointNames.length = 2 ∧
    (twoLanePlay.create (some 7) emptyPlay).map
        (fun p => (p.factory, p._sequenceStateByIndex, p._unreachedSyncPoints)) =
      .ok (emptyPlay, [], []) ∧
    emptyPlay ≠ twoLanePlay := by
  refine ⟨?_, by decide, by decide, rfl, by decide⟩
  intro pf gameplayModule indeterminate p h
  obtain ⟨hpf, hC, _, hun, _, _⟩ := new_shape _ _ _ _ h
  exact ⟨hpf, by rw [hC, List.length_replicate], hun⟩

/-! ## Theorems: a lane that has not started -/

/-- C38: in every state that successive calls of `update()`, returning or throwing, make of
a new Play, a lane whose cursor is -1 has no behaviour. So for such a lane the comparison of
`syncPointAtIndexIsReachableNow`, in which the cursor -1 converted to `unsigned int` is not
below the last index of any lane whose length fits into `unsigned int`, reads an empty slot,
and the lane is no obstacle to the sync point. -/
theorem unstarted_lane_has_no_behaviour (playFactory : Option PlayFactory)
    (gameplayModule : Option GameplayModule) (pf : PlayFactory) (p0 : Play) (w0 : World)
    (ticks : List Tick) (lane : Nat)
    (hnew : Play.new playFactory gameplayModule pf = .ok p0)
    (hcur : (Play.run ticks (p0, w0)).1.stateOfTacticSequenceAtIndex lane = -1) :
    (Play.run ticks (p0, w0)).1.tacticOfSequenceAtIndex lane = none ∧
    (∀ len : Nat, len < 4294967296 →
      toUnsigned ((Play.run ticks (p0, w0)).1.stateOfTacticSequenceAtIndex lane) ≥
        toUnsigned ((toUnsigned len : Int) - 1)) ∧
    Play.tacticCanBeConsideredCompleted
      ((Play.run ticks (p0, w0)).1.tacticOfSequenceAtIndex lane) = true := by
  have hcons := (run_consistent ticks (p0, w0) (new_consistent _ _ _ _ hnew)).1 lane
  have hnone := hcons.2 hcur
  refine ⟨hnone, ?_, by rw [hnone]; rfl⟩
  intro len hlen
  rw [hcur]
  unfold toUnsigned
  omega

/-- Witness for C38: lane 0 of a new Play of the parking definition, before any call. -/
theorem unstarted_lane_has_no_behaviour_witness :
    (Play.run [] (freshPlay twoLanePlay, populatedWorld)).1.stateOfTacticSequenceAtIndex 0 =
      -1 ∧
    (Play.run [] (freshPlay twoLanePlay, populatedWorld)).1.tacticOfSequenceAtIndex 0 =
      none :=
  ⟨by decide,
    (unstarted_lane_has_no_behaviour (some twoLanePlay) (some 7) twoLanePlay
      (freshPlay twoLanePlay) populatedWorld [] 0 rfl (by decide)).1⟩

/-! ## Theorems: the placeholder -/

/-- Appending an entry to one of the lists loses no entry of the lists put together. -/
theorem mem_flatten_modify_of_mem (n : Nat) (l : List (List Nat)) :
    ∀ (i x : Nat), x ∈ l.flatten → x ∈ (l.modify (fun v => v ++ [n]) i).flatten := by
  induction l with
  | nil =>
    intro i x hx
    simp at hx
  | cons a rest ih =>
    intro i x hx
    cases i with
    | zero =>
      simp only [List.modify_zero_cons, List.flatten_cons, List.mem_append,
        List.mem_singleton] at hx ⊢
      tauto
    | succ i =>
      simp only [List.modify_succ_cons, List.flatten_cons, List.mem_append] at hx ⊢
      rcases hx with h0 | h0
      · exact Or.inl h0
      · exact Or.inr (ih i x h0)

/-- An entry of lists put together is an entry of one of them. -/
theorem getD_of_mem_flatten (l : List (List Nat)) :
    ∀ x, x ∈ l.flatten → ∃ k, k < l.length ∧ x ∈ l.getD k [] := by
  induction l with
  | nil => intro x hx; simp at hx
  | cons a rest ih =>
    intro x hx
    rw [List.flatten_cons, List.mem_append] at hx
    rcases hx with h0 | h0
    · exact ⟨0, by simp, by simpa using h0⟩
    · obtain ⟨k, hk, hx2⟩ := ih x h0
      exact ⟨k + 1, by simp; omega, by simpa using hx2⟩

/-- A call of `addTacticSequence`, returning or throwing, on a well-formed definition that is
not finalized and in which every lane starts at a sync point and ends at one, leaves such a
definition. -/
theorem built_addTacticSequence (pf : PlayFactory) (sequence : Option TacticSequence)
    (roleName startSyncPoint endSyncPoint : String)
    (hwf : pf.WellFormed) (hfin : pf._finalized = false)
    (hcov : ∀ lane < pf._tacticSequences.length,
      lane ∈ pf._syncPointOutputs.flatten ∧ lane ∈ pf._syncPointInputs.flatten) :
    (pf.addTacticSequence sequence roleName startSyncPoint endSyncPoint).2.WellFormed ∧
    (pf.addTacticSequence sequence roleName startSyncPoint endSyncPoint).2._finalized =
      false ∧
    ∀ lane < (pf.addTacticSequence sequence roleName startSyncPoint
        endSyncPoint).2._tacticSequences.length,
      lane ∈ (pf.addTacticSequence sequence roleName startSyncPoint
        endSyncPoint).2._syncPointOutputs.flatten ∧
      lane ∈ (pf.addTacticSequence sequence roleName startSyncPoint
        endSyncPoint).2._syncPointInputs.flatten := by
  have hsame : (pf.addTacticSequence sequence roleName startSyncPoint endSyncPoint).2 = pf →
      (pf.addTacticSequence sequence roleName startSyncPoint endSyncPoint).2.WellFormed ∧
      (pf.addTacticSequence sequence roleName startSyncPoint endSyncPoint).2._finalized =
        false ∧
      ∀ lane < (pf.addTacticSequence sequence roleName startSyncPoint
          endSyncPoint).2._tacticSequences.length,
        lane ∈ (pf.addTacticSequence sequence roleName startSyncPoint
          endSyncPoint).2._syncPointOutputs.flatten ∧
        lane ∈ (pf.addTacticSequence sequence roleName startSyncPoint
          endSyncPoint).2._syncPointInputs.flatten := by
    intro he
    rw [he]
    exact ⟨hwf, hfin, hcov⟩
  cases sequence with
  | none =>
    apply hsame
    simp [PlayFactory.addTacticSequence, PlayFactory.ensureTacticSequenceValidity, hfin]
  | some seq =>
    by_cases hne : seq = []
    · apply hsame
      subst hne
      simp [PlayFactory.addTacticSequence, PlayFactory.ensureTacticSequenceValidity, hfin]
    · obtain ⟨_, hseq, _, ⟨hout, hinp, _, _⟩, _, _, hwf2, hfin2, _⟩ :=
        addTacticSequence_effect pf seq roleName startSyncPoint endSyncPoint
          (pf.addTacticSequence (some seq) roleName startSyncPoint endSyncPoint).1
          (pf.addTacticSequence (some seq) roleName startSyncPoint endSyncPoint).2
          hwf hfin hne rfl
      refine ⟨hwf2, hfin2, ?_⟩
      intro lane hlane
      rw [hseq, List.length_append, List.length_singleton] at hlane
      rcases addTacticSequence_lists pf (some seq) roleName startSyncPoint endSyncPoint with
        ⟨_, _, hs⟩ | ⟨a, b, si, ei, _, ho, hi⟩
      · rw [hseq] at hs
        have := congrArg List.length hs
        simp at this
      · by_cases hl : lane < pf._tacticSequences.length
        · obtain ⟨h1, h2⟩ := hcov lane hl
          rw [ho, hi]
          exact ⟨mem_flatten_modify_of_mem _ _ _ _
              (by rw [flatten_append_replicate_nil]; exact h1),
            mem_flatten_modify_of_mem _ _ _ _
              (by rw [flatten_append_replicate_nil]; exact h2)⟩
        · have hle : lane = pf._tacticSequences.length := by omega
          subst hle
          unfold PlayFactory.outputsOfSyncPointNamed at hout
          unfold PlayFactory.inputsOfSyncPointNamed at hinp
          refine ⟨mem_flatten_of_getD _ _ _ (?_ : _ ∈ List.getD _ (List.indexOf startSyncPoint
              (pf.addTacticSequence (some seq) roleName startSyncPoint
                endSyncPoint).2._syncPointNames) []),
            mem_flatten_of_getD _ _ _ (?_ : _ ∈ List.getD _ (List.indexOf endSyncPoint
              (pf.addTacticSequence (some seq) roleName startSyncPoint
                endSyncPoint).2._syncPointNames) [])⟩
          · rw [hout]
            exact List.mem_append_right _ (List.mem_singleton_self _)
          · rw [hinp]
            exact List.mem_append_right _ (List.mem_singleton_self _)

/-- Successive calls of `addTacticSequence`, returning or throwing, keep a definition
well-formed, not finalized and with every lane starting at a sync point and ending at
one. -/
theorem built_addLanes (lanes : List (Option TacticSequence × String × String × String)) :
    ∀ pf : PlayFactory, pf.WellFormed → pf._finalized = false →
      (∀ lane < pf._tacticSequences.length,
        lane ∈ pf._syncPointOutputs.flatten ∧ lane ∈ pf._syncPointInputs.flatten) →
      (pf.addLanes lanes).WellFormed ∧ (pf.addLanes lanes)._finalized = false ∧
      ∀ lane < (pf.addLanes lanes)._tacticSequences.length,
        lane ∈ (pf.addLanes lanes)._syncPointOutputs.flatten ∧
        lane ∈ (pf.addLanes lanes)._syncPointInputs.flatten := by
  induction lanes with
  | nil => intro pf h1 h2 h3; exact ⟨h1, h2, h3⟩
  | cons x rest ih =>
    intro pf h1 h2 h3
    obtain ⟨sequence, roleName, startSyncPoint, endSyncPoint⟩ := x
    simp only [PlayFactory.addLanes]
    obtain ⟨g1, g2, g3⟩ := built_addTacticSequence pf sequence roleName startSyncPoint
      endSyncPoint h1 h2 h3
    exact ih _ g1 g2 g3

/-- In lists that put together hold no entry twice, an entry of the lists put together is
in one list, once, and in no other. -/
theorem flatten_once (l : List (List Nat)) (hnd : l.flatten.Nodup) (x : Nat)
    (hx : x ∈ l.flatten) :
    l.flatten.count x = 1 ∧
    ∃ k, k < l.length ∧ x ∈ l.getD k [] ∧ (l.getD k []).count x = 1 ∧
      ∀ j, x ∈ l.getD j [] → j = k := by
  obtain ⟨k, hk, hxk⟩ := getD_of_mem_flatten l x hx
  exact ⟨List.count_eq_one_of_mem hnd hx, k, hk, hxk,
    List.count_eq_one_of_mem (flatten_nodup_getD l hnd k) hxk,
    fun j hj => flatten_nodup_index l hnd j k x hj hxk⟩

/-- C36: the graph of a definition. After any succession of calls of `addTacticSequence`,
returning or throwing, on a new definition: there is one Role pointer for each lane; one
input list and one output list for each sync-point name; no name is there twice; and every
lane index below the number of lanes is in the input list of one sync point, once, and in
no other input list, and likewise in the output list of one sync point. -/
theorem definition_graph_well_formed (name category : String) (g : FactoryStatics)
    (lanes : List (Option TacticSequence × String × String × String)) (pf : PlayFactory)
    (hpf : pf = (PlayFactory.new name category g).1.addLanes lanes) :
    pf._tacticSequences.length = pf._rolesByTacticSequenceIndex.length ∧
    pf._syncPointInputs.length = pf._syncPointNames.length ∧
    pf._syncPointOutputs.length = pf._syncPointNames.length ∧
    pf._syncPointNames.Nodup ∧
    ∀ lane < pf._tacticSequences.length,
      (pf._syncPointInputs.flatten.count lane = 1 ∧
        ∃ k, k < pf._syncPointNames.length ∧ lane ∈ pf._syncPointInputs.getD k [] ∧
          (pf._syncPointInputs.getD k []).count lane = 1 ∧
          ∀ j, lane ∈ pf._syncPointInputs.getD j [] → j = k) ∧
      (pf._syncPointOutputs.flatten.count lane = 1 ∧
        ∃ k, k < pf._syncPointNames.length ∧ lane ∈ pf._syncPointOutputs.getD k [] ∧
          (pf._syncPointOutputs.getD k []).count lane = 1 ∧
          ∀ j, lane ∈ pf._syncPointOutputs.getD j [] → j = k) := by
  have hnew : ∀ lane < (PlayFactory.new name category g).1._tacticSequences.length,
      lane ∈ (PlayFactory.new name category g).1._syncPointOutputs.flatten ∧
      lane ∈ (PlayFactory.new name category g).1._syncPointInputs.flatten := by
    intro lane hlane
    simp [PlayFactory.new] at hlane
  obtain ⟨hwf, _, hcov⟩ := built_addLanes lanes _ (wellFormed_new name category g) rfl hnew
  obtain ⟨hO, hI, _, _⟩ := linkedOnce_addLanes lanes _ (linkedOnce_new name category g)
  rw [← hpf] at hwf hcov hO hI
  obtain ⟨w1, w2, w3, w4, _, _⟩ := hwf
  refine ⟨w1.symm, w2, w3, w4, ?_⟩
  intro lane hlane
  obtain ⟨c1, c2⟩ := hcov lane hlane
  obtain ⟨a1, k1, b1, b2, b3, b4⟩ := flatten_once _ hI lane c2
  obtain ⟨a2, k2, d1, d2, d3, d4⟩ := flatten_once _ hO lane c1
  exact ⟨⟨a1, k1, by rw [← w2]; exact b1, b2, b3, b4⟩,
    ⟨a2, k2, by rw [← w3]; exact d1, d2, d3, d4⟩⟩

/-- Witness for C36: the parking definition, built by four calls of which the second, with a
`NULL` sequence, and the third, with an empty one, throw. -/
theorem definition_graph_well_formed_witness :
    twoLanePlay = (PlayFactory.new "kickoff" "" FactoryStatics.initial).1.addLanes
      [(some [moveStub], "a", "start", "end"), (none, "x", "start", "end"),
       (some [], "y", "start", "end"), (some [moveStub, moveStub], "b", "start", "end")] ∧
    twoLanePlay._syncPointNames.Nodup ∧
    twoLanePlay._syncPointInputs.flatten.count 1 = 1 :=
  ⟨by decide,
    (definition_graph_well_formed "kickoff" "" FactoryStatics.initial
      [(some [moveStub], "a", "start", "end"), (none, "x", "start", "end"),
       (some [], "y", "start", "end"), (some [moveStub, moveStub], "b", "start", "end")]
      twoLanePlay (by decide)).2.2.2.1,
    ((definition_graph_well_formed "kickoff" "" FactoryStatics.initial
      [(some [moveStub], "a", "start", "end"), (none, "x", "start", "end"),
       (some [], "y", "start", "end"), (some [moveStub, moveStub], "b", "start", "end")]
      twoLanePlay (by decide)).2.2.2.2 1 (by decide)).1.1⟩

/-! ## Lemmas: the state of a Play over its calls of update -/

/-- What a call of `update()` does to the state of the Play: it leaves it, or it has
observed a failure and the Play is Failed, or the unfired list is empty and the Play is
EvaluatingSuccess or Completed. -/
theorem update_state (p : Play) (w : World) :
    (p.update w).2.1._state = p._state ∨
    ((p.update w).2.1._state = .Failed ∧
      ((∃ t ∈ p._tacticsAwaitingResults, t.state = .Failed) ∨
        ∃ i, Event.updated i .Failed ∈ (p.update w).2.2.events.drop w.events.length)) ∨
    (((p.update w).2.1._state = .EvaluatingSuccess ∨
        (p.update w).2.1._state = .Completed) ∧
      (p.update w).2.1._unreachedSyncPoints = []) := by
  obtain ⟨hc1, hcA, _, _, _, _⟩ := checkPendingTacticResults_frame p
  have hcS : (p.checkPendingTacticResults).2._state = p._state := by rw [hcA]
  rcases update_cases p w with ⟨e, _, hu⟩ | ⟨hf, hu⟩ | ⟨_, r2, p2, w2, hl, hrest⟩
  · rw [hu]
    exact Or.inl hcS
  · rw [hu]
    rcases play_setState_cases (p.checkPendingTacticResults).2 .Failed with h0 | ⟨_, h0, _⟩
    · left
      show ((p.checkPendingTacticResults).2.setState .Failed).2._state = p._state
      rw [h0]
      exact hcS
    · right; left
      refine ⟨?_, Or.inl ?_⟩
      · show ((p.checkPendingTacticResults).2.setState .Failed).2._state = .Failed
        rw [h0]
      · rw [hc1] at hf
        exact checkPendingFrom_false _ _ hf
  · obtain ⟨_, _, _, _, _, newL, hnewL, _, hstL⟩ := laneLoop_frame _ _ _ _ _ _ hl
    have hA := laneLoop_action _ _ _ _ _ _ hl
    rcases hrest with ⟨e, he, hu⟩ | ⟨hff, hu⟩ | ⟨hr2, r3, p3, w3, hs, hrest3⟩
    · rw [hu]
      left
      rcases hA with h0 | ⟨h0, _⟩
      · show p2._state = p._state
        rw [h0]
        exact hcS
      · rw [he] at h0
        cases h0
    · rw [hu]
      rcases hA with h0 | ⟨_, hlive, _⟩
      · left
        show p2._state = p._state
        rw [h0]
        exact hcS
      · right; left
        rcases hstL hlive with ⟨_, hF, i, hi⟩ | ⟨hne, _⟩
        · refine ⟨hF, Or.inr ⟨i, ?_⟩⟩
          show Event.updated i .Failed ∈ w2.events.drop w.events.length
          rw [hnewL, List.drop_left]
          exact hi
        · exact absurd hff hne
    · obtain ⟨hF, _, _, _, _, hsub, _⟩ := barrierScan_frame _ _ _ _ _ _ _ hs
      have h2 : p2._state = p._state := by
        rcases hA with h0 | ⟨h0, _⟩
        · rw [h0]
          exact hcS
        · rw [hr2] at h0
          cases h0
      have h3 : p3._state = p._state := by
        rw [hF.1]
        exact h2
      rcases hrest3 with ⟨e, _, hu⟩ | ⟨_, hu⟩
      · rw [hu]
        exact Or.inl h3
      · rw [hu]
        unfold Play.completionCheck
        by_cases hun : p3._unreachedSyncPoints.length = 0
        · rw [if_pos hun]
          have hnil : p3._unreachedSyncPoints = [] := List.length_eq_zero.mp hun
          by_cases hq : p3._tacticsAwaitingResults.length > 0
          · rw [if_pos hq]
            rcases play_setState_cases p3 .EvaluatingSuccess with h0 | ⟨_, h0, _⟩
            · left
              show (p3.setState .EvaluatingSuccess).2._state = p._state
              rw [h0]
              exact h3
            · right; right
              show ((p3.setState .EvaluatingSuccess).2._state = .EvaluatingSuccess ∨
                (p3.setState .EvaluatingSuccess).2._state = .Completed) ∧
                (p3.setState .EvaluatingSuccess).2._unreachedSyncPoints = []
              rw [h0]
              exact ⟨Or.inl rfl, hnil⟩
          · rw [if_neg hq]
            rcases play_setState_cases p3 .Completed with h0 | ⟨_, h0, _⟩
            · left
              show (p3.setState .Completed).2._state = p._state
              rw [h0]
              exact h3
            · right; right
              show ((p3.setState .Completed).2._state = .EvaluatingSuccess ∨
                (p3.setState .Completed).2._state = .Completed) ∧
                (p3.setState .Completed).2._unreachedSyncPoints = []
              rw [h0]
              exact ⟨Or.inr rfl, hnil⟩
        · rw [if_neg hun]
          exact Or.inl h3

/-- Over successive calls of `update()`, a Play that is SettingUp, or Failed, or
EvaluatingSuccess or Completed with an empty unfired list, stays one of these. -/
theorem run_state (ticks : List Tick) :
    ∀ s : Play × World,
      (s.1._state = .SettingUp ∨ s.1._state = .Failed ∨
        ((s.1._state = .EvaluatingSuccess ∨ s.1._state = .Completed) ∧
          s.1._unreachedSyncPoints = [])) →
      ((Play.run ticks s).1._state = .SettingUp ∨ (Play.run ticks s).1._state = .Failed ∨
        (((Play.run ticks s).1._state = .EvaluatingSuccess ∨
            (Play.run ticks s).1._state = .Completed) ∧
          (Play.run ticks s).1._unreachedSyncPoints = [])) := by
  induction ticks with
  | nil => intro s h; exact h
  | cons tick rest ih =>
    intro s h
    simp only [Play.run]
    apply ih
    show ((Play.arrange tick s).1.update (Play.arrange tick s).2).2.1._state = .SettingUp ∨ _
    have hsub := (update_unreached (Play.arrange tick s).1 (Play.arrange tick s).2).1
    rcases update_state (Play.arrange tick s).1 (Play.arrange tick s).2 with
      h0 | ⟨h0, _⟩ | h0
    · rcases h with h1 | h1 | ⟨h1, h2⟩
      · exact Or.inl (h0.trans h1)
      · exact Or.inr (Or.inl (h0.trans h1))
      · refine Or.inr (Or.inr ⟨?_, ?_⟩)
        · rcases h1 with h3 | h3
          · exact Or.inl (h0.trans h3)
          · exact Or.inr (h0.trans h3)
        · have h4 : (Play.arrange tick s).1._unreachedSyncPoints = [] := h2
          rw [h4] at hsub
          exact List.sublist_nil.mp hsub
    · exact Or.inr (Or.inl h0)
    · exact Or.inr (Or.inr h0)

/-- Over successive calls of `update()` none of which observes a failure, a Play that is
not Failed does not become Failed. -/
theorem run_not_failed (ticks : List Tick) :
    ∀ s : Play × World, s.1._state ≠ .Failed → Play.runObservedFailure ticks s = false →
      (Play.run ticks s).1._state ≠ .Failed := by
  induction ticks with
  | nil => intro s h _; exact h
  | cons tick rest ih =>
    intro s h hobs
    simp only [Play.runObservedFailure, Bool.or_eq_false_iff] at hobs
    obtain ⟨hthis, hrest⟩ := hobs
    simp only [Play.run]
    apply ih _ _ hrest
    show ((Play.arrange tick s).1.update (Play.arrange tick s).2).2.1._state ≠ .Failed
    simp only [Play.observesFailure, Bool.or_eq_false_iff] at hthis
    obtain ⟨hq, hl⟩ := hthis
    rcases update_state (Play.arrange tick s).1 (Play.arrange tick s).2 with
      h0 | ⟨_, h0⟩ | ⟨h0, _⟩
    · rw [h0]
      exact h
    · exfalso
      rcases h0 with ⟨t, ht, hts⟩ | ⟨i, hi⟩
      · have := List.any_eq_false.mp hq t ht
        simp [hts] at this
      · have := List.any_eq_false.mp hl _ hi
        simp [Event.isFailedUpdate] at this
    · rcases h0 with h1 | h1 <;> rw [h1] <;> decide

/-! ## Theorems: the states of a Play -/

/-- C39: after any number of calls of `update()`, returning or throwing, on a new Play, the
Play is SettingUp, EvaluatingSuccess, Failed or Completed. A call of `update()` on any Play
leaves its state or makes it EvaluatingSuccess, Failed or Completed, so that it never makes
a Play Ready, Running or Cancelled. And when, after the calls on a new Play, the unfired
list is not empty and no call has observed a failure, the Play is SettingUp. -/
theorem play_is_never_ready_or_running (playFactory : Option PlayFactory)
    (gameplayModule : Option GameplayModule) (pf : PlayFactory) (p0 : Play) (w0 : World)
    (ticks : List Tick) (hnew : Play.new playFactory gameplayModule pf = .ok p0) :
    ((Play.run ticks (p0, w0)).1._state = .SettingUp ∨
      (Play.run ticks (p0, w0)).1._state = .EvaluatingSuccess ∨
      (Play.run ticks (p0, w0)).1._state = .Failed ∨
      (Play.run ticks (p0, w0)).1._state = .Completed) ∧
    (∀ (p : Play) (w : World),
      (p.update w).2.1._state = p._state ∨ (p.update w).2.1._state = .EvaluatingSuccess ∨
        (p.update w).2.1._state = .Failed ∨ (p.update w).2.1._state = .Completed) ∧
    ((Play.run ticks (p0, w0)).1._unreachedSyncPoints ≠ [] →
      Play.runObservedFailure ticks (p0, w0) = false →
      (Play.run ticks (p0, w0)).1._state = .SettingUp) := by
  obtain ⟨_, _, _, _, _, hs0⟩ := new_shape _ _ _ _ hnew
  have hJ := run_state ticks (p0, w0) (Or.inl hs0)
  refine ⟨?_, ?_, ?_⟩
  · rcases hJ with h | h | ⟨h | h, _⟩
    · exact Or.inl h
    · exact Or.inr (Or.inr (Or.inl h))
    · exact Or.inr (Or.inl h)
    · exact Or.inr (Or.inr (Or.inr h))
  · intro p w
    rcases update_state p w with h | ⟨h, _⟩ | ⟨h | h, _⟩
    · exact Or.inl h
    · exact Or.inr (Or.inr (Or.inl h))
    · exact Or.inr (Or.inl h)
    · exact Or.inr (Or.inr (Or.inr h))
  · intro hun hobs
    have hnf := run_not_failed ticks (p0, w0) (by rw [hs0]; decide) hobs
    rcases hJ with h | h | ⟨_, h⟩
    · exact h
    · exact absurd h hnf
    · exact absurd h hun

/-- Witness for C39: the parking scenario after two calls of `update()`, of which none
observes a failure: the end sync point is unfired and the Play is SettingUp. -/
theorem play_is_never_ready_or_running_witness :
    (Play.run [quietTick, lane0DoneTick]
      (freshPlay twoLanePlay, populatedWorld)).1._unreachedSyncPoints = [1] ∧
    Play.runObservedFailure [quietTick, lane0DoneTick]
      (freshPlay twoLanePlay, populatedWorld) = false ∧
    (Play.run [quietTick, lane0DoneTick]
      (freshPlay twoLanePlay, populatedWorld)).1._state = .SettingUp :=
  ⟨by decide, by decide,
    (play_is_never_ready_or_running (some twoLanePlay) (some 7) twoLanePlay
      (freshPlay twoLanePlay) populatedWorld [quietTick, lane0DoneTick] rfl).2.2
      (by decide) (by decide)⟩

/-! ## Lemmas: the lanes a firing touches -/

/-- The loop over the inputs of a firing leaves a lane that is neither an input nor an
output as it is. -/
theorem transitionInputs_untouched (O : List Nat) (inputs : List Nat) :
    ∀ (tr : List Int) (p : Play) (w : World) (r : Except String Unit) (tr2 : List Int)
      (p2 : Play) (w2 : World),
      Play.transitionInputs O inputs tr p w = (r, tr2, p2, w2) →
      ∀ L, L ∉ O → L ∉ inputs →
        p2.stateOfTacticSequenceAtIndex L = p.stateOfTacticSequenceAtIndex L ∧
        p2.tacticOfSequenceAtIndex L = p.tacticOfSequenceAtIndex L := by
  induction inputs with
  | nil =>
    intro tr p w r tr2 p2 w2 h L _ _
    simp only [Play.transitionInputs] at h
    cases h
    exact ⟨rfl, rfl⟩
  | cons i rest ih =>
    intro tr p w r tr2 p2 w2 h L hO hI
    simp only [Play.transitionInputs] at h
    have hLi : L ≠ i := fun hc => hI (by rw [hc]; exact List.mem_cons_self _ _)
    have hLr : L ∉ rest := fun hc => hI (List.mem_cons_of_mem _ hc)
    cases htr : p.transitionRole w (p._playFactory.roleForTacticSequenceAtIndex i) (i : Int)
        (Play.outputForRole p._playFactory (p._playFactory.roleForTacticSequenceAtIndex i) O)
      with
    | mk r1 rest1 =>
      obtain ⟨p1, w1⟩ := rest1
      rw [htr] at h
      have hstep : p1.stateOfTacticSequenceAtIndex L = p.stateOfTacticSequenceAtIndex L ∧
          p1.tacticOfSequenceAtIndex L = p.tacticOfSequenceAtIndex L := by
        rcases transitionRole_point _ _ _ _ _ _ _ _ htr L with ⟨hn, hl, _⟩ | ⟨_, h0⟩
        · exfalso
          rcases outputForRole_mem p._playFactory
              (p._playFactory.roleForTacticSequenceAtIndex i) O with h1 | ⟨o, ho, h1⟩
          · exact hn h1
          · rw [h1] at hl
            simp only [Int.toNat_ofNat] at hl
            rw [hl] at hO
            exact hO ho
        · rcases h0 with ⟨_, hl, _⟩ | h0
          · simp only [Int.toNat_ofNat] at hl
            exact absurd hl hLi
          · exact h0
      cases r1 with
      | error e =>
        simp only at h
        cases h
        exact hstep
      | ok b =>
        simp only at h
        by_cases hout : Play.outputForRole p._playFactory
            (p._playFactory.roleForTacticSequenceAtIndex i) O = -1
        · rw [if_pos hout] at h
          obtain ⟨g1, g2⟩ := ih _ _ _ _ _ _ _ h L hO hLr
          exact ⟨g1.trans hstep.1, g2.trans hstep.2⟩
        · rw [if_neg hout] at h
          obtain ⟨g1, g2⟩ := ih _ _ _ _ _ _ _ h L hO hLr
          exact ⟨g1.trans hstep.1, g2.trans hstep.2⟩

/-- When the loop over the inputs of a firing returns, an input lane that is not an output
has no behaviour. -/
theorem transitionInputs_retires (O : List Nat) (inputs : List Nat) :
    ∀ (tr : List Int) (p : Play) (w : World) (tr2 : List Int) (p2 : Play) (w2 : World),
      Play.transitionInputs O inputs tr p w = (.ok (), tr2, p2, w2) →
      ∀ L ∈ inputs, L ∉ O → p2.tacticOfSequenceAtIndex L = none := by
  induction inputs with
  | nil =>
    intro tr p w tr2 p2 w2 _ L hL
    cases hL
  | cons i rest ih =>
    intro tr p w tr2 p2 w2 h L hL hO
    simp only [Play.transitionInputs] at h
    cases htr : p.transitionRole w (p._playFactory.roleForTacticSequenceAtIndex i) (i : Int)
        (Play.outputForRole p._playFactory (p._playFactory.roleForTacticSequenceAtIndex i) O)
      with
    | mk r1 rest1 =>
      obtain ⟨p1, w1⟩ := rest1
      rw [htr] at h
      cases r1 with
      | error e =>
        simp only at h
        cases h
      | ok b =>
        simp only at h
        have hrest : ∀ tr1 wx, Play.transitionInputs O rest tr1 p1 wx = (.ok (), tr2, p2, w2) →
            p2.tacticOfSequenceAtIndex L = none := by
          intro tr1 wx h1
          by_cases hLr : L ∈ rest
          · exact ih _ _ _ _ _ _ h1 L hLr hO
          · have hLi : L = i := by
              rcases List.mem_cons.mp hL with h0 | h0
              · exact h0
              · exact absurd h0 hLr
            subst hLi
            have hnone : p1.tacticOfSequenceAtIndex L = none := by
              have hi1 : ((L : Int)) ≠ -1 := by omega
              rcases (transitionRole_shape _ _ _ _ _ _ _ _ htr).2 with h0 | ⟨hn, t, h0⟩
              · unfold Play.tacticOfSequenceAtIndex
                rw [h0, if_neg hi1, Int.toNat_ofNat]
                exact getD_set_self _ _ _
              · unfold Play.tacticOfSequenceAtIndex
                rw [h0, if_neg hi1, Int.toNat_ofNat]
                rcases outputForRole_mem p._playFactory
                    (p._playFactory.roleForTacticSequenceAtIndex L) O with h1 | ⟨o, ho, h1⟩
                · exact absurd h1 hn
                · rw [h1, Int.toNat_ofNat]
                  have hoL : o ≠ L := fun hc => hO (by rw [← hc]; exact ho)
                  rw [getD_set_other _ _ _ _ _ hoL]
                  exact getD_set_self _ _ _
            rcases (transitionInputs_outside O rest _ _ _ _ _ _ _ h1 L hO).2.2 with h0 | h0
            · exact h0
            · rw [h0]
              exact hnone
        by_cases hout : Play.outputForRole p._playFactory
            (p._playFactory.roleForTacticSequenceAtIndex i) O = -1
        · rw [if_pos hout] at h
          exact hrest _ _ h
        · rw [if_neg hout] at h
          exact hrest _ _ h

/-- A firing, returning or throwing, and a lane that is not an output of the sync point: the
lane has its behaviour of before or none; and if it is not an input either, it is as it
was. -/
theorem firing_outside (p : Play) (w : World) (k : Nat) (r : Except String Unit)
    (p2 : Play) (w2 : World) (h : p.transitionToSyncPointAtIndex w k = (r, p2, w2))
    (L : Nat) (hO : L ∉ p._playFactory._syncPointOutputs.getD k []) :
    (p2.tacticOfSequenceAtIndex L = none ∨
      p2.tacticOfSequenceAtIndex L = p.tacticOfSequenceAtIndex L) ∧
    (L ∉ p._playFactory._syncPointInputs.getD k [] →
      p2.stateOfTacticSequenceAtIndex L = p.stateOfTacticSequenceAtIndex L ∧
      p2.tacticOfSequenceAtIndex L = p.tacticOfSequenceAtIndex L) := by
  obtain ⟨r1, tr, p1, w1, hin, hrest⟩ := transitionToSyncPointAtIndex_cases _ _ _ _ _ _ h
  have h1 := (transitionInputs_outside _ _ _ _ _ _ _ _ _ hin L hO).2.2
  have h2 := transitionInputs_untouched _ _ _ _ _ _ _ _ _ hin L hO
  rcases hrest with ⟨_, _, hp2⟩ | ⟨_, r3, roles, p3, w3, hout, hrest3⟩
  · subst hp2
    exact ⟨h1, h2⟩
  · have h3 := (transitionOutputs_outside _ _ _ _ _ _ _ _ _ hout).1 L hO
    have hp3 : p2.stateOfTacticSequenceAtIndex L = p3.stateOfTacticSequenceAtIndex L ∧
        p2.tacticOfSequenceAtIndex L = p3.tacticOfSequenceAtIndex L := by
      rcases hrest3 with ⟨_, _, hp2⟩ | ⟨_, _, hp2⟩ | ⟨_, _, hp2⟩ <;> subst hp2 <;>
        exact ⟨rfl, rfl⟩
    refine ⟨?_, ?_⟩
    · rw [hp3.2, h3.2]
      exact h1
    · intro hI
      rw [hp3.1, hp3.2, h3.1, h3.2]
      exact h2 hI

/-! ## Theorems: the release of a Role that is not kept -/

/-- C33: a firing whose loop over the inputs returns, and an input lane of the sync point
whose Role is the Role of no output lane: the firing releases the Role of the lane to the
allocator; when the firing ends, returning or throwing, the lane has no behaviour; and a
lane that then has a behaviour it did not have before the firing is an output lane, whose
Role is not the Role of the input lane. -/
theorem unmatched_input_role_is_released (p : Play) (w : World) (k : Nat)
    (r : Except String Unit) (p2 : Play) (w2 : World) (tr : List Int) (p1 : Play)
    (w1 : World) (L : Nat)
    (hin : Play.transitionInputs (p._playFactory._syncPointOutputs.getD k [])
      (p._playFactory._syncPointInputs.getD k []) [] p (w.note (.fired k)) =
        (.ok (), tr, p1, w1))
    (h : p.transitionToSyncPointAtIndex w k = (r, p2, w2))
    (hL : L ∈ p._playFactory._syncPointInputs.getD k [])
    (hun : ∀ o ∈ p._playFactory._syncPointOutputs.getD k [],
      p._playFactory.roleForTacticSequenceAtIndex o ≠
        p._playFactory.roleForTacticSequenceAtIndex L) :
    Event.deallocate (p._playFactory.roleForTacticSequenceAtIndex L) ∈
      w2.events.drop w.events.length ∧
    p2.tacticOfSequenceAtIndex L = none ∧
    (∀ lane, p2.tacticOfSequenceAtIndex lane ≠ none →
      p2.tacticOfSequenceAtIndex lane ≠ p.tacticOfSequenceAtIndex lane →
      lane ∈ p._playFactory._syncPointOutputs.getD k [] ∧
        p._playFactory.roleForTacticSequenceAtIndex lane ≠
          p._playFactory.roleForTacticSequenceAtIndex L) := by
  have hLO : L ∉ p._playFactory._syncPointOutputs.getD k [] := fun hc => hun L hc rfl
  have hnoout : Play.outputForRole p._playFactory
      (p._playFactory.roleForTacticSequenceAtIndex L)
      (p._playFactory._syncPointOutputs.getD k []) = -1 := by
    rcases outputForRole_spec p._playFactory (p._playFactory.roleForTacticSequenceAtIndex L)
        (p._playFactory._syncPointOutputs.getD k []) with ⟨h0, _⟩ | ⟨o, ho, hr, _⟩
    · exact h0
    · exact absurd hr (hun o ho)
  refine ⟨?_, ?_, ?_⟩
  · obtain ⟨⟨n, _, hev, hok⟩, _⟩ := transitionInputs_events _ _ _ _ _ _ _ _ _ hin
    rw [hok rfl, List.take_length] at hev
    have hmem : Event.deallocate (p._playFactory.roleForTacticSequenceAtIndex L) ∈
        Play.releasesFor p._playFactory (p._playFactory._syncPointOutputs.getD k [])
          (p._playFactory._syncPointInputs.getD k []) := by
      unfold Play.releasesFor
      exact List.mem_map.mpr ⟨L, List.mem_filter.mpr ⟨hL, decide_eq_true hnoout⟩, rfl⟩
    have hw1 : Event.deallocate (p._playFactory.roleForTacticSequenceAtIndex L) ∈
        w1.events.drop w.events.length := by
      have hev1 : w1.events = w.events ++ (.fired k ::
          Play.releasesFor p._playFactory (p._playFactory._syncPointOutputs.getD k [])
            (p._playFactory._syncPointInputs.getD k [])) := by
        rw [hev]
        simp [World.note]
      rw [hev1, List.drop_left]
      exact List.mem_cons_of_mem _ hmem
    unfold Play.transitionToSyncPointAtIndex at h
    simp only [hin] at h
    cases hout : Play.transitionOutputs tr (p._playFactory._syncPointOutputs.getD k []) []
        p1 w1 with
    | mk r3 rest3 =>
      obtain ⟨roles, p3, w3⟩ := rest3
      obtain ⟨_, _, _, he3⟩ := transitionOutputs_frame _ _ _ _ _ _ _ _ _ hout
      rw [hout] at h
      cases r3 with
      | error e =>
        simp only at h
        cases h
        rw [he3]
        exact hw1
      | ok u =>
        simp only [World.allocateRolesForToplevelAction] at h
        have hw2 : w2.events = w1.events ++ [.allocate roles] := by
          by_cases ha : w3.allocatorAccepts roles = true
          · simp only [ha, if_true] at h
            cases h
            show w3.events ++ [Event.allocate roles] = _
            rw [he3]
          · simp only [ha, Bool.false_eq_true, if_false] at h
            cases h
            show w3.events ++ [Event.allocate roles] = _
            rw [he3]
        rw [hw2]
        have hlen : w.events.length ≤ w1.events.length := by
          rw [hev]
          simp [World.note]
        rw [List.drop_append_of_le_length hlen]
        exact List.mem_append_left _ hw1
  · obtain ⟨r1, tr0, p10, w10, hin0, hrest⟩ := transitionToSyncPointAtIndex_cases _ _ _ _ _ _ h
    rw [hin] at hin0
    obtain ⟨hr1, htr, hp1, _⟩ : .ok () = r1 ∧ tr = tr0 ∧ p1 = p10 ∧ w1 = w10 := by
      cases hin0
      exact ⟨rfl, rfl, rfl, rfl⟩
    subst hp1 htr
    have hret := transitionInputs_retires _ _ _ _ _ _ _ _ hin L hL hLO
    rcases hrest with ⟨hne, _, _⟩ | ⟨_, r3, roles, p3, w3, hout, hrest3⟩
    · exact absurd hr1.symm hne
    · have h3 := (transitionOutputs_outside _ _ _ _ _ _ _ _ _ hout).1 L hLO
      rcases hrest3 with ⟨_, _, hp2⟩ | ⟨_, _, hp2⟩ | ⟨_, _, hp2⟩ <;> subst hp2
      · rw [h3.2]; exact hret
      · rw [h3.2]; exact hret
      · show p3.tacticOfSequenceAtIndex L = none
        rw [h3.2]; exact hret
  · intro lane hsome hnew
    have hlane : lane ∈ p._playFactory._syncPointOutputs.getD k [] := by
      by_contra hc
      rcases (firing_outside _ _ _ _ _ _ h lane hc).1 with h0 | h0
      · exact hsome h0
      · exact hnew h0
    exact ⟨hlane, hun lane hlane⟩

/-- Witness for C33: the firing of "end" in the parking definition, on the Play as its
first call of `update()` leaves it; lane 0 is an input, the sync point has no output, and
the firing releases the Role 0 of lane 0 and leaves the lane without behaviour. -/
theorem unmatched_input_role_is_released_witness :
    (0 ∈ twoLanePlay._syncPointInputs.getD 1 [] ∧ twoLanePlay._syncPointOutputs.getD 1 [] = []) ∧
    Event.deallocate (some 0) ∈
      ((Play.run [quietTick] (freshPlay twoLanePlay, populatedWorld)).1.transitionToSyncPointAtIndex
        (Play.run [quietTick] (freshPlay twoLanePlay, populatedWorld)).2 1).2.2.events.drop
          (Play.run [quietTick] (freshPlay twoLanePlay, populatedWorld)).2.events.length ∧
    ((Play.run [quietTick] (freshPlay twoLanePlay, populatedWorld)).1.transitionToSyncPointAtIndex
        (Play.run [quietTick] (freshPlay twoLanePlay, populatedWorld)).2
          1).2.1.tacticOfSequenceAtIndex 0 = none :=
  ⟨⟨by decide, by decide⟩,
    (unmatched_input_role_is_released
      (Play.run [quietTick] (freshPlay twoLanePlay, populatedWorld)).1
      (Play.run [quietTick] (freshPlay twoLanePlay, populatedWorld)).2 1 _ _ _ _ _ _ 0
      rfl rfl (by decide) (by decide)).1,
    (unmatched_input_role_is_released
      (Play.run [quietTick] (freshPlay twoLanePlay, populatedWorld)).1
      (Play.run [quietTick] (freshPlay twoLanePlay, populatedWorld)).2 1 _ _ _ _ _ _ 0
      rfl rfl (by decide) (by decide)).2.1⟩

/-! ## Lemmas: the Roles the behaviours of the lanes are bound to -/

/-- Writing into a vector of behaviours an entry that is in order keeps the entries in
order. -/
theorem bound_set (pf : PlayFactory) (T : List (Option Tactic)) (i : Nat) (x : Option Tactic)
    (hT : ∀ lane t, T.getD lane none = some t →
      t._role = none ∨ t._role = pf.roleForTacticSequenceAtIndex lane)
    (hx : ∀ t, x = some t → t._role = none ∨ t._role = pf.roleForTacticSequenceAtIndex i) :
    ∀ lane t, (T.set i x).getD lane none = some t →
      t._role = none ∨ t._role = pf.roleForTacticSequenceAtIndex lane := by
  intro lane t h
  by_cases hl : i = lane
  · subst hl
    by_cases hi : i < T.length
    · rw [getD_set_same _ _ _ _ hi] at h
      exact hx t h
    · rw [List.set_eq_of_length_le (by omega)] at h
      exact hT i t h
  · rw [getD_set_other _ _ _ _ _ hl] at h
    exact hT lane t h

/-- A Play with the same definition and behaviours has its behaviours as much in order. -/
theorem bound_of_eq (p p2 : Play) (hpf : p2._playFactory = p._playFactory)
    (hT : p2._tacticsBySequenceIndex = p._tacticsBySequenceIndex)
    (hp : p.BoundToLaneRoles) : p2.BoundToLaneRoles := by
  intro lane t h
  unfold Play.tacticOfSequenceAtIndex at h
  rw [hT] at h
  rw [hpf]
  exact hp lane t h

/-- What `transitionRole` leaves in the vector of behaviours: nothing in the lane the role
comes from, and in the lane it goes to a Tactic that `instantiate` returned, bound to the
role. -/
theorem transitionRole_tactics (p : Play) (w : World) (role : Option RolePtr)
    (currSeqIdx newSeqIdx : Int) (r : Except String Bool) (p2 : Play) (w2 : World)
    (h : p.transitionRole w role currSeqIdx newSeqIdx = (r, p2, w2)) :
    p2._tacticsBySequenceIndex =
        (if currSeqIdx = -1 then p._tacticsBySequenceIndex
          else p._tacticsBySequenceIndex.set currSeqIdx.toNat none) ∨
      (newSeqIdx ≠ -1 ∧ r = .ok true ∧ ∃ t : Tactic, p2._tacticsBySequenceIndex =
        (if currSeqIdx = -1 then p._tacticsBySequenceIndex
          else p._tacticsBySequenceIndex.set currSeqIdx.toNat none).set
            newSeqIdx.toNat (some (t.setRole role))) := by
  unfold Play.transitionRole at h
  split at h
  · rename_i hboth
    cases h
    rw [if_pos hboth.1]
    exact Or.inl rfl
  · by_cases hc : currSeqIdx = -1 <;> by_cases hn : newSeqIdx = -1
    · simp only [hc, hn, if_true] at h
      rw [if_pos hc]
      cases h
      exact Or.inl rfl
    · simp only [hc, hn, if_true, if_false] at h
      rw [if_pos hc]
      split at h
      · cases h
        exact Or.inl rfl
      · split at h
        · cases h
          exact Or.inl rfl
        · cases h
          exact Or.inr ⟨hn, rfl, _, rfl⟩
    · simp only [hc, hn, if_true, if_false] at h
      rw [if_neg hc]
      cases h
      exact Or.inl rfl
    · simp only [hc, hn, if_false] at h
      rw [if_neg hc]
      split at h
      · cases h
        exact Or.inl rfl
      · split at h
        · cases h
          exact Or.inl rfl
        · cases h
          exact Or.inr ⟨hn, rfl, _, rfl⟩

/-- `transitionRole` keeps the behaviours bound to the Roles of their lanes when the role
is the Role of the lane it goes to. -/
theorem transitionRole_bound (p : Play) (w : World) (role : Option RolePtr)
    (currSeqIdx newSeqIdx : Int) (r : Except String Bool) (p2 : Play) (w2 : World)
    (h : p.transitionRole w role currSeqIdx newSeqIdx = (r, p2, w2))
    (hrole : newSeqIdx ≠ -1 →
      p._playFactory.roleForTacticSequenceAtIndex newSeqIdx.toNat = role)
    (hp : p.BoundToLaneRoles) : p2.BoundToLaneRoles := by
  obtain ⟨hF, _⟩ := transitionRole_frame _ _ _ _ _ _ _ _ h
  have hbase : ∀ lane t,
      (if currSeqIdx = -1 then p._tacticsBySequenceIndex
        else p._tacticsBySequenceIndex.set currSeqIdx.toNat none).getD lane none = some t →
      t._role = none ∨ t._role = p._playFactory.roleForTacticSequenceAtIndex lane := by
    by_cases hc : currSeqIdx = -1
    · rw [if_pos hc]
      exact hp
    · rw [if_neg hc]
      exact bound_set _ _ _ _ hp (fun t ht => by cases ht)
  intro lane t ht
  unfold Play.tacticOfSequenceAtIndex at ht
  rw [hF.2.1]
  rcases transitionRole_tactics _ _ _ _ _ _ _ _ h with h0 | ⟨hn, _, t0, h0⟩
  · rw [h0] at ht
    exact hbase lane t ht
  · rw [h0] at ht
    refine bound_set _ _ _ _ hbase ?_ lane t ht
    intro t1 ht1
    cases ht1
    right
    show role = _
    exact (hrole hn).symm

/-- The loop over the inputs of a firing keeps the behaviours bound to the Roles of their
lanes. -/
theorem transitionInputs_bound (O : List Nat) (inputs : List Nat) :
    ∀ (tr : List Int) (p : Play) (w : World) (r : Except String Unit) (tr2 : List Int)
      (p2 : Play) (w2 : World),
      Play.transitionInputs O inputs tr p w = (r, tr2, p2, w2) →
      p.BoundToLaneRoles → p2.BoundToLaneRoles := by
  induction inputs with
  | nil =>
    intro tr p w r tr2 p2 w2 h hp
    simp only [Play.transitionInputs] at h
    cases h
    exact hp
  | cons i rest ih =>
    intro tr p w r tr2 p2 w2 h hp
    simp only [Play.transitionInputs] at h
    cases htr : p.transitionRole w (p._playFactory.roleForTacticSequenceAtIndex i) (i : Int)
        (Play.outputForRole p._playFactory (p._playFactory.roleForTacticSequenceAtIndex i) O)
      with
    | mk r1 rest1 =>
      obtain ⟨p1, w1⟩ := rest1
      rw [htr] at h
      have hp1 : p1.BoundToLaneRoles := by
        apply transitionRole_bound _ _ _ _ _ _ _ _ htr _ hp
        intro hn
        rcases outputForRole_spec p._playFactory
            (p._playFactory.roleForTacticSequenceAtIndex i) O with ⟨h0, _⟩ | ⟨o, _, hr, h0⟩
        · exact absurd h0 hn
        · rw [h0, Int.toNat_ofNat]
          exact hr
      cases r1 with
      | error e =>
        simp only at h
        cases h
        exact hp1
      | ok b =>
        simp only at h
        by_cases hout : Play.outputForRole p._playFactory
            (p._playFactory.roleForTacticSequenceAtIndex i) O = -1
        · rw [if_pos hout] at h
          exact ih _ _ _ _ _ _ _ h hp1
        · rw [if_neg hout] at h
          exact ih _ _ _ _ _ _ _ h hp1

/-- The loop over the outputs of a firing keeps the behaviours bound to the Roles of their
lanes. -/
theorem transitionOutputs_bound (tr : List Int) (outputs : List Nat) :
    ∀ (roles : List (Option RolePtr)) (p : Play) (w : World) (r : Except String Unit)
      (roles2 : List (Option RolePtr)) (p2 : Play) (w2 : World),
      Play.transitionOutputs tr outputs roles p w = (r, roles2, p2, w2) →
      p.BoundToLaneRoles → p2.BoundToLaneRoles := by
  induction outputs with
  | nil =>
    intro roles p w r roles2 p2 w2 h hp
    simp only [Play.transitionOutputs] at h
    cases h
    exact hp
  | cons o rest ih =>
    intro roles p w r roles2 p2 w2 h hp
    simp only [Play.transitionOutputs] at h
    by_cases hmem : (o : Int) ∉ tr
    · rw [if_pos hmem] at h
      cases htr : p.transitionRole w (p._playFactory.roleForTacticSequenceAtIndex o) (-1)
          (o : Int) with
      | mk r1 rest1 =>
        obtain ⟨p1, w1⟩ := rest1
        rw [htr] at h
        have hp1 : p1.BoundToLaneRoles := by
          apply transitionRole_bound _ _ _ _ _ _ _ _ htr _ hp
          intro _
          rw [Int.toNat_ofNat]
        cases r1 with
        | error e =>
          simp only at h
          cases h
          exact hp1
        | ok b =>
          simp only at h
          exact ih _ _ _ _ _ _ _ h hp1
    · rw [if_neg hmem] at h
      exact ih _ _ _ _ _ _ _ h hp

/-- A firing keeps the behaviours bound to the Roles of their lanes. -/
theorem firing_bound (p : Play) (w : World) (k : Nat) (r : Except String Unit)
    (p2 : Play) (w2 : World) (h : p.transitionToSyncPointAtIndex w k = (r, p2, w2))
    (hp : p.BoundToLaneRoles) : p2.BoundToLaneRoles := by
  obtain ⟨r1, tr, p1, w1, hin, hrest⟩ := transitionToSyncPointAtIndex_cases _ _ _ _ _ _ h
  have hp1 := transitionInputs_bound _ _ _ _ _ _ _ _ _ hin hp
  rcases hrest with ⟨_, _, h2⟩ | ⟨_, r3, roles, p3, w3, hout, hrest3⟩
  · rw [h2]; exact hp1
  · have hp3 := transitionOutputs_bound _ _ _ _ _ _ _ _ _ hout hp1
    rcases hrest3 with ⟨_, _, h2⟩ | ⟨_, _, h2⟩ | ⟨_, _, h2⟩
    · rw [h2]; exact hp3
    · rw [h2]; exact hp3
    · rw [h2]; exact bound_of_eq p3 _ rfl rfl hp3

/-- The loop over the unreached sync points keeps the behaviours bound to the Roles of
their lanes. -/
theorem barrierScan_bound : ∀ (fuel i : Nat) (p : Play) (w : World)
    (r : Except String Unit) (p2 : Play) (w2 : World),
    Play.barrierScan fuel i p w = some (r, p2, w2) →
    p.BoundToLaneRoles → p2.BoundToLaneRoles := by
  intro fuel
  induction fuel with
  | zero =>
    intro i p w r p2 w2 h
    simp [Play.barrierScan] at h
  | succ n ih =>
    intro i p w r p2 w2 h hp
    simp only [Play.barrierScan] at h
    by_cases hi : i < p._unreachedSyncPoints.length
    · rw [if_pos hi] at h
      by_cases hre : p.syncPointAtIndexIsReachableNow (p._unreachedSyncPoints.getD i 0) = true
      · rw [if_pos hre] at h
        cases htr : p.transitionToSyncPointAtIndex w (p._unreachedSyncPoints.getD i 0) with
        | mk r1 rest1 =>
          obtain ⟨p1, w1⟩ := rest1
          rw [htr] at h
          have hp1 := firing_bound _ _ _ _ _ _ htr hp
          cases r1 with
          | error e =>
            simp only at h
            cases h
            exact hp1
          | ok u =>
            simp only at h
            exact ih _ _ _ _ _ _ h hp1
      · rw [if_neg hre] at h
        exact ih _ _ _ _ _ _ h hp
    · rw [if_neg hi] at h
      cases h
      exact hp

/-- The requests of an `update()` body leave the Role of the Tactic as it is. -/
theorem perform_role (requests : List Request) :
    ∀ t : Tactic, (t.perform requests).2._role = t._role := by
  induction requests with
  | nil => intro t; rfl
  | cons q rest ih =>
    intro t
    cases q with
    | setState s =>
      simp only [Tactic.perform]
      cases hs : t.setState s with
      | mk r1 t1 =>
        have h1 : t1._role = t._role := by
          have h0 := congrArg (fun x => x.2._role) hs
          simp only [Tactic.setState] at h0
          exact h0.symm
        cases r1 with
        | error e => exact h1
        | ok u =>
          simp only
          rw [ih t1]
          exact h1
    | raise m => rfl

/-- `transitionSequenceAtIndex` keeps the behaviours bound to the Roles of their lanes. -/
theorem transitionSequenceAtIndex_bound (p : Play) (w : World) (i : Nat)
    (r : Except String Unit) (p2 : Play) (w2 : World)
    (h : p.transitionSequenceAtIndex w i = (r, p2, w2)) (hp : p.BoundToLaneRoles) :
    p2.BoundToLaneRoles := by
  cases ht : p.tacticOfSequenceAtIndex i with
  | none =>
    unfold Play.transitionSequenceAtIndex at h
    rw [ht] at h
    cases h
    exact hp
  | some tactic =>
    rw [transitionSequenceAtIndex_eq p w i tactic ht] at h
    split at h
    · split at h
      · cases h
        exact bound_of_eq p _ rfl rfl hp
      · rename_i hinst
        cases h
        intro lane t hl
        refine bound_set p._playFactory p._tacticsBySequenceIndex i _ hp ?_ lane t hl
        intro t1 ht1
        cases ht1
        exact Or.inl (instantiate_role_none _ _ _ _ _ hinst)
    · cases h
      exact bound_of_eq p _ rfl rfl hp

/-- The loop over the lanes keeps the behaviours bound to the Roles of their lanes. -/
theorem laneLoop_bound (lanes : List Nat) :
    ∀ (p : Play) (w : World) (r : Except String LaneLoopExit) (p2 : Play) (w2 : World),
      Play.laneLoop lanes p w = (r, p2, w2) → p.BoundToLaneRoles → p2.BoundToLaneRoles := by
  induction lanes with
  | nil =>
    intro p w r p2 w2 h hp
    simp only [Play.laneLoop] at h
    cases h
    exact hp
  | cons i rest ih =>
    intro p w r p2 w2 h hp
    simp only [Play.laneLoop] at h
    cases ht : p.tacticOfSequenceAtIndex i with
    | none =>
      rw [ht] at h
      exact ih _ _ _ _ _ h hp
    | some t =>
      rw [ht] at h
      simp only at h
      cases hup : t.update (w.sensed i) with
      | mk ru t1 =>
        rw [hup] at h
        have hrole : t1._role = t._role := by
          have h0 := perform_role (t.klass.update t._state (w.sensed i)) t
          unfold Tactic.update at hup
          rw [hup] at h0
          exact h0
        have hp1 : Play.BoundToLaneRoles
            { p with _tacticsBySequenceIndex := p._tacticsBySequenceIndex.set i (some t1) } := by
          intro lane tt hl
          refine bound_set p._playFactory p._tacticsBySequenceIndex i _ hp ?_ lane tt hl
          intro t2 ht2
          cases ht2
          rw [hrole]
          exact hp i t ht
        cases ru with
        | error e =>
          simp only at h
          cases h
          exact hp1
        | ok u =>
          simp only at h
          by_cases hadv : t1.state = .Completed ∨ t1.state = .EvaluatingSuccess
          · rw [if_pos hadv] at h
            cases hts : Play.transitionSequenceAtIndex
                { p with _tacticsBySequenceIndex := p._tacticsBySequenceIndex.set i (some t1) }
                (w.note (.updated i t1.state)) i with
            | mk r1 rest1 =>
              obtain ⟨q2, w3⟩ := rest1
              rw [hts] at h
              have hq2 := transitionSequenceAtIndex_bound _ _ _ _ _ _ hts hp1
              cases r1 with
              | error e =>
                simp only at h
                cases h
                exact hq2
              | ok u2 =>
                simp only at h
                exact ih _ _ _ _ _ h hq2
          · rw [if_neg hadv] at h
            by_cases hfail : t1.state = .Failed
            · rw [if_pos hfail] at h
              have hfr := play_setState_frame
                { p with _tacticsBySequenceIndex := p._tacticsBySequenceIndex.set i (some t1) }
                .Failed
              cases hss : Play.setState
                  { p with _tacticsBySequenceIndex := p._tacticsBySequenceIndex.set i (some t1) }
                  .Failed with
              | mk rs ps =>
                rw [hss] at h hfr
                simp only at hfr
                have hpw : p2 = ps := by
                  cases rs <;> (simp only at h; cases h; rfl)
                rw [hpw]
                exact bound_of_eq
                  { p with
                    _tacticsBySequenceIndex := p._tacticsBySequenceIndex.set i (some t1) }
                  ps hfr.1 hfr.2.2.2.1 hp1
            · rw [if_neg hfail] at h
              exact ih _ _ _ _ _ h hp1

/-- A call of `update()` keeps the behaviours bound to the Roles of their lanes. -/
theorem update_bound (p : Play) (w : World) (hp : p.BoundToLaneRoles) :
    (p.update w).2.1.BoundToLaneRoles := by
  obtain ⟨_, _, hpf, _, _, hT⟩ := checkPendingTacticResults_frame p
  have hp1 := bound_of_eq p _ hpf hT hp
  rcases update_cases p w with ⟨e, _, h2⟩ | ⟨_, h2⟩ | ⟨_, r2, p2, w2, hlane, hrest⟩
  · rw [h2]; exact hp1
  · rw [h2]
    have hfr := play_setState_frame (p.checkPendingTacticResults).2 .Failed
    exact bound_of_eq _ _ hfr.1 hfr.2.2.2.1 hp1
  · have hp2 := laneLoop_bound _ _ _ _ _ _ hlane hp1
    rcases hrest with ⟨e, _, hu⟩ | ⟨_, hu⟩ | ⟨_, r3, p3, w3, hb, hrest3⟩
    · rw [hu]; exact hp2
    · rw [hu]; exact hp2
    · have hp3 := barrierScan_bound _ _ _ _ _ _ _ hb hp2
      rcases hrest3 with ⟨e, _, hu⟩ | ⟨_, hu⟩
      · rw [hu]; exact hp3
      · rw [hu]
        simp only
        unfold Play.completionCheck
        split
        · split
          · have hfr := play_setState_frame p3 .EvaluatingSuccess
            exact bound_of_eq _ _ hfr.1 hfr.2.2.2.1 hp3
          · have hfr := play_setState_frame p3 .Completed
            exact bound_of_eq _ _ hfr.1 hfr.2.2.2.1 hp3
        · exact hp3

/-- Successive calls of `update()` keep the behaviours bound to the Roles of their lanes. -/
theorem run_bound (ticks : List Tick) :
    ∀ s : Play × World, s.1.BoundToLaneRoles → (Play.run ticks s).1.BoundToLaneRoles := by
  induction ticks with
  | nil => intro s h; exact h
  | cons tick rest ih =>
    intro s h
    simp only [Play.run]
    apply ih
    exact update_bound _ _ (bound_of_eq s.1 (Play.arrange tick s).1 rfl rfl h)

/-! ## Theorems: the Role a lane is bound to -/

/-- C32 (as stated, refuted): `addTacticSequence` accepts two lanes `[Move]` from "start" to
"end" for the same role name "a" and gives both the Role object 0. The first call of
`update()` on a new Play of that definition returns, and when it ends both lanes have a
behaviour, and both behaviours are bound to the Role 0. -/
theorem two_lanes_hold_one_role :
    twinPlay = (PlayFactory.new "kickoff" "" FactoryStatics.initial).1.addLanes
      [(some [moveStub], "a", "start", "end"), (some [moveStub], "a", "start", "end")] ∧
    [0, 1].map twinPlay.roleForTacticSequenceAtIndex = [some 0, some 0] ∧
    Play.new (some twinPlay) (some 7) twinPlay = .ok (freshPlay twinPlay) ∧
    (Play.step quietTick (freshPlay twinPlay, populatedWorld)).1 = .ok () ∧
    (Play.run [quietTick] (freshPlay twinPlay, populatedWorld)).1._tacticsBySequenceIndex.map
        (fun o => o.map fun t => (t.role, t._state)) =
      [some (some 0, .SettingUp), some (some 0, .SettingUp)] := by
  refine ⟨by decide, by decide, rfl, rfl, by decide⟩

/-- C32 (amended): in every state that successive calls of `update()`, returning or
throwing, make of a new Play, the behaviour of a lane is bound to no Role or to the Role the
definition the Play points to gives the lane. So, when the definition gives no Role to two
lanes, no two distinct lanes hold behaviours bound to the same Role. -/
theorem exclusive_role_binding (playFactory : Option PlayFactory)
    (gameplayModule : Option GameplayModule) (pf : PlayFactory) (p0 : Play) (w0 : World)
    (ticks : List Tick) (hnew : Play.new playFactory gameplayModule pf = .ok p0) :
    (∀ lane t, (Play.run ticks (p0, w0)).1.tacticOfSequenceAtIndex lane = some t →
      t.role = none ∨ t.role = pf.roleForTacticSequenceAtIndex lane) ∧
    ((∀ a b role, pf.roleForTacticSequenceAtIndex a = some role →
        pf.roleForTacticSequenceAtIndex b = some role → a = b) →
      ∀ a b ta tb role,
        (Play.run ticks (p0, w0)).1.tacticOfSequenceAtIndex a = some ta →
        (Play.run ticks (p0, w0)).1.tacticOfSequenceAtIndex b = some tb →
        ta.role = some role → tb.role = some role → a = b) := by
  obtain ⟨hpf0, _, hT0, _, _, _⟩ := new_shape _ _ _ _ hnew
  have h0 : p0.BoundToLaneRoles := by
    intro lane t ht
    unfold Play.tacticOfSequenceAtIndex at ht
    rw [hT0] at ht
    exfalso
    by_cases hl : lane < pf._tacticSequences.length
    · rw [List.getD_eq_getElem _ _ (by simpa using hl)] at ht
      simp at ht
    · rw [List.getD_eq_default _ _ (by simpa using hl)] at ht
      cases ht
  have hrun := run_bound ticks (p0, w0) h0
  have hpf : (Play.run ticks (p0, w0)).1._playFactory = pf := by
    rw [(run_consistent ticks (p0, w0) (new_consistent _ _ _ _ hnew)).2]
    exact hpf0
  have hall : ∀ lane t, (Play.run ticks (p0, w0)).1.tacticOfSequenceAtIndex lane = some t →
      t.role = none ∨ t.role = pf.roleForTacticSequenceAtIndex lane := by
    intro lane t ht
    have := hrun lane t ht
    rw [hpf] at this
    exact this
  refine ⟨hall, ?_⟩
  intro hinj a b ta tb role ha hb hra hrb
  apply hinj a b role
  · rcases hall a ta ha with h1 | h1
    · rw [h1] at hra
      cases hra
    · rw [← h1]
      exact hra
  · rcases hall b tb hb with h1 | h1
    · rw [h1] at hrb
      cases hrb
    · rw [← h1]
      exact hrb

/-- Witness for C32: lane 0 of the parking definition after the first call of `update()`
holds a behaviour bound to the Role 0, the Role of the lane. -/
theorem exclusive_role_binding_witness :
    (Play.run [quietTick]
      (freshPlay twoLanePlay, populatedWorld)).1.tacticOfSequenceAtIndex 0 =
        some { newMoveTactic with
          _parameters := moveStub._invocationParameters, _role := some 0 } ∧
    twoLanePlay.roleForTacticSequenceAtIndex 0 = some 0 ∧
    (Tactic.role { newMoveTactic with
          _parameters := moveStub._invocationParameters, _role := some 0 } = none ∨
      Tactic.role { newMoveTactic with
          _parameters := moveStub._invocationParameters, _role := some 0 } =
        twoLanePlay.roleForTacticSequenceAtIndex 0) :=
  ⟨rfl, by decide,
    (exclusive_role_binding (some twoLanePlay) (some 7) twoLanePlay (freshPlay twoLanePlay)
      populatedWorld [quietTick] rfl).1 0 _ rfl⟩

/-! ## Lemmas: the loop over the unreached sync points leaves no reachable sync point -/

/-- Erasing the entry at a position of a list without repetition leaves the entries before
that position where they are. -/
theorem erase_getD_before : ∀ (l : List Nat), l.Nodup → ∀ (i j : Nat), i < l.length → j < i →
    (l.erase (l.getD i 0)).getD j 0 = l.getD j 0 := by
  intro l
  induction l with
  | nil => intro _ i j hi; simp at hi
  | cons x rest ih =>
    intro hnd i j hi hj
    cases i with
    | zero => omega
    | succ i =>
      rw [List.getD_cons_succ]
      have hi2 : i < rest.length := by simpa using hi
      have hk : rest.getD i 0 ∈ rest := getD_mem_of_lt _ _ hi2
      rw [List.nodup_cons] at hnd
      have hne : ¬ (x == rest.getD i 0) = true := by
        intro hc
        have := eq_of_beq hc
        rw [this] at hnd
        exact hnd.1 hk
      rw [List.erase_cons_tail hne]
      cases j with
      | zero => rfl
      | succ j =>
        rw [List.getD_cons_succ, List.getD_cons_succ]
        exact ih hnd.2 i j hi2 (by omega)

/-- The entries at two positions of a list without repetition are different. -/
theorem getD_ne_of_nodup (l : List Nat) (hnd : l.Nodup) (i j : Nat) (hi : i < l.length)
    (hj : j < i) : l.getD j 0 ≠ l.getD i 0 := by
  rw [List.getD_eq_getElem _ _ hi, List.getD_eq_getElem _ _ (by omega : j < l.length)]
  intro hc
  have := (List.Nodup.getElem_inj_iff hnd).mp hc
  omega

/-- An entry of a list is at one of its positions. -/
theorem getD_of_mem (l : List Nat) (x : Nat) (h : x ∈ l) :
    ∃ j, j < l.length ∧ l.getD j 0 = x := by
  obtain ⟨n, hn, hx⟩ := List.mem_iff_getElem.mp h
  exact ⟨n, hn, by rw [List.getD_eq_getElem _ _ hn]; exact hx⟩

/-- Reachability of a sync point is read from the definition and from the cursors and the
behaviours of the input lanes of the sync point. -/
theorem reachable_congr (p p2 : Play) (k : Nat) (hpf : p2._playFactory = p._playFactory)
    (h : ∀ L ∈ p._playFactory._syncPointInputs.getD k [],
      p2.stateOfTacticSequenceAtIndex L = p.stateOfTacticSequenceAtIndex L ∧
      p2.tacticOfSequenceAtIndex L = p.tacticOfSequenceAtIndex L) :
    p2.syncPointAtIndexIsReachableNow k = p.syncPointAtIndexIsReachableNow k := by
  unfold Play.syncPointAtIndexIsReachableNow
  rw [hpf]
  apply all_congr_mem
  intro L hL
  obtain ⟨h1, h2⟩ := h L hL
  simp only [h1, h2]

/-- A sync point that is not reachable has an input lane that holds a behaviour. -/
theorem blocked_lane (p : Play) (s : Nat) (h : p.syncPointAtIndexIsReachableNow s = false) :
    ∃ L ∈ p._playFactory._syncPointInputs.getD s [],
      p.tacticOfSequenceAtIndex L ≠ none ∧
      ∀ p2 : Play, p2._playFactory = p._playFactory →
        p2.stateOfTacticSequenceAtIndex L = p.stateOfTacticSequenceAtIndex L →
        p2.tacticOfSequenceAtIndex L = p.tacticOfSequenceAtIndex L →
        p2.syncPointAtIndexIsReachableNow s = false := by
  unfold Play.syncPointAtIndexIsReachableNow at h
  obtain ⟨L, hL, hc⟩ := List.all_eq_false.mp h
  refine ⟨L, hL, ?_, ?_⟩
  · intro hnone
    apply hc
    simp only [hnone]
    split <;> rfl
  · intro p2 hpf hC hT
    unfold Play.syncPointAtIndexIsReachableNow
    rw [hpf]
    apply List.all_eq_false.mpr
    refine ⟨L, hL, ?_⟩
    simp only [hC, hT]
    exact hc

/-- A firing, returning or throwing, of a sync point of the unfired list, in a definition
whose lanes are linked once and a Play whose unstarted lanes are unstarted, makes no other
sync point reachable. -/
theorem firing_keeps_blocked (p : Play) (w : World) (k s : Nat) (r : Except String Unit)
    (p1 : Play) (w1 : World) (h : p.transitionToSyncPointAtIndex w k = (r, p1, w1))
    (hk : k ∈ p._unreachedSyncPoints) (hD : p._playFactory.LanesLinkedOnce)
    (hK : p.Unstarted) (hsk : s ≠ k) (hb : p.syncPointAtIndexIsReachableNow s = false) :
    p1.syncPointAtIndexIsReachableNow s = false := by
  obtain ⟨L, hL, hsome, hkeep⟩ := blocked_lane p s hb
  obtain ⟨hF, _⟩ := transitionToSyncPointAtIndex_frame _ _ _ _ _ _ h
  have hLO : L ∉ p._playFactory._syncPointOutputs.getD k [] := by
    intro hc
    exact hsome (hK k hk L hc).1
  have hLI : L ∉ p._playFactory._syncPointInputs.getD k [] := by
    intro hc
    exact hsk (flatten_nodup_index _ hD.2.1 s k L hL hc)
  obtain ⟨h1, h2⟩ := (firing_outside _ _ _ _ _ _ h L hLO).2 hLI
  exact hkeep p1 hF.2.1 h1 h2

/-- When the loop over the unreached sync points ends normally, in a definition whose lanes
are linked once and on a Play whose unstarted lanes are unstarted, no sync point of the
unfired list is reachable, provided none before the position the loop started at was. -/
theorem barrierScan_fixed : ∀ (fuel i : Nat) (p : Play) (w : World) (p2 : Play) (w2 : World),
    Play.barrierScan fuel i p w = some (.ok (), p2, w2) →
    p._unreachedSyncPoints.Nodup → p._playFactory.LanesLinkedOnce → p.Unstarted →
    (∀ j, j < i → j < p._unreachedSyncPoints.length →
      p.syncPointAtIndexIsReachableNow (p._unreachedSyncPoints.getD j 0) = false) →
    ∀ s ∈ p2._unreachedSyncPoints, p2.syncPointAtIndexIsReachableNow s = false := by
  intro fuel
  induction fuel with
  | zero =>
    intro i p w p2 w2 h
    simp [Play.barrierScan] at h
  | succ n ih =>
    intro i p w p2 w2 h hnd hD hK hbefore
    simp only [Play.barrierScan] at h
    by_cases hi : i < p._unreachedSyncPoints.length
    · rw [if_pos hi] at h
      have hk := getD_mem_of_lt _ _ hi
      by_cases hre : p.syncPointAtIndexIsReachableNow (p._unreachedSyncPoints.getD i 0) = true
      · rw [if_pos hre] at h
        cases htr : p.transitionToSyncPointAtIndex w (p._unreachedSyncPoints.getD i 0) with
        | mk r1 rest1 =>
          obtain ⟨p1, w1⟩ := rest1
          rw [htr] at h
          cases r1 with
          | error e =>
            simp only at h
            cases h
          | ok u =>
            simp only at h
            obtain ⟨hF, _, hok, _, _⟩ := transitionToSyncPointAtIndex_frame _ _ _ _ _ _ htr
            have hun : p1._unreachedSyncPoints =
                p._unreachedSyncPoints.erase (p._unreachedSyncPoints.getD i 0) := hok rfl
            have hK1 := (firing_unstarted _ _ _ _ _ htr hk hnd hD hK).1
            apply ih i p1 w1 p2 w2 h (by rw [hun]; exact hnd.erase _)
              (by rw [hF.2.1]; exact hD) hK1
            intro j hj _
            rw [hun, erase_getD_before _ hnd i j hi hj]
            exact firing_keeps_blocked _ _ _ _ _ _ _ htr hk hD hK
              (getD_ne_of_nodup _ hnd i j hi hj) (hbefore j hj (by omega))
      · rw [if_neg hre] at h
        apply ih (i + 1) p w p2 w2 h hnd hD hK
        intro j hj hjl
        by_cases hji : j < i
        · exact hbefore j hji hjl
        · have hje : j = i := by omega
          rw [hje]
          cases hv : p.syncPointAtIndexIsReachableNow (p._unreachedSyncPoints.getD i 0)
          · rfl
          · exact absurd hv hre
    · rw [if_neg hi] at h
      cases h
      intro s hs
      obtain ⟨j, hj, hjs⟩ := getD_of_mem _ _ hs
      rw [← hjs]
      exact hbefore j (by omega) hj

/-- On a Play none of whose unfired sync points is reachable the loop over the unreached
sync points changes nothing. -/
theorem barrierScan_idle (p : Play) (w : World)
    (h : ∀ s ∈ p._unreachedSyncPoints, p.syncPointAtIndexIsReachableNow s = false) :
    ∀ (fuel i : Nat), p._unreachedSyncPoints.length ≤ fuel + i →
      Play.barrierScan (fuel + 1) i p w = some (.ok (), p, w) := by
  intro fuel
  induction fuel with
  | zero =>
    intro i hi
    simp only [Play.barrierScan]
    rw [if_neg (by omega)]
  | succ n ih =>
    intro i hi
    simp only [Play.barrierScan]
    by_cases hlt : i < p._unreachedSyncPoints.length
    · rw [if_pos hlt]
      rw [h _ (getD_mem_of_lt _ _ hlt)]
      simp only [Bool.false_eq_true, if_false]
      exact ih (i + 1) (by omega)
    · rw [if_neg hlt]

/-- In a definition whose lanes are linked once and on a Play whose unstarted lanes are
unstarted, the barrier scan of the specification gives what the single loop over the
unreached sync points gives. -/
theorem barrierScanAsSpecified_eq (p : Play) (w : World)
    (hnd : p._unreachedSyncPoints.Nodup) (hD : p._playFactory.LanesLinkedOnce)
    (hK : p.Unstarted) :
    Play.barrierScanAsSpecified (p._unreachedSyncPoints.length + 1) p w =
      Play.barrierScan (p._unreachedSyncPoints.length + 1) 0 p w := by
  simp only [Play.barrierScanAsSpecified]
  cases hb : Play.barrierScan (p._unreachedSyncPoints.length + 1) 0 p w with
  | none => rfl
  | some res =>
    obtain ⟨r3, p3, w3⟩ := res
    cases r3 with
    | error e => rfl
    | ok u =>
      simp only
      by_cases hlen : p3._unreachedSyncPoints.length = p._unreachedSyncPoints.length
      · rw [if_pos hlen]
      · rw [if_neg hlen]
        have hfix := barrierScan_fixed _ _ _ _ _ _ hb hnd hD hK (by intro j hj; omega)
        obtain ⟨_, _, _, _, _, hsub, _⟩ := barrierScan_frame _ _ _ _ _ _ _ hb
        have hle := hsub.length_le
        cases hm : p._unreachedSyncPoints.length with
        | zero => omega
        | succ m =>
          simp only [Play.barrierScanAsSpecified]
          rw [barrierScan_idle p3 w3 hfix p3._unreachedSyncPoints.length 0 (by omega)]
          simp only [if_true]

/-- The loop over the lanes takes the fail-fast exit only after the `update()` of a lane's
behaviour has returned and left the behaviour Failed. -/
theorem laneLoop_failedFast (lanes : List Nat) :
    ∀ (p : Play) (w : World) (p2 : Play) (w2 : World),
      Play.laneLoop lanes p w = (.ok .failedFast, p2, w2) →
      ∃ i, Event.updated i .Failed ∈ w2.events.drop w.events.length := by
  induction lanes with
  | nil =>
    intro p w p2 w2 h
    simp only [Play.laneLoop] at h
    cases h
  | cons i rest ih =>
    intro p w p2 w2 h
    simp only [Play.laneLoop] at h
    cases ht : p.tacticOfSequenceAtIndex i with
    | none =>
      rw [ht] at h
      exact ih _ _ _ _ h
    | some t =>
      rw [ht] at h
      simp only at h
      cases hup : t.update (w.sensed i) with
      | mk ru t1 =>
        rw [hup] at h
        cases ru with
        | error e =>
          simp only at h
          cases h
        | ok u =>
          simp only at h
          have hgrow : ∀ (q : Play) (wq : World),
              wq.events = w.events ++ [.updated i t1.state] →
              Play.laneLoop rest q wq = (.ok .failedFast, p2, w2) →
              ∃ j, Event.updated j .Failed ∈ w2.events.drop w.events.length := by
            intro q wq hwq hq
            obtain ⟨j, hj⟩ := ih _ _ _ _ hq
            obtain ⟨new, hnew, _⟩ := laneLoop_events _ _ _ _ _ _ hq
            refine ⟨j, ?_⟩
            rw [mem_drop_events _ _ _ hnew] at hj
            have hall : w2.events = w.events ++ ([.updated i t1.state] ++ new) := by
              rw [hnew, hwq, List.append_assoc]
            rw [mem_drop_events _ _ _ hall]
            exact List.mem_append_right _ hj
          by_cases hadv : t1.state = .Completed ∨ t1.state = .EvaluatingSuccess
          · rw [if_pos hadv] at h
            cases hts : Play.transitionSequenceAtIndex
                { p with _tacticsBySequenceIndex := p._tacticsBySequenceIndex.set i (some t1) }
                (w.note (.updated i t1.state)) i with
            | mk r1 rest1 =>
              obtain ⟨q2, w3⟩ := rest1
              rw [hts] at h
              obtain ⟨_, _, he, _⟩ := transitionSequenceAtIndex_frame _ _ _ _ _ _ hts
              cases r1 with
              | error e =>
                simp only at h
                cases h
              | ok u2 =>
                simp only at h
                exact hgrow q2 w3 (by rw [he]; rfl) h
          · rw [if_neg hadv] at h
            by_cases hfail : t1.state = .Failed
            · rw [if_pos hfail] at h
              cases hss : Play.setState
                  { p with _tacticsBySequenceIndex := p._tacticsBySequenceIndex.set i (some t1) }
                  .Failed with
              | mk rs ps =>
                rw [hss] at h
                have hw2 : w2 = w.note (.updated i t1.state) := by
                  cases rs with
                  | error e => simp at h
                  | ok u3 =>
                    simp only at h
                    cases h
                    rfl
                subst hw2
                refine ⟨i, ?_⟩
                apply (mem_drop_events w.events [.updated i t1.state] _ rfl _).mpr
                rw [hfail]
                exact List.mem_singleton_self _
            · rw [if_neg hfail] at h
              exact hgrow _ _ rfl h

/-- A call of `update()` in a definition whose lanes are linked once, on a Play whose
unstarted lanes are unstarted: with the barrier scan of the specification the call gives
the same; and when the call returns and has observed no failure, no sync point of the
unfired list is reachable. -/
theorem update_fixed (p : Play) (w : World) (hnd : p._unreachedSyncPoints.Nodup)
    (hD : p._playFactory.LanesLinkedOnce) (hK : p.Unstarted) :
    p.updateAsSpecified w = p.update w ∧
    ((p.update w).1 = .ok () → p.observesFailure w = false →
      ∀ s ∈ (p.update w).2.1._unreachedSyncPoints,
        (p.update w).2.1.syncPointAtIndexIsReachableNow s = false) := by
  obtain ⟨hc1, _, hpf, hun, hC, hT⟩ := checkPendingTacticResults_frame p
  have hK1 : (p.checkPendingTacticResults).2.Unstarted := unstarted_of_eq p _ hpf hun hC hT hK
  refine ⟨?_, ?_⟩
  · unfold Play.updateAsSpecified Play.update
    cases hc : p.checkPendingTacticResults with
    | mk rc pc =>
      rw [hc] at hK1 hpf hun
      cases rc with
      | error e => rfl
      | ok b =>
        cases b with
        | false => rfl
        | true =>
          simp only
          cases hl : Play.laneLoop (List.range pc._tacticsBySequenceIndex.length) pc w with
          | mk r2 rest2 =>
            obtain ⟨p2, w2⟩ := rest2
            cases r2 with
            | error e => rfl
            | ok x =>
              cases x with
              | failedFast => rfl
              | finished =>
                simp only
                obtain ⟨hpf2, hun2, _⟩ := laneLoop_frame _ _ _ _ _ _ hl
                have hK2 := (laneLoop_unstarted _ _ _ _ _ _ hl hK1).1
                rw [barrierScanAsSpecified_eq p2 w2 (by rw [hun2, hun]; exact hnd)
                  (by rw [hpf2, hpf]; exact hD) hK2]
  · intro hret hobs
    simp only [Play.observesFailure, Bool.or_eq_false_iff] at hobs
    obtain ⟨hq, hlf⟩ := hobs
    rcases update_cases p w with ⟨e, _, hu⟩ | ⟨hf, hu⟩ | ⟨_, r2, p2, w2, hl, hrest⟩
    · rw [hu] at hret
      cases hret
    · exfalso
      rw [hc1] at hf
      obtain ⟨t, ht, hts⟩ := checkPendingFrom_false _ _ hf
      have := List.any_eq_false.mp hq t ht
      simp [hts] at this
    · obtain ⟨hpf2, hun2, _⟩ := laneLoop_frame _ _ _ _ _ _ hl
      have hK2 := (laneLoop_unstarted _ _ _ _ _ _ hl hK1).1
      rcases hrest with ⟨e, _, hu⟩ | ⟨hff, hu⟩ | ⟨_, r3, p3, w3, hs, hrest3⟩
      · rw [hu] at hret
        cases hret
      · exfalso
        rw [hff] at hl
        obtain ⟨i, hi⟩ := laneLoop_failedFast _ _ _ _ _ hl
        rw [hu] at hlf
        have := List.any_eq_false.mp hlf _ hi
        simp [Event.isFailedUpdate] at this
      · rcases hrest3 with ⟨e, _, hu⟩ | ⟨hr3, hu⟩
        · rw [hu] at hret
          cases hret
        · rw [hr3] at hs
          have hfix := barrierScan_fixed _ _ _ _ _ _ hs (by rw [hun2, hun]; exact hnd)
            (by rw [hpf2, hpf]; exact hD) hK2 (by intro j hj; omega)
          rw [hu]
          have hcc : p3.completionCheck.2._playFactory = p3._playFactory ∧
              p3.completionCheck.2._unreachedSyncPoints = p3._unreachedSyncPoints ∧
              p3.completionCheck.2._sequenceStateByIndex = p3._sequenceStateByIndex ∧
              p3.completionCheck.2._tacticsBySequenceIndex = p3._tacticsBySequenceIndex := by
            unfold Play.completionCheck
            split
            · split
              · have hfr := play_setState_frame p3 .EvaluatingSuccess
                exact ⟨hfr.1, hfr.2.1, hfr.2.2.1, hfr.2.2.2.1⟩
              · have hfr := play_setState_frame p3 .Completed
                exact ⟨hfr.1, hfr.2.1, hfr.2.2.1, hfr.2.2.2.1⟩
            · exact ⟨rfl, rfl, rfl, rfl⟩
          intro s hs2
          have hs3 : s ∈ p3._unreachedSyncPoints := by
            have : s ∈ p3.completionCheck.2._unreachedSyncPoints := hs2
            rw [hcc.2.1] at this
            exact this
          show p3.completionCheck.2.syncPointAtIndexIsReachableNow s = false
          rw [reachable_congr p3 _ s hcc.1 (fun L _ => by
            unfold Play.stateOfTacticSequenceAtIndex Play.tacticOfSequenceAtIndex
            rw [hcc.2.2.1, hcc.2.2.2]
            exact ⟨rfl, rfl⟩)]
          exact hfix s hs3

/-! ## Theorems: the single pass over the unfired list -/

/-- C31 (as stated, refuted): the definition with the lane `[Halt]` from "j" to "s" and the
lane `[Dash, Dash]` from "k" to "s" is built by `addTacticSequence`, and none of its stubs
has a parameter tree, so deleting a behaviour made from one of them frees nothing a later
`instantiate` reads. The first call of `update()`, at a tick at which the allocator cannot
satisfy the request for the Role of lane 1, throws in the firing of "k" after lane 1 was
started. The second call, before which the first Dash of lane 1 completes, returns and
observes no failure: it passes "s" (index 1), which lane 1 at its last stub blocks, and then
fires "k" again, which puts lane 1 back to its first stub. When the call ends "s" is unfired
and reachable; the barrier scan of the specification fires it and leaves the Play
Completed. The factories invoked over the two calls are those of "Halt", for lane 0, and
"Dash" only. -/
theorem unfired_sync_point_stays_reachable :
    cascadePlay = (PlayFactory.new "kickoff" "" FactoryStatics.initial).1.addLanes
      [(some [haltStub], "c", "j", "s"), (some [dashStub, dashStub], "b", "k", "s")] ∧
    [0, 1].map (fun lane =>
        (cascadePlay.tacticSequenceAtIndex lane).map fun stub => stub._invocationParameters) =
      [[none], [none, none]] ∧
    cascadePlay._syncPointInputs = [[], [0, 1], []] ∧
    cascadePlay._syncPointOutputs = [[0], [], [1]] ∧
    Play.new (some cascadePlay) (some 7) cascadePlay = .ok (freshPlay cascadePlay) ∧
    (Play.step partlyRefusingTick (freshPlay cascadePlay, faultyWorld)).1 =
      .error "AllocationFailure" ∧
    (Play.step lane1DoneTick
      (Play.run [partlyRefusingTick] (freshPlay cascadePlay, faultyWorld))).1 = .ok () ∧
    (Play.arrange lane1DoneTick
      (Play.run [partlyRefusingTick] (freshPlay cascadePlay, faultyWorld))).1.observesFailure
        (Play.arrange lane1DoneTick
          (Play.run [partlyRefusingTick] (freshPlay cascadePlay, faultyWorld))).2 = false ∧
    (Play.run [partlyRefusingTick, lane1DoneTick]
      (freshPlay cascadePlay, faultyWorld)).1._unreachedSyncPoints = [1] ∧
    (Play.run [partlyRefusingTick, lane1DoneTick]
      (freshPlay cascadePlay, faultyWorld)).1.syncPointAtIndexIsReachableNow 1 = true ∧
    (Play.run [partlyRefusingTick, lane1DoneTick]
        (freshPlay cascadePlay, faultyWorld)).2.createCalls.map (fun c => c.1) =
      ["Halt", "Dash", "Dash", "Dash"] ∧
    ((Play.arrange lane1DoneTick
      (Play.run [partlyRefusingTick] (freshPlay cascadePlay, faultyWorld))).1.updateAsSpecified
        (Play.arrange lane1DoneTick
          (Play.run [partlyRefusingTick]
            (freshPlay cascadePlay, faultyWorld))).2).2.1._unreachedSyncPoints = [] ∧
    ((Play.arrange lane1DoneTick
      (Play.run [partlyRefusingTick] (freshPlay cascadePlay, faultyWorld))).1.updateAsSpecified
        (Play.arrange lane1DoneTick
          (Play.run [partlyRefusingTick]
            (freshPlay cascadePlay, faultyWorld))).2).2.1._state = .Completed := by
  refine ⟨by decide, by decide, by decide, by decide, rfl, rfl, rfl, by decide, by decide,
    by decide, by decide, by decide, by decide⟩

/-- C31 (amended): for a new Play whose `_playFactory` points to a definition that was built
by calls of `addTacticSequence` on a new definition, and a call of `update()` made after
calls that all returned normally: the call gives the same with the barrier scan of the
specification, which repeats the loop over the unreached sync points until a run of it
fires no sync point, as with the single loop; and when the call returns normally and has
observed no failure, no sync point left in the unfired list is reachable. -/
theorem scan_reaches_fixed_point (name category : String) (g : FactoryStatics)
    (lanes : List (Option TacticSequence × String × String × String))
    (playFactory : Option PlayFactory) (gameplayModule : Option GameplayModule)
    (p0 : Play) (w0 : World) (ticks : List Tick) (tick : Tick)
    (hnew : Play.new playFactory gameplayModule
      ((PlayFactory.new name category g).1.addLanes lanes) = .ok p0)
    (hret : Play.runReturned ticks (p0, w0) = true) :
    (Play.arrange tick (Play.run ticks (p0, w0))).1.updateAsSpecified
        (Play.arrange tick (Play.run ticks (p0, w0))).2 =
      Play.step tick (Play.run ticks (p0, w0)) ∧
    ((Play.step tick (Play.run ticks (p0, w0))).1 = .ok () →
      (Play.arrange tick (Play.run ticks (p0, w0))).1.observesFailure
        (Play.arrange tick (Play.run ticks (p0, w0))).2 = false →
      ∀ s ∈ (Play.step tick (Play.run ticks (p0, w0))).2.1._unreachedSyncPoints,
        (Play.step tick (Play.run ticks (p0, w0))).2.1.syncPointAtIndexIsReachableNow s =
          false) := by
  have hD := linkedOnce_addLanes lanes _ (linkedOnce_new name category g)
  obtain ⟨hpf0, _, _, hun0, _, _⟩ := new_shape _ _ _ _ hnew
  obtain ⟨hnd, hD2, hK⟩ := run_unstarted ticks (p0, w0)
    (by rw [hun0]; exact List.nodup_range _) (by rw [hpf0]; exact hD)
    (new_unstarted _ _ _ _ hnew hD) hret
  exact update_fixed (Play.arrange tick (Play.run ticks (p0, w0))).1
    (Play.arrange tick (Play.run ticks (p0, w0))).2 hnd hD2
    (unstarted_of_eq _ (Play.arrange tick (Play.run ticks (p0, w0))).1 rfl rfl rfl rfl hK)

/-- Witness for C31: the second call of `update()` in the parking scenario, which returns,
observes no failure and leaves the end sync point unfired and not reachable. -/
theorem scan_reaches_fixed_point_witness :
    (Play.runReturned [quietTick] (freshPlay twoLanePlay, populatedWorld) = true ∧
      (Play.step lane0DoneTick (Play.run [quietTick]
        (freshPlay twoLanePlay, populatedWorld))).1 = .ok () ∧
      (Play.arrange lane0DoneTick (Play.run [quietTick]
          (freshPlay twoLanePlay, populatedWorld))).1.observesFailure
        (Play.arrange lane0DoneTick (Play.run [quietTick]
          (freshPlay twoLanePlay, populatedWorld))).2 = false ∧
      1 ∈ (Play.step lane0DoneTick (Play.run [quietTick]
        (freshPlay twoLanePlay, populatedWorld))).2.1._unreachedSyncPoints) ∧
    (Play.step lane0DoneTick (Play.run [quietTick]
      (freshPlay twoLanePlay, populatedWorld))).2.1.syncPointAtIndexIsReachableNow 1 = false :=
  ⟨⟨by decide, rfl, by decide, by decide⟩,
    (scan_reaches_fixed_point "kickoff" "" FactoryStatics.initial
      [(some [moveStub], "a", "start", "end"),
       (some [moveStub, moveStub], "b", "start", "end")]
      (some twoLanePlay) (some 7) (freshPlay twoLanePlay) populatedWorld
      [quietTick] lane0DoneTick rfl (by decide)).2 rfl (by decide) 1 (by decide)⟩

/-! ## Lemmas: firings that cannot throw -/

/-- A call of `instantiate` leaves what `getRegisteredFactory` reads at the tactic level. -/
theorem instantiate_registeredTactic (stub : TacticStub) (gm : Option GameplayModule)
    (w : World) (name : String) :
    (stub.instantiate gm w).2.registeredTactic name = w.registeredTactic name := by
  have hs : (stub.instantiate gm w).2.statics = w.statics._setupFactoryRegistryIfNecessary := by
    unfold TacticStub.instantiate
    simp only [FactoryStatics.getRegisteredFactory]
    split
    · rfl
    · split
      · rfl
      · split <;> rfl
  unfold World.registeredTactic
  rw [hs]
  exact setup_read _ _ _

/-- Whether the first stub of a lane can be instantiated depends on the world through the
registered factories only. -/
theorem firstStubInstantiable_congr (pf : PlayFactory) (w w2 : World) (lane : Nat)
    (h : ∀ name, w2.registeredTactic name = w.registeredTactic name) :
    pf.firstStubInstantiable w2 lane = pf.firstStubInstantiable w lane := by
  unfold PlayFactory.firstStubInstantiable
  cases (pf.tacticSequenceAtIndex lane).get? 0 with
  | none => rfl
  | some stub =>
    simp only
    rw [h stub.name]

/-- The first stub of a lane that can be instantiated is instantiated without a throw. -/
theorem instantiate_succeeds (pf : PlayFactory) (w : World) (lane : Nat)
    (h : pf.firstStubInstantiable w lane = true) :
    ∃ stub, (pf.tacticSequenceAtIndex lane).get? 0 = some stub ∧
      ∀ gm : GameplayModule, ∃ t, (stub.instantiate (some gm) w).1 = .ok t := by
  unfold PlayFactory.firstStubInstantiable at h
  cases hs : (pf.tacticSequenceAtIndex lane).get? 0 with
  | none =>
    rw [hs] at h
    cases h
  | some stub =>
    rw [hs] at h
    simp only at h
    cases hf : w.registeredTactic stub.name with
    | none =>
      rw [hf] at h
      cases h
    | some f =>
      rw [hf] at h
      simp only at h
      cases hp : f.klass.parseParameters stub._invocationParameters with
      | error e =>
        rw [hp] at h
        cases h
      | ok u =>
        refine ⟨stub, rfl, fun gm => ?_⟩
        have hreg : (w.statics._setupFactoryRegistryIfNecessary._factoriesByLevel.getD
            ActionAbstractionLevel.Tactic.toNat []).read stub.name = some f := by
          rw [setup_read]
          exact hf
        refine ⟨{ _gameplayModule := gm, _state := .SettingUp,
                  _evaluatesSuccess := f.klass.evaluatesSuccess,
                  _continuous := f.klass.continuous, _role := none,
                  _parameters := stub._invocationParameters, klass := f.klass }, ?_⟩
        simp only [TacticStub.instantiate, FactoryStatics.getRegisteredFactory, hreg,
          ActionFactory.create, Action.new, Tactic.setParameters, hp]

/-- `transitionRole` does not throw when it has a lane to leave or to go to, and the first
stub of the lane to go to can be instantiated; it leaves what `getRegisteredFactory` reads
at the tactic level. -/
theorem transitionRole_succeeds (p : Play) (w : World) (role : Option RolePtr)
    (currSeqIdx newSeqIdx : Int) (h1 : currSeqIdx ≠ -1 ∨ newSeqIdx ≠ -1)
    (h2 : newSeqIdx ≠ -1 → p._playFactory.firstStubInstantiable w newSeqIdx.toNat = true) :
    ∃ b p1 w1, p.transitionRole w role currSeqIdx newSeqIdx = (.ok b, p1, w1) ∧
      ∀ name, w1.registeredTactic name = w.registeredTactic name := by
  have hboth : ¬ (currSeqIdx = -1 ∧ newSeqIdx = -1) := by
    intro hc
    rcases h1 with h | h
    · exact h hc.1
    · exact h hc.2
  unfold Play.transitionRole
  rw [if_neg hboth]
  simp only
  by_cases hn : newSeqIdx = -1
  · rw [if_pos hn]
    exact ⟨_, _, _, rfl, fun _ => rfl⟩
  · rw [if_neg hn]
    obtain ⟨stub, hs, hinst⟩ := instantiate_succeeds _ w _ (h2 hn)
    obtain ⟨t, ht⟩ := hinst p._gameplayModule
    have hreads := instantiate_registeredTactic stub (some p._gameplayModule) w
    cases hi : stub.instantiate (some p._gameplayModule) w with
    | mk ri wi =>
      rw [hi] at ht hreads
      simp only at ht hreads
      subst ht
      by_cases hc : currSeqIdx = -1
      · simp only [hc, if_true]
        rw [hs]
        simp only
        rw [hi]
        exact ⟨_, _, _, rfl, hreads⟩
      · simp only [hc, if_false]
        rw [hs]
        simp only
        rw [hi]
        exact ⟨_, _, _, rfl, hreads⟩

/-- After `transitionRole`, every lane that has a behaviour is at cursor 0, if that held
before. -/
theorem transitionRole_parked (p : Play) (w : World) (role : Option RolePtr)
    (currSeqIdx newSeqIdx : Int) (r : Except String Bool) (p2 : Play) (w2 : World)
    (h : p.transitionRole w role currSeqIdx newSeqIdx = (r, p2, w2))
    (hP : ∀ L, p.tacticOfSequenceAtIndex L = none ∨ p.stateOfTacticSequenceAtIndex L = 0) :
    ∀ L, p2.tacticOfSequenceAtIndex L = none ∨ p2.stateOfTacticSequenceAtIndex L = 0 := by
  intro L
  rcases transitionRole_point _ _ _ _ _ _ _ _ h L with
    ⟨_, _, h0⟩ | ⟨_, ⟨_, _, _, _, h0⟩ | ⟨h1, h2⟩⟩
  · exact Or.inr h0
  · exact Or.inl h0
  · rw [h1, h2]
    exact hP L

/-- The loop over the inputs of a firing does not throw when the first stub of every output
can be instantiated; it leaves the registered factories, and every lane that has a
behaviour is at cursor 0 afterwards, if that held before. -/
theorem transitionInputs_succeeds (outputs : List Nat) (inputs : List Nat) :
    ∀ (tr : List Int) (p : Play) (w : World),
      (∀ o ∈ outputs, p._playFactory.firstStubInstantiable w o = true) →
      (∀ L, p.tacticOfSequenceAtIndex L = none ∨ p.stateOfTacticSequenceAtIndex L = 0) →
      ∃ tr2 p2 w2, Play.transitionInputs outputs inputs tr p w = (.ok (), tr2, p2, w2) ∧
        (∀ name, w2.registeredTactic name = w.registeredTactic name) ∧
        ∀ L, p2.tacticOfSequenceAtIndex L = none ∨ p2.stateOfTacticSequenceAtIndex L = 0 := by
  induction inputs with
  | nil =>
    intro tr p w _ hP
    exact ⟨tr, p, w, rfl, fun _ => rfl, hP⟩
  | cons inputSeqIdx rest ih =>
    intro tr p w ho hP
    have h2 : Play.outputForRole p._playFactory
          (p._playFactory.roleForTacticSequenceAtIndex inputSeqIdx) outputs ≠ -1 →
        p._playFactory.firstStubInstantiable w
          (Play.outputForRole p._playFactory
            (p._playFactory.roleForTacticSequenceAtIndex inputSeqIdx) outputs).toNat = true := by
      intro hn
      rcases outputForRole_mem p._playFactory
          (p._playFactory.roleForTacticSequenceAtIndex inputSeqIdx) outputs with h | ⟨o, hmem, h⟩
      · exact absurd h hn
      · rw [h, Int.toNat_ofNat]
        exact ho o hmem
    obtain ⟨b, p1, w1, htr, hreg⟩ := transitionRole_succeeds p w
      (p._playFactory.roleForTacticSequenceAtIndex inputSeqIdx) inputSeqIdx
      (Play.outputForRole p._playFactory
        (p._playFactory.roleForTacticSequenceAtIndex inputSeqIdx) outputs)
      (Or.inl (by omega)) h2
    have hf := (transitionRole_frame _ _ _ _ _ _ _ _ htr).1.2.1
    have hP1 := transitionRole_parked _ _ _ _ _ _ _ _ htr hP
    simp only [Play.transitionInputs]
    rw [htr]
    simp only
    split
    · obtain ⟨tr2, p2, w2, h3, hreg2, hP2⟩ := ih tr p1
        (w1.deallocateRoleForToplevelAction
          (p._playFactory.roleForTacticSequenceAtIndex inputSeqIdx))
        (fun o hmem => by
          rw [hf]
          exact (firstStubInstantiable_congr p._playFactory w
            (w1.deallocateRoleForToplevelAction
              (p._playFactory.roleForTacticSequenceAtIndex inputSeqIdx)) o
            (fun name => hreg name)).trans (ho o hmem)) hP1
      exact ⟨tr2, p2, w2, h3, fun name => (hreg2 name).trans (hreg name), hP2⟩
    · obtain ⟨tr2, p2, w2, h3, hreg2, hP2⟩ := ih
        (tr ++ [Play.outputForRole p._playFactory
          (p._playFactory.roleForTacticSequenceAtIndex inputSeqIdx) outputs]) p1 w1
        (fun o hmem => by
          rw [hf, firstStubInstantiable_congr _ w _ _ hreg]
          exact ho o hmem) hP1
      exact ⟨tr2, p2, w2, h3, fun name => (hreg2 name).trans (hreg name), hP2⟩

/-- The loop over the outputs of a firing does not throw when the first stub of every output
listed can be instantiated; it leaves the registered factories, and every lane that has a
behaviour is at cursor 0 afterwards, if that held before. -/
theorem transitionOutputs_succeeds (tr : List Int) (outputs : List Nat) :
    ∀ (roles : List (Option RolePtr)) (p : Play) (w : World),
      (∀ o ∈ outputs, p._playFactory.firstStubInstantiable w o = true) →
      (∀ L, p.tacticOfSequenceAtIndex L = none ∨ p.stateOfTacticSequenceAtIndex L = 0) →
      ∃ roles2 p2 w2,
        Play.transitionOutputs tr outputs roles p w = (.ok (), roles2, p2, w2) ∧
        (∀ name, w2.registeredTactic name = w.registeredTactic name) ∧
        ∀ L, p2.tacticOfSequenceAtIndex L = none ∨ p2.stateOfTacticSequenceAtIndex L = 0 := by
  induction outputs with
  | nil =>
    intro roles p w _ hP
    exact ⟨roles, p, w, rfl, fun _ => rfl, hP⟩
  | cons outputSeqIdx rest ih =>
    intro roles p w ho hP
    simp only [Play.transitionOutputs]
    split
    · obtain ⟨b, p1, w1, htr, hreg⟩ := transitionRole_succeeds p w
        (p._playFactory.roleForTacticSequenceAtIndex outputSeqIdx) (-1) outputSeqIdx
        (Or.inr (by omega))
        (fun _ => by
          rw [Int.toNat_ofNat]
          exact ho outputSeqIdx (List.mem_cons_self _ _))
      have hf := (transitionRole_frame _ _ _ _ _ _ _ _ htr).1.2.1
      have hP1 := transitionRole_parked _ _ _ _ _ _ _ _ htr hP
      rw [htr]
      simp only
      obtain ⟨roles2, p2, w2, h3, hreg2, hP2⟩ := ih
        (Play.setInsert roles (p._playFactory.roleForTacticSequenceAtIndex outputSeqIdx)) p1 w1
        (fun o hmem => by
          rw [hf, firstStubInstantiable_congr _ w _ _ hreg]
          exact ho o (List.mem_cons_of_mem _ hmem)) hP1
      exact ⟨roles2, p2, w2, h3, fun name => (hreg2 name).trans (hreg name), hP2⟩
    · exact ih roles p w (fun o hmem => ho o (List.mem_cons_of_mem _ hmem)) hP

/-- A firing returns when the first stub of every output of the sync point can be
instantiated and the allocator accepts whatever it is asked for; it leaves the registered
factories, and every lane that has a behaviour is at cursor 0 afterwards, if that held
before. -/
theorem firing_succeeds (p : Play) (w : World) (k : Nat)
    (ho : ∀ o ∈ p._playFactory._syncPointOutputs.getD k [],
      p._playFactory.firstStubInstantiable w o = true)
    (hacc : ∀ roles, w.allocatorAccepts roles = true)
    (hP : ∀ L, p.tacticOfSequenceAtIndex L = none ∨ p.stateOfTacticSequenceAtIndex L = 0) :
    ∃ p2 w2, p.transitionToSyncPointAtIndex w k = (.ok (), p2, w2) ∧
      (∀ name, w2.registeredTactic name = w.registeredTactic name) ∧
      ∀ L, p2.tacticOfSequenceAtIndex L = none ∨ p2.stateOfTacticSequenceAtIndex L = 0 := by
  obtain ⟨tr, p1, w1, h1, hreg1, hP1⟩ := transitionInputs_succeeds
    (p._playFactory._syncPointOutputs.getD k []) (p._playFactory._syncPointInputs.getD k [])
    [] p (w.note (.fired k)) ho hP
  obtain ⟨hF1, _, _, _⟩ := transitionInputs_frame _ _ _ _ _ _ _ _ _ h1
  obtain ⟨roles, p2, w2, h2, hreg2, hP2⟩ := transitionOutputs_succeeds tr
    (p._playFactory._syncPointOutputs.getD k []) [] p1 w1
    (fun o hmem => by
      rw [hF1.2.1, firstStubInstantiable_congr _ (w.note (.fired k)) _ _ hreg1]
      exact ho o hmem) hP1
  obtain ⟨hF2, _, _, _⟩ := transitionOutputs_frame _ _ _ _ _ _ _ _ _ h2
  have hacc2 : w2.allocatorAccepts roles = true := by
    rw [hF2.2.2.2.2.2, hF1.2.2.2.2.2]
    exact hacc roles
  unfold Play.transitionToSyncPointAtIndex
  simp only
  rw [h1]
  simp only
  rw [h2]
  simp only [World.allocateRolesForToplevelAction, hacc2, if_true]
  exact ⟨_, _, rfl, fun name => (hreg2 name).trans (hreg1 name), hP2⟩

/-- A sync point is reachable when every lane that has a behaviour is at cursor 0 and
every input of the sync point has two stubs or more. -/
theorem reachable_of_parked (p : Play) (k : Nat)
    (hP : ∀ L, p.tacticOfSequenceAtIndex L = none ∨ p.stateOfTacticSequenceAtIndex L = 0)
    (hlen : ∀ s ∈ p._playFactory._syncPointInputs.getD k [],
      2 ≤ (p._playFactory.tacticSequenceAtIndex s).length ∧
        (p._playFactory.tacticSequenceAtIndex s).length < 4294967296) :
    p.syncPointAtIndexIsReachableNow k = true := by
  unfold Play.syncPointAtIndexIsReachableNow
  rw [List.all_eq_true]
  intro s hs
  simp only
  rcases hP s with h | h
  · rw [h]
    split <;> rfl
  · rw [h]
    obtain ⟨h2, h3⟩ := hlen s hs
    have e1 : toUnsigned ((p._playFactory.tacticSequenceAtIndex s).length : Int) =
        (p._playFactory.tacticSequenceAtIndex s).length := by
      have := toUnsigned_small ((p._playFactory.tacticSequenceAtIndex s).length : Int)
        (by omega) (by omega)
      omega
    rw [e1]
    have e2 : ¬ toUnsigned 0 ≥
        toUnsigned (((p._playFactory.tacticSequenceAtIndex s).length : Int) - 1) := by
      have := toUnsigned_small (((p._playFactory.tacticSequenceAtIndex s).length : Int) - 1)
        (by omega) (by omega)
      have h0 : toUnsigned 0 = 0 := by decide
      omega
    rw [if_neg e2]

/-- The loop over the unreached sync points fires every sync point of the unfired list and
ends normally, when every lane that has a behaviour is at cursor 0, every lane has two stubs
or more, the first stub of every lane can be instantiated and the allocator accepts whatever
it is asked for. -/
theorem barrierScan_fires_all : ∀ (n : Nat) (p : Play) (w : World),
    p._unreachedSyncPoints.length = n → p._playFactory.LanesLinkedOnce →
    (∀ lane < p._playFactory._tacticSequences.length,
      2 ≤ (p._playFactory.tacticSequenceAtIndex lane).length ∧
        (p._playFactory.tacticSequenceAtIndex lane).length < 4294967296) →
    (∀ lane < p._playFactory._tacticSequences.length,
      p._playFactory.firstStubInstantiable w lane = true) →
    (∀ roles, w.allocatorAccepts roles = true) →
    (∀ L, p.tacticOfSequenceAtIndex L = none ∨ p.stateOfTacticSequenceAtIndex L = 0) →
    ∃ p2 w2, Play.barrierScan (n + 1) 0 p w = some (.ok (), p2, w2) ∧
      p2._unreachedSyncPoints = [] := by
  intro n
  induction n with
  | zero =>
    intro p w hn _ _ _ _ _
    refine ⟨p, w, ?_, List.length_eq_zero.mp hn⟩
    simp [Play.barrierScan, hn]
  | succ n ih =>
    intro p w hn hD hlen hinst hacc hP
    cases hu : p._unreachedSyncPoints with
    | nil =>
      rw [hu] at hn
      cases hn
    | cons k rest =>
      have hreach : p.syncPointAtIndexIsReachableNow k = true :=
        reachable_of_parked p k hP
          (fun s hs => hlen s (hD.2.2.2 s (mem_flatten_of_getD _ k s hs)))
      obtain ⟨p1, w1, hfire, hreg, hP1⟩ := firing_succeeds p w k
        (fun o hmem => hinst o (hD.2.2.1 o (mem_flatten_of_getD _ k o hmem))) hacc hP
      obtain ⟨hF, _, herase, _, _⟩ := transitionToSyncPointAtIndex_frame _ _ _ _ _ _ hfire
      have hrest : p1._unreachedSyncPoints = rest := by
        rw [herase rfl, hu]
        simp
      have hn1 : p1._unreachedSyncPoints.length = n := by
        rw [hrest]
        rw [hu] at hn
        simpa using hn
      have hpos : 0 < p._unreachedSyncPoints.length := by omega
      have hk : p._unreachedSyncPoints.getD 0 0 = k := by
        rw [hu]
        rfl
      have hstep : Play.barrierScan (n + 1 + 1) 0 p w = Play.barrierScan (n + 1) 0 p1 w1 := by
        simp only [Play.barrierScan, hpos, if_true, hk, hreach, hfire]
      rw [hstep]
      refine ih p1 w1 hn1 (by rw [hF.2.1]; exact hD) ?_ ?_ ?_ hP1
      · rw [hF.2.1]
        exact hlen
      · intro lane hlane
        rw [hF.2.1] at hlane ⊢
        rw [firstStubInstantiable_congr _ w _ _ hreg]
        exact hinst lane hlane
      · intro roles
        rw [hF.2.2.2.2.2]
        exact hacc roles

/-- The check of an empty pending-verdict queue returns true and changes nothing. -/
theorem checkPending_empty (p : Play) (h : p._tacticsAwaitingResults = []) :
    p.checkPendingTacticResults = (.ok true, p) := by
  obtain ⟨a, pf, u, s, t, q⟩ := p
  simp only at h
  subst h
  rfl

/-- The loop over the lanes calls no `update()` and changes nothing when no lane has a
behaviour. -/
theorem laneLoop_idle (lanes : List Nat) (p : Play) (w : World)
    (h : ∀ L, p.tacticOfSequenceAtIndex L = none) :
    Play.laneLoop lanes p w = (.ok .finished, p, w) := by
  induction lanes with
  | nil => rfl
  | cons i rest ih =>
    simp only [Play.laneLoop, h i]
    exact ih

/-! ## C40: lanes of two stubs or more never block a sync point -/

/-- C40: lanes of two or more stubs never block a barrier. For a definition built by calls
of `addTacticSequence` on a new definition, in which every lane has two stubs or more (and
fewer than 2^32, the range of the `unsigned int` the length is converted to), and a world in
which the first stub of every lane can be instantiated and the allocator accepts whatever
it is asked for, the first call of `update()` on a new Play returns normally, fires every
sync point, leaves the unfired list empty and the Play in state Completed, and calls the
`update()` of no lane behaviour: no lane has a behaviour when the call is made, and the
record of the call holds no return of such an `update()`. -/
theorem long_lanes_never_block (name category : String) (g : FactoryStatics)
    (lanes : List (Option TacticSequence × String × String × String)) (pf : PlayFactory)
    (playFactory : Option PlayFactory) (gm : Option GameplayModule) (p0 : Play) (w : World)
    (hpf : pf = (PlayFactory.new name category g).1.addLanes lanes)
    (hnew : Play.new playFactory gm pf = .ok p0)
    (hlen : ∀ lane < pf._tacticSequences.length,
      2 ≤ (pf.tacticSequenceAtIndex lane).length ∧
        (pf.tacticSequenceAtIndex lane).length < 4294967296)
    (hinst : ∀ lane < pf._tacticSequences.length, pf.firstStubInstantiable w lane = true)
    (hacc : ∀ roles, w.allocatorAccepts roles = true) :
    (p0.update w).1 = .ok () ∧ (p0.update w).2.1._state = .Completed ∧
    (p0.update w).2.1._unreachedSyncPoints = [] ∧
    (∀ k < pf._syncPointNames.length,
      k ∈ firedIndices ((p0.update w).2.2.events.drop w.events.length)) ∧
    (∀ lane, p0.tacticOfSequenceAtIndex lane = none) ∧
    ∀ e ∈ (p0.update w).2.2.events.drop w.events.length, e.isUpdated = false := by
  obtain ⟨hpf0, _, htac, hun, hq, hst⟩ := new_shape _ _ _ _ hnew
  have hD : pf.LanesLinkedOnce := by
    rw [hpf]
    exact linkedOnce_addLanes _ _ (linkedOnce_new _ _ _)
  have hnone : ∀ lane, p0.tacticOfSequenceAtIndex lane = none := by
    intro lane
    unfold Play.tacticOfSequenceAtIndex
    rw [htac]
    by_cases hl : lane < pf._tacticSequences.length
    · rw [List.getD_eq_getElem _ _ (by simpa using hl)]
      simp
    · rw [List.getD_eq_default _ _ (by simpa using hl)]
  have hcheck := checkPending_empty p0 hq
  have hlane := laneLoop_idle (List.range p0._tacticsBySequenceIndex.length) p0 w hnone
  obtain ⟨p3, w3, hscan, hu3⟩ := barrierScan_fires_all p0._unreachedSyncPoints.length p0 w rfl
    (by rw [hpf0]; exact hD) (by rw [hpf0]; exact hlen) (by rw [hpf0]; exact hinst) hacc
    (fun L => Or.inl (hnone L))
  obtain ⟨hF, hq3, new, hev, hupd, _, _, hfired⟩ := barrierScan_frame _ _ _ _ _ _ _ hscan
  have hst3 : p3._state = .SettingUp := by
    have h0 := congrArg Action._state hF.1
    exact h0.trans hst
  have hcompl : p3.completionCheck = (.ok (), { p3 with _state := .Completed }) := by
    have hl : p3._unreachedSyncPoints.length = 0 := by rw [hu3]; rfl
    have hql : ¬ p3._tacticsAwaitingResults.length > 0 := by rw [hq3, hq]; decide
    unfold Play.completionCheck
    rw [if_pos hl, if_neg hql]
    exact play_setState_live p3 .Completed (by rw [hst3]; rfl) (by rw [hst3]; decide)
  have hupdate : p0.update w = (.ok (), { p3 with _state := .Completed }, w3) := by
    unfold Play.update
    rw [hcheck]
    simp only
    rw [hlane]
    simp only
    rw [hscan]
    simp only
    rw [hcompl]
  have hdrop : w3.events.drop w.events.length = new := by
    rw [hev]
    simp
  rw [hupdate]
  refine ⟨rfl, rfl, hu3, ?_, hnone, ?_⟩
  swap
  · show ∀ e ∈ w3.events.drop w.events.length, e.isUpdated = false
    rw [hdrop]
    exact hupd
  show ∀ k < pf._syncPointNames.length, k ∈ firedIndices (w3.events.drop w.events.length)
  rw [hdrop]
  intro k hk
  obtain ⟨_, hfilter⟩ := hfired rfl (by rw [hun]; exact List.nodup_range _)
  rw [hu3, hun] at hfilter
  by_contra hc
  have hmem : k ∈ (List.range pf._syncPointNames.length).filter
      (fun k => decide (k ∉ firedIndices new)) :=
    List.mem_filter.mpr ⟨List.mem_range.mpr hk, by simpa using hc⟩
  rw [← hfilter] at hmem
  cases hmem

/-- Witness for C40: the first call of `update()` on a new Play of `longPlay`, whose two
lanes have two stubs each, in the populated world. -/
theorem long_lanes_never_block_witness :
    ((∀ lane < longPlay._tacticSequences.length,
        2 ≤ (longPlay.tacticSequenceAtIndex lane).length ∧
          (longPlay.tacticSequenceAtIndex lane).length < 4294967296) ∧
      (∀ lane < longPlay._tacticSequences.length,
        longPlay.firstStubInstantiable populatedWorld lane = true) ∧
      ∀ roles, populatedWorld.allocatorAccepts roles = true) ∧
    ((freshPlay longPlay).update populatedWorld).1 = .ok () ∧
    ((freshPlay longPlay).update populatedWorld).2.1._state = .Completed ∧
    ((freshPlay longPlay).update populatedWorld).2.1._unreachedSyncPoints = [] ∧
    (∀ k < longPlay._syncPointNames.length,
      k ∈ firedIndices
        (((freshPlay longPlay).update populatedWorld).2.2.events.drop
          populatedWorld.events.length)) ∧
    (∀ lane, (freshPlay longPlay).tacticOfSequenceAtIndex lane = none) ∧
    ∀ e ∈ ((freshPlay longPlay).update populatedWorld).2.2.events.drop
        populatedWorld.events.length, e.isUpdated = false :=
  ⟨⟨by decide, by decide, fun _ => rfl⟩,
    long_lanes_never_block "kickoff" "" FactoryStatics.initial
      [(some [moveStub, moveStub], "a", "start", "end"),
       (some [moveStub, moveStub], "b", "start", "end")]
      longPlay (some longPlay) (some 7) (freshPlay longPlay) populatedWorld rfl rfl
      (by decide) (by decide) (fun _ => rfl)⟩

end STP
